import Mathlib

/-! # Chronos v0.8 bootstrap compiler: a shallow embedding

The definitions below transcribe `compiler/bootstrap-c/chronos_v08.c`
function by function, keeping the names of the C source.

Conventions of the embedding.

* A C string (`char*`) is a `List Char`; one `Char` stands for one byte. The
  source text is the list of characters before the terminating NUL, so
  reading the character at the end of the list gives `'\0'`.
* A pointer that may be `NULL` (`name`, `value`, `op`, `struct_type`,
  `type_name`, `symtab`) is an `Option`.
* C `int` variables are `Int`. The token buffer holds 2000 tokens, so child
  counts, offsets and label numbers stay far below `2^31`.
* Undefined behaviour of the C program (reading past a buffer, using a
  `NULL` pointer) is an explicit result: `none`, or `Fail.oob` in the parser.
* `exit(1)` after `Parse error` is the result `Fail.parse_error`.
* Loops whose C form is not a structural recursion take a fuel argument;
  running out of fuel is the separate result `Fail.no_fuel`.
-/

set_option linter.unusedVariables false

namespace Chronos

/-! ## Tokens -/

inductive TokType where
  | T_EOF | T_IDENT | T_NUM | T_STR
  | T_FN | T_LET | T_IF | T_ELSE | T_WHILE | T_FOR | T_RET | T_STRUCT
  | T_LPAREN | T_RPAREN | T_LBRACE | T_RBRACE | T_LBRACKET | T_RBRACKET
  | T_SEMI | T_COLON | T_COMMA | T_DOT
  | T_PLUS | T_MINUS | T_STAR | T_SLASH
  | T_EQ | T_EQEQ | T_NEQ | T_LT | T_GT | T_LTE | T_GTE | T_ARROW
  deriving DecidableEq, Repr

/-- A token `{t, s, len}`: `s` holds the `len` characters of the lexeme, the
ones the parser copies with `strndup(t.s, t.len)`. -/
structure Tok where
  t : TokType
  s : List Char
  deriving DecidableEq, Repr

/-- The field `len` of a token. -/
def Tok.len (k : Tok) : Nat := k.s.length

/-! ## Lexer -/

/-- The lexer cursor `l->cur`: the characters not yet consumed. -/
abbrev Lex := List Char

def c_nul : Char := Char.ofNat 0
def c_tab : Char := Char.ofNat 9
def c_lf : Char := Char.ofNat 10
def c_cr : Char := Char.ofNat 13
def c_quote : Char := Char.ofNat 34
def c_backslash : Char := Char.ofNat 92
def c_lbrace : Char := Char.ofNat 123
def c_rbrace : Char := Char.ofNat 125

/-- The C function `peek`: `*l->cur`, NUL at the end of the text. -/
def peek (l : Lex) : Char := l.headD c_nul

/-- The C function `peek_next`: `l->cur[1]`. It is only called when
`peek` is not NUL. -/
def peek_next (l : Lex) : Char := l.tail.headD c_nul

/-- The cursor after the C function `adv`. -/
def adv (l : Lex) : Lex := l.tail

/-- C `isalpha` in the "C" locale. -/
def isalpha (c : Char) : Bool :=
  (97 ≤ c.toNat && c.toNat ≤ 122) || (65 ≤ c.toNat && c.toNat ≤ 90)

/-- C `isdigit`. -/
def isdigit (c : Char) : Bool := 48 ≤ c.toNat && c.toNat ≤ 57

/-- C `isalnum`. -/
def isalnum (c : Char) : Bool := isalpha c || isdigit c

def is_space (c : Char) : Bool := c = ' ' || c = c_tab || c = c_cr || c = c_lf

/-- The inner loop of `skip`: `while (peek(l) != '\n' && peek(l)) adv(l);`. -/
def skip_line : Lex → Lex
  | [] => []
  | c :: cs => if c ≠ c_lf ∧ c ≠ c_nul then skip_line cs else c :: cs

/-- The loop of `skip`, one iteration per unit of fuel. -/
def skip_loop : Nat → Lex → Lex
  | 0, l => l
  | f + 1, l =>
    if is_space (peek l) then skip_loop f (adv l)
    else if peek l = '/' ∧ peek_next l = '/' then skip_loop f (skip_line l)
    else l

/-- The C function `skip`. Every iteration but the last consumes a
character, so `length + 1` iterations are enough. -/
def skip (l : Lex) : Lex := skip_loop (l.length + 1) l

/-- The C function `kw`. -/
def kw (s : List Char) : TokType :=
  if s = "fn".toList then .T_FN
  else if s = "let".toList then .T_LET
  else if s = "if".toList then .T_IF
  else if s = "else".toList then .T_ELSE
  else if s = "while".toList then .T_WHILE
  else if s = "return".toList then .T_RET
  else if s = "struct".toList then .T_STRUCT
  else .T_IDENT

/-- The string loop of `lex_tok`:
`while (peek(l) != '"' && peek(l)) { if (peek(l) == '\\') adv(l); adv(l); }`.
Returns the characters consumed and the cursor; `none` when the second
`adv` steps over the terminating NUL, after which `peek` reads past the
buffer. -/
def str_loop : Lex → Option (List Char × Lex)
  | [] => some ([], [])
  | c :: cs =>
    if c = c_quote ∨ c = c_nul then some ([], c :: cs)
    else if c = c_backslash then
      match cs with
      | [] => none
      | d :: ds =>
        if d = c_nul then none
        else (str_loop ds).map (fun r => (c :: d :: r.1, r.2))
    else (str_loop cs).map (fun r => (c :: r.1, r.2))

/-- The C function `lex_tok`: the token and the cursor after it. -/
def lex_tok (l0 : Lex) : Option (Tok × Lex) :=
  let l := skip l0
  match l with
  | [] => some (⟨.T_EOF, []⟩, [])
  | c :: cs =>
    if c = c_nul then some (⟨.T_EOF, []⟩, cs)
    else if isalpha c ∨ c = '_' then
      let body := cs.takeWhile (fun d => isalnum d || d = '_')
      some (⟨kw (c :: body), c :: body⟩, cs.dropWhile (fun d => isalnum d || d = '_'))
    else if isdigit c then
      let body := cs.takeWhile isdigit
      some (⟨.T_NUM, c :: body⟩, cs.dropWhile isdigit)
    else if c = c_quote then
      match str_loop cs with
      | none => none
      | some (body, rest) =>
        if peek rest = c_quote then some (⟨.T_STR, c :: (body ++ [c_quote])⟩, adv rest)
        else some (⟨.T_STR, c :: body⟩, rest)
    else if c = '(' then some (⟨.T_LPAREN, [c]⟩, cs)
    else if c = ')' then some (⟨.T_RPAREN, [c]⟩, cs)
    else if c = c_lbrace then some (⟨.T_LBRACE, [c]⟩, cs)
    else if c = c_rbrace then some (⟨.T_RBRACE, [c]⟩, cs)
    else if c = '[' then some (⟨.T_LBRACKET, [c]⟩, cs)
    else if c = ']' then some (⟨.T_RBRACKET, [c]⟩, cs)
    else if c = ';' then some (⟨.T_SEMI, [c]⟩, cs)
    else if c = ':' then some (⟨.T_COLON, [c]⟩, cs)
    else if c = ',' then some (⟨.T_COMMA, [c]⟩, cs)
    else if c = '.' then some (⟨.T_DOT, [c]⟩, cs)
    else if c = '+' then some (⟨.T_PLUS, [c]⟩, cs)
    else if c = '*' then some (⟨.T_STAR, [c]⟩, cs)
    else if c = '/' then some (⟨.T_SLASH, [c]⟩, cs)
    else if c = '=' ∧ peek cs = '=' then some (⟨.T_EQEQ, [c, '=']⟩, adv cs)
    else if c = '=' then some (⟨.T_EQ, [c]⟩, cs)
    else if c = '!' ∧ peek cs = '=' then some (⟨.T_NEQ, [c, '=']⟩, adv cs)
    else if c = '<' ∧ peek cs = '=' then some (⟨.T_LTE, [c, '=']⟩, adv cs)
    else if c = '<' then some (⟨.T_LT, [c]⟩, cs)
    else if c = '>' ∧ peek cs = '=' then some (⟨.T_GTE, [c, '=']⟩, adv cs)
    else if c = '>' then some (⟨.T_GT, [c]⟩, cs)
    else if c = '-' ∧ peek cs = '>' then some (⟨.T_ARROW, [c, '>']⟩, adv cs)
    else if c = '-' then some (⟨.T_MINUS, [c]⟩, cs)
    else some (⟨.T_EOF, []⟩, cs)

/-- The `do ... while` loop of `tokenize`; `cap` is the room left in the
buffer of 2000 tokens. Writing a token when no room is left overruns the
buffer: `none`. -/
def tokenize_loop : Nat → Lex → Option (List Tok)
  | 0, _ => none
  | cap + 1, l =>
    match lex_tok l with
    | none => none
    | some (k, l1) =>
      if k.t = .T_EOF then some [k]
      else (tokenize_loop cap l1).map (fun ks => k :: ks)

/-- The C function `tokenize`. -/
def tokenize (src : List Char) : Option (List Tok) := tokenize_loop 2000 src

/-! ## AST -/

inductive AstType where
  | AST_PROGRAM | AST_FUNCTION | AST_BLOCK | AST_RETURN | AST_LET
  | AST_IF | AST_WHILE | AST_CALL | AST_IDENT | AST_NUMBER
  | AST_BINOP | AST_COMPARE | AST_STRING | AST_ASSIGN
  | AST_ARRAY_LITERAL | AST_INDEX | AST_STRUCT_DEF | AST_STRUCT_LITERAL | AST_FIELD_ACCESS
  deriving DecidableEq, Repr

/-- The C struct `AstNode`. `child_count` is the length of `children`; the
field `offset` is never read or written by the program and is left out. -/
structure AstNode where
  type : AstType
  name : Option (List Char)
  children : List AstNode
  value : Option (List Char)
  op : Option (List Char)
  array_size : Int
  struct_type : Option (List Char)
  deriving Repr

/-- The field `child_count`. -/
def AstNode.child_count (n : AstNode) : Int := n.children.length

/-- The C function `ast_new`: `calloc` zeroes every field. -/
def ast_new (type : AstType) : AstNode :=
  { type := type, name := none, children := [], value := none, op := none,
    array_size := 0, struct_type := none }

/-- The C function `ast_add`. -/
def ast_add (p c : AstNode) : AstNode := { p with children := p.children ++ [c] }

/-! ## Parser -/

/-- How a run of the parser can fail: `exit(1)` after `Parse error`, a read
of `tokens[pos]` with `pos >= count`, or the fuel of the embedding used up. -/
inductive Fail where
  | parse_error | oob | no_fuel
  deriving DecidableEq, Repr

/-- The parser state `{tokens, pos, count}`: the tokens from `pos` to
`count - 1`. The parser never reads `count`: `peek_tok` and `advance_tok`
index `tokens[pos]` unchecked. Run on the tokens that `tokenize` wrote, a
read after the last of them is the failure `oob`; the array has 2000 slots,
so when fewer are written that read lands in a slot `tokenize` never wrote,
and the parse of the array as it lies in memory is the run on the written
tokens followed by what the other slots hold. -/
abbrev Parser := List Tok

/-- The C function `peek_tok`. -/
def peek_tok (p : Parser) : Except Fail Tok :=
  match p with
  | [] => .error .oob
  | k :: _ => .ok k

/-- The C function `advance_tok`. -/
def advance_tok (p : Parser) : Except Fail (Tok × Parser) :=
  match p with
  | [] => .error .oob
  | k :: ks => .ok (k, ks)

/-- The C function `check_tok`. -/
def check_tok (p : Parser) (t : TokType) : Except Fail Bool :=
  match peek_tok p with
  | .error e => .error e
  | .ok k => .ok (decide (k.t = t))

/-- The C function `match_tok`. -/
def match_tok (p : Parser) (t : TokType) : Except Fail (Bool × Parser) :=
  match check_tok p t with
  | .error e => .error e
  | .ok true =>
    match advance_tok p with
    | .error e => .error e
    | .ok (_, p1) => .ok (true, p1)
  | .ok false => .ok (false, p)

/-- The C function `expect`. -/
def expect (p : Parser) (t : TokType) : Except Fail Parser :=
  match match_tok p t with
  | .error e => .error e
  | .ok (true, p1) => .ok p1
  | .ok (false, _) => .error .parse_error

/-- The text `strndup(t.s + 1, t.len - 2)` of a string token. For a token
of length 1 (an opening quote at the very end of the text) the copy stops
at the NUL that follows. -/
def str_value (k : Tok) : List Char := (k.s.drop 1).take (k.len - 2)

/-- The tail of the loops of `parse_primary` for an array literal
(`close = T_RBRACKET`) and for the arguments of a call
(`close = T_RPAREN`):
`while (!check_tok(p, close)) { ast_add(n, parse_expr(p));
   if (!check_tok(p, close)) expect(p, T_COMMA); }`. -/
def expr_list_loop (pe : Parser → Except Fail (AstNode × Parser)) (close : TokType) :
    Nat → AstNode → Parser → Except Fail (AstNode × Parser)
  | 0, _, _ => .error .no_fuel
  | f + 1, n, p => do
    if (← check_tok p close) then return (n, p)
    let (e, p1) ← pe p
    let n1 := ast_add n e
    let p2 ← (do if !(← check_tok p1 close) then expect p1 .T_COMMA else pure p1)
    expr_list_loop pe close f n1 p2

/-- The loop of `parse_primary` over the initializers of a struct literal. -/
def struct_lit_loop (pe : Parser → Except Fail (AstNode × Parser)) :
    Nat → AstNode → Parser → Except Fail (AstNode × Parser)
  | 0, _, _ => .error .no_fuel
  | f + 1, struct_lit, p => do
    if (← check_tok p .T_RBRACE) then return (struct_lit, p)
    let (field_name, p1) ← advance_tok p
    let p2 ← expect p1 .T_COLON
    let (field_val, p3) ← pe p2
    let field := ast_add { ast_new .AST_IDENT with name := some field_name.s } field_val
    let struct_lit1 := ast_add struct_lit field
    let p4 ← (do if !(← check_tok p3 .T_RBRACE) then expect p3 .T_COMMA else pure p3)
    struct_lit_loop pe f struct_lit1 p4

/-- The C function `parse_primary`; `pe` is `parse_expr`. -/
def parse_primary (pe : Parser → Except Fail (AstNode × Parser)) (fuel : Nat) (p : Parser) : Except Fail (AstNode × Parser) := do
  if (← check_tok p .T_NUM) then
    let (t, p1) ← advance_tok p
    return ({ ast_new .AST_NUMBER with value := some t.s }, p1)
  if (← check_tok p .T_STR) then
    let (t, p1) ← advance_tok p
    return ({ ast_new .AST_STRING with value := some (str_value t) }, p1)
  if (← check_tok p .T_LBRACKET) then
    let (_, p1) ← advance_tok p
    let (arr, p2) ← expr_list_loop pe .T_RBRACKET fuel (ast_new .AST_ARRAY_LITERAL) p1
    let p3 ← expect p2 .T_RBRACKET
    return ({ arr with array_size := arr.child_count }, p3)
  if (← check_tok p .T_IDENT) then
    let (t, p1) ← advance_tok p
    if (← check_tok p1 .T_LBRACE) then
      let (_, p2) ← advance_tok p1
      let (struct_lit, p3) ← struct_lit_loop pe fuel
        { ast_new .AST_STRUCT_LITERAL with struct_type := some t.s } p2
      let p4 ← expect p3 .T_RBRACE
      return (struct_lit, p4)
    if (← check_tok p1 .T_LPAREN) then
      let (_, p2) ← advance_tok p1
      let (call, p3) ← expr_list_loop pe .T_RPAREN fuel
        { ast_new .AST_CALL with name := some t.s } p2
      let p4 ← expect p3 .T_RPAREN
      return (call, p4)
    if (← check_tok p1 .T_EQ) then
      let (_, p2) ← advance_tok p1
      let (rhs, p3) ← pe p2
      return (ast_add { ast_new .AST_ASSIGN with name := some t.s } rhs, p3)
    return ({ ast_new .AST_IDENT with name := some t.s }, p1)
  let (m, p1) ← match_tok p .T_LPAREN
  if m then
    let (n, p2) ← pe p1
    let p3 ← expect p2 .T_RPAREN
    return (n, p3)
  .error .parse_error

/-- The `while (1)` loop of `parse_postfix`. -/
def postfix_loop (pe : Parser → Except Fail (AstNode × Parser)) : Nat → AstNode → Parser → Except Fail (AstNode × Parser)
  | 0, _, _ => .error .no_fuel
  | f + 1, left, p => do
    if (← check_tok p .T_LBRACKET) then
      let (_, p1) ← advance_tok p
      let (idx, p2) ← pe p1
      let index_node := ast_add (ast_add (ast_new .AST_INDEX) left) idx
      let p3 ← expect p2 .T_RBRACKET
      postfix_loop pe f index_node p3
    else if (← check_tok p .T_DOT) then
      let (_, p1) ← advance_tok p
      let (field, p2) ← advance_tok p1
      let field_node := ast_add { ast_new .AST_FIELD_ACCESS with name := some field.s } left
      postfix_loop pe f field_node p2
    else return (left, p)

/-- The C function `parse_postfix`. -/
def parse_postfix (pe : Parser → Except Fail (AstNode × Parser)) (fuel : Nat) (p : Parser) : Except Fail (AstNode × Parser) := do
  let (left, p1) ← parse_primary pe fuel p
  postfix_loop pe fuel left p1

/-- The loop of `parse_multiplicative`. -/
def multiplicative_loop (pe : Parser → Except Fail (AstNode × Parser)) (fuel : Nat) :
    Nat → AstNode → Parser → Except Fail (AstNode × Parser)
  | 0, _, _ => .error .no_fuel
  | f + 1, left, p => do
    if (← check_tok p .T_STAR) || (← check_tok p .T_SLASH) then
      let (op, p1) ← advance_tok p
      let (right, p2) ← parse_postfix pe fuel p1
      let binop := ast_add (ast_add { ast_new .AST_BINOP with op := some op.s } left) right
      multiplicative_loop pe fuel f binop p2
    else return (left, p)

/-- The C function `parse_multiplicative`. -/
def parse_multiplicative (pe : Parser → Except Fail (AstNode × Parser)) (fuel : Nat) (p : Parser) :
    Except Fail (AstNode × Parser) := do
  let (left, p1) ← parse_postfix pe fuel p
  multiplicative_loop pe fuel fuel left p1

/-- The loop of `parse_additive`. -/
def additive_loop (pe : Parser → Except Fail (AstNode × Parser)) (fuel : Nat) :
    Nat → AstNode → Parser → Except Fail (AstNode × Parser)
  | 0, _, _ => .error .no_fuel
  | f + 1, left, p => do
    if (← check_tok p .T_PLUS) || (← check_tok p .T_MINUS) then
      let (op, p1) ← advance_tok p
      let (right, p2) ← parse_multiplicative pe fuel p1
      let binop := ast_add (ast_add { ast_new .AST_BINOP with op := some op.s } left) right
      additive_loop pe fuel f binop p2
    else return (left, p)

/-- The C function `parse_additive`. -/
def parse_additive (pe : Parser → Except Fail (AstNode × Parser)) (fuel : Nat) (p : Parser) :
    Except Fail (AstNode × Parser) := do
  let (left, p1) ← parse_multiplicative pe fuel p
  additive_loop pe fuel fuel left p1

/-- The loop of `parse_comparison`. -/
def comparison_loop (pe : Parser → Except Fail (AstNode × Parser)) (fuel : Nat) :
    Nat → AstNode → Parser → Except Fail (AstNode × Parser)
  | 0, _, _ => .error .no_fuel
  | f + 1, left, p => do
    if (← check_tok p .T_EQEQ) || (← check_tok p .T_NEQ) ||
       (← check_tok p .T_LT) || (← check_tok p .T_GT) ||
       (← check_tok p .T_LTE) || (← check_tok p .T_GTE) then
      let (op, p1) ← advance_tok p
      let (right, p2) ← parse_additive pe fuel p1
      let cmp := ast_add (ast_add { ast_new .AST_COMPARE with op := some op.s } left) right
      comparison_loop pe fuel f cmp p2
    else return (left, p)

/-- The C function `parse_comparison`. -/
def parse_comparison (pe : Parser → Except Fail (AstNode × Parser)) (fuel : Nat) (p : Parser) :
    Except Fail (AstNode × Parser) := do
  let (left, p1) ← parse_additive pe fuel p
  comparison_loop pe fuel fuel left p1

/-- The C function `parse_expr`. One unit of fuel is used per nesting level
of `parse_expr`; the loops inside one level get the remaining fuel. -/
def parse_expr : Nat → Parser → Except Fail (AstNode × Parser)
  | 0, _ => .error .no_fuel
  | f + 1, p => parse_comparison (parse_expr f) f p

/-- The C function `parse_stmt`; `pe` is `parse_expr`, `pb` is
`parse_block`. -/
def parse_stmt (pe : Parser → Except Fail (AstNode × Parser)) (pb : Parser → Except Fail (AstNode × Parser)) (p : Parser) :
    Except Fail (AstNode × Parser) := do
  let (m, p1) ← match_tok p .T_RET
  if m then
    let ret := ast_new .AST_RETURN
    let (ret1, p2) ← (do
      if !(← check_tok p1 .T_SEMI) then
        let (e, q) ← pe p1
        pure (ast_add ret e, q)
      else pure (ret, p1))
    let p3 ← expect p2 .T_SEMI
    return (ret1, p3)
  let (m, p1) ← match_tok p .T_LET
  if m then
    let (name, p2) ← advance_tok p1
    let let_node := { ast_new .AST_LET with name := some name.s }
    let (m1, p3) ← match_tok p2 .T_COLON
    let p4 ← (do if m1 then (do let (_, q) ← advance_tok p3; pure q) else pure p3)
    let (m2, p5) ← match_tok p4 .T_EQ
    let (let1, p6) ← (do
      if m2 then
        let (e, q) ← pe p5
        pure (ast_add let_node e, q)
      else pure (let_node, p5))
    let p7 ← expect p6 .T_SEMI
    return (let1, p7)
  let (m, p1) ← match_tok p .T_IF
  if m then
    let ifnode := ast_new .AST_IF
    let p2 ← expect p1 .T_LPAREN
    let (c, p3) ← pe p2
    let ifnode1 := ast_add ifnode c
    let p4 ← expect p3 .T_RPAREN
    let (b, p5) ← pb p4
    let ifnode2 := ast_add ifnode1 b
    let (m1, p6) ← match_tok p5 .T_ELSE
    if m1 then
      let (b2, p7) ← pb p6
      return (ast_add ifnode2 b2, p7)
    return (ifnode2, p6)
  let (m, p1) ← match_tok p .T_WHILE
  if m then
    let whilenode := ast_new .AST_WHILE
    let p2 ← expect p1 .T_LPAREN
    let (c, p3) ← pe p2
    let whilenode1 := ast_add whilenode c
    let p4 ← expect p3 .T_RPAREN
    let (b, p5) ← pb p4
    return (ast_add whilenode1 b, p5)
  let (expr, p2) ← pe p1
  let p3 ← expect p2 .T_SEMI
  return (expr, p3)

/-- The loop of `parse_block`:
`while (!check_tok(p, T_RBRACE) && !check_tok(p, T_EOF)) ast_add(block, parse_stmt(p));`. -/
def block_loop (ps : Parser → Except Fail (AstNode × Parser)) : Nat → AstNode → Parser → Except Fail (AstNode × Parser)
  | 0, _, _ => .error .no_fuel
  | f + 1, block, p => do
    if !(← check_tok p .T_RBRACE) && !(← check_tok p .T_EOF) then
      let (s, p1) ← ps p
      block_loop ps f (ast_add block s) p1
    else return (block, p)

/-- The C function `parse_block`. One unit of fuel is used per nesting
level of blocks; `fuel_e` is the fuel handed to `parse_expr`. -/
def parse_block (fuel_e : Nat) : Nat → Parser → Except Fail (AstNode × Parser)
  | 0, _ => .error .no_fuel
  | f + 1, p => do
    let p1 ← expect p .T_LBRACE
    let (block, p2) ← block_loop (parse_stmt (parse_expr fuel_e) (parse_block fuel_e f)) f
      (ast_new .AST_BLOCK) p1
    let p3 ← expect p2 .T_RBRACE
    return (block, p3)

/-- The field loop of `parse_struct_def`. -/
def struct_def_loop : Nat → AstNode → Parser → Except Fail (AstNode × Parser)
  | 0, _, _ => .error .no_fuel
  | f + 1, struct_def, p => do
    if (← check_tok p .T_RBRACE) then return (struct_def, p)
    let (field_name, p1) ← advance_tok p
    let p2 ← expect p1 .T_COLON
    let (_, p3) ← advance_tok p2
    let field := { ast_new .AST_IDENT with name := some field_name.s }
    let struct_def1 := ast_add struct_def field
    let p4 ← (do if !(← check_tok p3 .T_RBRACE) then expect p3 .T_COMMA else pure p3)
    struct_def_loop f struct_def1 p4

/-- The C function `parse_struct_def`. -/
def parse_struct_def (fuel : Nat) (p : Parser) : Except Fail (AstNode × Parser) := do
  let p1 ← expect p .T_STRUCT
  let (name, p2) ← advance_tok p1
  let struct_def := { ast_new .AST_STRUCT_DEF with name := some name.s }
  let p3 ← expect p2 .T_LBRACE
  let (struct_def1, p4) ← struct_def_loop fuel struct_def p3
  let p5 ← expect p4 .T_RBRACE
  return (struct_def1, p5)

/-- The parameter loop of `parse_func`. -/
def param_loop : Nat → AstNode → Parser → Except Fail (AstNode × Parser)
  | 0, _, _ => .error .no_fuel
  | f + 1, func, p => do
    if (← check_tok p .T_RPAREN) then return (func, p)
    let (param, p1) ← advance_tok p
    let par := { ast_new .AST_IDENT with name := some param.s }
    let func1 := ast_add func par
    let (m, p2) ← match_tok p1 .T_COLON
    let p3 ← (do if m then (do let (_, q) ← advance_tok p2; pure q) else pure p2)
    let p4 ← (do if !(← check_tok p3 .T_RPAREN) then expect p3 .T_COMMA else pure p3)
    param_loop f func1 p4

/-- The C function `parse_func`. -/
def parse_func (fuel : Nat) (p : Parser) : Except Fail (AstNode × Parser) := do
  let p1 ← expect p .T_FN
  let (name, p2) ← advance_tok p1
  let func := { ast_new .AST_FUNCTION with name := some name.s }
  let p3 ← expect p2 .T_LPAREN
  let (func1, p4) ← param_loop fuel func p3
  let p5 ← expect p4 .T_RPAREN
  let (m, p6) ← match_tok p5 .T_ARROW
  let p7 ← (do if m then (do let (_, q) ← advance_tok p6; pure q) else pure p6)
  let (body, p8) ← parse_block fuel fuel p7
  return (ast_add func1 body, p8)

/-- The loop of `parse`. -/
def parse_loop (fuel : Nat) : Nat → AstNode → Parser → Except Fail (AstNode × Parser)
  | 0, _, _ => .error .no_fuel
  | f + 1, prog, p => do
    if (← check_tok p .T_EOF) then return (prog, p)
    if (← check_tok p .T_STRUCT) then
      let (d, p1) ← parse_struct_def fuel p
      parse_loop fuel f (ast_add prog d) p1
    else
      let (fn, p1) ← parse_func fuel p
      parse_loop fuel f (ast_add prog fn) p1

/-- The C function `parse` with an explicit fuel. -/
def parse_fuel (fuel : Nat) (p : Parser) : Except Fail (AstNode × Parser) :=
  parse_loop fuel fuel (ast_new .AST_PROGRAM) p

/-- The C function `parse`. Every loop iteration and every nested call
consumes a token, so a fuel of one more than the number of tokens is never
used up. -/
def parse (p : Parser) : Except Fail (AstNode × Parser) := parse_fuel (p.length + 1) p

/-! ## Type table -/

structure StructField where
  name : List Char
  offset : Int
  deriving DecidableEq, Repr

/-- The C struct `StructType`; `field_count` is the length of `fields`. -/
structure StructType where
  name : List Char
  fields : List StructField
  size : Int
  deriving DecidableEq, Repr

/-- The C struct `TypeTable`; `count` is the length of the list. -/
abbrev TypeTable := List StructType

/-- The C function `typetab_new`. -/
def typetab_new : TypeTable := []

/-- The C function `typetab_lookup`: the index of the first entry with that
name (the C code returns the pointer `&tt->types[i]`), `some none` for
`NULL`. The outer `none` is `strcmp` applied to a `NULL` name. -/
def typetab_lookup : TypeTable → Option (List Char) → Option (Option Nat)
  | [], _ => some none
  | _ :: _, none => none
  | st :: rest, some name =>
    if st.name = name then some (some 0)
    else (typetab_lookup rest (some name)).map (fun r => r.map (fun i => i + 1))

/-- The C function `typetab_add`. -/
def typetab_add (tt : TypeTable) (name : Option (List Char)) : Option TypeTable :=
  match name with
  | none => none
  | some nm => some (tt ++ [{ name := nm, fields := [], size := 0 }])

/-- The body of `typetab_add_field` once the struct is found. -/
def struct_add_field (st : StructType) (field_name : List Char) : StructType :=
  { st with fields := st.fields ++ [{ name := field_name, offset := st.size }],
            size := st.size + 8 }

/-- The C function `typetab_add_field`. -/
def typetab_add_field (tt : TypeTable) (struct_name field_name : Option (List Char)) :
    Option TypeTable :=
  match typetab_lookup tt struct_name with
  | none => none
  | some none => some tt
  | some (some i) =>
    match field_name with
    | none => none
    | some fnm => some (tt.modify (fun st => struct_add_field st fnm) i)

/-- The field loop of `typetab_field_offset`. -/
def field_offset_loop : List StructField → Option (List Char) → Option Int
  | [], _ => some (-1)
  | _ :: _, none => none
  | fl :: rest, some name =>
    if fl.name = name then some fl.offset else field_offset_loop rest (some name)

/-- The C function `typetab_field_offset`. -/
def typetab_field_offset (tt : TypeTable) (struct_name field_name : Option (List Char)) :
    Option Int :=
  match typetab_lookup tt struct_name with
  | none => none
  | some none => some (-1)
  | some (some i) =>
    match tt.get? i with
    | none => none
    | some st => field_offset_loop st.fields field_name

/-! ## String table -/

structure StringEntry where
  label : List Char
  value : List Char
  len : Int
  deriving DecidableEq, Repr

/-- The C struct `StringTable`; `count` is the length of the list. -/
abbrev StringTable := List StringEntry

/-- The C function `strtab_new`. -/
def strtab_new : StringTable := []

/-- The text `sprintf` writes for `%d`. -/
def fmt_d (n : Int) : List Char := (toString n).toList

/-- The C function `strtab_add`: the table after the call and the label
returned. -/
def strtab_add (st : StringTable) (value : List Char) (len : Nat) :
    StringTable × List Char :=
  let label := "str_".toList ++ fmt_d ((st.length + 1 : Nat) - 1 : Int)
  (st ++ [{ label := label, value := value.take len, len := len }], label)

/-! ## Symbol table -/

structure Symbol where
  name : List Char
  offset : Int
  size : Int
  type_name : Option (List Char)
  deriving DecidableEq, Repr

/-- The C struct `SymbolTable`; `count` is the length of `symbols`. -/
structure SymbolTable where
  symbols : List Symbol
  stack_size : Int
  deriving DecidableEq, Repr

/-- The C function `symtab_new`. -/
def symtab_new : SymbolTable := { symbols := [], stack_size := 0 }

/-- The C function `symtab_add`: the table after the call and the offset
returned. `strdup(NULL)` is undefined. The sums are taken in the integers;
they are those of the C type `int` as long as no step leaves its range
(`symtab_add_i32` is the function with the 32-bit wrap). -/
def symtab_add (st : SymbolTable) (name : Option (List Char)) (size : Int) :
    Option (SymbolTable × Int) :=
  match name with
  | none => none
  | some nm =>
    let bytes := size * 8
    let stack_size := st.stack_size + bytes
    some ({ symbols := st.symbols ++
              [{ name := nm, offset := -stack_size, size := size, type_name := none }],
            stack_size := stack_size }, -stack_size)

/-- The C function `symtab_add_struct`, with the sums taken in the integers
(`symtab_add_struct_i32` is the function with the 32-bit wrap). -/
def symtab_add_struct (st : SymbolTable) (name type_name : Option (List Char))
    (size_bytes : Int) : Option (SymbolTable × Int) :=
  match name, type_name with
  | some nm, some tn =>
    let stack_size := st.stack_size + size_bytes
    some ({ symbols := st.symbols ++
              [{ name := nm, offset := -stack_size, size := size_bytes, type_name := some tn }],
            stack_size := stack_size }, -stack_size)
  | _, _ => none

/-- The loop of `symtab_lookup_symbol` over the symbols. -/
def lookup_symbol_loop : List Symbol → Option (List Char) → Option (Option Symbol)
  | [], _ => some none
  | _ :: _, none => none
  | sym :: rest, some name =>
    if sym.name = name then some (some sym) else lookup_symbol_loop rest (some name)

/-- The C function `symtab_lookup_symbol`: `some none` is the result `NULL`,
the outer `none` a `NULL` table or `strcmp` on a `NULL` name. -/
def symtab_lookup_symbol (st : Option SymbolTable) (name : Option (List Char)) :
    Option (Option Symbol) :=
  match st with
  | none => none
  | some t => lookup_symbol_loop t.symbols name

/-- The C function `symtab_lookup`. -/
def symtab_lookup (st : Option SymbolTable) (name : Option (List Char)) : Option Int :=
  (symtab_lookup_symbol st name).map (fun r =>
    match r with
    | some sym => sym.offset
    | none => 0)

/-! ## Emitted assembly -/

/-- The conditions of the `set<cc> al` instructions. -/
inductive Cond where
  | e | ne | l | g | le | ge
  deriving DecidableEq, Repr

/-- The lines `emit` is called with. One constructor stands for one line of
a format string of the C source; `Asm.render` gives back the text. -/
inductive Asm where
  | mov_rax_s (s : List Char)
  | mov_rbx_d (n : Int)
  | load_rax (off : Int)
  | mov_rax_0_unknown (name : List Char)
  | store_rax (off : Int)
  | push_rax
  | mov_rbx_rax
  | pop_rax
  | add_rax_rbx
  | sub_rax_rbx
  | imul_rax_rbx
  | xor_rdx_rdx
  | idiv_rbx
  | cmp_rax_rbx
  | set_al (cc : Cond)
  | movzx_rax_al
  | call_s (name : List Char)
  | mov_reg_rax (reg : String)
  | comment_array_literal
  | lea_rax (off : Int)
  | imul_rax_8
  | load_rax_rbx (off : Int)
  | comment_struct_literal (name : List Char)
  | comment_unknown_field (name : List Char)
  | xor_rax_rax
  | leave
  | ret
  | test_rax_rax
  | jz_L (n : Nat)
  | jmp_L (n : Nat)
  | label_L (n : Nat)
  | func_label (name : List Char)
  | push_rbp
  | mov_rbp_rsp
  | store_reg (off : Int) (reg : String)
  | sub_rsp_128
  | text (s : String)
  deriving DecidableEq, Repr

def Cond.render : Cond → String
  | .e => "e" | .ne => "ne" | .l => "l" | .g => "g" | .le => "le" | .ge => "ge"

/-- The text of one emitted line, as the format strings of the C source
produce it. -/
def Asm.render : Asm → String
  | .mov_rax_s s => "    mov rax, " ++ String.mk s ++ "\n"
  | .mov_rbx_d n => "    mov rbx, " ++ toString n ++ "\n"
  | .load_rax off => "    mov rax, [rbp" ++ toString off ++ "]\n"
  | .mov_rax_0_unknown name => "    mov rax, 0  ; unknown var " ++ String.mk name ++ "\n"
  | .store_rax off => "    mov [rbp" ++ toString off ++ "], rax\n"
  | .push_rax => "    push rax\n"
  | .mov_rbx_rax => "    mov rbx, rax\n"
  | .pop_rax => "    pop rax\n"
  | .add_rax_rbx => "    add rax, rbx\n"
  | .sub_rax_rbx => "    sub rax, rbx\n"
  | .imul_rax_rbx => "    imul rax, rbx\n"
  | .xor_rdx_rdx => "    xor rdx, rdx\n"
  | .idiv_rbx => "    idiv rbx\n"
  | .cmp_rax_rbx => "    cmp rax, rbx\n"
  | .set_al cc => "    set" ++ cc.render ++ " al\n"
  | .movzx_rax_al => "    movzx rax, al\n"
  | .call_s name => "    call " ++ String.mk name ++ "\n"
  | .mov_reg_rax reg => "    mov " ++ reg ++ ", rax\n"
  | .comment_array_literal => "    ; array literal\n"
  | .lea_rax off => "    lea rax, [rbp" ++ toString off ++ "]\n"
  | .imul_rax_8 => "    imul rax, 8\n"
  | .load_rax_rbx off => "    mov rax, [rbp" ++ toString off ++ "+rbx]\n"
  | .comment_struct_literal name => "    ; struct literal " ++ String.mk name ++ "\n"
  | .comment_unknown_field name => "    ; unknown field " ++ String.mk name ++ "\n"
  | .xor_rax_rax => "    xor rax, rax\n"
  | .leave => "    leave\n"
  | .ret => "    ret\n"
  | .test_rax_rax => "    test rax, rax\n"
  | .jz_L n => "    jz .L" ++ toString n ++ "\n"
  | .jmp_L n => "    jmp .L" ++ toString n ++ "\n"
  | .label_L n => ".L" ++ toString n ++ ":\n"
  | .func_label name => "\n" ++ String.mk name ++ ":\n"
  | .push_rbp => "    push rbp\n"
  | .mov_rbp_rsp => "    mov rbp, rsp\n"
  | .store_reg off reg => "    mov [rbp" ++ toString off ++ "], " ++ reg ++ "\n"
  | .sub_rsp_128 => "    sub rsp, 128\n"
  | .text s => s

/-- The text of a sequence of emitted lines: the content of `code_buf`. -/
def render_code (code : List Asm) : String :=
  code.foldl (fun acc a => acc ++ a.render) ""

/-! ## Code generator -/

/-- The C struct `Codegen`. `code` is the text buffer `code_buf`, kept as
the list of lines emitted so far; `out` and the buffer capacity are left
out. -/
structure Codegen where
  label_count : Nat
  symtab : Option SymbolTable
  strtab : StringTable
  types : TypeTable
  code : List Asm
  deriving DecidableEq, Repr

/-- The C function `emit`, called with the lines of one format string. -/
def emit (cg : Codegen) (lines : List Asm) : Codegen :=
  { cg with code := cg.code ++ lines }

/-- The C function `new_label`: the label returned and the state after. -/
def new_label (cg : Codegen) : Nat × Codegen :=
  (cg.label_count, { cg with label_count := cg.label_count + 1 })

/-- The table `regs` of `gen_expr` and `gen_func`. -/
def regs : List String := ["rdi", "rsi", "rdx", "rcx", "r8", "r9"]

/-- The last symbol `&cg->symtab->symbols[cg->symtab->count - 1]`, under the
guard `cg->symtab && cg->symtab->count > 0`. -/
def last_symbol (st : Option SymbolTable) : Option Symbol :=
  match st with
  | none => none
  | some t => t.symbols.getLast?

/-- The operator test of the `AST_BINOP` case: `n->op[0]` against
`+ - * /`; the first character of the empty string is NUL. -/
def binop_lines (op : List Char) : List Asm :=
  if op.headD c_nul = '+' then [.add_rax_rbx]
  else if op.headD c_nul = '-' then [.sub_rax_rbx]
  else if op.headD c_nul = '*' then [.imul_rax_rbx]
  else if op.headD c_nul = '/' then [.xor_rdx_rdx, .idiv_rbx]
  else []

/-- The operator test of the `AST_COMPARE` case. -/
def compare_lines (op : List Char) : List Asm :=
  if op = "==".toList then [.set_al .e]
  else if op = "!=".toList then [.set_al .ne]
  else if op = "<".toList then [.set_al .l]
  else if op = ">".toList then [.set_al .g]
  else if op = "<=".toList then [.set_al .le]
  else if op = ">=".toList then [.set_al .ge]
  else []

mutual
/-- The C function `gen_expr`. `none` is undefined behaviour: a child that
is not there, or a `NULL` string or table that is dereferenced. -/
def gen_expr (cg : Codegen) : AstNode → Option Codegen
  | ⟨.AST_NUMBER, _, _, value, _, _, _⟩ => do
      let v ← value
      some (emit cg [.mov_rax_s v])
  | ⟨.AST_STRING, _, _, value, _, _, _⟩ => do
      let v ← value
      let r := strtab_add cg.strtab v v.length
      let cg1 := { cg with strtab := r.1 }
      let cg2 := emit cg1 [.mov_rax_s r.2]
      some (emit cg2 [.mov_rbx_d (v.length : Int)])
  | ⟨.AST_IDENT, name, _, _, _, _, _⟩ => do
      let off ← symtab_lookup cg.symtab name
      if off ≠ 0 then some (emit cg [.load_rax off])
      else
        let nm ← name
        some (emit cg [.mov_rax_0_unknown nm])
  | ⟨.AST_ASSIGN, name, children, _, _, _, _⟩ =>
      match children with
      | [] => none
      | c0 :: _ => do
        let cg1 ← gen_expr cg c0
        let off ← symtab_lookup cg1.symtab name
        if off ≠ 0 then some (emit cg1 [.store_rax off]) else some cg1
  | ⟨.AST_BINOP, _, children, _, op, _, _⟩ =>
      match children with
      | c0 :: c1 :: _ => do
        let cg1 ← gen_expr cg c0
        let cg2 ← gen_expr (emit cg1 [.push_rax]) c1
        let cg3 := emit cg2 [.mov_rbx_rax, .pop_rax]
        let o ← op
        some (emit cg3 (binop_lines o))
      | _ => none
  | ⟨.AST_COMPARE, _, children, _, op, _, _⟩ =>
      match children with
      | c0 :: c1 :: _ => do
        let cg1 ← gen_expr cg c0
        let cg2 ← gen_expr (emit cg1 [.push_rax]) c1
        let cg3 := emit cg2 [.mov_rbx_rax, .pop_rax]
        let cg4 := emit cg3 [.cmp_rax_rbx]
        let o ← op
        some (emit (emit cg4 (compare_lines o)) [.movzx_rax_al])
      | _ => none
  | ⟨.AST_CALL, name, children, _, _, _, _⟩ => do
      let nm ← name
      if nm = "print".toList then
        match children with
        | [] => some cg
        | c0 :: _ => do
          let cg1 ← gen_expr cg c0
          let cg2 := emit cg1 [.text "    mov rsi, rax\n    mov rdx, rbx\n"]
          some (emit cg2 [.text "    mov rdi, 1\n    mov rax, 1\n    syscall\n"])
      else if nm = "println".toList then
        let cg3 ← (match children with
          | [] => some cg
          | c0 :: _ => do
            let cg1 ← gen_expr cg c0
            let cg2 := emit cg1 [.text "    mov rsi, rax\n    mov rdx, rbx\n"]
            some (emit cg2 [.text "    mov rdi, 1\n    mov rax, 1\n    syscall\n"]))
        let cg4 := emit cg3 [.text "    mov byte [rbp-256], 10\n"]
        let cg5 := emit cg4 [.text "    lea rsi, [rbp-256]\n"]
        some (emit cg5
          [.text "    mov rdi, 1\n    mov rdx, 1\n    mov rax, 1\n    syscall\n"])
      else if nm = "print_int".toList then
        match children with
        | [] => some cg
        | c0 :: _ => do
          let cg1 ← gen_expr cg c0
          some (emit cg1 [.call_s "__print_int".toList])
      else if nm = "exit".toList then
        let cg2 ← (match children with
          | [] => some (emit cg [.text "    xor rdi, rdi\n"])
          | c0 :: _ => do
            let cg1 ← gen_expr cg c0
            some (emit cg1 [.mov_reg_rax "rdi"]))
        some (emit cg2 [.text "    mov rax, 60\n    syscall\n"])
      else do
        let cg1 ← gen_call_args cg children regs
        some (emit cg1 [.call_s nm])
  | ⟨.AST_ARRAY_LITERAL, _, children, _, _, _, _⟩ =>
      let cg1 := emit cg [.comment_array_literal]
      match last_symbol cg1.symtab with
      | none => some cg1
      | some sym => do
        let cg2 ← gen_array_elems cg1 sym.offset children 0
        some (emit cg2 [.lea_rax sym.offset])
  | ⟨.AST_INDEX, _, children, _, _, _, _⟩ =>
      match children with
      | [] => none
      | arr :: rest => do
        let r ← symtab_lookup_symbol cg.symtab arr.name
        match r with
        | none => some cg
        | some sym =>
          match rest with
          | [] => none
          | c1 :: _ => do
            let cg1 ← gen_expr cg c1
            let cg2 := emit cg1 [.imul_rax_8]
            let cg3 := emit cg2 [.mov_rbx_rax]
            some (emit cg3 [.load_rax_rbx sym.offset])
  | ⟨.AST_STRUCT_LITERAL, _, children, _, _, _, struct_type⟩ => do
      let stn ← struct_type
      let cg1 := emit cg [.comment_struct_literal stn]
      match last_symbol cg1.symtab with
      | none => some cg1
      | some sym => do
        let cg2 ← gen_struct_fields cg1 sym.offset stn children
        some (emit cg2 [.lea_rax sym.offset])
  | ⟨.AST_FIELD_ACCESS, name, children, _, _, _, _⟩ =>
      match children with
      | [] => none
      | obj :: _ => do
        let r ← symtab_lookup_symbol cg.symtab obj.name
        match r with
        | none => some cg
        | some sym =>
          match sym.type_name with
          | none => some cg
          | some tn => do
            let field_off ← typetab_field_offset cg.types (some tn) name
            if field_off ≥ 0 then some (emit cg [.load_rax (sym.offset + field_off)])
            else
              let fnm ← name
              some (emit cg [.comment_unknown_field fnm])
  | ⟨_, _, _, _, _, _, _⟩ => some cg
/-- The argument loop of a regular call:
`for (i = 0; i < n->child_count && i < 6; i++) { gen_expr(cg, n->children[i]);
   emit(cg, "    mov %s, rax\n", regs[i]); }`; the second list holds
`regs[i], regs[i+1], ...`. -/
def gen_call_args (cg : Codegen) : List AstNode → List String → Option Codegen
  | [], _ => some cg
  | _ :: _, [] => some cg
  | c :: cs, r :: rs => do
    let cg1 ← gen_expr cg c
    gen_call_args (emit cg1 [.mov_reg_rax r]) cs rs
/-- The element loop of an array literal, from index `i` on; `base` is
`sym->offset`. -/
def gen_array_elems (cg : Codegen) (base : Int) : List AstNode → Int → Option Codegen
  | [], _ => some cg
  | c :: cs, i => do
    let cg1 ← gen_expr cg c
    let elem_off := base + (i * 8)
    gen_array_elems (emit cg1 [.store_rax elem_off]) base cs (i + 1)
/-- The initializer loop of a struct literal; `base` is `sym->offset`. -/
def gen_struct_fields (cg : Codegen) (base : Int) (struct_type : List Char) :
    List AstNode → Option Codegen
  | [] => some cg
  | ⟨_, field_name, fchildren, _, _, _, _⟩ :: rest =>
    match fchildren with
    | [] => none
    | field_value :: _ => do
      let field_off ← typetab_field_offset cg.types (some struct_type) field_name
      let cg1 ← gen_expr cg field_value
      gen_struct_fields (emit cg1 [.store_rax (base + field_off)]) base struct_type rest
end

/-- The tail of the `AST_LET` case of `gen_stmt` for a `let` with an
initializer `c0`, from `int off = symtab_add(cg->symtab, n->name, size);` on. -/
def gen_let_scalar (cg : Codegen) (name : Option (List Char)) (c0 : AstNode) (size : Int) :
    Option Codegen := do
  let st ← cg.symtab
  let r ← symtab_add st name size
  let cg1 ← gen_expr { cg with symtab := some r.1 } c0
  if c0.type ≠ .AST_ARRAY_LITERAL then some (emit cg1 [.store_rax r.2])
  else some cg1

/-- The `AST_LET` case of `gen_stmt`. -/
def gen_let (cg : Codegen) (name : Option (List Char)) (children : List AstNode) :
    Option Codegen :=
  match children with
  | [] => do
    let st ← cg.symtab
    let r ← symtab_add st name 1
    some { cg with symtab := some r.1 }
  | c0 :: _ =>
    if c0.type = .AST_ARRAY_LITERAL then gen_let_scalar cg name c0 c0.array_size
    else if c0.type = .AST_STRUCT_LITERAL then do
      let found ← typetab_lookup cg.types c0.struct_type
      match found with
      | none => gen_let_scalar cg name c0 1
      | some i => do
        let st ← cg.types.get? i
        let tab ← cg.symtab
        let r ← symtab_add_struct tab name c0.struct_type st.size
        gen_expr { cg with symtab := some r.1 } c0
    else gen_let_scalar cg name c0 1

mutual
/-- The C function `gen_stmt`. -/
def gen_stmt (cg : Codegen) : AstNode → Option Codegen
  | ⟨.AST_RETURN, _, children, _, _, _, _⟩ => do
      let cg1 ← (match children with
        | [] => some (emit cg [.xor_rax_rax])
        | c0 :: _ => gen_expr cg c0)
      some (emit cg1 [.leave, .ret])
  | ⟨.AST_LET, name, children, _, _, _, _⟩ => gen_let cg name children
  | ⟨.AST_IF, _, children, _, _, _, _⟩ =>
      match children with
      | c0 :: c1 :: rest => do
        let else_lab := (new_label cg).1
        let cga := (new_label cg).2
        let end_lab := (new_label cga).1
        let cgb := (new_label cga).2
        let cg1 ← gen_expr cgb c0
        let cg2 := emit cg1 [.test_rax_rax, .jz_L else_lab]
        let cg3 ← gen_block cg2 c1
        let cg4 := emit cg3 [.jmp_L end_lab, .label_L else_lab]
        let cg5 ← (match rest with
          | [] => some cg4
          | c2 :: _ => gen_block cg4 c2)
        some (emit cg5 [.label_L end_lab])
      | _ => none
  | ⟨.AST_WHILE, _, children, _, _, _, _⟩ =>
      match children with
      | c0 :: c1 :: _ => do
        let start_lab := (new_label cg).1
        let cga := (new_label cg).2
        let end_lab := (new_label cga).1
        let cgb := (new_label cga).2
        let cg0 := emit cgb [.label_L start_lab]
        let cg1 ← gen_expr cg0 c0
        let cg2 := emit cg1 [.test_rax_rax, .jz_L end_lab]
        let cg3 ← gen_block cg2 c1
        some (emit cg3 [.jmp_L start_lab, .label_L end_lab])
      | _ => none
  | ⟨.AST_CALL, name, children, value, op, array_size, struct_type⟩ =>
      gen_expr cg ⟨.AST_CALL, name, children, value, op, array_size, struct_type⟩
  | ⟨.AST_ASSIGN, name, children, value, op, array_size, struct_type⟩ =>
      gen_expr cg ⟨.AST_ASSIGN, name, children, value, op, array_size, struct_type⟩
  | ⟨_, _, _, _, _, _, _⟩ => some cg
/-- The loop `for (i = 0; i < b->child_count; i++) gen_stmt(cg, b->children[i]);`
over the statements of the block `b`. -/
def gen_block (cg : Codegen) : AstNode → Option Codegen
  | ⟨_, _, stmts, _, _, _, _⟩ => gen_stmts cg stmts
/-- The same loop, on the list of the statements that are left. -/
def gen_stmts (cg : Codegen) : List AstNode → Option Codegen
  | [] => some cg
  | s :: rest => do
    let cg1 ← gen_stmt cg s
    gen_stmts cg1 rest
end

/-- The parameter loop of `gen_func`:
`for (i = 0; i < param_count && i < 6; i++) { off = symtab_add(..., 1);
   emit(cg, "    mov [rbp%d], %s\n", off, regs[i]); }`; the first list is
`children[i], ..., children[param_count - 1]`. -/
def gen_params (cg : Codegen) (st : SymbolTable) :
    List AstNode → List String → Option (Codegen × SymbolTable)
  | [], _ => some (cg, st)
  | _ :: _, [] => some (cg, st)
  | c :: cs, r :: rs => do
    let a ← symtab_add st c.name 1
    gen_params (emit cg [.store_reg a.2 r]) a.1 cs rs

/-- The C function `gen_func`. A node without children has
`param_count = -1` and reads `children[-1]`. -/
def gen_func (cg : Codegen) (n : AstNode) : Option Codegen := do
  let nm ← n.name
  let cg1 := emit cg [.func_label nm]
  let cg2 := emit cg1 [.push_rbp, .mov_rbp_rsp]
  let body ← n.children.getLast?
  let old_symtab := cg2.symtab
  let r ← gen_params cg2 symtab_new n.children.dropLast regs
  let cg4 := emit { r.1 with symtab := some r.2 } [.sub_rsp_128]
  let cg5 ← gen_block cg4 body
  let cg6 := emit cg5 [.xor_rax_rax, .leave, .ret]
  some { cg6 with symtab := old_symtab }

/-- The text emitted by the C function `gen_helpers`, one entry per call of
`emit`. -/
def helper_lines : List Asm :=
  [ .text "\n__print_int:\n",
    .text "    push rbp\n    mov rbp, rsp\n",
    .text "    sub rsp, 32\n",
    .text "    mov rbx, rax\n",
    .text "    test rbx, rbx\n",
    .text "    jns .positive\n",
    .text "    neg rbx\n",
    .text "    push rbx\n",
    .text "    mov byte [rbp-1], 45\n",
    .text "    lea rsi, [rbp-1]\n",
    .text "    mov rdi, 1\n    mov rdx, 1\n    mov rax, 1\n    syscall\n",
    .text "    pop rbx\n",
    .text ".positive:\n",
    .text "    lea rdi, [rbp-32]\n",
    .text "    mov rax, rbx\n",
    .text "    mov rcx, 10\n",
    .text ".loop:\n",
    .text "    xor rdx, rdx\n",
    .text "    div rcx\n",
    .text "    add dl, 48\n",
    .text "    mov [rdi], dl\n",
    .text "    inc rdi\n",
    .text "    test rax, rax\n",
    .text "    jnz .loop\n",
    .text "    mov r8, rdi\n",
    .text "    dec rdi\n",
    .text ".print_loop:\n",
    .text "    lea rax, [rbp-32]\n",
    .text "    cmp rdi, rax\n",
    .text "    jl .done\n",
    .text "    push rdi\n",
    .text "    mov rsi, rdi\n",
    .text "    mov rdi, 1\n    mov rdx, 1\n    mov rax, 1\n    syscall\n",
    .text "    pop rdi\n",
    .text "    dec rdi\n",
    .text "    jmp .print_loop\n",
    .text ".done:\n",
    .text "    leave\n    ret\n" ]

/-- The C function `gen_helpers`. -/
def gen_helpers (cg : Codegen) : Codegen := emit cg helper_lines

/-- The field loop of `build_type_table`. -/
def build_fields (tt : TypeTable) (struct_name : Option (List Char)) :
    List AstNode → Option TypeTable
  | [] => some tt
  | fl :: rest => do
    let tt1 ← typetab_add_field tt struct_name fl.name
    build_fields tt1 struct_name rest

/-- The loop of `build_type_table` over the children of the program. -/
def build_type_table_loop (tt : TypeTable) : List AstNode → Option TypeTable
  | [] => some tt
  | c :: rest =>
    if c.type = .AST_STRUCT_DEF then do
      let tt1 ← typetab_add tt c.name
      let tt2 ← build_fields tt1 c.name c.children
      build_type_table_loop tt2 rest
    else build_type_table_loop tt rest

/-- The C function `build_type_table`. -/
def build_type_table (tt : TypeTable) (ast : AstNode) : Option TypeTable :=
  build_type_table_loop tt ast.children

/-- The function loop of `codegen`. -/
def gen_funcs (cg : Codegen) : List AstNode → Option Codegen
  | [] => some cg
  | c :: rest =>
    if c.type = .AST_FUNCTION then do
      let cg1 ← gen_func cg c
      gen_funcs cg1 rest
    else gen_funcs cg rest

/-- The code-generating part of the C function `codegen`: the state when
the output file is about to be written. -/
def codegen (ast : AstNode) (strtab : StringTable) (types : TypeTable) : Option Codegen :=
  let cg : Codegen :=
    { label_count := 0, symtab := none, strtab := strtab, types := types, code := [] }
  let cg1 := emit cg [.text "\nsection .text\n    global _start\n\n"]
  let cg2 := emit cg1 [.text "_start:\n    call main\n    mov rdi, rax\n"]
  let cg3 := emit cg2 [.text "    mov rax, 60\n    syscall\n"]
  let cg4 := gen_helpers cg3
  gen_funcs cg4 ast.children

/-- The data rows `codegen` writes for the string table: per row the label
and the bytes. -/
def data_rows (strtab : StringTable) : List (List Char × List Nat) :=
  strtab.map (fun e => (e.label, (e.value.take e.len.toNat).map (fun c => c.toNat % 256)))

/-- The pipeline of `main`: `tokenize`, `parse`, `build_type_table`,
`codegen`. `none` stands for undefined behaviour or a parse error. -/
def compile (src : List Char) : Option Codegen :=
  match tokenize src with
  | none => none
  | some toks =>
    match parse toks with
    | .error _ => none
    | .ok (ast, _) =>
      match build_type_table typetab_new ast with
      | none => none
      | some types => codegen ast strtab_new types

/-! ## The target machine

A model of the x86-64 instructions the code generator emits for function
bodies, enough to execute straight-line code. Registers hold 64-bit words as
integers in `[0, 2^64)`. Memory is a map from byte addresses to 64-bit
words; only accesses at addresses that are multiples of 8 are modelled, so
that two accesses either coincide or do not overlap. -/

/-- The number of 64-bit words, `2^64`. -/
def W64 : Int := 18446744073709551616

/-- The signed reading of a 64-bit word. -/
def to_signed (x : Int) : Int := if x < 9223372036854775808 then x else x - W64

/-- The machine state. `flags` holds the two signed operands of the last
`cmp` (or `test`), `none` when an arithmetic instruction has overwritten the
flags since. -/
structure Machine where
  rax : Int
  rbx : Int
  rcx : Int
  rdx : Int
  rsi : Int
  rdi : Int
  r8 : Int
  r9 : Int
  rsp : Int
  rbp : Int
  flags : Option (Int × Int)
  mem : Int → Int

/-- Why a run stops without reaching `ret`. -/
inductive Stop where
  | divide_error
  | unmodelled
  deriving DecidableEq, Repr

/-- The value of a decimal literal, `none` for a text that is not a
non-empty run of decimal digits. -/
def dec_value (s : List Char) : Option Nat :=
  if s ≠ [] ∧ s.all isdigit then some (s.foldl (fun acc c => 10 * acc + (c.toNat - 48)) 0)
  else none

/-- Read the word at address `a`. -/
def Machine.load (m : Machine) (a : Int) : Except Stop Int :=
  if a % 8 = 0 then .ok (m.mem a) else .error .unmodelled

/-- Write the word `v` at address `a`. -/
def Machine.store (m : Machine) (a : Int) (v : Int) : Except Stop Machine :=
  if a % 8 = 0 then .ok { m with mem := fun x => if x = a then v else m.mem x }
  else .error .unmodelled

/-- The value of the register called `reg` in the table `regs`. -/
def Machine.get_reg (m : Machine) (reg : String) : Except Stop Int :=
  if reg = "rdi" then .ok m.rdi
  else if reg = "rsi" then .ok m.rsi
  else if reg = "rdx" then .ok m.rdx
  else if reg = "rcx" then .ok m.rcx
  else if reg = "r8" then .ok m.r8
  else if reg = "r9" then .ok m.r9
  else .error .unmodelled

/-- Set the register called `reg` in the table `regs`. -/
def Machine.set_reg (m : Machine) (reg : String) (v : Int) : Except Stop Machine :=
  if reg = "rdi" then .ok { m with rdi := v }
  else if reg = "rsi" then .ok { m with rsi := v }
  else if reg = "rdx" then .ok { m with rdx := v }
  else if reg = "rcx" then .ok { m with rcx := v }
  else if reg = "r8" then .ok { m with r8 := v }
  else if reg = "r9" then .ok { m with r9 := v }
  else .error .unmodelled

/-- The truth of a condition code after `cmp a, b` on signed operands. -/
def Cond.holds (cc : Cond) (a b : Int) : Bool :=
  match cc with
  | .e => a = b
  | .ne => a ≠ b
  | .l => a < b
  | .g => a > b
  | .le => a ≤ b
  | .ge => a ≥ b

/-- The effect of one emitted line other than `ret`. Calls, system calls,
jumps and the fixed text of the helper routines are not modelled. -/
def exec (a : Asm) (m : Machine) : Except Stop Machine :=
  match a with
  | .mov_rax_s s =>
    match dec_value s with
    | some v => if (v : Int) < W64 then .ok { m with rax := v } else .error .unmodelled
    | none => .error .unmodelled
  | .mov_rbx_d n => .ok { m with rbx := n % W64 }
  | .load_rax off =>
    match m.load (m.rbp + off) with
    | .ok v => .ok { m with rax := v }
    | .error e => .error e
  | .mov_rax_0_unknown _ => .ok { m with rax := 0 }
  | .store_rax off => m.store (m.rbp + off) m.rax
  | .push_rax => { m with rsp := m.rsp - 8 }.store (m.rsp - 8) m.rax
  | .mov_rbx_rax => .ok { m with rbx := m.rax }
  | .pop_rax =>
    match m.load m.rsp with
    | .ok v => .ok { m with rax := v, rsp := m.rsp + 8 }
    | .error e => .error e
  | .add_rax_rbx => .ok { m with rax := (m.rax + m.rbx) % W64, flags := none }
  | .sub_rax_rbx => .ok { m with rax := (m.rax - m.rbx) % W64, flags := none }
  | .imul_rax_rbx =>
    .ok { m with rax := (to_signed m.rax * to_signed m.rbx) % W64, flags := none }
  | .xor_rdx_rdx => .ok { m with rdx := 0, flags := none }
  | .idiv_rbx =>
    -- signed division of the 128-bit value rdx:rax by rbx
    let hi := to_signed m.rdx
    let dividend := hi * W64 + m.rax
    let divisor := to_signed m.rbx
    if divisor = 0 then .error .divide_error
    else
      let q := Int.tdiv dividend divisor
      let r := Int.tmod dividend divisor
      if q < -9223372036854775808 ∨ 9223372036854775807 < q then .error .divide_error
      else .ok { m with rax := q % W64, rdx := r % W64, flags := none }
  | .cmp_rax_rbx => .ok { m with flags := some (to_signed m.rax, to_signed m.rbx) }
  | .set_al cc =>
    match m.flags with
    | some (a, b) =>
      .ok { m with rax := m.rax - m.rax % 256 + (if cc.holds a b then 1 else 0) }
    | none => .error .unmodelled
  | .movzx_rax_al => .ok { m with rax := m.rax % 256 }
  | .call_s _ => .error .unmodelled
  | .mov_reg_rax reg => m.set_reg reg m.rax
  | .comment_array_literal => .ok m
  | .lea_rax off => .ok { m with rax := (m.rbp + off) % W64 }
  | .imul_rax_8 => .ok { m with rax := (to_signed m.rax * 8) % W64, flags := none }
  | .load_rax_rbx off =>
    match m.load (m.rbp + off + to_signed m.rbx) with
    | .ok v => .ok { m with rax := v }
    | .error e => .error e
  | .comment_struct_literal _ => .ok m
  | .comment_unknown_field _ => .ok m
  | .xor_rax_rax => .ok { m with rax := 0, flags := none }
  | .leave =>
    match m.load m.rbp with
    | .ok v => .ok { m with rsp := m.rbp + 8, rbp := v }
    | .error e => .error e
  | .ret => .error .unmodelled
  | .test_rax_rax => .ok { m with flags := some (to_signed m.rax, 0) }
  | .jz_L _ => .error .unmodelled
  | .jmp_L _ => .error .unmodelled
  | .label_L _ => .ok m
  | .func_label _ => .ok m
  | .push_rbp => { m with rsp := m.rsp - 8 }.store (m.rsp - 8) m.rbp
  | .mov_rbp_rsp => .ok { m with rbp := m.rsp }
  | .store_reg off reg =>
    match m.get_reg reg with
    | .ok v => m.store (m.rbp + off) v
    | .error e => .error e
  | .sub_rsp_128 => .ok { m with rsp := m.rsp - 128, flags := none }
  | .text _ => .error .unmodelled

/-- The result of running a sequence of lines. -/
inductive Run where
  | returned (m : Machine)
  | stopped (e : Stop)
  | fell_through (m : Machine)

/-- Run a sequence of lines from its first line: `returned m` when a `ret`
is reached in state `m` (the return address is then popped by the caller's
`call`, which is outside the model), `fell_through` at the end of the
sequence. -/
def run : List Asm → Machine → Run
  | [], m => .fell_through m
  | .ret :: _, m => .returned m
  | a :: rest, m =>
    match exec a m with
    | .ok m1 => run rest m1
    | .error e => .stopped e

/-- The accumulator a run returns with. -/
def Run.result : Run → Option Int
  | .returned m => some m.rax
  | _ => none

/-- The lines of the function called `name` in the generated code: from
its label to the next function label. -/
def func_code (name : List Char) : List Asm → List Asm
  | [] => []
  | a :: rest =>
    if a = .func_label name then
      a :: rest.takeWhile (fun b => match b with | .func_label _ => false | _ => true)
    else func_code name rest

/-- A machine state at the entry of a function: arbitrary register
contents `r`, the stack pointer at the 8-aligned address `sp`, all memory
words `w`. -/
def entry_state (r sp w : Int) : Machine :=
  { rax := r, rbx := r, rcx := r, rdx := r, rsi := r, rdi := r, r8 := r, r9 := r,
    rsp := sp, rbp := r, flags := none, mem := fun _ => w }

/-- Compile a source text and run the code of its function `main`. -/
def run_main (src : List Char) (m : Machine) : Option Run :=
  (compile src).map (fun cg => run (func_code "main".toList cg.code) m)

/-! ## Definitions used to state the theorems -/

/-- The fields `build_type_table` records for the field nodes `fs`, the
first one at offset `start`. -/
def layout_fields (start : Int) : List AstNode → List StructField
  | [] => []
  | f :: fs => { name := f.name.getD [], offset := start } :: layout_fields (start + 8) fs

/-- The table entry `build_type_table` records for a struct definition. -/
def layout_of (d : AstNode) : StructType :=
  { name := d.name.getD [], fields := layout_fields 0 d.children,
    size := 8 * d.children.length }

/-- The struct definitions among the children of a program. -/
def struct_defs (cs : List AstNode) : List AstNode :=
  cs.filter (fun c => c.type = .AST_STRUCT_DEF)

/-- The node of `struct S { a: i32, b: i32, c: i32 }`, as `parse` builds it. -/
def c3_struct : AstNode :=
  ast_add (ast_add (ast_add { ast_new .AST_STRUCT_DEF with name := some "S".toList }
    { ast_new .AST_IDENT with name := some "a".toList })
    { ast_new .AST_IDENT with name := some "b".toList })
    { ast_new .AST_IDENT with name := some "c".toList }

/-- The program that consists of that struct definition. -/
def c3_program : AstNode := ast_add (ast_new .AST_PROGRAM) c3_struct

/-- The node `parse_multiplicative` and `parse_additive` build for
`left op right`. -/
def mk_binop (op : Tok) (left right : AstNode) : AstNode :=
  ast_add (ast_add { ast_new .AST_BINOP with op := some op.s } left) right

/-- The node `parse_comparison` builds for `left op right`. -/
def mk_compare (op : Tok) (left right : AstNode) : AstNode :=
  ast_add (ast_add { ast_new .AST_COMPARE with op := some op.s } left) right

/-- Token kinds of the multiplicative operators. -/
def is_mul_op (t : TokType) : Bool := t = .T_STAR || t = .T_SLASH

/-- Token kinds of the additive operators. -/
def is_add_op (t : TokType) : Bool := t = .T_PLUS || t = .T_MINUS

/-- Token kinds of the six comparison operators. -/
def is_cmp_op (t : TokType) : Bool :=
  t = .T_EQEQ || t = .T_NEQ || t = .T_LT || t = .T_GT || t = .T_LTE || t = .T_GTE

/-- Token kinds that continue an expression after an operand: a postfix
opener or a binary operator. -/
def continues_expr (t : TokType) : Bool :=
  t = .T_LBRACKET || t = .T_DOT || is_mul_op t || is_add_op t || is_cmp_op t

/-- The tokens of `x = 1 ;`. -/
def c2_assign_operand : Parser :=
  [⟨.T_IDENT, "x".toList⟩, ⟨.T_EQ, "=".toList⟩, ⟨.T_NUM, "1".toList⟩, ⟨.T_SEMI, ";".toList⟩]

/-- The tokens of `x = 1 + 2 * 3 ;`: the operand `x = 1` in the place of `a`
in `a + b * c`. -/
def c2_assign_first : Parser :=
  [⟨.T_IDENT, "x".toList⟩, ⟨.T_EQ, "=".toList⟩, ⟨.T_NUM, "1".toList⟩, ⟨.T_PLUS, "+".toList⟩,
   ⟨.T_NUM, "2".toList⟩, ⟨.T_STAR, "*".toList⟩, ⟨.T_NUM, "3".toList⟩, ⟨.T_SEMI, ";".toList⟩]

/-- The tokens of `a + x = 1 * c ;`: the operand `x = 1` in the place of `b`
in `a + b * c`. -/
def c2_assign_second : Parser :=
  [⟨.T_IDENT, "a".toList⟩, ⟨.T_PLUS, "+".toList⟩, ⟨.T_IDENT, "x".toList⟩, ⟨.T_EQ, "=".toList⟩,
   ⟨.T_NUM, "1".toList⟩, ⟨.T_STAR, "*".toList⟩, ⟨.T_IDENT, "c".toList⟩, ⟨.T_SEMI, ";".toList⟩]

/-- The tokens of `2 + 3 * 4 ;`. -/
def c2_tokens : Parser :=
  [⟨.T_NUM, "2".toList⟩, ⟨.T_PLUS, "+".toList⟩, ⟨.T_NUM, "3".toList⟩, ⟨.T_STAR, "*".toList⟩,
   ⟨.T_NUM, "4".toList⟩, ⟨.T_SEMI, ";".toList⟩]

/-- Token kinds that start a primary expression in `parse_primary`. -/
def starts_primary (t : TokType) : Bool :=
  t = .T_NUM || t = .T_STR || t = .T_LBRACKET || t = .T_IDENT || t = .T_LPAREN

/-- Token kinds that start a statement other than an expression statement. -/
def starts_keyword_stmt (t : TokType) : Bool :=
  t = .T_RET || t = .T_LET || t = .T_IF || t = .T_WHILE

/-- How `parse(tokenize(src))` ends: `some none` when it returns an AST,
`some (some e)` when the parser fails with `e`, `none` when `tokenize` is
undefined. -/
def parse_outcome (src : List Char) : Option (Option Fail) :=
  (tokenize src).map (fun toks =>
    match parse toks with
    | .ok _ => none
    | .error e => some e)

/-- The program `parse` builds for `fn <name>() { let <var>; }`. -/
def c7_func_program (name var : Tok) : AstNode :=
  ast_add (ast_new .AST_PROGRAM)
    (ast_add { ast_new .AST_FUNCTION with name := some name.s }
      (ast_add (ast_new .AST_BLOCK) { ast_new .AST_LET with name := some var.s }))

/-- The program `parse` builds for `struct <name> { <field> : <type> }`. -/
def c7_struct_program (name field : Tok) : AstNode :=
  ast_add (ast_new .AST_PROGRAM)
    (ast_add { ast_new .AST_STRUCT_DEF with name := some name.s }
      { ast_new .AST_IDENT with name := some field.s })

/-- Whether `lex_tok` recognises a token that starts with the character `c`
followed by the character `next`: the tests of `lex_tok` after the test for
NUL, in their order. -/
def starts_token (c next : Char) : Bool :=
  isalpha c || c = '_' || isdigit c || c = c_quote ||
  c = '(' || c = ')' || c = c_lbrace || c = c_rbrace || c = '[' || c = ']' ||
  c = ';' || c = ':' || c = ',' || c = '.' || c = '+' || c = '*' || c = '/' ||
  c = '=' || (c = '!' && next = '=') || c = '<' || c = '>' || c = '-'

/-- The first `n` tokens of a text, none of them of kind `T_EOF`, and the
cursor after them. -/
def lex_n : Nat → Lex → Option (List Tok × Lex)
  | 0, l => some ([], l)
  | n + 1, l =>
    match lex_tok l with
    | none => none
    | some (k, l1) =>
      if k.t = .T_EOF then none
      else (lex_n n l1).map (fun r => (k :: r.1, r.2))

/-- The numbers of the labels `.Ln:` defined in a sequence of lines. -/
def label_defs (code : List Asm) : List Nat :=
  code.filterMap (fun a => match a with | .label_L n => some n | _ => none)

/-- The targets of the jumps `jz .Ln` and `jmp .Ln` in a sequence of lines. -/
def jump_targets (code : List Asm) : List Nat :=
  code.filterMap (fun a => match a with | .jz_L n => some n | .jmp_L n => some n | _ => none)

/-- The targets of the conditional jumps `jz .Ln`, in the order of the
lines. Every `if` and every `while` statement emits exactly one, after its
condition and before its body. -/
def jz_targets (code : List Asm) : List Nat :=
  code.filterMap (fun a => match a with | .jz_L n => some n | _ => none)

/-- The string load that starts at the line `a`, followed by the lines
`rest`: the operands of `mov rax, <s>` directly followed by `mov rbx, <n>`. -/
def str_pair : Asm → List Asm → List (List Char × Int)
  | .mov_rax_s s, .mov_rbx_d n :: _ => [(s, n)]
  | _, _ => []

/-- The string loads in a sequence of lines, in the order of the lines. -/
def str_loads : List Asm → List (List Char × Int)
  | [] => []
  | a :: rest => str_pair a rest ++ str_loads rest

/-- The rows of a string table that come after the first `start` rows are
labelled `str_<start>`, `str_<start+1>`, ... and record the length of their
text. -/
def rows_ok : Nat → List StringEntry → Prop
  | _, [] => True
  | start, e :: rest =>
    e.label = "str_".toList ++ fmt_d (start : Int) ∧ e.len = (e.value.length : Int)
      ∧ rows_ok (start + 1) rest

/-- What an expression may do to the code generator: it leaves the label
counter, the symbol table and the type table alone, appends lines that
contain no jump and no label, and appends one row to the string table for
every string load among those lines, in the same order. -/
def ExprExt (cg cg1 : Codegen) : Prop :=
  cg1.label_count = cg.label_count ∧ cg1.symtab = cg.symtab ∧ cg1.types = cg.types ∧
  ∃ lines rows, cg1.code = cg.code ++ lines ∧ cg1.strtab = cg.strtab ++ rows
    ∧ label_defs lines = [] ∧ jump_targets lines = []
    ∧ (∀ n, lines.head? ≠ some (.mov_rbx_d n))
    ∧ str_loads lines = rows.map (fun e => (e.label, e.len))
    ∧ rows_ok cg.strtab.length rows

/-- A line that is neither a jump to, nor the definition of, a numbered
label, nor a `mov rbx, <n>`. -/
def Asm.plain : Asm → Bool
  | .jz_L _ => false
  | .jmp_L _ => false
  | .label_L _ => false
  | .mov_rbx_d _ => false
  | _ => true

mutual
/-- The number of `if` and `while` statements `gen_stmt` generates for a
statement node, the node itself included. -/
def count_branches : AstNode → Nat
  | ⟨.AST_IF, _, children, _, _, _, _⟩ =>
    match children with
    | _ :: c1 :: [] => 1 + count_block c1
    | _ :: c1 :: c2 :: _ => 1 + count_block c1 + count_block c2
    | _ => 0
  | ⟨.AST_WHILE, _, children, _, _, _, _⟩ =>
    match children with
    | _ :: c1 :: _ => 1 + count_block c1
    | _ => 0
  | ⟨_, _, _, _, _, _, _⟩ => 0
/-- That number for the statements of a block node. -/
def count_block : AstNode → Nat
  | ⟨_, _, stmts, _, _, _, _⟩ => count_stmts stmts
/-- That number for a list of statements. -/
def count_stmts : List AstNode → Nat
  | [] => 0
  | s :: rest => count_branches s + count_stmts rest
end

/-- The targets of the conditional jumps of statements generated from label
counter `L` on: the first one is `L` or `L + 1`, the second one `L + 2` or
`L + 3`, and so on. -/
def JzOk : Nat → List Nat → Prop
  | _, [] => True
  | L, t :: rest => (L ≤ t ∧ t ≤ L + 1) ∧ JzOk (L + 2) rest

/-- The labels of the lines generated while the label counter went from `L`
to `L1`: every label from `L` to `L1 - 1` is defined exactly once and no
other is, every jump goes to one of them, and two labels were taken per
conditional jump. -/
def BranchOk (L L1 : Nat) (lines : List Asm) : Prop :=
  (label_defs lines).Nodup
    ∧ (∀ t, t ∈ label_defs lines ↔ L ≤ t ∧ t < L1)
    ∧ (∀ t ∈ jump_targets lines, L ≤ t ∧ t < L1)
    ∧ JzOk L (jz_targets lines)
    ∧ L1 = L + 2 * (jz_targets lines).length

/-- The lines appended between two states of the code generator hold `k`
conditional jumps and satisfy `BranchOk` for the two label counters. -/
def BranchExt (k : Nat) (cg cg1 : Codegen) : Prop :=
  ∃ lines, cg1.code = cg.code ++ lines ∧ (jz_targets lines).length = k
    ∧ BranchOk cg.label_count cg1.label_count lines

/-- The string table between two states of the code generator: the type
table is unchanged, and one row is appended for every string load among the
appended lines, in the same order, labelled by its index. -/
def StrExt (cg cg1 : Codegen) : Prop :=
  cg1.types = cg.types ∧
  ∃ lines rows, cg1.code = cg.code ++ lines ∧ cg1.strtab = cg.strtab ++ rows
    ∧ (∀ n, lines.head? ≠ some (.mov_rbx_d n))
    ∧ str_loads lines = rows.map (fun e => (e.label, e.len))
    ∧ rows_ok cg.strtab.length rows

/-- Both properties of the lines a statement appends: `StrExt`, and
`BranchExt` with `k` conditional jumps. -/
def StmtExt (k : Nat) (cg cg1 : Codegen) : Prop := StrExt cg cg1 ∧ BranchExt k cg cg1

/-- The number of `if` and `while` statements in the body of a function
node: the body is the last child. -/
def count_func (n : AstNode) : Nat :=
  match n.children.getLast? with
  | some body => count_block body
  | none => 0

/-- The number of `if` and `while` statements in the functions among the
children of a program. -/
def count_funcs : List AstNode → Nat
  | [] => 0
  | c :: rest => (if c.type = .AST_FUNCTION then count_func c else 0) + count_funcs rest

/-- The state of `codegen` before the first `emit`. -/
def codegen_init (strtab : StringTable) (types : TypeTable) : Codegen :=
  { label_count := 0, symtab := none, strtab := strtab, types := types, code := [] }

/-- The number a sequence of decimal digits stands for, read from the left
with `acc` as the value of the digits before. -/
def digits_value (acc : Nat) (ds : List Char) : Nat :=
  ds.foldl (fun a c => 10 * a + (c.toNat - 48)) acc

/-- A program that holds the text `hi` twice, with another string in
between. -/
def c10_source : List Char :=
  "fn main() \x7b print(\"hi\"); let s = \"yo\"; print(\"hi\"); return 0; \x7d".toList

/-- The syntax tree `parse` builds for `c10_source`. -/
def c10_ast : AstNode :=
  match tokenize c10_source with
  | none => ast_new .AST_PROGRAM
  | some toks =>
    match parse toks with
    | .error _ => ast_new .AST_PROGRAM
    | .ok (ast, _) => ast

/-- The final state of `codegen` on `c10_ast`. -/
def c10_cg : Codegen :=
  match codegen c10_ast strtab_new typetab_new with
  | none => codegen_init strtab_new typetab_new
  | some cg => cg

/-- The node `parse_primary` builds for a number with the digits `v`. -/
def num_node (v : List Char) : AstNode := { ast_new .AST_NUMBER with value := some v }

/-- The node `parse_primary` builds for a reference to the variable `x`. -/
def ident_node (x : List Char) : AstNode := { ast_new .AST_IDENT with name := some x }

/-- The node `parse_primary` builds for the assignment `x = rhs`. -/
def assign_node (x : List Char) (rhs : AstNode) : AstNode :=
  ast_add { ast_new .AST_ASSIGN with name := some x } rhs

/-- The node `parse_stmt` builds for `let x = init;`. -/
def let_node (x : List Char) (init : AstNode) : AstNode :=
  ast_add { ast_new .AST_LET with name := some x } init

/-- The node `parse_stmt` builds for `return e;`. -/
def return_node (e : AstNode) : AstNode := ast_add (ast_new .AST_RETURN) e

/-- The token of the operator `+`. -/
def plus_tok : Tok := ⟨.T_PLUS, "+".toList⟩

/-- The statements of the body `let x = a; x = x + b; return x;`. -/
def c5_body (x a b : List Char) : List AstNode :=
  [let_node x (num_node a),
   assign_node x (mk_binop plus_tok (ident_node x) (num_node b)),
   return_node (ident_node x)]

/-- The lines `gen_stmts` emits for `c5_body` when `x` gets the slot at
offset `off`. -/
def c5_lines (off : Int) (a b : List Char) : List Asm :=
  [.mov_rax_s a, .store_rax off,
   .load_rax off, .push_rax, .mov_rax_s b, .mov_rbx_rax, .pop_rax, .add_rax_rbx, .store_rax off,
   .load_rax off, .leave, .ret]

/-- The lines emitted for `let x = 5; x = x + 1; return x;` when an `x` is
already declared at offset -8: the store of the second `let` goes to offset
-16, every other access to offset -8. -/
def c5_lines_redeclared : List Asm :=
  [.mov_rax_s "5".toList, .store_rax (-16),
   .load_rax (-8), .push_rax, .mov_rax_s "1".toList, .mov_rbx_rax, .pop_rax, .add_rax_rbx,
   .store_rax (-8), .load_rax (-8), .leave, .ret, .xor_rax_rax, .leave, .ret]

/-- The symbol table only grows between two states of the code generator:
the symbols of the first state are still there, in their places, and new
ones come after them. -/
def SymGrow (cg cg1 : Codegen) : Prop :=
  ∀ st, cg.symtab = some st →
    ∃ st1 more, cg1.symtab = some st1 ∧ st1.symbols = st.symbols ++ more

/-- The symbol table after `symtab_add(st, x, 1)`. -/
def symtab_with (st : SymbolTable) (x : List Char) : SymbolTable :=
  { symbols := st.symbols ++
      [{ name := x, offset := -(st.stack_size + 8), size := 1, type_name := none }],
    stack_size := st.stack_size + 8 }

/-- The condition code `gen_expr` selects for a comparison operator. -/
def compare_cond (op : List Char) : Option Cond :=
  if op = "==".toList then some .e
  else if op = "!=".toList then some .ne
  else if op = "<".toList then some .l
  else if op = ">".toList then some .g
  else if op = "<=".toList then some .le
  else if op = ">=".toList then some .ge
  else none

/-- The value of `a op b` for the operators `+`, `-` and `*` on 64-bit
words; the division is left out. -/
def binop_value (op : List Char) (a b : Int) : Option Int :=
  if op.headD c_nul = '+' then some ((a + b) % W64)
  else if op.headD c_nul = '-' then some ((a - b) % W64)
  else if op.headD c_nul = '*' then some ((to_signed a * to_signed b) % W64)
  else none

/-- The value of an expression of the source language built from decimal
literals, declared variables, the operators `+ - *` and the comparisons,
as the reference the emitted code is compared with. The variable at stack
offset `off` holds `env off`; arithmetic is on 64-bit words, comparisons are
signed and give 1 or 0. Every other expression has no value here. -/
def expr_value (st : Option SymbolTable) (env : Int → Int) : AstNode → Option Int
  | ⟨.AST_NUMBER, _, _, value, _, _, _⟩ => do
      let v ← value
      let n ← dec_value v
      if (n : Int) < W64 then some (n : Int) else none
  | ⟨.AST_IDENT, name, _, _, _, _, _⟩ => do
      let off ← symtab_lookup st name
      if off ≠ 0 then some (env off) else none
  | ⟨.AST_BINOP, _, children, _, op, _, _⟩ =>
      match children with
      | c0 :: c1 :: _ => do
        let a ← expr_value st env c0
        let b ← expr_value st env c1
        let o ← op
        binop_value o a b
      | _ => none
  | ⟨.AST_COMPARE, _, children, _, op, _, _⟩ =>
      match children with
      | c0 :: c1 :: _ => do
        let a ← expr_value st env c0
        let b ← expr_value st env c1
        let o ← op
        let cc ← compare_cond o
        some (if cc.holds (to_signed a) (to_signed b) then 1 else 0)
      | _ => none
  | ⟨_, _, _, _, _, _, _⟩ => none

/-- The slots of the variables of `st` in the machine state `m`: they are
aligned, lie at or above the stack pointer, and hold the values `env`. -/
def SlotsOk (st : SymbolTable) (env : Int → Int) (m : Machine) : Prop :=
  m.rbp % 8 = 0 ∧ m.rsp % 8 = 0 ∧
  ∀ s ∈ st.symbols, s.offset % 8 = 0 ∧ m.rsp ≤ m.rbp + s.offset
    ∧ m.mem (m.rbp + s.offset) = env s.offset

/-- Running `lines` from `m` falls through with `v` in `rax`, the stack and
frame pointers as before, and the memory from the stack pointer upwards
unchanged. -/
def Computes (lines : List Asm) (m : Machine) (v : Int) : Prop :=
  ∃ m1, run lines m = .fell_through m1 ∧ m1.rax = v ∧ m1.rsp = m.rsp ∧ m1.rbp = m.rbp
    ∧ ∀ a, m.rsp ≤ a → m1.mem a = m.mem a

/-- The node `struct_lit_loop` builds for the initializer `f: e`. -/
def init_node (f : List Char) (e : AstNode) : AstNode :=
  ast_add { ast_new .AST_IDENT with name := some f } e

/-- The node `postfix_loop` builds for the field access `p.f`. -/
def field_node (p f : List Char) : AstNode :=
  ast_add { ast_new .AST_FIELD_ACCESS with name := some f } (ident_node p)

mutual
/-- The expression holds no array literal, no struct literal and no
assignment to the variable `p`: its code stores into no field of `p`. -/
def no_field_store (p : List Char) : AstNode → Bool
  | ⟨type, name, children, _, _, _, _⟩ =>
    type ≠ .AST_ARRAY_LITERAL && type ≠ .AST_STRUCT_LITERAL
      && !(type = .AST_ASSIGN && name = some p) && no_field_store_list p children
/-- The same for a list of expressions. -/
def no_field_store_list (p : List Char) : List AstNode → Bool
  | [] => true
  | c :: cs => no_field_store p c && no_field_store_list p cs
end

/-- The seven keyword lexemes, in the order `kw` tests them. -/
def keywords : List (List Char × TokType) :=
  [("fn".toList, .T_FN), ("let".toList, .T_LET), ("if".toList, .T_IF),
   ("else".toList, .T_ELSE), ("while".toList, .T_WHILE), ("return".toList, .T_RET),
   ("struct".toList, .T_STRUCT)]

/-- A character that continues an identifier: `isalnum(c) || c == '_'`. -/
def ident_char (d : Char) : Bool := isalnum d || d = '_'

/-- A program that prints the same text twice. -/
def c11_source : List Char :=
  "fn main() \x7b print(\"hi\"); print(\"hi\"); return 0; \x7d".toList

/-- One call on a symbol table: `symtab_add(st, name, size)` or
`symtab_add_struct(st, name, type_name, size_bytes)`, with non-`NULL`
strings. -/
inductive SymOp where
  | add (name : List Char) (size : Int)
  | add_struct (name type_name : List Char) (size_bytes : Int)

/-- The bytes a call adds to `stack_size`: 8 per slot for `symtab_add`,
`size_bytes` for `symtab_add_struct`. -/
def SymOp.bytes : SymOp → Int
  | .add _ size => size * 8
  | .add_struct _ _ size_bytes => size_bytes

/-- The table after one call. -/
def apply_op (st : SymbolTable) : SymOp → Option SymbolTable
  | .add name size => (symtab_add st (some name) size).map Prod.fst
  | .add_struct name tn size_bytes =>
    (symtab_add_struct st (some name) (some tn) size_bytes).map Prod.fst

/-- The table after a sequence of calls. -/
def apply_ops (st : SymbolTable) : List SymOp → Option SymbolTable
  | [] => some st
  | op :: rest => (apply_op st op).bind (fun st1 => apply_ops st1 rest)

/-- The bytes of the range a symbol stands for: `size` counts slots of 8
bytes for a symbol without a type name and bytes for a struct symbol. -/
def Symbol.bytes (s : Symbol) : Int := if s.type_name.isSome then s.size else s.size * 8

/-- The sum of the bytes of the first `k` calls. -/
def bytes_before (ops : List SymOp) (k : Nat) : Int := ((ops.take k).map SymOp.bytes).sum

/-- The value a C `int` holds for the result `x` of an arithmetic step: 32
bits in two's complement, wrapping as the compiled code does. -/
def int32 (x : Int) : Int := (x + 2147483648) % 4294967296 - 2147483648

/-- The C function `symtab_add` with the arithmetic of the type `int`:
`bytes = size * 8`, `stack_size += bytes` and `-stack_size` are 32-bit
values. `symtab_add` computes the same in the unbounded integers; the two
agree wherever no step leaves the range of `int`. -/
def symtab_add_i32 (st : SymbolTable) (name : Option (List Char)) (size : Int) :
    Option (SymbolTable × Int) :=
  match name with
  | none => none
  | some nm =>
    let bytes := int32 (size * 8)
    let stack_size := int32 (st.stack_size + bytes)
    some ({ symbols := st.symbols ++
              [{ name := nm, offset := int32 (-stack_size), size := size, type_name := none }],
            stack_size := stack_size }, int32 (-stack_size))

/-- The C function `symtab_add_struct` with the arithmetic of the type
`int`. -/
def symtab_add_struct_i32 (st : SymbolTable) (name type_name : Option (List Char))
    (size_bytes : Int) : Option (SymbolTable × Int) :=
  match name, type_name with
  | some nm, some tn =>
    let stack_size := int32 (st.stack_size + size_bytes)
    some ({ symbols := st.symbols ++
              [{ name := nm, offset := int32 (-stack_size), size := size_bytes,
                 type_name := some tn }],
            stack_size := stack_size }, int32 (-stack_size))
  | _, _ => none

/-- The table after one call, in the arithmetic of `int`. -/
def apply_op_i32 (st : SymbolTable) : SymOp → Option SymbolTable
  | .add name size => (symtab_add_i32 st (some name) size).map Prod.fst
  | .add_struct name tn size_bytes =>
    (symtab_add_struct_i32 st (some name) (some tn) size_bytes).map Prod.fst

/-- The table after a sequence of calls, in the arithmetic of `int`. -/
def apply_ops_i32 (st : SymbolTable) : List SymOp → Option SymbolTable
  | [] => some st
  | op :: rest => (apply_op_i32 st op).bind (fun st1 => apply_ops_i32 st1 rest)

/-- No step of the calls `ops` on a fresh table leaves the range of `int`:
the bytes of every call lie in the range of `int`, from `-2^31` to
`2^31 - 1`, and every running total of the bytes lies strictly between
`-2^31` and `2^31`, so that its negation is in the range too. -/
def no_wrap (ops : List SymOp) : Bool :=
  ops.all (fun op => -2147483648 ≤ op.bytes && op.bytes < 2147483648)
    && (List.range (ops.length + 1)).all
        (fun j => -2147483648 < bytes_before ops j && bytes_before ops j < 2147483648)

/-- A function whose first declaration is an empty array literal: the
symbol `a` gets zero bytes and the offset 0. -/
def c15_source : List Char := "fn main() \x7b let a = []; return a; \x7d".toList

/-- The state of the code generator at the start of a function body without
parameters. -/
def body_start : Codegen :=
  { label_count := 0, symtab := some symtab_new, strtab := [], types := [], code := [] }

/-- The two statements `let a = []; return a;` as `parse_stmt` builds them. -/
def c15_stmts : List AstNode :=
  [let_node "a".toList ({ ast_new .AST_ARRAY_LITERAL with array_size := 0 }),
   return_node (ident_node "a".toList)]

/-- A function that reads a field of an undeclared name. -/
def c19_source : List Char := "fn main() \x7b return q.x; \x7d".toList

/-- A function that reads a field of a scalar variable. -/
def c19_scalar_source : List Char := "fn main() \x7b let x = 1; return x.f; \x7d".toList

/-- A struct literal that initializes `z`, which is no field of `P`. -/
def c18_source : List Char :=
  "struct P \x7b x: i32 \x7d fn main() \x7b let p = P \x7b z: 7 \x7d; return 0; \x7d".toList

/-- A struct literal of the type `Q`, which is not defined. -/
def c18_unregistered_source : List Char :=
  "fn main() \x7b let p = Q \x7b z: 7 \x7d; return 0; \x7d".toList

/-- The names `gen_expr` treats as builtins when they are called. -/
def is_builtin (nm : List Char) : Bool :=
  nm = "print".toList || nm = "println".toList || nm = "print_int".toList || nm = "exit".toList

/-- The argument code of a regular call as the specification words it: the
arguments are paired, in order, with `rdi, rsi, rdx, rcx, r8, r9`; each pair
emits the code of the argument and then the move of `rax` into the register.
Arguments without a register are in no pair. -/
def call_args_by_spec (cg : Codegen) (children : List AstNode) : Option Codegen :=
  (children.zip regs).foldlM
    (fun st cr => (gen_expr st cr.1).map (fun c => emit c [.mov_reg_rax cr.2])) cg

/-- A call with eight arguments: the seventh is a string, the eighth a call. -/
def c16_source : List Char :=
  "fn main() \x7b return f(1, 2, 3, 4, 5, 6, \"s\", g(7)); \x7d".toList

mutual
/-- The `let` nodes `gen_stmt` reaches in a statement node, in the order in
which it reaches them. -/
def let_decls : AstNode → List AstNode
  | ⟨.AST_LET, name, children, value, op, asz, stt⟩ =>
    [⟨.AST_LET, name, children, value, op, asz, stt⟩]
  | ⟨.AST_IF, _, children, _, _, _, _⟩ =>
    match children with
    | _ :: c1 :: [] => block_decls c1
    | _ :: c1 :: c2 :: _ => block_decls c1 ++ block_decls c2
    | _ => []
  | ⟨.AST_WHILE, _, children, _, _, _, _⟩ =>
    match children with
    | _ :: c1 :: _ => block_decls c1
    | _ => []
  | ⟨_, _, _, _, _, _, _⟩ => []
/-- The `let` nodes reached in the statements of a block node. -/
def block_decls : AstNode → List AstNode
  | ⟨_, _, stmts, _, _, _, _⟩ => stmts_decls stmts
/-- The `let` nodes reached in a list of statements. -/
def stmts_decls : List AstNode → List AstNode
  | [] => []
  | s :: rest => let_decls s ++ stmts_decls rest
end

/-- The call on the symbol table that the `AST_LET` case of `gen_stmt` makes
for the `let` node `l`: `symtab_add` with one slot, or with `array_size`
slots for an array literal, or `symtab_add_struct` with the size of the
registered struct type for a struct literal. -/
def decl_op (types : TypeTable) (l : AstNode) : Option SymOp := do
  let x ← l.name
  match l.children with
  | [] => some (.add x 1)
  | c0 :: _ =>
    if c0.type = .AST_ARRAY_LITERAL then some (.add x c0.array_size)
    else if c0.type = .AST_STRUCT_LITERAL then do
      let found ← typetab_lookup types c0.struct_type
      match found with
      | none => some (.add x 1)
      | some i => do
        let sT ← types.get? i
        let tn ← c0.struct_type
        some (.add_struct x tn sT.size)
    else some (.add x 1)

/-- Between two states of the code generator the `let` nodes `decls` were
generated: the symbol table of the second state is the one of the first
after the calls of `decl_op` for these nodes, in order. -/
def Declares (types : TypeTable) (decls : List AstNode) (cg cg1 : Codegen) : Prop :=
  ∀ st, cg.symtab = some st →
    ∃ ops st1, List.Forall₂ (fun l op => decl_op types l = some op) decls ops
      ∧ apply_ops st ops = some st1 ∧ cg1.symtab = some st1

/-- The `let` nodes in `decls` that are bound to an array literal have a
slot count `array_size` that is not negative, as `parse_primary` sets it. -/
@[reducible] def ArraySizesOk (decls : List AstNode) : Prop :=
  ∀ l ∈ decls, ∀ c0 ∈ l.children.head?, c0.type = .AST_ARRAY_LITERAL → 0 ≤ c0.array_size

/-- The symbol table `gen_func` has built when it reaches the end of the
body of the function node `n`: the table after `gen_params` and the
statements of the body, `none` where `gen_func` is undefined. -/
def func_table (cg : Codegen) (n : AstNode) : Option SymbolTable := do
  let nm ← n.name
  let cg2 := emit (emit cg [.func_label nm]) [.push_rbp, .mov_rbp_rsp]
  let body ← n.children.getLast?
  let r ← gen_params cg2 symtab_new n.children.dropLast regs
  let cg5 ← gen_block (emit { r.1 with symtab := some r.2 } [.sub_rsp_128]) body
  cg5.symtab

/-- A function with two parameters, a scalar and an array of two elements. -/
def c13_source : List Char :=
  "fn f(a, b) \x7b let x = 1; let v = [1, 2]; return x; \x7d".toList

/-- The function node `parse` builds for `c13_source`. -/
def c13_func : AstNode :=
  match tokenize c13_source with
  | none => ast_new .AST_FUNCTION
  | some toks =>
    match parse toks with
    | .error _ => ast_new .AST_FUNCTION
    | .ok (ast, _) => ast.children.headD (ast_new .AST_FUNCTION)

/-- The name a call on the symbol table records. -/
def SymOp.name : SymOp → List Char
  | .add name _ => name
  | .add_struct name _ _ => name

/-- The names in a symbol table, in the order of the symbols. -/
def SymbolTable.names (st : SymbolTable) : List (List Char) := st.symbols.map (fun s => s.name)

/-- Two functions: `f` declares `x`, `main` refers to `x`. -/
def c14_source : List Char :=
  "fn f() \x7b let x = 5; return x; \x7d fn main() \x7b return x; \x7d".toList

/-- A function with seven parameters that returns the seventh. -/
def c14_seven_source : List Char :=
  "fn h(a, b, c, d, e, f, g) \x7b return g; \x7d".toList

/-- A state in which the current symbol table holds `x`. -/
def c14_outer : Codegen :=
  { label_count := 0, symtab := some (symtab_with symtab_new "x".toList), strtab := [],
    types := [], code := [] }

/-- The state `gen_func` reaches from `c14_outer` in a function `f(a)` after
the statement `let y = 1;`. -/
def c14_inner : Codegen :=
  { label_count := 0,
    symtab := some (symtab_with (symtab_with symtab_new "a".toList) "y".toList),
    strtab := [], types := [],
    code := [.func_label "f".toList, .push_rbp, .mov_rbp_rsp, .store_reg (-8) "rdi",
      .sub_rsp_128, .mov_rax_s "1".toList, .store_rax (-16)] }

/-- The node `parse_primary` builds for the array literal `[e0, ..., ek]`. -/
def array_lit_node (elems : List AstNode) : AstNode :=
  { ast_new .AST_ARRAY_LITERAL with children := elems, array_size := elems.length }

/-- The element code of an array literal as the specification words it: the
elements are numbered from `start`; element `i` emits its code and then the
store of `rax` to the offset `base + 8 * i`. -/
def array_elems_by_spec (cg : Codegen) (base : Int) (start : Nat) (elems : List AstNode) :
    Option Codegen :=
  (elems.enumFrom start).foldlM
    (fun st ic => (gen_expr st ic.2).map
      (fun c => emit c [.store_rax (base + 8 * (ic.1 : Int))])) cg

/-- A function that evaluates an array literal of three elements when the
last symbol declared is a scalar. -/
def c17_source : List Char := "fn main() \x7b let x = 5; return [1, 2, 3]; \x7d".toList

/-- The symbol table after `symtab_add(st, a, n)`: `n` slots of 8 bytes. -/
def symtab_with_array (st : SymbolTable) (a : List Char) (n : Nat) : SymbolTable :=
  { symbols := st.symbols ++
      [{ name := a, offset := -(st.stack_size + (n : Int) * 8), size := n, type_name := none }],
    stack_size := st.stack_size + (n : Int) * 8 }

/-- The texts `skip` steps over: blanks (space, tab, carriage return,
newline) and `//` comments that end with a newline. The text of a comment
holds no newline and, as everywhere in a C string, no NUL. -/
inductive Blank : List Char → Prop where
  | done : Blank []
  | space (c : Char) (w : List Char) : is_space c = true → Blank w → Blank (c :: w)
  | comment (body w : List Char) : (∀ c ∈ body, c ≠ c_lf ∧ c ≠ c_nul) → Blank w →
      Blank ('/' :: '/' :: (body ++ c_lf :: w))

/-- The bodies of string literals: a sequence of units, each one character
other than the quote and the backslash, or a backslash followed by one
character. No unit holds a NUL, which ends a C string. -/
inductive StrBody : List Char → Prop where
  | done : StrBody []
  | plain (c : Char) (body : List Char) : c ≠ c_quote → c ≠ c_backslash → c ≠ c_nul →
      StrBody body → StrBody (c :: body)
  | escaped (d : Char) (body : List Char) : d ≠ c_nul → StrBody body →
      StrBody (c_backslash :: d :: body)

/-- The integer an expression built from decimal literals below `2^63`,
parentheses (which leave no node) and the operators `+ - *` denotes, in
unbounded arithmetic. Every other expression has no value here. -/
def int_value : AstNode → Option Int
  | ⟨.AST_NUMBER, _, _, value, _, _, _⟩ => do
      let v ← value
      let n ← dec_value v
      if (n : Int) < 9223372036854775808 then some (n : Int) else none
  | ⟨.AST_BINOP, _, children, _, op, _, _⟩ =>
      match children with
      | c0 :: c1 :: _ => do
        let a ← int_value c0
        let b ← int_value c1
        let o ← op
        if o.headD c_nul = '+' then some (a + b)
        else if o.headD c_nul = '-' then some (a - b)
        else if o.headD c_nul = '*' then some (a * b)
        else none
      | _ => none
  | ⟨_, _, _, _, _, _, _⟩ => none

/-- The lines that follow the code of the two operands of a comparison. -/
def compare_tail_lines (o : List Char) : List Asm :=
  [.mov_rbx_rax, .pop_rax] ++ ([.cmp_rax_rbx] ++ compare_lines o ++ [.movzx_rax_al])

/-- A machine state with `-1` in `rax` and `2` in `rbx`. -/
def c27_state : Machine :=
  { entry_state 0 4096 0 with rax := 18446744073709551615, rbx := 2 }

/-- The expression `(2 - 5) * 3`. -/
def c25_expr : AstNode :=
  mk_binop ⟨.T_STAR, "*".toList⟩
    (mk_binop ⟨.T_MINUS, "-".toList⟩ (num_node "2".toList) (num_node "5".toList))
    (num_node "3".toList)

/-- A chain of operators and operands in the token sequence: from the
position `p` on come pairs of an operator token accepted by `is_op` and an
operand that `operand` parses, and `q` is the position after the last
operand. -/
inductive OpChain (operand : Parser → Except Fail (AstNode × Parser)) (is_op : TokType → Bool) :
    Parser → List (Tok × AstNode) → Parser → Prop where
  | done (p : Parser) : OpChain operand is_op p [] p
  | step (o : Tok) (p p1 q : Parser) (x : AstNode) (rest : List (Tok × AstNode)) :
      is_op o.t = true → operand p = .ok (x, p1) → OpChain operand is_op p1 rest q →
      OpChain operand is_op (o :: p) ((o, x) :: rest) q

/-- The left-nested tree of the chain `x0 op1 x1 ... opn xn`:
`mk opn (... (mk op1 x0 x1) ...) xn`. -/
def left_nested (mk : Tok → AstNode → AstNode → AstNode) (x0 : AstNode)
    (pairs : List (Tok × AstNode)) : AstNode :=
  pairs.foldl (fun acc ox => mk ox.1 acc ox.2) x0

/-- The tokens of `a - b - c ;`. -/
def c28_sub : Parser :=
  [⟨.T_IDENT, "a".toList⟩, ⟨.T_MINUS, "-".toList⟩, ⟨.T_IDENT, "b".toList⟩,
   ⟨.T_MINUS, "-".toList⟩, ⟨.T_IDENT, "c".toList⟩, ⟨.T_SEMI, ";".toList⟩]

/-- The tokens of `a / b * c ;`. -/
def c28_div : Parser :=
  [⟨.T_IDENT, "a".toList⟩, ⟨.T_SLASH, "/".toList⟩, ⟨.T_IDENT, "b".toList⟩,
   ⟨.T_STAR, "*".toList⟩, ⟨.T_IDENT, "c".toList⟩, ⟨.T_SEMI, ";".toList⟩]

/-- The tokens of `a < b == c ;`. -/
def c28_cmp : Parser :=
  [⟨.T_IDENT, "a".toList⟩, ⟨.T_LT, "<".toList⟩, ⟨.T_IDENT, "b".toList⟩,
   ⟨.T_EQEQ, "==".toList⟩, ⟨.T_IDENT, "c".toList⟩, ⟨.T_SEMI, ";".toList⟩]

/-- The tokens of `x = 1 - b - c ;`: the operand `x = 1` in the place of
`a` in `a - b - c`. -/
def c28_assign_first : Parser :=
  [⟨.T_IDENT, "x".toList⟩, ⟨.T_EQ, "=".toList⟩, ⟨.T_NUM, "1".toList⟩, ⟨.T_MINUS, "-".toList⟩,
   ⟨.T_IDENT, "b".toList⟩, ⟨.T_MINUS, "-".toList⟩, ⟨.T_IDENT, "c".toList⟩,
   ⟨.T_SEMI, ";".toList⟩]

/-- The tokens of `a - x = 1 - c ;`: the operand `x = 1` in the place of
`b` in `a - b - c`. -/
def c28_assign_second : Parser :=
  [⟨.T_IDENT, "a".toList⟩, ⟨.T_MINUS, "-".toList⟩, ⟨.T_IDENT, "x".toList⟩, ⟨.T_EQ, "=".toList⟩,
   ⟨.T_NUM, "1".toList⟩, ⟨.T_MINUS, "-".toList⟩, ⟨.T_IDENT, "c".toList⟩,
   ⟨.T_SEMI, ";".toList⟩]

/-- The lines of a function up to its first `call`. -/
def before_call (code : List Asm) : List Asm :=
  code.takeWhile (fun a => match a with | .call_s _ => false | _ => true)

/-- The six argument registers `rdi, rsi, rdx, rcx, r8, r9` at the end of
a run that fell through. -/
def arg_regs : Run → Option (List Int)
  | .fell_through m => some [m.rdi, m.rsi, m.rdx, m.rcx, m.r8, m.r9]
  | _ => none

/-- Compile a source text, run the code of `main` up to its first `call`
and read the argument registers. -/
def args_at_call (src : List Char) (m : Machine) : Option (Option (List Int)) :=
  (compile src).map (fun cg => arg_regs (run (before_call (func_code "main".toList cg.code)) m))

/-- A program whose call has a division as fourth argument. -/
def c29_source : List Char :=
  ("fn f(a, b, c, d) \x7b return c; \x7d " ++
    "fn main() \x7b return f(1, 2, 3, 8 / 2); \x7d").toList

/-- The same program with the quotient written out. -/
def c29_plain_source : List Char :=
  ("fn f(a, b, c, d) \x7b return c; \x7d " ++
    "fn main() \x7b return f(1, 2, 3, 4); \x7d").toList

/-- A machine state with `3` in `rdx`, dividend `8` and divisor `2`. -/
def c29_state : Machine :=
  { entry_state 0 4096 0 with rax := 8, rbx := 2, rdx := 3 }

/-- The node `postfix_loop` builds for `arr[idx]`. -/
def index_node (arr idx : AstNode) : AstNode :=
  ast_add (ast_add (ast_new .AST_INDEX) arr) idx

/-- The symbol `symtab_add(st, a, n)` records for an array of `n` slots. -/
def array_symbol (st : SymbolTable) (a : List Char) (n : Nat) : Symbol :=
  { name := a, offset := -(st.stack_size + (n : Int) * 8), size := n, type_name := none }

/-- A function that fills an array of three elements and reads the second. -/
def c30_source : List Char :=
  "fn main() \x7b let a = [10, 20, 30]; return a[1]; \x7d".toList

/-- A machine state inside a function with the frame base at 4096 and the
index 1 in `rax`. -/
def c30_state : Machine :=
  { entry_state 0 3968 0 with rax := 1, rbp := 4096 }

/-- The symbol and the copy of the parameters as the specification words
them: the parameters are paired with the registers `rdi, rsi, rdx, rcx, r8,
r9` (so only the first six are) and numbered from `k`; parameter `i` gets
the slot at offset `-8 * (i + 1)` and the line `mov [rbp-8*(i+1)], reg_i`. -/
def param_slots_by_spec (k : Nat) (names : List (List Char)) (rs : List String) :
    List (Symbol × Asm) :=
  ((names.zip rs).enumFrom k).map (fun ixr =>
    ({ name := ixr.2.1, offset := -8 * ((ixr.1 : Int) + 1), size := 1, type_name := none },
     .store_reg (-8 * ((ixr.1 : Int) + 1)) ixr.2.2))

/-- A function with seven parameters whose body refers to the first and
the seventh. -/
def c31_source : List Char :=
  "fn h(a, b, c, d, e, f, g) \x7b let x = a; return g; \x7d".toList

/-- A source text whose last character is a backslash inside a string
literal that is not closed. -/
def c33_source : List Char :=
  "fn main() \x7b print(".toList ++ [c_quote, 'a', 'b', 'c', c_backslash]

/-- The node `postfix_loop` builds for the field access `obj.f` on any
operand `obj`. -/
def field_access_node (obj : AstNode) (f : List Char) : AstNode :=
  ast_add { ast_new .AST_FIELD_ACCESS with name := some f } obj

/-- A function that declares a variable and then indexes a number. -/
def c34_source : List Char :=
  "fn main() \x7b let x = 1; return 5[0]; \x7d".toList

/-- A function that declares a variable and then reads a field of a
number. -/
def c34_field_source : List Char :=
  "fn main() \x7b let x = 1; return 5 .y; \x7d".toList

/-- The program `parse` builds for `c34_source`. -/
def c34_ast : AstNode :=
  ast_add (ast_new .AST_PROGRAM)
    (ast_add { ast_new .AST_FUNCTION with name := some "main".toList }
      (ast_add
        (ast_add (ast_new .AST_BLOCK) (let_node "x".toList (num_node "1".toList)))
        (return_node (index_node (num_node "5".toList) (num_node "0".toList)))))

/-- The program `parse` builds for `c34_field_source`. -/
def c34_field_ast : AstNode :=
  ast_add (ast_new .AST_PROGRAM)
    (ast_add { ast_new .AST_FUNCTION with name := some "main".toList }
      (ast_add
        (ast_add (ast_new .AST_BLOCK) (let_node "x".toList (num_node "1".toList)))
        (return_node (field_access_node (num_node "5".toList) "y".toList))))

/-- The token of a semicolon. -/
def semi_tok : Tok := ⟨.T_SEMI, [';']⟩

/-- The end-of-input token. -/
def eof_tok : Tok := ⟨.T_EOF, []⟩

/-- The number of places at which the word `w` starts in a text. -/
def count_word (w : List Char) : List Char → Nat
  | [] => 0
  | c :: cs => (if w.isPrefixOf (c :: cs) then 1 else 0) + count_word w cs

/-- The number of `pop` instructions in one emitted line. -/
def Asm.pops : Asm → Nat
  | .pop_rax => 1
  | .text s => count_word "pop".toList s.toList
  | _ => 0

/-- A function whose body holds four expression statements that are
neither a call nor an assignment, one of them with a call inside. -/
def c37_source : List Char :=
  ("fn main() \x7b 1 + f(); a[0]; p.x; ".toList ++ [c_quote, 's', c_quote]
    ++ "; return 0; \x7d".toList)

/-- The child structure of a node of type `t` with the children `cs`, as
code generation relies on it: two children for `BinaryOp`, `Compare` and
`Index`, one for `Assign` and `FieldAccess`, at most one for `Return` and
`Let`, two for `While` and two or three for `If` with blocks from the second
on, identifier nodes with one child under a `StructLiteral`, a block
preceded by identifier nodes under a `Function`, and struct definitions and
functions under the `Program`. -/
def shape_ok (t : AstType) (cs : List AstNode) : Bool :=
  match t with
  | .AST_BINOP => cs.length = 2
  | .AST_COMPARE => cs.length = 2
  | .AST_INDEX => cs.length = 2
  | .AST_ASSIGN => cs.length = 1
  | .AST_FIELD_ACCESS => cs.length = 1
  | .AST_RETURN => cs.length ≤ 1
  | .AST_LET => cs.length ≤ 1
  | .AST_WHILE => cs.length = 2 && (cs.drop 1).all (fun c => c.type = .AST_BLOCK)
  | .AST_IF =>
    (cs.length = 2 || cs.length = 3) && (cs.drop 1).all (fun c => c.type = .AST_BLOCK)
  | .AST_STRUCT_LITERAL => cs.all (fun c => c.type = .AST_IDENT && c.children.length = 1)
  | .AST_FUNCTION =>
    cs.getLast?.any (fun c => c.type = .AST_BLOCK)
      && cs.dropLast.all (fun c => c.type = .AST_IDENT)
  | .AST_PROGRAM => cs.all (fun c => c.type = .AST_STRUCT_DEF || c.type = .AST_FUNCTION)
  | _ => true

mutual
/-- Every node of the tree has the child structure `shape_ok`. -/
def wf_node : AstNode → Bool
  | ⟨type, _, children, _, _, _, _⟩ => shape_ok type children && wf_list children
/-- The same for a list of trees. -/
def wf_list : List AstNode → Bool
  | [] => true
  | c :: cs => wf_node c && wf_list cs
end

/-- The child indexes that `gen_expr`, `gen_stmt` and `gen_func` read on a
node without a test of `child_count` are in range: `children[0]` of an
`Assign` and a `FieldAccess`, `children[0]` and `children[1]` of a
`BinaryOp`, a `Compare`, an `Index`, an `If` and a `While`, `children[0]`
of every initializer under a `StructLiteral`, and
`children[child_count - 1]` of a `Function`. -/
def reads_ok (t : AstType) (cs : List AstNode) : Bool :=
  match t with
  | .AST_ASSIGN => 1 ≤ cs.length
  | .AST_FIELD_ACCESS => 1 ≤ cs.length
  | .AST_BINOP => 2 ≤ cs.length
  | .AST_COMPARE => 2 ≤ cs.length
  | .AST_INDEX => 2 ≤ cs.length
  | .AST_IF => 2 ≤ cs.length
  | .AST_WHILE => 2 ≤ cs.length
  | .AST_STRUCT_LITERAL => cs.all (fun c => 1 ≤ c.children.length)
  | .AST_FUNCTION => 1 ≤ cs.length
  | _ => true

mutual
/-- The reads of `reads_ok` are in range at every node of the tree. -/
def tree_reads_ok : AstNode → Bool
  | ⟨type, _, children, _, _, _, _⟩ => reads_ok type children && list_reads_ok children
/-- The same for a list of trees. -/
def list_reads_ok : List AstNode → Bool
  | [] => true
  | c :: cs => tree_reads_ok c && list_reads_ok cs
end

/-- A computation of the parser does not run out of fuel, and its result,
if it returns one, satisfies `Q`. -/
def Good {α : Type} (Q : α → Prop) (x : Except Fail α) : Prop :=
  x ≠ .error .no_fuel ∧ ∀ a, x = .ok a → Q a

/-- The expression parser `pe` is well behaved on fewer than `L` tokens: it
does not run out of fuel, and a result leaves fewer tokens and is a tree of
the shape `wf_node`. -/
def ParsesWell (pe : Parser → Except Fail (AstNode × Parser)) (L : Nat) : Prop :=
  ∀ q : Parser, q.length < L →
    Good (fun r => r.2.length < q.length ∧ wf_node r.1 = true) (pe q)

/-- The block parser `pb` is well behaved on fewer than `L` tokens: it does
not run out of fuel, and a result leaves fewer tokens and is a Block node of
the shape `wf_node`. -/
def BlockWell (pb : Parser → Except Fail (AstNode × Parser)) (L : Nat) : Prop :=
  ∀ q : Parser, q.length < L →
    Good (fun r => r.2.length < q.length ∧ wf_node r.1 = true ∧ r.1.type = .AST_BLOCK) (pb q)

/-- The tokens of `fn main() { return 0; }`. -/
def c39_main_tokens : List Tok :=
  [⟨.T_FN, "fn".toList⟩, ⟨.T_IDENT, "main".toList⟩, ⟨.T_LPAREN, "(".toList⟩,
   ⟨.T_RPAREN, ")".toList⟩, ⟨.T_LBRACE, "\x7b".toList⟩, ⟨.T_RET, "return".toList⟩,
   ⟨.T_NUM, "0".toList⟩, ⟨.T_SEMI, ";".toList⟩, ⟨.T_RBRACE, "\x7d".toList⟩, ⟨.T_EOF, []⟩]

/-- The text of one empty function, `fn f(){}`. -/
def c39_unit : List Char := "fn f()\x7b\x7d".toList

/-- The text of `n` empty functions followed by `fn`. -/
def c39_source_n : Nat → List Char
  | 0 => "fn".toList
  | n + 1 => c39_unit ++ c39_source_n n

/-- The tokens of `fn f(){}`. -/
def c39_unit_tokens : List Tok :=
  [⟨.T_FN, "fn".toList⟩, ⟨.T_IDENT, "f".toList⟩, ⟨.T_LPAREN, "(".toList⟩,
   ⟨.T_RPAREN, ")".toList⟩, ⟨.T_LBRACE, "\x7b".toList⟩, ⟨.T_RBRACE, "\x7d".toList⟩]

/-- The tokens of `n` empty functions followed by `fn`. -/
def c39_tokens_n : Nat → List Tok
  | 0 => [⟨.T_FN, "fn".toList⟩, ⟨.T_EOF, []⟩]
  | n + 1 => c39_unit_tokens ++ c39_tokens_n n

/-- The source of 333 empty functions followed by `fn`: 2000 tokens with
the end-of-input token, as many as the token array has slots. -/
def c39_source : List Char := c39_source_n 333

/-- The node `parse_func` builds for `fn f(){}`. -/
def c39_func : AstNode :=
  ast_add { ast_new .AST_FUNCTION with name := some "f".toList } (ast_new .AST_BLOCK)

/-- A function with a Let, an If, a Compare, two Index nodes, a BinaryOp
and two Returns. -/
def c40_source : List Char :=
  ("fn main() \x7b let a = [1, 2]; if (a[0] < 2) \x7b return a[1] + 1; \x7d " ++
    "return 0; \x7d").toList

/-- The tokens of `c40_source`. -/
def c40_tokens : List Tok := (tokenize c40_source).getD []

/-- The program `parse` builds for `c40_source`. -/
def c40_ast : AstNode :=
  ast_add (ast_new .AST_PROGRAM)
    (ast_add { ast_new .AST_FUNCTION with name := some "main".toList }
      (ast_add (ast_add (ast_add (ast_new .AST_BLOCK)
        (let_node "a".toList (array_lit_node [num_node "1".toList, num_node "2".toList])))
        (ast_add
          (ast_add (ast_new .AST_IF)
            (ast_add
              (ast_add { ast_new .AST_COMPARE with op := some "<".toList }
                (index_node (ident_node "a".toList) (num_node "0".toList)))
              (num_node "2".toList)))
          (ast_add (ast_new .AST_BLOCK)
            (return_node
              (ast_add
                (ast_add { ast_new .AST_BINOP with op := some "+".toList }
                  (index_node (ident_node "a".toList) (num_node "1".toList)))
                (num_node "1".toList))))))
        (return_node (num_node "0".toList))))

/-! # Theorems -/

/-! ## Running emitted code -/

theorem run_cons (x : Asm) (l : List Asm) (m : Machine) (hx : x ≠ .ret) :
    run (x :: l) m = match exec x m with
      | .ok m1 => run l m1
      | .error e => .stopped e := by
  cases x <;> first | exact absurd rfl hx | rfl

theorem run_append (a b : List Asm) (m : Machine) :
    run (a ++ b) m = match run a m with
      | .fell_through m1 => run b m1
      | r => r := by
  induction a generalizing m with
  | nil => simp [run]
  | cons x xs ih =>
    by_cases hx : x = .ret
    · subst hx; simp [run]
    · rw [List.cons_append, run_cons _ _ _ hx, run_cons _ _ _ hx]
      cases exec x m with
      | error e => rfl
      | ok m1 => exact ih m1

theorem run_fallback (m : Machine) (h : m.rbp % 8 = 0) :
    (run [.xor_rax_rax, .leave, .ret] m).result = some 0 := by
  simp [run, exec, Machine.load, h, Run.result]

theorem gen_func_code (cg : Codegen) (n : AstNode) (cg1 : Codegen)
    (h : gen_func cg n = some cg1) :
    ∃ pre, cg1.code = pre ++ [.xor_rax_rax, .leave, .ret] := by
  simp only [gen_func, Option.bind_eq_bind, Option.bind_eq_some] at h
  obtain ⟨nm, -, body, -, r, -, cg5, -, h⟩ := h
  refine ⟨cg5.code, ?_⟩
  simp only [Option.some.injEq] at h
  rw [← h]
  simp [emit]

/-- C1 (the code departs from the claim): for `fn main() { return (1 - 7) / 2; }`
the emitted code of `main` computes `1 - 7` as the word `2^64 - 6`, clears `rdx`
instead of sign-extending `rax` into it, and `idiv` then divides the
non-negative 128-bit value `2^64 - 6` by 2: `main` returns `2^63 - 3`, which
is not the word of `-3`. -/
theorem C1_idiv_zero_extended_dividend :
    (run_main "fn main() \x7b return (1 - 7) / 2; \x7d".toList (entry_state 0 4096 0)).map
        Run.result = some (some 9223372036854775805)
      ∧ (9223372036854775805 : Int) ≠ (-3) % W64 := by
  decide

/-- C6: a `return;` statement emits `xor rax, rax` right before
`leave; ret`; the code of every generated function ends with
`xor rax, rax; leave; ret`; running these three lines returns with
`rax = 0`, so a function whose body runs through to its end returns 0, and
so do `fn main() { return; }` and `fn main() { let x = 5; }`. -/
theorem C6_return_without_value_is_zero :
    (∀ (cg : Codegen) (name value op st : Option (List Char)) (a : Int),
        gen_stmt cg ⟨.AST_RETURN, name, [], value, op, a, st⟩
          = some { cg with code := cg.code ++ [.xor_rax_rax, .leave, .ret] })
    ∧ (∀ (cg : Codegen) (n : AstNode) (cg1 : Codegen), gen_func cg n = some cg1 →
        ∃ pre, cg1.code = pre ++ [.xor_rax_rax, .leave, .ret])
    ∧ (∀ (body : List Asm) (m m1 : Machine), run body m = .fell_through m1 →
        m1.rbp % 8 = 0 →
        (run (body ++ [.xor_rax_rax, .leave, .ret]) m).result = some 0)
    ∧ (run_main "fn main() \x7b return; \x7d".toList (entry_state 7 4096 3)).map Run.result
        = some (some 0)
    ∧ (run_main "fn main() \x7b let x = 5; \x7d".toList (entry_state 7 4096 3)).map Run.result
        = some (some 0) := by
  refine ⟨?_, gen_func_code, ?_, by decide, by decide⟩
  · intro cg name value op st a
    simp [gen_stmt, emit]
  · intro body m m1 h h8
    rw [run_append, h]
    exact run_fallback m1 h8

/-- C6, at a concrete input: the function node of `fn f() { }` and a body
that runs through. -/
theorem C6_witness :
    (∃ pre, (emit { label_count := 0, symtab := none, strtab := [], types := [], code := [] }
        [.func_label "f".toList, .push_rbp, .mov_rbp_rsp, .sub_rsp_128,
         .xor_rax_rax, .leave, .ret]).code = pre ++ [.xor_rax_rax, .leave, .ret])
    ∧ (run ([.mov_rax_0_unknown []] ++ [.xor_rax_rax, .leave, .ret])
        (entry_state 8 4096 3)).result = some 0 :=
  ⟨C6_return_without_value_is_zero.2.1
      { label_count := 0, symtab := none, strtab := [], types := [], code := [] }
      ⟨.AST_FUNCTION, some "f".toList, [ast_new .AST_BLOCK], none, none, 0, none⟩ _ rfl,
   C6_return_without_value_is_zero.2.2.1 [.mov_rax_0_unknown []] (entry_state 8 4096 3)
      _ rfl (by decide)⟩

/-! ## Type table -/

theorem typetab_lookup_not_mem (tt : TypeTable) (nm : List Char)
    (h : ∀ st ∈ tt, st.name ≠ nm) : typetab_lookup tt (some nm) = some none := by
  induction tt with
  | nil => rfl
  | cons st rest ih =>
    have h1 : st.name ≠ nm := h st (List.mem_cons_self _ _)
    have h2 := ih (fun s hs => h s (List.mem_cons_of_mem _ hs))
    simp [typetab_lookup, h1, h2]

theorem typetab_lookup_append (pre : TypeTable) (d : StructType) (post : TypeTable)
    (h : ∀ st ∈ pre, st.name ≠ d.name) :
    typetab_lookup (pre ++ d :: post) (some d.name) = some (some pre.length) := by
  induction pre with
  | nil => simp [typetab_lookup]
  | cons st rest ih =>
    have h1 : st.name ≠ d.name := h st (List.mem_cons_self _ _)
    have h2 := ih (fun s hs => h s (List.mem_cons_of_mem _ hs))
    simp [typetab_lookup, h1, h2]

theorem build_fields_spec (fs : List AstNode) (hfs : ∀ f ∈ fs, f.name ≠ none) :
    ∀ (pre : TypeTable) (st : StructType), (∀ s ∈ pre, s.name ≠ st.name) →
      build_fields (pre ++ [st]) (some st.name) fs
        = some (pre ++ [{ name := st.name, fields := st.fields ++ layout_fields st.size fs,
                          size := st.size + 8 * fs.length }]) := by
  induction fs with
  | nil => intro pre st _; simp [build_fields, layout_fields]
  | cons f rest ih =>
    intro pre st hpre
    obtain ⟨fnm, hf⟩ := Option.ne_none_iff_exists'.mp (hfs f (List.mem_cons_self _ _))
    have hl := typetab_lookup_append pre st [] hpre
    have ih1 := ih (fun g hg => hfs g (List.mem_cons_of_mem _ hg)) pre
      (struct_add_field st fnm) (by simpa [struct_add_field] using hpre)
    simp only [build_fields, typetab_add_field, hl, hf, Option.bind_eq_bind, Option.some_bind]
    have hm : (pre ++ [st]).modify (fun st => struct_add_field st fnm) pre.length
        = pre ++ [struct_add_field st fnm] := by
      rw [List.modify_eq_set_get?]
      simp
    rw [hm]
    have : (struct_add_field st fnm).name = st.name := rfl
    rw [this] at ih1
    rw [ih1]
    simp [struct_add_field, layout_fields, hf]
    ring

theorem build_type_table_loop_spec (cs : List AstNode) :
    ∀ (tt : TypeTable),
      (∀ d ∈ struct_defs cs, d.name ≠ none ∧ ∀ f ∈ d.children, f.name ≠ none) →
      ((struct_defs cs).map (fun d => d.name)).Nodup →
      (∀ s ∈ tt, ∀ d ∈ struct_defs cs, d.name ≠ some s.name) →
      build_type_table_loop tt cs = some (tt ++ (struct_defs cs).map layout_of) := by
  induction cs with
  | nil => intro tt _ _ _; simp [build_type_table_loop, struct_defs]
  | cons c rest ih =>
    intro tt hn hd hdis
    by_cases hc : c.type = .AST_STRUCT_DEF
    · have hsd : struct_defs (c :: rest) = c :: struct_defs rest := by
        simp [struct_defs, hc]
      rw [hsd] at hn hd hdis
      obtain ⟨hcn, hcf⟩ := hn c (List.mem_cons_self _ _)
      obtain ⟨nm, hnm⟩ := Option.ne_none_iff_exists'.mp hcn
      have hpre : ∀ s ∈ tt, s.name ≠ nm := by
        intro s hs he
        exact hdis s hs c (List.mem_cons_self _ _) (by rw [hnm, he])
      have hb := build_fields_spec c.children hcf tt { name := nm, fields := [], size := 0 } hpre
      simp only [List.nil_append, zero_add] at hb
      have hlay : layout_of c
          = StructType.mk nm (layout_fields 0 c.children) (8 * c.children.length) := by
        simp [layout_of, hnm]
      rw [← hlay] at hb
      simp only [List.map_cons, List.nodup_cons] at hd
      have ih1 := ih (tt ++ [layout_of c])
        (fun d hdm => hn d (List.mem_cons_of_mem _ hdm)) hd.2
        (by
          intro s hs d hdm
          rcases List.mem_append.mp hs with h | h
          · exact hdis s h d (List.mem_cons_of_mem _ hdm)
          · simp only [List.mem_singleton] at h
            subst h
            intro he
            apply hd.1
            simp only [layout_of, hnm, Option.getD_some] at he
            rw [hnm, ← he]
            exact List.mem_map_of_mem _ hdm)
      simp only [build_type_table_loop, hc, if_true, typetab_add, hnm, Option.bind_eq_bind,
        Option.some_bind, hb, ih1, hsd]
      simp
    · have hsd : struct_defs (c :: rest) = struct_defs rest := by
        simp [struct_defs, hc]
      rw [hsd] at hn hd hdis
      simp only [build_type_table_loop, hc, if_false, hsd]
      exact ih tt hn hd hdis

theorem field_offset_loop_layout (fs : List AstNode) :
    ∀ (start : Int) (i : Nat) (hi : i < fs.length),
      (∀ f ∈ fs, f.name ≠ none) → (fs.map (fun f => f.name)).Nodup →
      field_offset_loop (layout_fields start fs) (fs.get ⟨i, hi⟩).name = some (start + 8 * i) := by
  induction fs with
  | nil => intro _ i hi; exact absurd hi (by simp)
  | cons f rest ih =>
    intro start i hi hn hd
    obtain ⟨fnm, hf⟩ := Option.ne_none_iff_exists'.mp (hn f (List.mem_cons_self _ _))
    simp only [List.map_cons, List.nodup_cons] at hd
    cases i with
    | zero => simp [layout_fields, field_offset_loop, hf]
    | succ j =>
      have hj : j < rest.length := by simpa using hi
      have ih1 := ih (start + 8) j hj (fun g hg => hn g (List.mem_cons_of_mem _ hg)) hd.2
      obtain ⟨gnm, hg⟩ := Option.ne_none_iff_exists'.mp
        (hn (rest.get ⟨j, hj⟩) (List.mem_cons_of_mem _ (List.get_mem _ _ _)))
      have hne : fnm ≠ gnm := by
        intro he
        apply hd.1
        rw [hf, he, ← hg]
        exact List.mem_map_of_mem _ (List.get_mem _ _ _)
      simp only [List.get_cons_succ, layout_fields, hf, Option.getD_some, hg, field_offset_loop,
        hne, if_false]
      rw [hg] at ih1
      rw [ih1]
      push_cast
      ring_nf

theorem field_offset_loop_missing (fs : List AstNode) (fnm : List Char) :
    ∀ (start : Int), (∀ f ∈ fs, f.name ≠ none) → (∀ f ∈ fs, f.name ≠ some fnm) →
      field_offset_loop (layout_fields start fs) (some fnm) = some (-1) := by
  induction fs with
  | nil => intro _ _ _; rfl
  | cons f rest ih =>
    intro start hn hm
    obtain ⟨gnm, hg⟩ := Option.ne_none_iff_exists'.mp (hn f (List.mem_cons_self _ _))
    have hne : gnm ≠ fnm := by
      intro he
      exact hm f (List.mem_cons_self _ _) (by rw [hg, he])
    simp only [layout_fields, hg, Option.getD_some, field_offset_loop, hne, if_false]
    exact ih (start + 8) (fun g h => hn g (List.mem_cons_of_mem _ h))
      (fun g h => hm g (List.mem_cons_of_mem _ h))

theorem typetab_lookup_layout (ds : List AstNode) (d : AstNode) (hd : d ∈ ds)
    (hn : ∀ e ∈ ds, e.name ≠ none) (hnd : (ds.map (fun e => e.name)).Nodup) :
    ∃ i, typetab_lookup (ds.map layout_of) d.name = some (some i)
      ∧ (ds.map layout_of).get? i = some (layout_of d) := by
  obtain ⟨pre, post, rfl⟩ := List.append_of_mem hd
  obtain ⟨nm, hnm⟩ := Option.ne_none_iff_exists'.mp (hn d hd)
  refine ⟨pre.length, ?_, ?_⟩
  · have hpre : ∀ st ∈ pre.map layout_of, st.name ≠ (layout_of d).name := by
      intro st hst he
      obtain ⟨e, he1, rfl⟩ := List.mem_map.mp hst
      obtain ⟨enm, henm⟩ := Option.ne_none_iff_exists'.mp
        (hn e (List.mem_append_left _ he1))
      simp only [layout_of, henm, hnm, Option.getD_some] at he
      simp only [List.map_append, List.map_cons] at hnd
      have := (List.nodup_append.mp hnd).2.2
      exact this (List.mem_map_of_mem _ he1) (by rw [henm, he, ← hnm]; exact List.mem_cons_self _ _)
    have := typetab_lookup_append (pre.map layout_of) (layout_of d) (post.map layout_of) hpre
    simpa [layout_of, hnm] using this
  · rw [List.map_append, List.map_cons, List.get?_eq_getElem?,
      List.getElem?_append_right (by simp)]
    simp

/-- C3: for a program whose struct definitions carry names (as every parsed
program does) that are pairwise distinct, `build_type_table` succeeds, and in
the table it builds: a struct declared with pairwise distinct fields
`f0 .. f(n-1)` has `typetab_field_offset(S, fi) = 8*i` and the recorded size
`8*n`; a struct name that was not declared gives `-1`; a field name that is
not a field of the declared struct gives `-1`. -/
theorem C3_field_offsets_follow_declaration_order (ast : AstNode)
    (hnames : ∀ d ∈ struct_defs ast.children,
      d.name ≠ none ∧ ∀ f ∈ d.children, f.name ≠ none)
    (hdistinct : ((struct_defs ast.children).map (fun d => d.name)).Nodup) :
    ∃ tt, build_type_table typetab_new ast = some tt
      ∧ (∀ d ∈ struct_defs ast.children, (d.children.map (fun f => f.name)).Nodup →
          (∀ (i : Nat) (hi : i < d.children.length),
              typetab_field_offset tt d.name (d.children.get ⟨i, hi⟩).name = some (8 * i))
          ∧ ∃ k st, typetab_lookup tt d.name = some (some k) ∧ tt.get? k = some st
              ∧ st.size = 8 * d.children.length)
      ∧ (∀ (s : List Char) (f : Option (List Char)),
          (∀ d ∈ struct_defs ast.children, d.name ≠ some s) →
          typetab_field_offset tt (some s) f = some (-1))
      ∧ (∀ d ∈ struct_defs ast.children, ∀ (f : List Char),
          (∀ c ∈ d.children, c.name ≠ some f) →
          typetab_field_offset tt d.name (some f) = some (-1)) := by
  have hb := build_type_table_loop_spec ast.children typetab_new hnames hdistinct
    (by intro s hs; exact absurd hs (by simp [typetab_new]))
  refine ⟨(struct_defs ast.children).map layout_of, by simpa [build_type_table, typetab_new] using hb,
    ?_, ?_, ?_⟩
  · intro d hd hf
    obtain ⟨k, hk1, hk2⟩ := typetab_lookup_layout _ d hd (fun e he => (hnames e he).1) hdistinct
    refine ⟨?_, k, layout_of d, hk1, hk2, rfl⟩
    intro i hi
    simp only [typetab_field_offset, hk1, hk2]
    have := field_offset_loop_layout d.children 0 i hi (hnames d hd).2 hf
    simpa [layout_of] using this
  · intro s f hs
    have : typetab_lookup ((struct_defs ast.children).map layout_of) (some s) = some none := by
      apply typetab_lookup_not_mem
      intro st hst he
      obtain ⟨e, he1, rfl⟩ := List.mem_map.mp hst
      obtain ⟨enm, henm⟩ := Option.ne_none_iff_exists'.mp (hnames e he1).1
      apply hs e he1
      simp only [layout_of, henm, Option.getD_some] at he
      rw [henm, he]
    simp [typetab_field_offset, this]
  · intro d hd f hf
    obtain ⟨k, hk1, hk2⟩ := typetab_lookup_layout _ d hd (fun e he => (hnames e he).1) hdistinct
    simp only [typetab_field_offset, hk1, hk2]
    exact field_offset_loop_missing d.children f 0 (hnames d hd).2 hf

/-- C3 at the program `struct S { a: i32, b: i32, c: i32 }`: the offsets are
0, 8, 16 and the lookups that miss give -1. -/
theorem C3_witness :
    ∃ tt, build_type_table typetab_new c3_program = some tt
      ∧ typetab_field_offset tt (some "S".toList) (some "a".toList) = some 0
      ∧ typetab_field_offset tt (some "S".toList) (some "b".toList) = some 8
      ∧ typetab_field_offset tt (some "S".toList) (some "c".toList) = some 16
      ∧ typetab_field_offset tt (some "T".toList) (some "a".toList) = some (-1)
      ∧ typetab_field_offset tt (some "S".toList) (some "d".toList) = some (-1) := by
  have hmem : c3_struct ∈ struct_defs c3_program.children :=
    (List.mem_singleton.mpr rfl : c3_struct ∈ [c3_struct])
  obtain ⟨tt, h1, h2, h3, h4⟩ := C3_field_offsets_follow_declaration_order c3_program
    (by decide) (by decide)
  have hS := h2 c3_struct hmem (by decide)
  exact ⟨tt, h1, hS.1 0 (by decide), hS.1 1 (by decide), hS.1 2 (by decide),
    h3 "T".toList _ (by decide), h4 c3_struct hmem "d".toList (by decide)⟩

/-! ## Parser -/

theorem postfix_loop_stop (pe : Parser → Except Fail (AstNode × Parser)) (k : Nat)
    (left : AstNode) (t : Tok) (rest : Parser)
    (h1 : t.t ≠ .T_LBRACKET) (h2 : t.t ≠ .T_DOT) :
    postfix_loop pe (k + 1) left (t :: rest) = .ok (left, t :: rest) := by
  simp [postfix_loop, check_tok, peek_tok, h1, h2, bind, Except.bind, pure, Except.pure]

theorem parse_postfix_of_primary (pe : Parser → Except Fail (AstNode × Parser)) (k : Nat)
    (p : Parser) (a : AstNode) (t : Tok) (rest : Parser)
    (h : parse_primary pe (k + 1) p = .ok (a, t :: rest))
    (h1 : t.t ≠ .T_LBRACKET) (h2 : t.t ≠ .T_DOT) :
    parse_postfix pe (k + 1) p = .ok (a, t :: rest) := by
  simp only [ parse_postfix, h, bind, Except.bind]
  exact postfix_loop_stop pe k a t rest h1 h2

theorem multiplicative_loop_stop (pe : Parser → Except Fail (AstNode × Parser)) (f k : Nat)
    (left : AstNode) (t : Tok) (rest : Parser) (h : is_mul_op t.t = false) :
    multiplicative_loop pe f (k + 1) left (t :: rest) = .ok (left, t :: rest) := by
  simp only [is_mul_op, Bool.or_eq_false_iff, decide_eq_false_iff_not] at h
  simp [multiplicative_loop, check_tok, peek_tok, h.1, h.2, bind, Except.bind, pure,
    Except.pure]

theorem multiplicative_loop_step (pe : Parser → Except Fail (AstNode × Parser)) (f k : Nat)
    (left right : AstNode) (t : Tok) (rest p2 : Parser) (h : is_mul_op t.t = true)
    (hr : parse_postfix pe f rest = .ok (right, p2)) :
    multiplicative_loop pe f (k + 1) left (t :: rest)
      = multiplicative_loop pe f k (mk_binop t left right) p2 := by
  simp only [is_mul_op, Bool.or_eq_true, decide_eq_true_eq] at h
  rcases h with h | h <;>
    simp [multiplicative_loop, check_tok, peek_tok, advance_tok, h, hr, bind, Except.bind,
      pure, Except.pure, mk_binop]

theorem additive_loop_stop (pe : Parser → Except Fail (AstNode × Parser)) (f k : Nat)
    (left : AstNode) (t : Tok) (rest : Parser) (h : is_add_op t.t = false) :
    additive_loop pe f (k + 1) left (t :: rest) = .ok (left, t :: rest) := by
  simp only [is_add_op, Bool.or_eq_false_iff, decide_eq_false_iff_not] at h
  simp [additive_loop, check_tok, peek_tok, h.1, h.2, bind, Except.bind, pure, Except.pure]

theorem additive_loop_step (pe : Parser → Except Fail (AstNode × Parser)) (f k : Nat)
    (left right : AstNode) (t : Tok) (rest p2 : Parser) (h : is_add_op t.t = true)
    (hr : parse_multiplicative pe f rest = .ok (right, p2)) :
    additive_loop pe f (k + 1) left (t :: rest)
      = additive_loop pe f k (mk_binop t left right) p2 := by
  simp only [is_add_op, Bool.or_eq_true, decide_eq_true_eq] at h
  rcases h with h | h <;>
    simp [additive_loop, check_tok, peek_tok, advance_tok, h, hr, bind, Except.bind,
      pure, Except.pure, mk_binop]

theorem comparison_loop_stop (pe : Parser → Except Fail (AstNode × Parser)) (f k : Nat)
    (left : AstNode) (t : Tok) (rest : Parser) (h : is_cmp_op t.t = false) :
    comparison_loop pe f (k + 1) left (t :: rest) = .ok (left, t :: rest) := by
  simp only [is_cmp_op, Bool.or_eq_false_iff, decide_eq_false_iff_not] at h
  simp [comparison_loop, check_tok, peek_tok, h, bind, Except.bind, pure, Except.pure]

theorem comparison_loop_step (pe : Parser → Except Fail (AstNode × Parser)) (f k : Nat)
    (left right : AstNode) (t : Tok) (rest p2 : Parser) (h : is_cmp_op t.t = true)
    (hr : parse_additive pe f rest = .ok (right, p2)) :
    comparison_loop pe f (k + 1) left (t :: rest)
      = comparison_loop pe f k (mk_compare t left right) p2 := by
  simp only [is_cmp_op, Bool.or_eq_true, decide_eq_true_eq] at h
  rcases h with ((((h | h) | h) | h) | h) | h <;>
    simp [comparison_loop, check_tok, peek_tok, advance_tok, h, hr, bind, Except.bind,
      pure, Except.pure, mk_compare]

theorem parse_multiplicative_single (pe : Parser → Except Fail (AstNode × Parser)) (k : Nat)
    (p : Parser) (a : AstNode) (t : Tok) (rest : Parser)
    (h : parse_primary pe (k + 1) p = .ok (a, t :: rest))
    (h1 : t.t ≠ .T_LBRACKET) (h2 : t.t ≠ .T_DOT) (h3 : is_mul_op t.t = false) :
    parse_multiplicative pe (k + 1) p = .ok (a, t :: rest) := by
  simp only [parse_multiplicative, parse_postfix_of_primary pe k p a t rest h h1 h2, bind,
    Except.bind]
  exact multiplicative_loop_stop pe (k + 1) k a t rest h3

theorem parse_multiplicative_pair (pe : Parser → Except Fail (AstNode × Parser)) (k : Nat)
    (p p1 rest : Parser) (a b : AstNode) (o e : Tok)
    (ha : parse_primary pe (k + 2) p = .ok (a, o :: p1))
    (hb : parse_primary pe (k + 2) p1 = .ok (b, e :: rest))
    (ho : is_mul_op o.t = true) (he : continues_expr e.t = false) :
    parse_multiplicative pe (k + 2) p = .ok (mk_binop o a b, e :: rest) := by
  have ho1 : o.t ≠ .T_LBRACKET ∧ o.t ≠ .T_DOT := by
    cases h : o.t <;> simp_all [is_mul_op]
  have he1 : e.t ≠ .T_LBRACKET ∧ e.t ≠ .T_DOT ∧ is_mul_op e.t = false := by
    cases h : e.t <;> simp_all [continues_expr, is_mul_op, is_add_op, is_cmp_op]
  simp only [parse_multiplicative,
    parse_postfix_of_primary pe (k + 1) p a o p1 ha ho1.1 ho1.2, bind, Except.bind]
  rw [multiplicative_loop_step pe (k + 2) (k + 1) a b o p1 (e :: rest) ho
    (parse_postfix_of_primary pe (k + 1) p1 b e rest hb he1.1 he1.2.1)]
  exact multiplicative_loop_stop pe (k + 2) k _ e rest he1.2.2

theorem parse_additive_pair (pe : Parser → Except Fail (AstNode × Parser)) (k : Nat)
    (p p1 rest : Parser) (a b : AstNode) (o e : Tok)
    (ha : parse_primary pe (k + 2) p = .ok (a, o :: p1))
    (hb : parse_primary pe (k + 2) p1 = .ok (b, e :: rest))
    (ho : is_add_op o.t = true)
    (he : e.t ≠ .T_LBRACKET ∧ e.t ≠ .T_DOT ∧ is_mul_op e.t = false ∧ is_add_op e.t = false) :
    parse_additive pe (k + 2) p = .ok (mk_binop o a b, e :: rest) := by
  have ho1 : o.t ≠ .T_LBRACKET ∧ o.t ≠ .T_DOT ∧ is_mul_op o.t = false := by
    cases h : o.t <;> simp_all [is_mul_op, is_add_op]
  simp only [parse_additive,
    parse_multiplicative_single pe (k + 1) p a o p1 ha ho1.1 ho1.2.1 ho1.2.2, bind,
    Except.bind]
  rw [additive_loop_step pe (k + 2) (k + 1) a b o p1 (e :: rest) ho
    (parse_multiplicative_single pe (k + 1) p1 b e rest hb he.1 he.2.1 he.2.2.1)]
  exact additive_loop_stop pe (k + 2) k _ e rest he.2.2.2

theorem parse_comparison_precedence (pe : Parser → Except Fail (AstNode × Parser))
    (k : Nat) (p p1 p2 rest : Parser) (a b c : AstNode) (o1 o2 e : Tok)
    (ha : parse_primary pe (k + 2) p = .ok (a, o1 :: p1))
    (hb : parse_primary pe (k + 2) p1 = .ok (b, o2 :: p2))
    (hc : parse_primary pe (k + 2) p2 = .ok (c, e :: rest))
    (he : continues_expr e.t = false) :
    (is_add_op o1.t = true → is_mul_op o2.t = true →
      parse_comparison pe (k + 2) p = .ok (mk_binop o1 a (mk_binop o2 b c), e :: rest))
    ∧ (is_mul_op o1.t = true → is_add_op o2.t = true →
      parse_comparison pe (k + 2) p = .ok (mk_binop o2 (mk_binop o1 a b) c, e :: rest))
    ∧ (is_add_op o1.t = true → is_cmp_op o2.t = true →
      parse_comparison pe (k + 2) p = .ok (mk_compare o2 (mk_binop o1 a b) c, e :: rest)) := by
  have he1 : e.t ≠ .T_LBRACKET ∧ e.t ≠ .T_DOT ∧ is_mul_op e.t = false
      ∧ is_add_op e.t = false ∧ is_cmp_op e.t = false := by
    cases h : e.t <;> simp_all [continues_expr, is_mul_op, is_add_op, is_cmp_op]
  refine ⟨?_, ?_, ?_⟩
  · intro h1 h2
    have ho1 : o1.t ≠ .T_LBRACKET ∧ o1.t ≠ .T_DOT ∧ is_mul_op o1.t = false := by
      cases h : o1.t <;> simp_all [is_mul_op, is_add_op]
    have hm := parse_multiplicative_pair pe k p1 p2 rest b c o2 e hb hc h2 he
    simp only [parse_comparison, parse_additive,
      parse_multiplicative_single pe (k + 1) p a o1 p1 ha ho1.1 ho1.2.1 ho1.2.2, bind,
      Except.bind]
    rw [additive_loop_step pe (k + 2) (k + 1) a _ o1 p1 (e :: rest) h1 hm,
      additive_loop_stop pe (k + 2) k _ e rest he1.2.2.2.1]
    exact comparison_loop_stop pe (k + 2) (k + 1) _ e rest he1.2.2.2.2
  · intro h1 h2
    have ho2 : is_mul_op o2.t = false := by
      cases h : o2.t <;> simp_all [is_mul_op, is_add_op]
    have ho2' : o2.t ≠ .T_LBRACKET ∧ o2.t ≠ .T_DOT := by
      cases h : o2.t <;> simp_all [is_add_op]
    have ho1 : o1.t ≠ .T_LBRACKET ∧ o1.t ≠ .T_DOT := by
      cases h : o1.t <;> simp_all [is_mul_op]
    have hm : parse_multiplicative pe (k + 2) p = .ok (mk_binop o1 a b, o2 :: p2) := by
      simp only [parse_multiplicative,
        parse_postfix_of_primary pe (k + 1) p a o1 p1 ha ho1.1 ho1.2, bind, Except.bind]
      rw [multiplicative_loop_step pe (k + 2) (k + 1) a b o1 p1 (o2 :: p2) h1
        ( parse_postfix_of_primary pe (k + 1) p1 b o2 p2 hb ho2'.1 ho2'.2)]
      exact multiplicative_loop_stop pe (k + 2) k _ o2 p2 ho2
    simp only [parse_comparison, parse_additive, hm, bind, Except.bind]
    rw [additive_loop_step pe (k + 2) (k + 1) _ c o2 p2 (e :: rest) h2
      (parse_multiplicative_single pe (k + 1) p2 c e rest hc he1.1 he1.2.1 he1.2.2.1),
      additive_loop_stop pe (k + 2) k _ e rest he1.2.2.2.1]
    exact comparison_loop_stop pe (k + 2) (k + 1) _ e rest he1.2.2.2.2
  · intro h1 h2
    have ho2 : o2.t ≠ .T_LBRACKET ∧ o2.t ≠ .T_DOT ∧ is_mul_op o2.t = false
        ∧ is_add_op o2.t = false := by
      cases h : o2.t <;> simp_all [is_mul_op, is_add_op, is_cmp_op]
    have hl := parse_additive_pair pe k p p1 p2 a b o1 o2 ha hb h1 ho2
    have hr : parse_additive pe (k + 2) p2 = .ok (c, e :: rest) := by
      simp only [parse_additive,
        parse_multiplicative_single pe (k + 1) p2 c e rest hc he1.1 he1.2.1 he1.2.2.1, bind,
        Except.bind]
      exact additive_loop_stop pe (k + 2) (k + 1) _ e rest he1.2.2.2.1
    simp only [parse_comparison, hl, bind, Except.bind]
    rw [comparison_loop_step pe (k + 2) (k + 1) _ c o2 p2 (e :: rest) h2 hr]
    exact comparison_loop_stop pe (k + 2) k _ e rest he1.2.2.2.2

theorem postfix_loop_rest (pe : Parser → Except Fail (AstNode × Parser)) :
    ∀ (f : Nat) (left : AstNode) (p : Parser) (n : AstNode) (t : Tok) (rest : Parser),
      postfix_loop pe f left p = .ok (n, t :: rest) → t.t ≠ .T_LBRACKET ∧ t.t ≠ .T_DOT := by
  intro f
  induction f with
  | zero => intro left p n t rest h; simp [postfix_loop] at h
  | succ f ih =>
    intro left p n t rest h
    cases p with
    | nil => simp [postfix_loop, check_tok, peek_tok, bind, Except.bind] at h
    | cons k ks =>
      by_cases h1 : k.t = .T_LBRACKET
      · simp only [postfix_loop, check_tok, peek_tok, advance_tok, h1, bind, Except.bind,
          decide_True, if_true] at h
        cases hpe : pe ks with
        | error e => simp [hpe] at h
        | ok r =>
          simp only [hpe] at h
          cases hx : expect r.2 .T_RBRACKET with
          | error e => simp [hx] at h
          | ok p3 =>
            simp only [hx] at h
            exact ih _ _ _ _ _ h
      · by_cases h2 : k.t = .T_DOT
        · cases ks with
          | nil =>
            simp [postfix_loop, check_tok, peek_tok, advance_tok, h1, h2, bind, Except.bind,
              pure, Except.pure] at h
          | cons k2 ks2 =>
            simp only [postfix_loop, check_tok, peek_tok, advance_tok, h1, h2, bind,
              Except.bind, decide_True, decide_False, if_true, pure, Except.pure] at h
            exact ih _ _ _ _ _ h
        · rw [postfix_loop_stop pe f left k ks h1 h2] at h
          simp only [Except.ok.injEq, Prod.mk.injEq, List.cons.injEq] at h
          obtain ⟨-, rfl, -⟩ := h
          exact ⟨h1, h2⟩

theorem parse_postfix_rest (pe : Parser → Except Fail (AstNode × Parser)) (f : Nat) (p : Parser)
    (n : AstNode) (t : Tok) (rest : Parser)
    (h : parse_postfix pe f p = .ok (n, t :: rest)) : t.t ≠ .T_LBRACKET ∧ t.t ≠ .T_DOT := by
  simp only [ parse_postfix, bind, Except.bind] at h
  cases hp : parse_primary pe f p with
  | error e => simp [hp] at h
  | ok r =>
    simp only [hp] at h
    exact postfix_loop_rest pe _ _ _ _ _ _ h

theorem multiplicative_loop_rest (pe : Parser → Except Fail (AstNode × Parser)) (fuel : Nat) :
    ∀ (f : Nat) (left : AstNode) (p : Parser) (n : AstNode) (t : Tok) (rest : Parser),
      (∀ k ks, p = k :: ks → k.t ≠ .T_LBRACKET ∧ k.t ≠ .T_DOT) →
      multiplicative_loop pe fuel f left p = .ok (n, t :: rest) →
      t.t ≠ .T_LBRACKET ∧ t.t ≠ .T_DOT ∧ is_mul_op t.t = false := by
  intro f
  induction f with
  | zero => intro left p n t rest _ h; simp [multiplicative_loop] at h
  | succ f ih =>
    intro left p n t rest hp h
    cases p with
    | nil => simp [multiplicative_loop, check_tok, peek_tok, bind, Except.bind] at h
    | cons k ks =>
      cases hm : is_mul_op k.t with
      | true =>
        cases hr : parse_postfix pe fuel ks with
        | error e =>
          simp only [is_mul_op, Bool.or_eq_true, decide_eq_true_eq] at hm
          rcases hm with hm | hm <;>
            simp [multiplicative_loop, check_tok, peek_tok, advance_tok, hm, hr, bind,
              Except.bind] at h
        | ok r =>
          obtain ⟨right, p2⟩ := r
          rw [multiplicative_loop_step pe fuel f left right k ks p2 hm hr] at h
          refine ih _ _ _ _ _ ?_ h
          intro k2 ks2 e
          subst e
          exact parse_postfix_rest pe fuel ks right k2 ks2 hr
      | false =>
        rw [multiplicative_loop_stop pe fuel f left k ks hm] at h
        simp only [Except.ok.injEq, Prod.mk.injEq, List.cons.injEq] at h
        obtain ⟨-, rfl, -⟩ := h
        exact ⟨(hp _ _ rfl).1, (hp _ _ rfl).2, hm⟩

theorem parse_multiplicative_rest (pe : Parser → Except Fail (AstNode × Parser)) (f : Nat)
    (p : Parser) (n : AstNode) (t : Tok) (rest : Parser)
    (h : parse_multiplicative pe f p = .ok (n, t :: rest)) :
    t.t ≠ .T_LBRACKET ∧ t.t ≠ .T_DOT ∧ is_mul_op t.t = false := by
  simp only [parse_multiplicative, bind, Except.bind] at h
  cases hp : parse_postfix pe f p with
  | error e => simp [hp] at h
  | ok r =>
    simp only [hp] at h
    refine multiplicative_loop_rest pe f _ _ _ _ _ _ ?_ h
    intro k ks e
    exact parse_postfix_rest pe f p r.1 k ks (by rw [hp, ← e])

theorem additive_loop_rest (pe : Parser → Except Fail (AstNode × Parser)) (fuel : Nat) :
    ∀ (f : Nat) (left : AstNode) (p : Parser) (n : AstNode) (t : Tok) (rest : Parser),
      (∀ k ks, p = k :: ks → k.t ≠ .T_LBRACKET ∧ k.t ≠ .T_DOT ∧ is_mul_op k.t = false) →
      additive_loop pe fuel f left p = .ok (n, t :: rest) →
      t.t ≠ .T_LBRACKET ∧ t.t ≠ .T_DOT ∧ is_mul_op t.t = false ∧ is_add_op t.t = false := by
  intro f
  induction f with
  | zero => intro left p n t rest _ h; simp [additive_loop] at h
  | succ f ih =>
    intro left p n t rest hp h
    cases p with
    | nil => simp [additive_loop, check_tok, peek_tok, bind, Except.bind] at h
    | cons k ks =>
      cases hm : is_add_op k.t with
      | true =>
        cases hr : parse_multiplicative pe fuel ks with
        | error e =>
          simp only [is_add_op, Bool.or_eq_true, decide_eq_true_eq] at hm
          rcases hm with hm | hm <;>
            simp [additive_loop, check_tok, peek_tok, advance_tok, hm, hr, bind,
              Except.bind] at h
        | ok r =>
          obtain ⟨right, p2⟩ := r
          rw [additive_loop_step pe fuel f left right k ks p2 hm hr] at h
          refine ih _ _ _ _ _ ?_ h
          intro k2 ks2 e
          subst e
          exact parse_multiplicative_rest pe fuel ks right k2 ks2 hr
      | false =>
        rw [additive_loop_stop pe fuel f left k ks hm] at h
        simp only [Except.ok.injEq, Prod.mk.injEq, List.cons.injEq] at h
        obtain ⟨-, rfl, -⟩ := h
        exact ⟨(hp _ _ rfl).1, (hp _ _ rfl).2.1, (hp _ _ rfl).2.2, hm⟩

theorem parse_additive_rest (pe : Parser → Except Fail (AstNode × Parser)) (f : Nat)
    (p : Parser) (n : AstNode) (t : Tok) (rest : Parser)
    (h : parse_additive pe f p = .ok (n, t :: rest)) :
    t.t ≠ .T_LBRACKET ∧ t.t ≠ .T_DOT ∧ is_mul_op t.t = false ∧ is_add_op t.t = false := by
  simp only [parse_additive, bind, Except.bind] at h
  cases hp : parse_multiplicative pe f p with
  | error e => simp [hp] at h
  | ok r =>
    simp only [hp] at h
    refine additive_loop_rest pe f _ _ _ _ _ _ ?_ h
    intro k ks e
    exact parse_multiplicative_rest pe f p r.1 k ks (by rw [hp, ← e])

theorem comparison_loop_rest (pe : Parser → Except Fail (AstNode × Parser)) (fuel : Nat) :
    ∀ (f : Nat) (left : AstNode) (p : Parser) (n : AstNode) (t : Tok) (rest : Parser),
      (∀ k ks, p = k :: ks →
        k.t ≠ .T_LBRACKET ∧ k.t ≠ .T_DOT ∧ is_mul_op k.t = false ∧ is_add_op k.t = false) →
      comparison_loop pe fuel f left p = .ok (n, t :: rest) →
      continues_expr t.t = false := by
  intro f
  induction f with
  | zero => intro left p n t rest _ h; simp [comparison_loop] at h
  | succ f ih =>
    intro left p n t rest hp h
    cases p with
    | nil => simp [comparison_loop, check_tok, peek_tok, bind, Except.bind] at h
    | cons k ks =>
      cases hm : is_cmp_op k.t with
      | true =>
        cases hr : parse_additive pe fuel ks with
        | error e =>
          simp only [is_cmp_op, Bool.or_eq_true, decide_eq_true_eq] at hm
          rcases hm with ((((hm | hm) | hm) | hm) | hm) | hm <;>
            simp [comparison_loop, check_tok, peek_tok, advance_tok, hm, hr, bind,
              Except.bind] at h
        | ok r =>
          obtain ⟨right, p2⟩ := r
          rw [comparison_loop_step pe fuel f left right k ks p2 hm hr] at h
          refine ih _ _ _ _ _ ?_ h
          intro k2 ks2 e
          subst e
          exact parse_additive_rest pe fuel ks right k2 ks2 hr
      | false =>
        rw [comparison_loop_stop pe fuel f left k ks hm] at h
        simp only [Except.ok.injEq, Prod.mk.injEq, List.cons.injEq] at h
        obtain ⟨-, rfl, -⟩ := h
        obtain ⟨a1, a2, a3, a4⟩ := hp _ _ rfl
        simp [continues_expr, a1, a2, a3, a4, hm]

theorem parse_comparison_rest (pe : Parser → Except Fail (AstNode × Parser)) (f : Nat)
    (p : Parser) (n : AstNode) (t : Tok) (rest : Parser)
    (h : parse_comparison pe f p = .ok (n, t :: rest)) : continues_expr t.t = false := by
  simp only [parse_comparison, bind, Except.bind] at h
  cases hp : parse_additive pe f p with
  | error e => simp [hp] at h
  | ok r =>
    simp only [hp] at h
    refine comparison_loop_rest pe f _ _ _ _ _ _ ?_ h
    intro k ks e
    exact parse_additive_rest pe f p r.1 k ks (by rw [hp, ← e])

theorem parse_expr_rest (f : Nat) (p : Parser) (n : AstNode) (t : Tok) (rest : Parser)
    (h : parse_expr f p = .ok (n, t :: rest)) : continues_expr t.t = false := by
  cases f with
  | zero => simp [parse_expr] at h
  | succ f => exact parse_comparison_rest (parse_expr f) f p n t rest h

theorem parse_primary_assign (pe : Parser → Except Fail (AstNode × Parser)) (fuel : Nat)
    (x eq : Tok) (p2 : Parser) (hx : x.t = .T_IDENT) (he : eq.t = .T_EQ) :
    parse_primary pe fuel (x :: eq :: p2)
      = (pe p2).map (fun r => (ast_add { ast_new .AST_ASSIGN with name := some x.s } r.1, r.2)) := by
  cases hq : pe p2 with
  | error e =>
    simp [parse_primary, check_tok, peek_tok, advance_tok, hx, he, bind, Except.bind, pure,
      Except.pure, Except.map, hq]
  | ok r =>
    simp [parse_primary, check_tok, peek_tok, advance_tok, hx, he, bind, Except.bind, pure,
      Except.pure, Except.map, hq]

theorem parse_expr_assign (f : Nat) (x eq t : Tok) (p2 rest : Parser) (rhs : AstNode)
    (hx : x.t = .T_IDENT) (he : eq.t = .T_EQ)
    (hr : parse_expr (f + 1) p2 = .ok (rhs, t :: rest)) :
    parse_expr (f + 2) (x :: eq :: p2)
      = .ok (ast_add { ast_new .AST_ASSIGN with name := some x.s } rhs, t :: rest) := by
  have hc := parse_expr_rest _ _ _ _ _ hr
  have hc1 : t.t ≠ .T_LBRACKET ∧ t.t ≠ .T_DOT ∧ is_mul_op t.t = false
      ∧ is_add_op t.t = false ∧ is_cmp_op t.t = false := by
    cases h : t.t <;> simp_all [continues_expr, is_mul_op, is_add_op, is_cmp_op]
  have hp : parse_primary (parse_expr (f + 1)) (f + 1) (x :: eq :: p2)
      = .ok (ast_add { ast_new .AST_ASSIGN with name := some x.s } rhs, t :: rest) := by
    rw [parse_primary_assign _ _ _ _ _ hx he, hr]
    rfl
  show parse_comparison (parse_expr (f + 1)) (f + 1) (x :: eq :: p2) = _
  simp only [parse_comparison, parse_additive,
    parse_multiplicative_single _ f _ _ t rest hp hc1.1 hc1.2.1 hc1.2.2.1, bind, Except.bind]
  rw [additive_loop_stop _ _ f _ t rest hc1.2.2.2.1]
  exact comparison_loop_stop _ _ f _ t rest hc1.2.2.2.2

theorem assign_primary_takes_the_rest (f fuel : Nat) (x eq o : Tok) (p2 rest : Parser)
    (a : AstNode) (hx : x.t = .T_IDENT) (he : eq.t = .T_EQ)
    (h : parse_primary (parse_expr f) fuel (x :: eq :: p2) = .ok (a, o :: rest)) :
    continues_expr o.t = false := by
  rw [parse_primary_assign _ _ _ _ _ hx he] at h
  cases hr : parse_expr f p2 with
  | error e => simp [hr, Except.map] at h
  | ok r =>
    simp only [hr, Except.map, Except.ok.injEq, Prod.mk.injEq] at h
    exact parse_expr_rest f p2 r.1 o rest (by rw [hr, ← h.2])

theorem primary_ends_at_its_last_token (pe : Parser → Except Fail (AstNode × Parser))
    (fuel : Nat) :
    (∀ (k : Tok) (q : Parser), k.t = .T_NUM →
      parse_primary pe fuel (k :: q)
        = .ok ({ ast_new .AST_NUMBER with value := some k.s }, q))
    ∧ (∀ (k : Tok) (q : Parser), k.t = .T_STR →
      parse_primary pe fuel (k :: q)
        = .ok ({ ast_new .AST_STRING with value := some (str_value k) }, q))
    ∧ (∀ (x t : Tok) (q : Parser), x.t = .T_IDENT →
      t.t ≠ .T_LBRACE → t.t ≠ .T_LPAREN → t.t ≠ .T_EQ →
      parse_primary pe fuel (x :: t :: q)
        = .ok ({ ast_new .AST_IDENT with name := some x.s }, t :: q))
    ∧ (∀ (l r : Tok) (q q2 : Parser) (n : AstNode), l.t = .T_LPAREN →
      pe q = .ok (n, r :: q2) → r.t = .T_RPAREN →
      parse_primary pe fuel (l :: q) = .ok (n, q2))
    ∧ (∀ (x l r : Tok) (q q2 : Parser) (call : AstNode), x.t = .T_IDENT → l.t = .T_LPAREN →
      expr_list_loop pe .T_RPAREN fuel { ast_new .AST_CALL with name := some x.s } q
        = .ok (call, r :: q2) → r.t = .T_RPAREN →
      parse_primary pe fuel (x :: l :: q) = .ok (call, q2))
    ∧ (∀ (l r : Tok) (q q2 : Parser) (arr : AstNode), l.t = .T_LBRACKET →
      expr_list_loop pe .T_RBRACKET fuel (ast_new .AST_ARRAY_LITERAL) q
        = .ok (arr, r :: q2) → r.t = .T_RBRACKET →
      parse_primary pe fuel (l :: q)
        = .ok ({ arr with array_size := arr.child_count }, q2))
    ∧ (∀ (x l r : Tok) (q q2 : Parser) (lit : AstNode), x.t = .T_IDENT → l.t = .T_LBRACE →
      struct_lit_loop pe fuel { ast_new .AST_STRUCT_LITERAL with struct_type := some x.s } q
        = .ok (lit, r :: q2) → r.t = .T_RBRACE →
      parse_primary pe fuel (x :: l :: q) = .ok (lit, q2)) := by
  refine ⟨?_, ?_, ?_, ?_, ?_, ?_, ?_⟩
  · intro k q hk
    simp [parse_primary, check_tok, peek_tok, advance_tok, hk, bind, Except.bind, pure,
      Except.pure]
  · intro k q hk
    simp [parse_primary, check_tok, peek_tok, advance_tok, hk, bind, Except.bind, pure,
      Except.pure]
  · intro x t q hx h1 h2 h3
    simp [parse_primary, check_tok, peek_tok, advance_tok, hx, h1, h2, h3, bind, Except.bind,
      pure, Except.pure]
  · intro l r q q2 n hl hq hr
    simp [parse_primary, check_tok, peek_tok, advance_tok, match_tok, expect, hl, hq, hr, bind,
      Except.bind, pure, Except.pure]
  · intro x l r q q2 call hx hl hq hr
    simp [parse_primary, check_tok, peek_tok, advance_tok, match_tok, expect, hx, hl, hq, hr,
      bind, Except.bind, pure, Except.pure]
  · intro l r q q2 arr hl hq hr
    simp [parse_primary, check_tok, peek_tok, advance_tok, match_tok, expect, hl, hq, hr, bind,
      Except.bind, pure, Except.pure]
  · intro x l r q q2 lit hx hl hq hr
    simp [parse_primary, check_tok, peek_tok, advance_tok, match_tok, expect, hx, hl, hq, hr,
      bind, Except.bind, pure, Except.pure]

/-- C2 fails for an assignment operand. `x = 1` is a primary expression:
`parse_primary` reads it as `Assign(x, 1)`. With it in the place of `a`, the
tokens of `a + b * c` are `x = 1 + 2 * 3` and parse to
`Assign(x, BinOp(+, 1, BinOp(*, 2, 3)))`, not to
`BinOp(+, Assign(x, 1), BinOp(*, 2, 3))`; with it in the place of `b`, the
tokens `a + x = 1 * c` parse to `BinOp(+, a, Assign(x, BinOp(*, 1, c)))`, not
to `BinOp(+, a, BinOp(*, Assign(x, 1), c))`. -/
theorem C2_counterexample :
    parse_primary (parse_expr 3) 3 c2_assign_operand
        = .ok (assign_node "x".toList (num_node "1".toList), [⟨.T_SEMI, ";".toList⟩])
    ∧ parse_expr 4 c2_assign_first
        = .ok (assign_node "x".toList
            (mk_binop ⟨.T_PLUS, "+".toList⟩ (num_node "1".toList)
              (mk_binop ⟨.T_STAR, "*".toList⟩ (num_node "2".toList) (num_node "3".toList))),
            [⟨.T_SEMI, ";".toList⟩])
    ∧ parse_expr 4 c2_assign_first
        ≠ .ok (mk_binop ⟨.T_PLUS, "+".toList⟩
            (assign_node "x".toList (num_node "1".toList))
            (mk_binop ⟨.T_STAR, "*".toList⟩ (num_node "2".toList) (num_node "3".toList)),
            [⟨.T_SEMI, ";".toList⟩])
    ∧ parse_expr 4 c2_assign_second
        = .ok (mk_binop ⟨.T_PLUS, "+".toList⟩ (ident_node "a".toList)
            (assign_node "x".toList
              (mk_binop ⟨.T_STAR, "*".toList⟩ (num_node "1".toList) (ident_node "c".toList))),
            [⟨.T_SEMI, ";".toList⟩])
    ∧ parse_expr 4 c2_assign_second
        ≠ .ok (mk_binop ⟨.T_PLUS, "+".toList⟩ (ident_node "a".toList)
            (mk_binop ⟨.T_STAR, "*".toList⟩ (assign_node "x".toList (num_node "1".toList))
              (ident_node "c".toList)),
            [⟨.T_SEMI, ";".toList⟩]) := by
  have h1 : parse_expr 4 c2_assign_first
      = .ok (assign_node "x".toList
          (mk_binop ⟨.T_PLUS, "+".toList⟩ (num_node "1".toList)
            (mk_binop ⟨.T_STAR, "*".toList⟩ (num_node "2".toList) (num_node "3".toList))),
          [⟨.T_SEMI, ";".toList⟩]) := by rfl
  have h2 : parse_expr 4 c2_assign_second
      = .ok (mk_binop ⟨.T_PLUS, "+".toList⟩ (ident_node "a".toList)
          (assign_node "x".toList
            (mk_binop ⟨.T_STAR, "*".toList⟩ (num_node "1".toList) (ident_node "c".toList))),
          [⟨.T_SEMI, ";".toList⟩]) := by rfl
  refine ⟨by rfl, h1, ?_, h2, ?_⟩
  · rw [h1]
    intro h
    simp [assign_node, mk_binop, ast_add, ast_new] at h
  · rw [h2]
    intro h
    simp [assign_node, mk_binop, ast_add, ast_new, ident_node, num_node] at h

/-- C2 (amended): `*` and `/` bind tighter than `+` and `-`, and those
tighter than the six comparisons, for operands that end where the operator
follows. Let the tokens at `p` be an operand that `parse_primary` reads as
`a` up to an operator token `o1`, an operand read as `b` up to an operator
token `o2`, an operand read as `c`, and then a token that continues no
expression. With any fuel of at least 3, `parse_expr` returns
`BinOp(o1, a, BinOp(o2, b, c))` when `o1` is `+` or `-` and `o2` is `*` or
`/`; `BinOp(o2, BinOp(o1, a, b), c)` when `o1` is `*` or `/` and `o2` is `+`
or `-`; and `Compare(o2, BinOp(o1, a, b), c)` when `o1` is `+` or `-` and `o2`
is one of the six comparison operators. The one primary that never ends
before an operator is the assignment `x = e`: its right side is read by
`parse_expr`, which takes the rest of the expression, so the tokens `x = `
followed by an expression parse to the assignment of that whole
expression. Every other primary ends with its last token, whatever follows:
a number, a string, an identifier that is followed by none of `{`, `(` and
`=`, a parenthesised expression at its `)`, a call at its `)`, an array
literal at its `]` and a struct literal at its closing brace. -/
theorem C2_operator_precedence (k : Nat) (p p1 p2 rest : Parser) (a b c : AstNode)
    (o1 o2 e : Tok)
    (ha : parse_primary (parse_expr (k + 2)) (k + 2) p = .ok (a, o1 :: p1))
    (hb : parse_primary (parse_expr (k + 2)) (k + 2) p1 = .ok (b, o2 :: p2))
    (hc : parse_primary (parse_expr (k + 2)) (k + 2) p2 = .ok (c, e :: rest))
    (he : continues_expr e.t = false) :
    (is_add_op o1.t = true → is_mul_op o2.t = true →
      parse_expr (k + 3) p = .ok (mk_binop o1 a (mk_binop o2 b c), e :: rest))
    ∧ (is_mul_op o1.t = true → is_add_op o2.t = true →
      parse_expr (k + 3) p = .ok (mk_binop o2 (mk_binop o1 a b) c, e :: rest))
    ∧ (is_add_op o1.t = true → is_cmp_op o2.t = true →
      parse_expr (k + 3) p = .ok (mk_compare o2 (mk_binop o1 a b) c, e :: rest))
    ∧ (∀ (f fuel : Nat) (x eq o : Tok) (q r : Parser) (n : AstNode),
        x.t = .T_IDENT → eq.t = .T_EQ →
        parse_primary (parse_expr f) fuel (x :: eq :: q) = .ok (n, o :: r) →
        continues_expr o.t = false)
    ∧ (∀ (f : Nat) (x eq t : Tok) (q r : Parser) (rhs : AstNode),
        x.t = .T_IDENT → eq.t = .T_EQ →
        parse_expr (f + 1) q = .ok (rhs, t :: r) →
        parse_expr (f + 2) (x :: eq :: q) = .ok (assign_node x.s rhs, t :: r))
    ∧ (∀ (pe : Parser → Except Fail (AstNode × Parser)) (fuel : Nat),
        (∀ (k : Tok) (q : Parser), k.t = .T_NUM →
          parse_primary pe fuel (k :: q)
            = .ok ({ ast_new .AST_NUMBER with value := some k.s }, q))
        ∧ (∀ (k : Tok) (q : Parser), k.t = .T_STR →
          parse_primary pe fuel (k :: q)
            = .ok ({ ast_new .AST_STRING with value := some (str_value k) }, q))
        ∧ (∀ (x t : Tok) (q : Parser), x.t = .T_IDENT →
          t.t ≠ .T_LBRACE → t.t ≠ .T_LPAREN → t.t ≠ .T_EQ →
          parse_primary pe fuel (x :: t :: q)
            = .ok ({ ast_new .AST_IDENT with name := some x.s }, t :: q))
        ∧ (∀ (l r : Tok) (q q2 : Parser) (n : AstNode), l.t = .T_LPAREN →
          pe q = .ok (n, r :: q2) → r.t = .T_RPAREN →
          parse_primary pe fuel (l :: q) = .ok (n, q2))
        ∧ (∀ (x l r : Tok) (q q2 : Parser) (call : AstNode), x.t = .T_IDENT → l.t = .T_LPAREN →
          expr_list_loop pe .T_RPAREN fuel { ast_new .AST_CALL with name := some x.s } q
            = .ok (call, r :: q2) → r.t = .T_RPAREN →
          parse_primary pe fuel (x :: l :: q) = .ok (call, q2))
        ∧ (∀ (l r : Tok) (q q2 : Parser) (arr : AstNode), l.t = .T_LBRACKET →
          expr_list_loop pe .T_RBRACKET fuel (ast_new .AST_ARRAY_LITERAL) q
            = .ok (arr, r :: q2) → r.t = .T_RBRACKET →
          parse_primary pe fuel (l :: q)
            = .ok ({ arr with array_size := arr.child_count }, q2))
        ∧ (∀ (x l r : Tok) (q q2 : Parser) (lit : AstNode), x.t = .T_IDENT → l.t = .T_LBRACE →
          struct_lit_loop pe fuel { ast_new .AST_STRUCT_LITERAL with struct_type := some x.s } q
            = .ok (lit, r :: q2) → r.t = .T_RBRACE →
          parse_primary pe fuel (x :: l :: q) = .ok (lit, q2))) :=
  have h := parse_comparison_precedence (parse_expr (k + 2)) k p p1 p2 rest a b c o1 o2 e ha hb
    hc he
  ⟨h.1, h.2.1, h.2.2,
   fun f fuel x eq o q r n hx heq hp => assign_primary_takes_the_rest f fuel x eq o q r n hx heq hp,
   fun f x eq t q r rhs hx heq hr => parse_expr_assign f x eq t q r rhs hx heq hr,
   fun pe fuel => primary_ends_at_its_last_token pe fuel⟩

/-- C2 at the tokens of `2 + 3 * 4 ;`: the product is the right operand of
the sum. -/
theorem C2_witness :
    parse_expr 3 c2_tokens
      = .ok (mk_binop ⟨.T_PLUS, "+".toList⟩ { ast_new .AST_NUMBER with value := some "2".toList }
          (mk_binop ⟨.T_STAR, "*".toList⟩ { ast_new .AST_NUMBER with value := some "3".toList }
            { ast_new .AST_NUMBER with value := some "4".toList }),
          [⟨.T_SEMI, ";".toList⟩]) :=
  (C2_operator_precedence 0 c2_tokens (c2_tokens.drop 2) (c2_tokens.drop 4) []
    { ast_new .AST_NUMBER with value := some "2".toList }
    { ast_new .AST_NUMBER with value := some "3".toList }
    { ast_new .AST_NUMBER with value := some "4".toList }
    ⟨.T_PLUS, "+".toList⟩ ⟨.T_STAR, "*".toList⟩ ⟨.T_SEMI, ";".toList⟩ rfl rfl rfl rfl).1 rfl rfl

theorem expect_mismatch (k : Tok) (rest : Parser) (t : TokType) (h : k.t ≠ t) :
    expect (k :: rest) t = .error .parse_error := by
  simp [expect, match_tok, check_tok, peek_tok, h]

theorem parse_primary_reject (pe : Parser → Except Fail (AstNode × Parser)) (fuel : Nat)
    (k : Tok) (rest : Parser) (h : starts_primary k.t = false) :
    parse_primary pe fuel (k :: rest) = .error .parse_error := by
  simp only [starts_primary, Bool.or_eq_false_iff, decide_eq_false_iff_not] at h
  obtain ⟨⟨⟨⟨h1, h2⟩, h3⟩, h4⟩, h5⟩ := h
  simp [parse_primary, check_tok, peek_tok, match_tok, h1, h2, h3, h4, h5, bind, Except.bind,
    pure, Except.pure]

theorem parse_expr_reject (f : Nat) (k : Tok) (rest : Parser)
    (h : starts_primary k.t = false) :
    parse_expr (f + 1) (k :: rest) = .error .parse_error := by
  simp only [parse_expr, parse_comparison, parse_additive, parse_multiplicative,
    parse_postfix, parse_primary_reject _ _ k rest h, bind, Except.bind]

theorem parse_stmt_reject (f : Nat) (pb : Parser → Except Fail (AstNode × Parser))
    (k : Tok) (rest : Parser)
    (h : starts_primary k.t = false) (hk : starts_keyword_stmt k.t = false) :
    parse_stmt (parse_expr (f + 1)) pb (k :: rest) = .error .parse_error := by
  simp only [starts_keyword_stmt, Bool.or_eq_false_iff, decide_eq_false_iff_not] at hk
  obtain ⟨⟨⟨h1, h2⟩, h3⟩, h4⟩ := hk
  simp [parse_stmt, match_tok, check_tok, peek_tok, h1, h2, h3, h4, bind, Except.bind,
    pure, Except.pure, parse_expr_reject f k rest h]

theorem parse_item_reject (k : Tok) (rest : Parser)
    (h1 : k.t ≠ .T_EOF) (h2 : k.t ≠ .T_STRUCT) (h3 : k.t ≠ .T_FN) :
    parse (k :: rest) = .error .parse_error := by
  simp [parse, parse_fuel, parse_loop, parse_func, expect, match_tok, check_tok, peek_tok,
    h1, h2, h3, bind, Except.bind, pure, Except.pure]

theorem parse_any_function_name (name var : Tok) :
    parse [⟨.T_FN, "fn".toList⟩, name, ⟨.T_LPAREN, "(".toList⟩, ⟨.T_RPAREN, ")".toList⟩,
        ⟨.T_LBRACE, [c_lbrace]⟩, ⟨.T_LET, "let".toList⟩, var, ⟨.T_SEMI, ";".toList⟩,
        ⟨.T_RBRACE, [c_rbrace]⟩, ⟨.T_EOF, []⟩]
      = .ok (c7_func_program name var, [⟨.T_EOF, []⟩]) := by
  simp [parse, parse_fuel, parse_loop, parse_func, param_loop, parse_block, block_loop,
    parse_stmt, expect, match_tok, check_tok, peek_tok, advance_tok, bind, Except.bind,
    pure, Except.pure, c7_func_program]

theorem parse_any_struct_name (name field type : Tok) (h : field.t ≠ .T_RBRACE) :
    parse [⟨.T_STRUCT, "struct".toList⟩, name, ⟨.T_LBRACE, [c_lbrace]⟩, field,
        ⟨.T_COLON, ":".toList⟩, type, ⟨.T_RBRACE, [c_rbrace]⟩, ⟨.T_EOF, []⟩]
      = .ok (c7_struct_program name field, [⟨.T_EOF, []⟩]) := by
  simp [parse, parse_fuel, parse_loop, parse_struct_def, struct_def_loop, expect, match_tok,
    check_tok, peek_tok, advance_tok, bind, Except.bind, pure, Except.pure,
    c7_struct_program, h]

/-- C7, as stated, fails: `fn )() { let 7; }` has a stray `)` where the
grammar requires the function name and a number where it requires the
variable name, and `struct 1 { 2 : 3 }` has numbers for the struct, field
and type names; `parse` returns an AST for both. -/
theorem C7_counterexample :
    parse_outcome "fn )() \x7b let 7; \x7d".toList = some none
      ∧ parse_outcome "struct 1 \x7b 2 : 3 \x7d".toList = some none := by
  decide

/-- C7 (amended): `parse` aborts with a parse error wherever a token fails
one of the parser's kind checks: `expect` on a token of another kind; a
token that starts no primary expression where an expression is parsed, and
so a token that starts neither a primary nor a keyword statement where a
statement is parsed (a stray `)`, as in `fn main() { return 1); }` and
`fn main() { ) }`); a token other than `struct`, `fn` or end of input at the
start of a top-level item. At name positions there is no kind check: any
token is taken as a function, variable, struct or type name, and any token
but `}` as a field name. -/
theorem C7_parse_errors_at_kind_checks :
    (∀ (k : Tok) (rest : Parser) (t : TokType), k.t ≠ t →
        expect (k :: rest) t = .error .parse_error)
    ∧ (∀ (pe : Parser → Except Fail (AstNode × Parser)) (fuel : Nat) (k : Tok) (rest : Parser),
        starts_primary k.t = false →
        parse_primary pe fuel (k :: rest) = .error .parse_error)
    ∧ (∀ (f : Nat) (pb : Parser → Except Fail (AstNode × Parser)) (k : Tok) (rest : Parser),
        starts_primary k.t = false → starts_keyword_stmt k.t = false →
        parse_stmt (parse_expr (f + 1)) pb (k :: rest) = .error .parse_error)
    ∧ (∀ (k : Tok) (rest : Parser), k.t ≠ .T_EOF → k.t ≠ .T_STRUCT → k.t ≠ .T_FN →
        parse (k :: rest) = .error .parse_error)
    ∧ parse_outcome "fn main() \x7b return 1); \x7d".toList = some (some .parse_error)
    ∧ parse_outcome "fn main() \x7b ) \x7d".toList = some (some .parse_error)
    ∧ (∀ (name var : Tok),
        parse [⟨.T_FN, "fn".toList⟩, name, ⟨.T_LPAREN, "(".toList⟩, ⟨.T_RPAREN, ")".toList⟩,
            ⟨.T_LBRACE, [c_lbrace]⟩, ⟨.T_LET, "let".toList⟩, var, ⟨.T_SEMI, ";".toList⟩,
            ⟨.T_RBRACE, [c_rbrace]⟩, ⟨.T_EOF, []⟩]
          = .ok (c7_func_program name var, [⟨.T_EOF, []⟩]))
    ∧ (∀ (name field type : Tok), field.t ≠ .T_RBRACE →
        parse [⟨.T_STRUCT, "struct".toList⟩, name, ⟨.T_LBRACE, [c_lbrace]⟩, field,
            ⟨.T_COLON, ":".toList⟩, type, ⟨.T_RBRACE, [c_rbrace]⟩, ⟨.T_EOF, []⟩]
          = .ok (c7_struct_program name field, [⟨.T_EOF, []⟩])) :=
  ⟨expect_mismatch, parse_primary_reject, parse_stmt_reject, parse_item_reject,
    by decide, by decide, parse_any_function_name, parse_any_struct_name⟩

/-- C7 (amended) at concrete tokens: a stray `)` where a statement starts
and where a top-level item starts is a parse error; a `)` where the function
name is due is accepted. -/
theorem C7_witness :
    parse_stmt (parse_expr 1) (parse_block 1 1) [⟨.T_RPAREN, ")".toList⟩, ⟨.T_EOF, []⟩]
        = .error .parse_error
    ∧ parse [⟨.T_RPAREN, ")".toList⟩, ⟨.T_EOF, []⟩] = .error .parse_error
    ∧ parse [⟨.T_FN, "fn".toList⟩, ⟨.T_RPAREN, ")".toList⟩, ⟨.T_LPAREN, "(".toList⟩,
          ⟨.T_RPAREN, ")".toList⟩, ⟨.T_LBRACE, [c_lbrace]⟩, ⟨.T_LET, "let".toList⟩,
          ⟨.T_NUM, "7".toList⟩, ⟨.T_SEMI, ";".toList⟩, ⟨.T_RBRACE, [c_rbrace]⟩, ⟨.T_EOF, []⟩]
        = .ok (c7_func_program ⟨.T_RPAREN, ")".toList⟩ ⟨.T_NUM, "7".toList⟩, [⟨.T_EOF, []⟩]) :=
  ⟨C7_parse_errors_at_kind_checks.2.2.1 0 _ ⟨.T_RPAREN, ")".toList⟩ _ (by decide) (by decide),
   C7_parse_errors_at_kind_checks.2.2.2.1 ⟨.T_RPAREN, ")".toList⟩ _ (by decide) (by decide)
     (by decide),
   C7_parse_errors_at_kind_checks.2.2.2.2.2.2.1 _ _⟩

/-! ## Lexical dead ends -/

theorem lex_tok_dead_end (l : Lex) (c : Char) (cs : Lex) (hs : skip l = c :: cs)
    (h : starts_token c (peek cs) = false) :
    lex_tok l = some (⟨.T_EOF, []⟩, cs) := by
  simp only [starts_token, Bool.or_eq_false_iff, decide_eq_false_iff_not,
    Bool.and_eq_false_imp, decide_eq_true_eq] at h
  obtain ⟨⟨⟨⟨⟨⟨⟨⟨⟨⟨⟨⟨⟨⟨⟨⟨⟨⟨⟨⟨⟨h1, h2⟩, h3⟩, h4⟩, h5⟩, h6⟩, h7⟩, h8⟩, h9⟩, h10⟩, h11⟩, h12⟩,
    h13⟩, h14⟩, h15⟩, h16⟩, h17⟩, h18⟩, h19⟩, h20⟩, h21⟩, h22⟩ := h
  simp only [lex_tok, hs]
  by_cases h0 : c = c_nul
  · simp [h0]
  · simp [h0, h1, h2, h3, h4, h5, h6, h7, h8, h9, h10, h11, h12, h13, h14, h15, h16, h17,
      h18, h20, h21, h22]
    intro h23 h24
    exact absurd h24 (h19 h23)

theorem tokenize_loop_dead_end (n : Nat) :
    ∀ (l0 l rest : Lex) (toks : List Tok) (cap : Nat),
      lex_n n l0 = some (toks, l) → lex_tok l = some (⟨.T_EOF, []⟩, rest) → n < cap →
      tokenize_loop cap l0 = some (toks ++ [⟨.T_EOF, []⟩]) := by
  induction n with
  | zero =>
    intro l0 l rest toks cap h1 h2 hc
    simp only [lex_n, Option.some.injEq, Prod.mk.injEq] at h1
    obtain ⟨rfl, rfl⟩ := h1
    obtain ⟨c, rfl⟩ := Nat.exists_eq_succ_of_ne_zero (Nat.pos_iff_ne_zero.mp hc)
    simp [tokenize_loop, h2]
  | succ n ih =>
    intro l0 l rest toks cap h1 h2 hc
    obtain ⟨c, rfl⟩ := Nat.exists_eq_succ_of_ne_zero (Nat.pos_iff_ne_zero.mp (by omega : 0 < cap))
    simp only [lex_n] at h1
    cases hl : lex_tok l0 with
    | none => simp [hl] at h1
    | some r =>
      obtain ⟨k, l1⟩ := r
      simp only [hl] at h1
      by_cases hk : k.t = .T_EOF
      · simp [hk] at h1
      · simp only [hk, if_false, Option.map_eq_some'] at h1
        obtain ⟨⟨t1, l2⟩, h3, h4⟩ := h1
        simp only [Prod.mk.injEq] at h4
        obtain ⟨rfl, rfl⟩ := h4
        have := ih l1 l2 rest t1 c h3 h2 (by omega)
        simp [tokenize_loop, hl, hk, this]

theorem parse_loop_at_eof (fuel f : Nat) (prog : AstNode) (k : Tok) (rest : Parser)
    (h : k.t = .T_EOF) :
    parse_loop fuel (f + 1) prog (k :: rest) = .ok (prog, k :: rest) := by
  simp [parse_loop, check_tok, peek_tok, h, bind, Except.bind, pure, Except.pure]

theorem parse_block_at_eof (fe f : Nat) (lb k : Tok) (rest : Parser)
    (h1 : lb.t = .T_LBRACE) (h : k.t = .T_EOF) :
    parse_block fe (f + 2) (lb :: k :: rest) = .error .parse_error := by
  simp [parse_block, block_loop, expect, match_tok, check_tok, peek_tok, advance_tok, h1, h,
    bind, Except.bind, pure, Except.pure]

theorem block_loop_at_eof (ps : Parser → Except Fail (AstNode × Parser)) (f : Nat)
    (block : AstNode) (k : Tok) (rest : Parser) (h : k.t = .T_EOF) :
    block_loop ps (f + 1) block (k :: rest) = .ok (block, k :: rest) := by
  simp [block_loop, check_tok, peek_tok, h, bind, Except.bind, pure, Except.pure]

/-- C8, as stated, fails: in `fn main() { return 0; } @ fn` and in `@` the
character `@` starts no token and stands outside comments and strings, yet
`parse(tokenize(source))` returns an AST. -/
theorem C8_counterexample :
    parse_outcome "fn main() \x7b return 0; \x7d @ fn".toList = some none
      ∧ parse_outcome "@".toList = some none := by
  decide

/-- C8 (amended): at a character that starts no token `lex_tok` yields a
token of kind `T_EOF`, and `tokenize` ends the token sequence with it
whatever follows. The parser treats it as the end of input: it is a parse
error where a primary expression is due, where `expect` asks for a token,
and inside a block (the statement loop stops at it and the `expect` of the
closing brace fails), as in `fn main() { return @; }` and
`fn main() { return 0; @ }`; where a top-level item may start, the loop of
`parse` stops and returns the program read so far. -/
theorem C8_dead_end_is_end_of_input :
    (∀ (l : Lex) (c : Char) (cs : Lex), skip l = c :: cs →
        starts_token c (peek cs) = false → lex_tok l = some (⟨.T_EOF, []⟩, cs))
    ∧ (∀ (n : Nat) (src l : Lex) (c : Char) (cs : Lex) (toks : List Tok),
        lex_n n src = some (toks, l) → skip l = c :: cs →
        starts_token c (peek cs) = false → n < 2000 →
        tokenize src = some (toks ++ [⟨.T_EOF, []⟩]))
    ∧ (∀ (pe : Parser → Except Fail (AstNode × Parser)) (fuel : Nat) (k : Tok) (rest : Parser),
        k.t = .T_EOF → parse_primary pe fuel (k :: rest) = .error .parse_error)
    ∧ (∀ (k : Tok) (rest : Parser) (t : TokType), k.t = .T_EOF → t ≠ .T_EOF →
        expect (k :: rest) t = .error .parse_error)
    ∧ (∀ (ps : Parser → Except Fail (AstNode × Parser)) (f : Nat) (block : AstNode) (k : Tok)
        (rest : Parser), k.t = .T_EOF →
        block_loop ps (f + 1) block (k :: rest) = .ok (block, k :: rest)
          ∧ expect (k :: rest) .T_RBRACE = .error .parse_error)
    ∧ (∀ (fuel f : Nat) (prog : AstNode) (k : Tok) (rest : Parser), k.t = .T_EOF →
        parse_loop fuel (f + 1) prog (k :: rest) = .ok (prog, k :: rest))
    ∧ parse_outcome "fn main() \x7b return @; \x7d".toList = some (some .parse_error)
    ∧ parse_outcome "fn main() \x7b return 0; @ \x7d".toList = some (some .parse_error) := by
  refine ⟨lex_tok_dead_end, ?_, ?_, ?_, ?_, parse_loop_at_eof, by decide, by decide⟩
  · intro n src l c cs toks h1 h2 h3 hn
    exact tokenize_loop_dead_end n src l cs toks 2000 h1 (lex_tok_dead_end l c cs h2 h3) hn
  · intro pe fuel k rest h
    exact parse_primary_reject pe fuel k rest (by simp [starts_primary, h])
  · intro k rest t h ht
    exact expect_mismatch k rest t (by rw [h]; exact fun e => ht e.symm)
  · intro ps f block k rest h
    exact ⟨block_loop_at_eof ps f block k rest h,
      expect_mismatch k rest _ (by rw [h]; decide)⟩

/-- C8 (amended) at the text `x @ y`: `lex_tok` gives `T_EOF` at ` @ y`, and
`tokenize` gives the identifier `x` followed by the end-of-input token. -/
theorem C8_witness :
    lex_tok " @ y".toList = some (⟨.T_EOF, []⟩, " y".toList)
      ∧ tokenize "x @ y".toList = some ([⟨.T_IDENT, "x".toList⟩] ++ [⟨.T_EOF, []⟩]) :=
  ⟨C8_dead_end_is_end_of_input.1 " @ y".toList '@' " y".toList (by decide) (by decide),
   C8_dead_end_is_end_of_input.2.1 1 "x @ y".toList " @ y".toList '@' " y".toList
     [⟨.T_IDENT, "x".toList⟩] (by decide) (by decide) (by decide) (by decide)⟩

theorem AstNode.induct_children (P : AstNode → Prop)
    (h : ∀ n : AstNode, (∀ c ∈ n.children, P c) →
      (∀ c ∈ n.children, ∀ g ∈ c.children, P g) → P n) :
    ∀ n, P n := by
  intro n
  have key : P n ∧ ∀ c ∈ n.children, P c := by
    refine AstNode.rec (motive_1 := fun n => P n ∧ ∀ c ∈ n.children, P c)
      (motive_2 := fun cs => ∀ c ∈ cs, P c ∧ ∀ g ∈ c.children, P g) ?_ ?_ ?_ n
    · intro type name children value op array_size struct_type ih
      exact ⟨h _ (fun c hc => (ih c hc).1) (fun c hc => (ih c hc).2), fun c hc => (ih c hc).1⟩
    · intro c hc
      exact absurd hc (List.not_mem_nil _)
    · intro head tail ih1 ih2 c hc
      rcases List.mem_cons.mp hc with rfl | hc
      · exact ih1
      · exact ih2 c hc
  exact key.1

/-! ## Lines emitted for expressions -/

theorem str_pair_eq_nil (a : Asm) (rest : List Asm)
    (h : ∀ n, rest.head? ≠ some (.mov_rbx_d n)) : str_pair a rest = [] := by
  cases rest with
  | nil => cases a <;> rfl
  | cons b r =>
    have hb : ∀ n, b ≠ .mov_rbx_d n := fun n e => h n (by simp [e])
    cases a <;> first
      | rfl
      | (cases b <;> first | rfl | exact absurd rfl (hb _))

theorem str_pair_append (a b : Asm) (rest l2 : List Asm) :
    str_pair a (b :: rest ++ l2) = str_pair a (b :: rest) := by
  cases a <;> first
    | rfl
    | (cases b <;> rfl)

theorem str_loads_append (l1 l2 : List Asm) (h : ∀ n, l2.head? ≠ some (.mov_rbx_d n)) :
    str_loads (l1 ++ l2) = str_loads l1 ++ str_loads l2 := by
  induction l1 with
  | nil => rfl
  | cons a rest ih =>
    cases rest with
    | nil =>
      show str_pair a l2 ++ str_loads l2 = (str_pair a [] ++ []) ++ str_loads l2
      rw [str_pair_eq_nil a l2 h, str_pair_eq_nil a [] (by simp)]
      rfl
    | cons b rest =>
      show str_pair a (b :: rest ++ l2) ++ str_loads (b :: rest ++ l2)
        = (str_pair a (b :: rest) ++ str_loads (b :: rest)) ++ str_loads l2
      rw [str_pair_append, ih, List.append_assoc]

theorem plain_label_defs (ls : List Asm) (h : ∀ a ∈ ls, a.plain = true) : label_defs ls = [] := by
  rw [label_defs, List.filterMap_eq_nil_iff]
  intro a ha
  have := h a ha
  cases a <;> first | rfl | exact absurd this (by simp [Asm.plain])

theorem plain_jump_targets (ls : List Asm) (h : ∀ a ∈ ls, a.plain = true) :
    jump_targets ls = [] := by
  rw [jump_targets, List.filterMap_eq_nil_iff]
  intro a ha
  have := h a ha
  cases a <;> first | rfl | exact absurd this (by simp [Asm.plain])

theorem plain_str_loads (ls : List Asm) (h : ∀ a ∈ ls, a.plain = true) : str_loads ls = [] := by
  induction ls with
  | nil => rfl
  | cons a rest ih =>
    have := ih (fun b hb => h b (List.mem_cons_of_mem _ hb))
    rw [str_loads, this, List.append_nil]
    apply str_pair_eq_nil
    intro n hn
    cases rest with
    | nil => simp at hn
    | cons b r =>
      simp only [List.head?_cons, Option.some.injEq] at hn
      have hb := h b (List.mem_cons_of_mem _ (List.mem_cons_self _ _))
      rw [hn] at hb
      exact absurd hb (by simp [Asm.plain])

theorem rows_ok_append (r1 r2 : List StringEntry) :
    ∀ start, rows_ok start r1 → rows_ok (start + r1.length) r2 → rows_ok start (r1 ++ r2) := by
  induction r1 with
  | nil => intro start _ h; simpa using h
  | cons e rest ih =>
    intro start h1 h2
    simp only [rows_ok, List.cons_append] at h1 ⊢
    refine ⟨h1.1, h1.2.1, ih (start + 1) h1.2.2 ?_⟩
    have : start + 1 + rest.length = start + (e :: rest).length := by simp; omega
    rw [this]; exact h2

theorem ExprExt.expr_refl (cg : Codegen) : ExprExt cg cg :=
  ⟨rfl, rfl, rfl, [], [], by simp, by simp, rfl, rfl, by simp, rfl, trivial⟩

theorem ExprExt.expr_trans (a b c : Codegen) (h1 : ExprExt a b) (h2 : ExprExt b c) : ExprExt a c := by
  obtain ⟨l1, s1, t1, lines1, rows1, c1, r1, d1, j1, hd1, sl1, ok1⟩ := h1
  obtain ⟨l2, s2, t2, lines2, rows2, c2, r2, d2, j2, hd2, sl2, ok2⟩ := h2
  refine ⟨l2.trans l1, s2.trans s1, t2.trans t1, lines1 ++ lines2, rows1 ++ rows2, ?_, ?_, ?_,
    ?_, ?_, ?_, ?_⟩
  · rw [c2, c1, List.append_assoc]
  · rw [r2, r1, List.append_assoc]
  · simp only [label_defs, List.filterMap_append] at d1 d2 ⊢; rw [d1, d2]; rfl
  · simp only [jump_targets, List.filterMap_append] at j1 j2 ⊢; rw [j1, j2]; rfl
  · intro n
    cases lines1 with
    | nil => simpa using hd2 n
    | cons x xs => simpa using hd1 n
  · rw [str_loads_append _ _ hd2, sl1, sl2, List.map_append]
  · apply rows_ok_append _ _ _ ok1
    rw [r1] at ok2
    simpa using ok2

theorem ExprExt.emit (cg : Codegen) (ls : List Asm) (h : ∀ a ∈ ls, a.plain = true) :
    ExprExt cg (emit cg ls) := by
  refine ⟨rfl, rfl, rfl, ls, [], rfl, by simp [Chronos.emit], plain_label_defs ls h,
    plain_jump_targets ls h, ?_, by simpa using plain_str_loads ls h, trivial⟩
  intro n hn
  cases ls with
  | nil => simp at hn
  | cons a rest =>
    simp only [List.head?_cons, Option.some.injEq] at hn
    have := h a (List.mem_cons_self _ _)
    rw [hn] at this
    exact absurd this (by simp [Asm.plain])

theorem binop_lines_plain (o : List Char) : ∀ a ∈ binop_lines o, a.plain = true := by
  intro a ha
  unfold binop_lines at ha
  split_ifs at ha <;> simp at ha <;> (try rcases ha with rfl | rfl) <;> rfl

theorem compare_lines_plain (o : List Char) : ∀ a ∈ compare_lines o, a.plain = true := by
  intro a ha
  unfold compare_lines at ha
  split_ifs at ha <;> simp at ha <;> (try subst ha) <;> rfl

theorem ExprExt.string (cg : Codegen) (v : List Char) :
    ExprExt cg (Chronos.emit (Chronos.emit
      { cg with strtab := (strtab_add cg.strtab v v.length).1 }
      [.mov_rax_s (strtab_add cg.strtab v v.length).2]) [.mov_rbx_d (v.length : Int)]) := by
  refine ⟨rfl, rfl, rfl,
    [.mov_rax_s (strtab_add cg.strtab v v.length).2, .mov_rbx_d (v.length : Int)],
    [{ label := "str_".toList ++ fmt_d (cg.strtab.length : Int), value := v,
       len := (v.length : Int) }], ?_, ?_, rfl, rfl, ?_, ?_, ?_⟩
  · simp [Chronos.emit]
  · simp [Chronos.emit, strtab_add]
  · intro n; simp
  · simp [str_loads, str_pair, strtab_add]
  · simp [rows_ok]

theorem gen_call_args_ext (cs : List AstNode)
    (h : ∀ c ∈ cs, ∀ cg cg1, gen_expr cg c = some cg1 → ExprExt cg cg1) :
    ∀ (rs : List String) (cg cg1 : Codegen), gen_call_args cg cs rs = some cg1 →
      ExprExt cg cg1 := by
  induction cs with
  | nil => intro rs cg cg1 hg; simp [gen_call_args] at hg; subst hg; exact ExprExt.expr_refl _
  | cons c rest ih =>
    intro rs cg cg1 hg
    cases rs with
    | nil => simp [gen_call_args] at hg; subst hg; exact ExprExt.expr_refl _
    | cons r rs =>
      simp only [gen_call_args, Option.bind_eq_bind, Option.bind_eq_some] at hg
      obtain ⟨cga, h1, h2⟩ := hg
      exact ((h c (List.mem_cons_self _ _) _ _ h1).expr_trans _ _ _
        (ExprExt.emit _ _ (by simp [Asm.plain]))).expr_trans _ _ _
        (ih (fun d hd => h d (List.mem_cons_of_mem _ hd)) rs _ _ h2)

theorem gen_array_elems_ext (cs : List AstNode)
    (h : ∀ c ∈ cs, ∀ cg cg1, gen_expr cg c = some cg1 → ExprExt cg cg1) :
    ∀ (base i : Int) (cg cg1 : Codegen), gen_array_elems cg base cs i = some cg1 →
      ExprExt cg cg1 := by
  induction cs with
  | nil => intro base i cg cg1 hg; simp [gen_array_elems] at hg; subst hg; exact ExprExt.expr_refl _
  | cons c rest ih =>
    intro base i cg cg1 hg
    simp only [gen_array_elems, Option.bind_eq_bind, Option.bind_eq_some] at hg
    obtain ⟨cga, h1, h2⟩ := hg
    exact ((h c (List.mem_cons_self _ _) _ _ h1).expr_trans _ _ _
      (ExprExt.emit _ _ (by simp [Asm.plain]))).expr_trans _ _ _
      (ih (fun d hd => h d (List.mem_cons_of_mem _ hd)) _ _ _ _ h2)

theorem gen_struct_fields_ext (cs : List AstNode)
    (h : ∀ c ∈ cs, ∀ g ∈ c.children, ∀ cg cg1, gen_expr cg g = some cg1 → ExprExt cg cg1) :
    ∀ (base : Int) (stn : List Char) (cg cg1 : Codegen),
      gen_struct_fields cg base stn cs = some cg1 → ExprExt cg cg1 := by
  induction cs with
  | nil => intro base stn cg cg1 hg; simp [gen_struct_fields] at hg; subst hg; exact ExprExt.expr_refl _
  | cons c rest ih =>
    intro base stn cg cg1 hg
    obtain ⟨ty, fname, fch, v, o, a, s⟩ := c
    cases fch with
    | nil => simp [gen_struct_fields] at hg
    | cons fv frest =>
      simp only [gen_struct_fields, Option.bind_eq_bind, Option.bind_eq_some] at hg
      obtain ⟨off, -, cga, h1, h2⟩ := hg
      exact ((h _ (List.mem_cons_self _ _) fv (List.mem_cons_self _ _) _ _ h1).expr_trans _ _ _
        (ExprExt.emit _ _ (by simp [Asm.plain]))).expr_trans _ _ _
        (ih (fun d hd => h d (List.mem_cons_of_mem _ hd)) _ _ _ _ h2)

theorem gen_expr_ext : ∀ (n : AstNode) (cg cg1 : Codegen),
    gen_expr cg n = some cg1 → ExprExt cg cg1 := by
  intro n
  induction n using AstNode.induct_children with
  | h n ihc ihg =>
  intro cg cg1 hg
  obtain ⟨type, name, children, value, op, asz, stt⟩ := n
  simp only at ihc ihg
  cases type
  case AST_NUMBER =>
    simp only [gen_expr, Option.bind_eq_bind, Option.bind_eq_some] at hg
    obtain ⟨v, -, hg⟩ := hg
    simp only [Option.some.injEq] at hg; subst hg
    exact ExprExt.emit _ _ (by simp [Asm.plain])
  case AST_STRING =>
    simp only [gen_expr, Option.bind_eq_bind, Option.bind_eq_some] at hg
    obtain ⟨v, -, hg⟩ := hg
    simp only [Option.some.injEq] at hg; subst hg
    exact ExprExt.string cg v
  case AST_IDENT =>
    simp only [gen_expr, Option.bind_eq_bind, Option.bind_eq_some] at hg
    obtain ⟨off, -, hg⟩ := hg
    split_ifs at hg
    · simp only [Option.some.injEq] at hg; subst hg
      exact ExprExt.emit _ _ (by simp [Asm.plain])
    · simp only [Option.bind_eq_some] at hg
      obtain ⟨nm, -, hg⟩ := hg
      simp only [Option.some.injEq] at hg; subst hg
      exact ExprExt.emit _ _ (by simp [Asm.plain])
  case AST_ASSIGN =>
    cases children with
    | nil => simp [gen_expr] at hg
    | cons c0 rest =>
      simp only [gen_expr, Option.bind_eq_bind, Option.bind_eq_some] at hg
      obtain ⟨cga, h1, off, -, hg⟩ := hg
      have e1 := ihc c0 (List.mem_cons_self _ _) _ _ h1
      split_ifs at hg
      · simp only [Option.some.injEq] at hg; subst hg
        exact e1.expr_trans _ _ _ (ExprExt.emit _ _ (by simp [Asm.plain]))
      · simp only [Option.some.injEq] at hg; subst hg
        exact e1
  case AST_BINOP =>
    rcases children with _ | ⟨c0, _ | ⟨c1, rest⟩⟩
    · simp [gen_expr] at hg
    · simp [gen_expr] at hg
    · simp only [gen_expr, Option.bind_eq_bind, Option.bind_eq_some] at hg
      obtain ⟨cga, h1, cgb, h2, o, -, hg⟩ := hg
      simp only [Option.some.injEq] at hg; subst hg
      have e1 := ihc c0 (List.mem_cons_self _ _) _ _ h1
      have e2 := ihc c1 (List.mem_cons_of_mem _ (List.mem_cons_self _ _)) _ _ h2
      exact (((e1.expr_trans _ _ _ (ExprExt.emit _ _ (by simp [Asm.plain]))).expr_trans _ _ _ e2).expr_trans
        _ _ _ (ExprExt.emit _ _ (by simp [Asm.plain]))).expr_trans _ _ _
        (ExprExt.emit _ _ (binop_lines_plain o))
  case AST_COMPARE =>
    rcases children with _ | ⟨c0, _ | ⟨c1, rest⟩⟩
    · simp [gen_expr] at hg
    · simp [gen_expr] at hg
    · simp only [gen_expr, Option.bind_eq_bind, Option.bind_eq_some] at hg
      obtain ⟨cga, h1, cgb, h2, o, -, hg⟩ := hg
      simp only [Option.some.injEq] at hg; subst hg
      have e1 := ihc c0 (List.mem_cons_self _ _) _ _ h1
      have e2 := ihc c1 (List.mem_cons_of_mem _ (List.mem_cons_self _ _)) _ _ h2
      exact (((((e1.expr_trans _ _ _ (ExprExt.emit _ _ (by simp [Asm.plain]))).expr_trans _ _ _ e2).expr_trans
        _ _ _ (ExprExt.emit _ _ (by simp [Asm.plain]))).expr_trans _ _ _
        (ExprExt.emit _ _ (by simp [Asm.plain]))).expr_trans _ _ _
        (ExprExt.emit _ _ (compare_lines_plain o))).expr_trans _ _ _
        (ExprExt.emit _ _ (by simp [Asm.plain]))
  case AST_CALL =>
    cases children with
    | nil =>
      simp only [gen_expr, Option.bind_eq_bind, Option.bind_eq_some] at hg
      obtain ⟨nm, -, hg⟩ := hg
      split_ifs at hg
      · simp only [Option.some.injEq] at hg; subst hg; exact ExprExt.expr_refl _
      · simp only [Option.some_bind, Option.some.injEq] at hg; subst hg
        exact ((ExprExt.emit _ _ (by simp [Asm.plain])).expr_trans _ _ _
          (ExprExt.emit _ _ (by simp [Asm.plain]))).expr_trans _ _ _
          (ExprExt.emit _ _ (by simp [Asm.plain]))
      · simp only [Option.some.injEq] at hg; subst hg; exact ExprExt.expr_refl _
      · simp only [Option.some_bind, Option.some.injEq] at hg; subst hg
        exact (ExprExt.emit _ _ (by simp [Asm.plain])).expr_trans _ _ _
          (ExprExt.emit _ _ (by simp [Asm.plain]))
      · simp only [gen_call_args, Option.some_bind, Option.some.injEq] at hg; subst hg
        exact ExprExt.emit _ _ (by simp [Asm.plain])
    | cons c0 rest =>
      simp only [gen_expr, Option.bind_eq_bind, Option.bind_eq_some] at hg
      obtain ⟨nm, -, hg⟩ := hg
      split_ifs at hg
      · simp only [Option.bind_eq_some, Option.some.injEq] at hg
        obtain ⟨cga, h1, hg⟩ := hg
        subst hg
        exact ((ihc c0 (List.mem_cons_self _ _) _ _ h1).expr_trans _ _ _
          (ExprExt.emit _ _ (by simp [Asm.plain]))).expr_trans _ _ _
          (ExprExt.emit _ _ (by simp [Asm.plain]))
      · simp only [Option.bind_eq_some, Option.some.injEq] at hg
        obtain ⟨cg3, ⟨cga, h1, h3⟩, hg⟩ := hg
        subst h3; subst hg
        exact (((((ihc c0 (List.mem_cons_self _ _) _ _ h1).expr_trans _ _ _
          (ExprExt.emit _ _ (by simp [Asm.plain]))).expr_trans _ _ _
          (ExprExt.emit _ _ (by simp [Asm.plain]))).expr_trans _ _ _
          (ExprExt.emit _ _ (by simp [Asm.plain]))).expr_trans _ _ _
          (ExprExt.emit _ _ (by simp [Asm.plain]))).expr_trans _ _ _
          (ExprExt.emit _ _ (by simp [Asm.plain]))
      · simp only [Option.bind_eq_some, Option.some.injEq] at hg
        obtain ⟨cga, h1, hg⟩ := hg
        subst hg
        exact (ihc c0 (List.mem_cons_self _ _) _ _ h1).expr_trans _ _ _
          (ExprExt.emit _ _ (by simp [Asm.plain]))
      · simp only [Option.bind_eq_some, Option.some.injEq] at hg
        obtain ⟨cg2, ⟨cga, h1, h2⟩, hg⟩ := hg
        subst h2; subst hg
        exact ((ihc c0 (List.mem_cons_self _ _) _ _ h1).expr_trans _ _ _
          (ExprExt.emit _ _ (by simp [Asm.plain]))).expr_trans _ _ _
          (ExprExt.emit _ _ (by simp [Asm.plain]))
      · simp only [Option.bind_eq_some, Option.some.injEq] at hg
        obtain ⟨cga, h1, hg⟩ := hg
        subst hg
        exact (gen_call_args_ext (c0 :: rest) ihc _ _ _ h1).expr_trans _ _ _
          (ExprExt.emit _ _ (by simp [Asm.plain]))
  case AST_ARRAY_LITERAL =>
    simp only [gen_expr] at hg
    have e0 : ExprExt cg (Chronos.emit cg [.comment_array_literal]) :=
      ExprExt.emit _ _ (by simp [Asm.plain])
    split at hg
    · simp only [Option.some.injEq] at hg; subst hg; exact e0
    · simp only [Option.bind_eq_bind, Option.bind_eq_some] at hg
      obtain ⟨cga, h1, hg⟩ := hg
      simp only [Option.some.injEq] at hg; subst hg
      exact (e0.expr_trans _ _ _ (gen_array_elems_ext children ihc _ _ _ _ h1)).expr_trans _ _ _
        (ExprExt.emit _ _ (by simp [Asm.plain]))
  case AST_INDEX =>
    cases children with
    | nil => simp [gen_expr] at hg
    | cons arr rest =>
      simp only [gen_expr, Option.bind_eq_bind, Option.bind_eq_some] at hg
      obtain ⟨r, -, hg⟩ := hg
      cases r with
      | none => simp only [Option.some.injEq] at hg; subst hg; exact ExprExt.expr_refl _
      | some sym =>
        cases rest with
        | nil => simp at hg
        | cons c1 rest =>
          simp only [Option.bind_eq_bind, Option.bind_eq_some] at hg
          obtain ⟨cga, h1, hg⟩ := hg
          simp only [Option.some.injEq] at hg; subst hg
          exact (((ihc c1 (List.mem_cons_of_mem _ (List.mem_cons_self _ _)) _ _ h1).expr_trans _ _ _
            (ExprExt.emit _ _ (by simp [Asm.plain]))).expr_trans _ _ _
            (ExprExt.emit _ _ (by simp [Asm.plain]))).expr_trans _ _ _
            (ExprExt.emit _ _ (by simp [Asm.plain]))
  case AST_STRUCT_LITERAL =>
    simp only [gen_expr, Option.bind_eq_bind, Option.bind_eq_some] at hg
    obtain ⟨stn, -, hg⟩ := hg
    have e0 : ExprExt cg (Chronos.emit cg [.comment_struct_literal stn]) :=
      ExprExt.emit _ _ (by simp [Asm.plain])
    split at hg
    · simp only [Option.some.injEq] at hg; subst hg; exact e0
    · simp only [Option.bind_eq_bind, Option.bind_eq_some] at hg
      obtain ⟨cga, h1, hg⟩ := hg
      simp only [Option.some.injEq] at hg; subst hg
      exact (e0.expr_trans _ _ _ (gen_struct_fields_ext children ihg _ _ _ _ h1)).expr_trans _ _ _
        (ExprExt.emit _ _ (by simp [Asm.plain]))
  case AST_FIELD_ACCESS =>
    cases children with
    | nil => simp [gen_expr] at hg
    | cons obj rest =>
      simp only [gen_expr, Option.bind_eq_bind, Option.bind_eq_some] at hg
      obtain ⟨r, -, hg⟩ := hg
      cases r with
      | none => simp only [Option.some.injEq] at hg; subst hg; exact ExprExt.expr_refl _
      | some sym =>
        simp only at hg
        split at hg
        · simp only [Option.some.injEq] at hg; subst hg; exact ExprExt.expr_refl _
        · simp only [Option.bind_eq_bind, Option.bind_eq_some] at hg
          obtain ⟨off, -, hg⟩ := hg
          split_ifs at hg
          · simp only [Option.some.injEq] at hg; subst hg
            exact ExprExt.emit _ _ (by simp [Asm.plain])
          · simp only [Option.bind_eq_some] at hg
            obtain ⟨fnm, -, hg⟩ := hg
            simp only [Option.some.injEq] at hg; subst hg
            exact ExprExt.emit _ _ (by simp [Asm.plain])
  all_goals
    simp only [gen_expr, Option.some.injEq] at hg
    subst hg
    exact ExprExt.expr_refl _

/-! ## Lines emitted for statements -/

theorem label_defs_append (a b : List Asm) : label_defs (a ++ b) = label_defs a ++ label_defs b := by
  simp [label_defs, List.filterMap_append]

theorem jump_targets_append (a b : List Asm) :
    jump_targets (a ++ b) = jump_targets a ++ jump_targets b := by
  simp [jump_targets, List.filterMap_append]

theorem jz_targets_append (a b : List Asm) : jz_targets (a ++ b) = jz_targets a ++ jz_targets b := by
  simp [jz_targets, List.filterMap_append]

theorem jz_targets_of_no_jumps (ls : List Asm) (h : jump_targets ls = []) : jz_targets ls = [] := by
  rw [jump_targets, List.filterMap_eq_nil_iff] at h
  rw [jz_targets, List.filterMap_eq_nil_iff]
  intro a ha
  have := h a ha
  cases a <;> first | rfl | exact absurd this (by simp)

theorem JzOk_append (z1 z2 : List Nat) :
    ∀ L, JzOk L z1 → JzOk (L + 2 * z1.length) z2 → JzOk L (z1 ++ z2) := by
  induction z1 with
  | nil => intro L _ h; simpa using h
  | cons t rest ih =>
    intro L h1 h2
    simp only [JzOk, List.cons_append] at h1 ⊢
    refine ⟨h1.1, ih (L + 2) h1.2 ?_⟩
    have : L + 2 + 2 * rest.length = L + 2 * (t :: rest).length := by simp; omega
    rw [this]; exact h2

theorem BranchOk.nil (L : Nat) (lines : List Asm) (hd : label_defs lines = [])
    (hj : jump_targets lines = []) : BranchOk L L lines := by
  have hz := jz_targets_of_no_jumps lines hj
  refine ⟨by rw [hd]; exact List.nodup_nil, ?_, ?_, by rw [hz]; trivial, by rw [hz]; rfl⟩
  · intro t; rw [hd]; simp
  · intro t ht; rw [hj] at ht; simp at ht

theorem BranchOk.append (L M N : Nat) (l1 l2 : List Asm)
    (h1 : BranchOk L M l1) (h2 : BranchOk M N l2) : BranchOk L N (l1 ++ l2) := by
  obtain ⟨n1, m1, j1, z1, e1⟩ := h1
  obtain ⟨n2, m2, j2, z2, e2⟩ := h2
  have hLM : L ≤ M := by omega
  have hMN : M ≤ N := by omega
  refine ⟨?_, ?_, ?_, ?_, ?_⟩
  · rw [label_defs_append, List.nodup_append]
    refine ⟨n1, n2, ?_⟩
    intro t ht1 ht2
    have := (m1 t).mp ht1
    have := (m2 t).mp ht2
    omega
  · intro t
    rw [label_defs_append, List.mem_append, m1, m2]
    omega
  · intro t ht
    rw [jump_targets_append, List.mem_append] at ht
    rcases ht with ht | ht
    · have := j1 t ht; omega
    · have := j2 t ht; omega
  · rw [jz_targets_append]
    apply JzOk_append _ _ _ z1
    rw [← e1]; exact z2
  · rw [jz_targets_append, List.length_append]; omega

theorem BranchExt.branch_trans (k1 k2 : Nat) (a b c : Codegen)
    (h1 : BranchExt k1 a b) (h2 : BranchExt k2 b c) : BranchExt (k1 + k2) a c := by
  obtain ⟨l1, c1, n1, o1⟩ := h1
  obtain ⟨l2, c2, n2, o2⟩ := h2
  refine ⟨l1 ++ l2, by rw [c2, c1, List.append_assoc], ?_, BranchOk.append _ _ _ _ _ o1 o2⟩
  rw [jz_targets_append, List.length_append, n1, n2]

theorem BranchExt.branch_of_expr (cg cg1 : Codegen) (h : ExprExt cg cg1) : BranchExt 0 cg cg1 := by
  obtain ⟨hl, -, -, lines, rows, hc, -, hd, hj, -, -, -⟩ := h
  refine ⟨lines, hc, by rw [jz_targets_of_no_jumps lines hj]; rfl, ?_⟩
  rw [hl]
  exact BranchOk.nil _ lines hd hj

theorem StrExt.str_of_expr (cg cg1 : Codegen) (h : ExprExt cg cg1) : StrExt cg cg1 := by
  obtain ⟨-, -, ht, lines, rows, hc, hr, -, -, hh, hs, ho⟩ := h
  exact ⟨ht, lines, rows, hc, hr, hh, hs, ho⟩

theorem StrExt.str_refl (cg : Codegen) : StrExt cg cg := StrExt.str_of_expr cg cg (ExprExt.expr_refl cg)

theorem StrExt.str_trans (a b c : Codegen) (h1 : StrExt a b) (h2 : StrExt b c) : StrExt a c := by
  obtain ⟨t1, lines1, rows1, c1, r1, hd1, sl1, ok1⟩ := h1
  obtain ⟨t2, lines2, rows2, c2, r2, hd2, sl2, ok2⟩ := h2
  refine ⟨t2.trans t1, lines1 ++ lines2, rows1 ++ rows2, ?_, ?_, ?_, ?_, ?_⟩
  · rw [c2, c1, List.append_assoc]
  · rw [r2, r1, List.append_assoc]
  · intro n
    cases lines1 with
    | nil => simpa using hd2 n
    | cons x xs => simpa using hd1 n
  · rw [str_loads_append _ _ hd2, sl1, sl2, List.map_append]
  · apply rows_ok_append _ _ _ ok1
    rw [r1] at ok2
    simpa using ok2

theorem str_loads_no_rbx (ls : List Asm) (h : ∀ a ∈ ls, ∀ n, a ≠ .mov_rbx_d n) :
    str_loads ls = [] := by
  induction ls with
  | nil => rfl
  | cons a rest ih =>
    rw [str_loads, ih (fun b hb => h b (List.mem_cons_of_mem _ hb)), List.append_nil]
    apply str_pair_eq_nil
    intro n hn
    cases rest with
    | nil => simp at hn
    | cons b r =>
      simp only [List.head?_cons, Option.some.injEq] at hn
      exact h b (List.mem_cons_of_mem _ (List.mem_cons_self _ _)) n hn

theorem StrExt.step (cg cg1 : Codegen) (ls : List Asm)
    (h : ∀ a ∈ ls, ∀ n, a ≠ .mov_rbx_d n)
    (ht : cg1.types = cg.types) (hs : cg1.strtab = cg.strtab) (hc : cg1.code = cg.code ++ ls) :
    StrExt cg cg1 := by
  refine ⟨ht, ls, [], hc, by simpa using hs, ?_, by simpa using str_loads_no_rbx ls h, trivial⟩
  intro n hn
  cases ls with
  | nil => simp at hn
  | cons a rest =>
    simp only [List.head?_cons, Option.some.injEq] at hn
    exact h a (List.mem_cons_self _ _) n hn

theorem BranchOk_if (L M1 M2 : Nat) (le l1 l2 : List Asm)
    (hd : label_defs le = []) (hj : jump_targets le = [])
    (h1 : BranchOk (L + 2) M1 l1) (h2 : BranchOk M1 M2 l2) :
    BranchOk L M2 (le ++ [.test_rax_rax, .jz_L L] ++ l1 ++ [.jmp_L (L + 1), .label_L L]
      ++ l2 ++ [.label_L (L + 1)]) := by
  obtain ⟨n1, m1, j1, z1, e1⟩ := h1
  obtain ⟨n2, m2, j2, z2, e2⟩ := h2
  have hz := jz_targets_of_no_jumps le hj
  have hdef : label_defs (le ++ [.test_rax_rax, .jz_L L] ++ l1 ++ [.jmp_L (L + 1), .label_L L]
      ++ l2 ++ [.label_L (L + 1)]) = label_defs l1 ++ (L :: (label_defs l2 ++ [L + 1])) := by
    simp only [label_defs_append, hd]
    simp [label_defs]
  have hjmp : jump_targets (le ++ [.test_rax_rax, .jz_L L] ++ l1 ++ [.jmp_L (L + 1), .label_L L]
      ++ l2 ++ [.label_L (L + 1)]) = L :: (jump_targets l1 ++ ((L + 1) :: jump_targets l2)) := by
    simp only [jump_targets_append, hj]
    simp [jump_targets]
  have hjz : jz_targets (le ++ [.test_rax_rax, .jz_L L] ++ l1 ++ [.jmp_L (L + 1), .label_L L]
      ++ l2 ++ [.label_L (L + 1)]) = L :: (jz_targets l1 ++ jz_targets l2) := by
    simp only [jz_targets_append, hz]
    simp [jz_targets]
  refine ⟨?_, ?_, ?_, ?_, ?_⟩
  · rw [hdef, List.nodup_append]
    refine ⟨n1, ?_, ?_⟩
    · rw [List.nodup_cons]
      constructor
      · intro hm
        rcases List.mem_append.mp hm with hm | hm
        · have := (m2 L).mp hm; omega
        · simp at hm
      · rw [List.nodup_append]
        refine ⟨n2, List.nodup_singleton _, ?_⟩
        intro t ht1 ht2
        have := (m2 t).mp ht1
        simp only [List.mem_singleton] at ht2
        omega
    · intro t ht1 ht2
      have h3 := (m1 t).mp ht1
      rcases List.mem_cons.mp ht2 with rfl | ht2
      · omega
      · rcases List.mem_append.mp ht2 with ht2 | ht2
        · have := (m2 t).mp ht2; omega
        · simp only [List.mem_singleton] at ht2; omega
  · intro t
    rw [hdef]
    simp only [List.mem_append, List.mem_cons, List.mem_singleton, m1, m2, List.not_mem_nil,
      or_false]
    omega
  · intro t ht
    rw [hjmp] at ht
    simp only [List.mem_append, List.mem_cons] at ht
    rcases ht with rfl | ht | rfl | ht
    · omega
    · have := j1 t ht; omega
    · omega
    · have := j2 t ht; omega
  · rw [hjz]
    refine ⟨⟨le_refl _, by omega⟩, ?_⟩
    apply JzOk_append _ _ _ z1
    rw [← e1]; exact z2
  · rw [hjz]
    simp only [List.length_cons, List.length_append]
    omega

theorem BranchOk_while (L M1 : Nat) (le l1 : List Asm)
    (hd : label_defs le = []) (hj : jump_targets le = [])
    (h1 : BranchOk (L + 2) M1 l1) :
    BranchOk L M1 ([.label_L L] ++ le ++ [.test_rax_rax, .jz_L (L + 1)] ++ l1
      ++ [.jmp_L L, .label_L (L + 1)]) := by
  obtain ⟨n1, m1, j1, z1, e1⟩ := h1
  have hz := jz_targets_of_no_jumps le hj
  have hdef : label_defs ([.label_L L] ++ le ++ [.test_rax_rax, .jz_L (L + 1)] ++ l1
      ++ [.jmp_L L, .label_L (L + 1)]) = L :: (label_defs l1 ++ [L + 1]) := by
    simp only [label_defs_append, hd]
    simp [label_defs]
  have hjmp : jump_targets ([.label_L L] ++ le ++ [.test_rax_rax, .jz_L (L + 1)] ++ l1
      ++ [.jmp_L L, .label_L (L + 1)]) = (L + 1) :: (jump_targets l1 ++ [L]) := by
    simp only [jump_targets_append, hj]
    simp [jump_targets]
  have hjz : jz_targets ([.label_L L] ++ le ++ [.test_rax_rax, .jz_L (L + 1)] ++ l1
      ++ [.jmp_L L, .label_L (L + 1)]) = (L + 1) :: jz_targets l1 := by
    simp only [jz_targets_append, hz]
    simp [jz_targets]
  refine ⟨?_, ?_, ?_, ?_, ?_⟩
  · rw [hdef, List.nodup_cons]
    constructor
    · intro hm
      rcases List.mem_append.mp hm with hm | hm
      · have := (m1 L).mp hm; omega
      · simp at hm
    · rw [List.nodup_append]
      refine ⟨n1, List.nodup_singleton _, ?_⟩
      intro t ht1 ht2
      have := (m1 t).mp ht1
      simp only [List.mem_singleton] at ht2
      omega
  · intro t
    rw [hdef]
    simp only [List.mem_append, List.mem_cons, List.mem_singleton, m1, List.not_mem_nil,
      or_false]
    omega
  · intro t ht
    rw [hjmp] at ht
    simp only [List.mem_append, List.mem_cons, List.mem_singleton, List.not_mem_nil,
      or_false] at ht
    rcases ht with rfl | ht | rfl
    · omega
    · have := j1 t ht; omega
    · omega
  · rw [hjz]
    exact ⟨⟨by omega, le_refl _⟩, z1⟩
  · rw [hjz]
    simp only [List.length_cons]
    omega

theorem StmtExt.stmt_of_expr (cg cg1 : Codegen) (h : ExprExt cg cg1) : StmtExt 0 cg cg1 :=
  ⟨StrExt.str_of_expr cg cg1 h, BranchExt.branch_of_expr cg cg1 h⟩

theorem StmtExt.stmt_trans (k1 k2 : Nat) (a b c : Codegen)
    (h1 : StmtExt k1 a b) (h2 : StmtExt k2 b c) : StmtExt (k1 + k2) a c :=
  ⟨h1.1.str_trans _ _ _ h2.1, h1.2.branch_trans _ _ _ _ _ h2.2⟩

theorem StmtExt.stmt_of_eq (cg cg1 : Codegen) (hc : cg1.code = cg.code)
    (hs : cg1.strtab = cg.strtab) (ht : cg1.types = cg.types)
    (hl : cg1.label_count = cg.label_count) : StmtExt 0 cg cg1 := by
  refine ⟨StrExt.step cg cg1 [] (by simp) ht hs (by simpa using hc), [], by simpa using hc,
    rfl, ?_⟩
  rw [hl]
  exact BranchOk.nil _ [] rfl rfl

theorem gen_block_eq (cg : Codegen) (b : AstNode) : gen_block cg b = gen_stmts cg b.children := by
  cases b; simp [gen_block]

theorem count_block_eq (b : AstNode) : count_block b = count_stmts b.children := by
  cases b; simp [count_block]

theorem gen_let_scalar_ext (cg cg1 : Codegen) (name : Option (List Char)) (c0 : AstNode)
    (size : Int) (h : gen_let_scalar cg name c0 size = some cg1) : StmtExt 0 cg cg1 := by
  simp only [gen_let_scalar, Option.bind_eq_bind, Option.bind_eq_some] at h
  obtain ⟨st, -, r, -, cga, h1, hs⟩ := h
  have e0 : StmtExt 0 cg { cg with symtab := some r.1 } := StmtExt.stmt_of_eq _ _ rfl rfl rfl rfl
  have e1 := StmtExt.stmt_of_expr _ _ (gen_expr_ext _ _ _ h1)
  split_ifs at hs
  · simp only [Option.some.injEq] at hs; subst hs
    exact (e0.stmt_trans _ _ _ _ _ e1).stmt_trans _ _ _ _ _
      (StmtExt.stmt_of_expr _ _ (ExprExt.emit _ _ (by simp [Asm.plain])))
  · simp only [Option.some.injEq] at hs; subst hs
    exact e0.stmt_trans _ _ _ _ _ e1

theorem gen_let_ext (cg cg1 : Codegen) (name : Option (List Char)) (children : List AstNode)
    (h : gen_let cg name children = some cg1) : StmtExt 0 cg cg1 := by
  cases children with
  | nil =>
    simp only [gen_let, Option.bind_eq_bind, Option.bind_eq_some] at h
    obtain ⟨st, -, r, -, h⟩ := h
    simp only [Option.some.injEq] at h; subst h
    exact StmtExt.stmt_of_eq _ _ rfl rfl rfl rfl
  | cons c0 rest =>
    simp only [gen_let, Option.bind_eq_bind] at h
    split_ifs at h
    · exact gen_let_scalar_ext _ _ _ _ _ h
    · simp only [Option.bind_eq_some] at h
      obtain ⟨found, -, h⟩ := h
      cases found with
      | none => exact gen_let_scalar_ext _ _ _ _ _ h
      | some i =>
        simp only [Option.bind_eq_some] at h
        obtain ⟨st, -, tab, -, r, -, h⟩ := h
        have e0 : StmtExt 0 cg { cg with symtab := some r.1 } := StmtExt.stmt_of_eq _ _ rfl rfl rfl rfl
        exact e0.stmt_trans _ _ _ _ _ (StmtExt.stmt_of_expr _ _ (gen_expr_ext _ _ _ h))
    · exact gen_let_scalar_ext _ _ _ _ _ h

theorem gen_stmts_ext (stmts : List AstNode)
    (h : ∀ s ∈ stmts, ∀ cg cg1, gen_stmt cg s = some cg1 → StmtExt (count_branches s) cg cg1) :
    ∀ (cg cg1 : Codegen), gen_stmts cg stmts = some cg1 →
      StmtExt (count_stmts stmts) cg cg1 := by
  induction stmts with
  | nil =>
    intro cg cg1 hg
    simp only [gen_stmts, Option.some.injEq] at hg; subst hg
    exact StmtExt.stmt_of_expr _ _ (ExprExt.expr_refl _)
  | cons s rest ih =>
    intro cg cg1 hg
    simp only [gen_stmts, Option.bind_eq_bind, Option.bind_eq_some] at hg
    obtain ⟨cga, h1, h2⟩ := hg
    simp only [count_stmts]
    exact (h s (List.mem_cons_self _ _) _ _ h1).stmt_trans _ _ _ _ _
      (ih (fun d hd => h d (List.mem_cons_of_mem _ hd)) _ _ h2)

theorem StmtExt_if (cg cg1 cg3 cg5 : Codegen) (k1 k2 : Nat)
    (e1 : ExprExt (new_label (new_label cg).2).2 cg1)
    (e3 : StmtExt k1 (emit cg1 [.test_rax_rax, .jz_L (new_label cg).1]) cg3)
    (e5 : StmtExt k2
      (emit cg3 [.jmp_L (new_label (new_label cg).2).1, .label_L (new_label cg).1]) cg5) :
    StmtExt (1 + k1 + k2) cg (emit cg5 [.label_L (new_label (new_label cg).2).1]) := by
  constructor
  · have a0 : StrExt cg (new_label (new_label cg).2).2 :=
      StrExt.step _ _ [] (by simp) rfl rfl (by simp [new_label])
    have a1 := StrExt.str_of_expr _ _ e1
    have a2 : StrExt cg1 (emit cg1 [.test_rax_rax, .jz_L (new_label cg).1]) :=
      StrExt.step _ _ _ (by simp) rfl rfl rfl
    have a4 : StrExt cg3
        (emit cg3 [.jmp_L (new_label (new_label cg).2).1, .label_L (new_label cg).1]) :=
      StrExt.step _ _ _ (by simp) rfl rfl rfl
    have a6 : StrExt cg5 (emit cg5 [.label_L (new_label (new_label cg).2).1]) :=
      StrExt.step _ _ _ (by simp) rfl rfl rfl
    exact (((((a0.str_trans _ _ _ a1).str_trans _ _ _ a2).str_trans _ _ _ e3.1).str_trans _ _ _ a4).str_trans
      _ _ _ e5.1).str_trans _ _ _ a6
  · obtain ⟨hl, -, -, le, -, hc1, -, hd, hj, -, -, -⟩ := e1
    obtain ⟨l1, hc3, hn1, o1⟩ := e3.2
    obtain ⟨l2, hc5, hn2, o2⟩ := e5.2
    simp only [emit, new_label] at hl hc1 hc3 hc5 o1 o2 ⊢
    rw [hl] at o1
    refine ⟨le ++ [.test_rax_rax, .jz_L cg.label_count] ++ l1
      ++ [.jmp_L (cg.label_count + 1), .label_L cg.label_count] ++ l2
      ++ [.label_L (cg.label_count + 1)], ?_, ?_, ?_⟩
    · simp [hc5, hc3, hc1]
    · simp only [jz_targets_append, jz_targets_of_no_jumps le hj, hn1, hn2, List.length_append]
      simp [jz_targets]
    · exact BranchOk_if _ _ _ le l1 l2 hd hj o1 o2

theorem StmtExt_while (cg cg1 cg3 : Codegen) (k1 : Nat)
    (e1 : ExprExt (emit (new_label (new_label cg).2).2 [.label_L (new_label cg).1]) cg1)
    (e3 : StmtExt k1 (emit cg1 [.test_rax_rax, .jz_L (new_label (new_label cg).2).1]) cg3) :
    StmtExt (1 + k1) cg
      (emit cg3 [.jmp_L (new_label cg).1, .label_L (new_label (new_label cg).2).1]) := by
  constructor
  · have a0 : StrExt cg (emit (new_label (new_label cg).2).2 [.label_L (new_label cg).1]) :=
      StrExt.step _ _ [.label_L (new_label cg).1] (by simp) rfl rfl (by simp [new_label, emit])
    have a1 := StrExt.str_of_expr _ _ e1
    have a2 : StrExt cg1 (emit cg1 [.test_rax_rax, .jz_L (new_label (new_label cg).2).1]) :=
      StrExt.step _ _ _ (by simp) rfl rfl rfl
    have a4 : StrExt cg3
        (emit cg3 [.jmp_L (new_label cg).1, .label_L (new_label (new_label cg).2).1]) :=
      StrExt.step _ _ _ (by simp) rfl rfl rfl
    exact (((a0.str_trans _ _ _ a1).str_trans _ _ _ a2).str_trans _ _ _ e3.1).str_trans _ _ _ a4
  · obtain ⟨hl, -, -, le, -, hc1, -, hd, hj, -, -, -⟩ := e1
    obtain ⟨l1, hc3, hn1, o1⟩ := e3.2
    simp only [emit, new_label] at hl hc1 hc3 o1 ⊢
    rw [hl] at o1
    refine ⟨[.label_L cg.label_count] ++ le ++ [.test_rax_rax, .jz_L (cg.label_count + 1)] ++ l1
      ++ [.jmp_L cg.label_count, .label_L (cg.label_count + 1)], ?_, ?_, ?_⟩
    · simp [hc3, hc1]
    · simp only [jz_targets_append, jz_targets_of_no_jumps le hj, hn1, List.length_append]
      simp [jz_targets]
    · exact BranchOk_while _ _ le l1 hd hj o1

theorem gen_stmt_ext : ∀ (n : AstNode) (cg cg1 : Codegen),
    gen_stmt cg n = some cg1 → StmtExt (count_branches n) cg cg1 := by
  intro n
  induction n using AstNode.induct_children with
  | h n ihc ihg =>
  intro cg cg1 hg
  obtain ⟨type, name, children, value, op, asz, stt⟩ := n
  simp only at ihc ihg
  have blk : ∀ c ∈ children, ∀ (cga cgb : Codegen), gen_block cga c = some cgb →
      StmtExt (count_block c) cga cgb := by
    intro c hc cga cgb hb
    rw [gen_block_eq] at hb
    rw [count_block_eq]
    exact gen_stmts_ext c.children (ihg c hc) _ _ hb
  cases type
  case AST_RETURN =>
    cases children with
    | nil =>
      simp only [gen_stmt, Option.bind_eq_bind, Option.some_bind, Option.some.injEq] at hg
      subst hg
      simp only [count_branches]
      exact StmtExt.stmt_of_expr _ _ ((ExprExt.emit _ _ (by simp [Asm.plain])).expr_trans _ _ _
        (ExprExt.emit _ _ (by simp [Asm.plain])))
    | cons c0 rest =>
      simp only [gen_stmt, Option.bind_eq_bind, Option.bind_eq_some, Option.some.injEq] at hg
      obtain ⟨cga, h1, hg⟩ := hg
      subst hg
      simp only [count_branches]
      exact StmtExt.stmt_of_expr _ _ ((gen_expr_ext _ _ _ h1).expr_trans _ _ _
        (ExprExt.emit _ _ (by simp [Asm.plain])))
  case AST_LET =>
    simp only [gen_stmt] at hg
    simp only [count_branches]
    exact gen_let_ext _ _ _ _ hg
  case AST_IF =>
    rcases children with _ | ⟨c0, _ | ⟨c1, _ | ⟨c2, rest⟩⟩⟩
    · simp [gen_stmt] at hg
    · simp [gen_stmt] at hg
    · simp only [gen_stmt, Option.bind_eq_bind, Option.bind_eq_some, Option.some.injEq] at hg
      obtain ⟨cga, h1, cgb, h2, cgc, h3, hg⟩ := hg
      subst hg; subst h3
      simp only [count_branches]
      have := StmtExt_if cg cga cgb _ (count_block c1) 0 (gen_expr_ext _ _ _ h1)
        (blk c1 (by simp) _ _ h2) (StmtExt.stmt_of_expr _ _ (ExprExt.expr_refl _))
      simpa using this
    · simp only [gen_stmt, Option.bind_eq_bind, Option.bind_eq_some, Option.some.injEq] at hg
      obtain ⟨cga, h1, cgb, h2, cgc, h3, hg⟩ := hg
      subst hg
      simp only [count_branches]
      exact StmtExt_if cg cga cgb cgc (count_block c1) (count_block c2) (gen_expr_ext _ _ _ h1)
        (blk c1 (by simp) _ _ h2) (blk c2 (by simp) _ _ h3)
  case AST_WHILE =>
    rcases children with _ | ⟨c0, _ | ⟨c1, rest⟩⟩
    · simp [gen_stmt] at hg
    · simp [gen_stmt] at hg
    · simp only [gen_stmt, Option.bind_eq_bind, Option.bind_eq_some, Option.some.injEq] at hg
      obtain ⟨cga, h1, cgb, h2, hg⟩ := hg
      subst hg
      simp only [count_branches]
      exact StmtExt_while cg cga cgb (count_block c1) (gen_expr_ext _ _ _ h1)
        (blk c1 (by simp) _ _ h2)
  case AST_CALL =>
    simp only [gen_stmt] at hg
    simp only [count_branches]
    exact StmtExt.stmt_of_expr _ _ (gen_expr_ext _ _ _ hg)
  case AST_ASSIGN =>
    simp only [gen_stmt] at hg
    simp only [count_branches]
    exact StmtExt.stmt_of_expr _ _ (gen_expr_ext _ _ _ hg)
  all_goals
    simp only [gen_stmt, Option.some.injEq] at hg
    subst hg
    simp only [count_branches]
    exact StmtExt.stmt_of_expr _ _ (ExprExt.expr_refl _)

theorem gen_params_ext (cs : List AstNode) :
    ∀ (rs : List String) (cg : Codegen) (st : SymbolTable) (r : Codegen × SymbolTable),
      gen_params cg st cs rs = some r → ExprExt cg r.1 := by
  induction cs with
  | nil => intro rs cg st r h; simp [gen_params] at h; subst h; exact ExprExt.expr_refl _
  | cons c rest ih =>
    intro rs cg st r h
    cases rs with
    | nil => simp [gen_params] at h; subst h; exact ExprExt.expr_refl _
    | cons x xs =>
      simp only [gen_params, Option.bind_eq_bind, Option.bind_eq_some] at h
      obtain ⟨a, -, h⟩ := h
      exact (ExprExt.emit _ _ (by simp [Asm.plain])).expr_trans _ _ _ (ih _ _ _ _ h)

theorem gen_func_ext (n : AstNode) (cg cg1 : Codegen) (h : gen_func cg n = some cg1) :
    StmtExt (count_func n) cg cg1 := by
  simp only [gen_func, Option.bind_eq_bind, Option.bind_eq_some, Option.some.injEq] at h
  obtain ⟨nm, -, body, hb, r, hp, cg5, h5, h⟩ := h
  subst h
  simp only [count_func, hb]
  have e1 : ExprExt cg (emit (emit cg [.func_label nm]) [.push_rbp, .mov_rbp_rsp]) :=
    (ExprExt.emit _ _ (by simp [Asm.plain])).expr_trans _ _ _ (ExprExt.emit _ _ (by simp [Asm.plain]))
  have e2 := gen_params_ext _ _ _ _ _ hp
  have e12 : StmtExt 0 cg r.1 := StmtExt.stmt_of_expr _ _ (e1.expr_trans _ _ _ e2)
  have e3 : StmtExt 0 r.1 { r.1 with symtab := some r.2 } := StmtExt.stmt_of_eq _ _ rfl rfl rfl rfl
  have e3b : StmtExt 0 { r.1 with symtab := some r.2 }
      (emit { r.1 with symtab := some r.2 } [.sub_rsp_128]) :=
    StmtExt.stmt_of_expr _ _ (ExprExt.emit _ _ (by simp [Asm.plain]))
  have e4 : StmtExt (count_block body) (emit { r.1 with symtab := some r.2 } [.sub_rsp_128])
      cg5 := by
    rw [gen_block_eq] at h5
    rw [count_block_eq]
    exact gen_stmts_ext _ (fun s _ => gen_stmt_ext s) _ _ h5
  have e5 : StmtExt 0 cg5 (emit cg5 [.xor_rax_rax, .leave, .ret]) :=
    StmtExt.stmt_of_expr _ _ (ExprExt.emit _ _ (by simp [Asm.plain]))
  have e6 : StmtExt 0 (emit cg5 [.xor_rax_rax, .leave, .ret])
      { emit cg5 [.xor_rax_rax, .leave, .ret] with
        symtab := (emit (emit cg [.func_label nm]) [.push_rbp, .mov_rbp_rsp]).symtab } :=
    StmtExt.stmt_of_eq _ _ rfl rfl rfl rfl
  have t1 := StmtExt.stmt_trans _ _ _ _ _ e12 e3
  have t2 := StmtExt.stmt_trans _ _ _ _ _ t1 e3b
  have t3 := StmtExt.stmt_trans _ _ _ _ _ t2 e4
  have t4 := StmtExt.stmt_trans _ _ _ _ _ t3 e5
  have t5 := StmtExt.stmt_trans _ _ _ _ _ t4 e6
  simpa using t5

theorem gen_funcs_ext (cs : List AstNode) :
    ∀ (cg cg1 : Codegen), gen_funcs cg cs = some cg1 → StmtExt (count_funcs cs) cg cg1 := by
  induction cs with
  | nil =>
    intro cg cg1 h
    simp only [gen_funcs, Option.some.injEq] at h; subst h
    exact StmtExt.stmt_of_expr _ _ (ExprExt.expr_refl _)
  | cons c rest ih =>
    intro cg cg1 h
    simp only [gen_funcs] at h
    simp only [count_funcs]
    split_ifs at h with hc
    · simp only [Option.bind_eq_bind, Option.bind_eq_some] at h
      obtain ⟨cga, h1, h2⟩ := h
      rw [if_pos hc]
      exact (gen_func_ext c _ _ h1).stmt_trans _ _ _ _ _ (ih _ _ h2)
    · rw [if_neg hc, Nat.zero_add]
      exact ih _ _ h

theorem helper_lines_plain : ∀ a ∈ helper_lines, a.plain = true := by
  intro a ha
  simp only [helper_lines, List.mem_cons, List.mem_singleton, List.not_mem_nil, or_false] at ha
  rcases ha with ha | ha | ha | ha | ha | ha | ha | ha | ha | ha | ha | ha | ha | ha | ha | ha
    | ha | ha | ha | ha | ha | ha | ha | ha | ha | ha | ha | ha | ha | ha | ha | ha | ha | ha
    | ha | ha | ha | ha <;> (subst ha; rfl)

theorem codegen_ext (ast : AstNode) (strtab : StringTable) (types : TypeTable) (cg : Codegen)
    (h : codegen ast strtab types = some cg) :
    StmtExt (count_funcs ast.children) (codegen_init strtab types) cg := by
  simp only [codegen] at h
  have e0 : ExprExt (codegen_init strtab types)
      (gen_helpers (emit (emit (emit (codegen_init strtab types)
        [.text "\nsection .text\n    global _start\n\n"])
        [.text "_start:\n    call main\n    mov rdi, rax\n"])
        [.text "    mov rax, 60\n    syscall\n"])) :=
    (((ExprExt.emit _ _ (by simp [Asm.plain])).expr_trans _ _ _
      (ExprExt.emit _ _ (by simp [Asm.plain]))).expr_trans _ _ _
      (ExprExt.emit _ _ (by simp [Asm.plain]))).expr_trans _ _ _
      (ExprExt.emit _ _ helper_lines_plain)
  have := (StmtExt.stmt_of_expr _ _ e0).stmt_trans _ _ _ _ _ (gen_funcs_ext _ _ _ h)
  simpa using this

theorem gen_block_ext (b : AstNode) (cg cg1 : Codegen) (h : gen_block cg b = some cg1) :
    StmtExt (count_block b) cg cg1 := by
  rw [gen_block_eq] at h
  rw [count_block_eq]
  exact gen_stmts_ext _ (fun s _ => gen_stmt_ext s) _ _ h

theorem digitChar_value (d : Nat) (h : d < 10) : (Nat.digitChar d).toNat - 48 = d := by
  interval_cases d <;> rfl

theorem toDigitsCore_value : ∀ (fuel n : Nat) (ds : List Char), n < fuel →
    ∃ pre, Nat.toDigitsCore 10 fuel n ds = pre ++ ds
      ∧ ∀ acc, digits_value acc pre = acc * 10 ^ pre.length + n := by
  intro fuel
  induction fuel with
  | zero => intro n ds h; omega
  | succ f ih =>
    intro n ds h
    simp only [Nat.toDigitsCore]
    split_ifs with h0
    · refine ⟨[Nat.digitChar (n % 10)], rfl, ?_⟩
      intro acc
      simp only [digits_value, List.foldl_cons, List.foldl_nil, List.length_singleton, pow_one]
      rw [digitChar_value _ (Nat.mod_lt _ (by norm_num))]
      omega
    · obtain ⟨pre, hp, hv⟩ := ih (n / 10) (Nat.digitChar (n % 10) :: ds) (by omega)
      refine ⟨pre ++ [Nat.digitChar (n % 10)], by rw [hp]; simp, ?_⟩
      intro acc
      have := hv acc
      simp only [digits_value] at this ⊢
      rw [List.foldl_append, this]
      simp only [List.foldl_cons, List.foldl_nil, List.length_append, List.length_singleton]
      rw [digitChar_value _ (Nat.mod_lt _ (by norm_num)), pow_succ]
      have := Nat.div_add_mod n 10
      nlinarith [this]

theorem fmt_d_value (n : Nat) : digits_value 0 (fmt_d (n : Int)) = n := by
  obtain ⟨pre, hp, hv⟩ := toDigitsCore_value (n + 1) n [] (by omega)
  have : fmt_d (n : Int) = pre := by
    simp only [fmt_d]
    show (Nat.repr n).toList = pre
    simp only [Nat.repr, Nat.toDigits, hp, List.append_nil, List.asString]
    rfl
  rw [this, hv 0]
  simp

theorem fmt_d_injective (a b : Nat) (h : fmt_d (a : Int) = fmt_d (b : Int)) : a = b := by
  rw [← fmt_d_value a, ← fmt_d_value b, h]

theorem rows_ok_get (rows : List StringEntry) :
    ∀ (start k : Nat) (e : StringEntry), rows_ok start rows → rows[k]? = some e →
      e.label = "str_".toList ++ fmt_d ((start + k : Nat) : Int)
        ∧ e.len = (e.value.length : Int) := by
  induction rows with
  | nil => intro start k e _ h; simp at h
  | cons r rest ih =>
    intro start k e h hk
    simp only [rows_ok] at h
    cases k with
    | zero =>
      simp only [List.getElem?_cons_zero, Option.some.injEq] at hk
      subst hk
      exact ⟨h.1, h.2.1⟩
    | succ k =>
      simp only [List.getElem?_cons_succ] at hk
      have := ih (start + 1) k e h.2.2 hk
      rw [show start + (k + 1) = start + 1 + k by omega]
      exact this

theorem gen_expr_string (cg : Codegen) (name op stt : Option (List Char))
    (children : List AstNode) (v : List Char) (asz : Int) :
    gen_expr cg ⟨.AST_STRING, name, children, some v, op, asz, stt⟩ = some
      { cg with
        strtab := cg.strtab ++ [{ label := "str_".toList ++ fmt_d (cg.strtab.length : Int),
                                  value := v, len := (v.length : Int) }],
        code := cg.code ++ [.mov_rax_s ("str_".toList ++ fmt_d (cg.strtab.length : Int)),
                            .mov_rbx_d (v.length : Int)] } := by
  simp [gen_expr, strtab_add, emit]

theorem codegen_strings (ast : AstNode) (strtab : StringTable) (types : TypeTable)
    (cg : Codegen) (h : codegen ast strtab types = some cg) :
    ∃ rows, cg.strtab = strtab ++ rows
      ∧ str_loads cg.code = rows.map (fun e => (e.label, e.len))
      ∧ ∀ k e, rows[k]? = some e →
          e.label = "str_".toList ++ fmt_d ((strtab.length + k : Nat) : Int)
          ∧ e.len = (e.value.length : Int)
          ∧ ∀ j e2, rows[j]? = some e2 → e2.label = e.label → j = k := by
  obtain ⟨-, lines, rows, hc, hs, -, hl, hr⟩ := (codegen_ext ast strtab types cg h).1
  simp only [codegen_init, List.nil_append] at hc hs hr
  refine ⟨rows, hs, by rw [hc]; exact hl, ?_⟩
  intro k e hk
  obtain ⟨h1, h2⟩ := rows_ok_get rows _ k e hr hk
  refine ⟨h1, h2, ?_⟩
  intro j e2 hj he
  obtain ⟨h3, -⟩ := rows_ok_get rows _ j e2 hr hj
  rw [h1, h3] at he
  have := fmt_d_injective _ _ (List.append_cancel_left he)
  omega

/-- C10: one row per string literal, never shared. `gen_expr` on a String
node with the text `v`, reached when the table holds `k` rows, appends the
one row `(str_k, v, |v|)`, whatever the table holds, and emits the loads of
that label and that length. In the output of `codegen` the rows added to the
table are, in order, the rows of the string loads in the code; row `k` is
labelled `str_k` (counted from the rows the table started with) and records
the length of its text; and no two rows carry the same label. -/
theorem C10_one_row_per_string_literal :
    (∀ (cg : Codegen) (name op stt : Option (List Char)) (children : List AstNode)
        (v : List Char) (asz : Int),
        gen_expr cg ⟨.AST_STRING, name, children, some v, op, asz, stt⟩ = some
          { cg with
            strtab := cg.strtab ++ [{ label := "str_".toList ++ fmt_d (cg.strtab.length : Int),
                                      value := v, len := (v.length : Int) }],
            code := cg.code ++ [.mov_rax_s ("str_".toList ++ fmt_d (cg.strtab.length : Int)),
                                .mov_rbx_d (v.length : Int)] })
    ∧ (∀ a b : Nat, fmt_d (a : Int) = fmt_d (b : Int) → a = b)
    ∧ (∀ (ast : AstNode) (strtab : StringTable) (types : TypeTable) (cg : Codegen),
        codegen ast strtab types = some cg →
        ∃ rows, cg.strtab = strtab ++ rows
          ∧ str_loads cg.code = rows.map (fun e => (e.label, e.len))
          ∧ ∀ k e, rows[k]? = some e →
              e.label = "str_".toList ++ fmt_d ((strtab.length + k : Nat) : Int)
              ∧ e.len = (e.value.length : Int)
              ∧ ∀ j e2, rows[j]? = some e2 → e2.label = e.label → j = k) :=
  ⟨gen_expr_string, fmt_d_injective, codegen_strings⟩

/-- C10, at a concrete input: the program `c10_source` gets three rows, two
of them with the text `hi`. -/
theorem C10_witness :
    codegen c10_ast strtab_new typetab_new = some c10_cg
    ∧ c10_cg.strtab = [⟨"str_0".toList, "hi".toList, 2⟩, ⟨"str_1".toList, "yo".toList, 2⟩,
        ⟨"str_2".toList, "hi".toList, 2⟩]
    ∧ str_loads c10_cg.code = [("str_0".toList, 2), ("str_1".toList, 2), ("str_2".toList, 2)]
    ∧ (∃ rows, c10_cg.strtab = strtab_new ++ rows
        ∧ str_loads c10_cg.code = rows.map (fun e => (e.label, e.len))
        ∧ ∀ k e, rows[k]? = some e →
            e.label = "str_".toList ++ fmt_d ((strtab_new.length + k : Nat) : Int)
            ∧ e.len = (e.value.length : Int)
            ∧ ∀ j e2, rows[j]? = some e2 → e2.label = e.label → j = k) :=
  ⟨by decide, by decide, by decide,
    C10_one_row_per_string_literal.2.2 c10_ast strtab_new typetab_new c10_cg (by decide)⟩

theorem lookup_symbol_loop_fresh (x : List Char) (sym : Symbol) (hx : sym.name = x) :
    ∀ (l more : List Symbol), (∀ s ∈ l, s.name ≠ x) →
      lookup_symbol_loop (l ++ sym :: more) (some x) = some (some sym) := by
  intro l
  induction l with
  | nil => intro more _; simp [lookup_symbol_loop, hx]
  | cons s rest ih =>
    intro more h
    have hs : s.name ≠ x := h s (by simp)
    simp only [List.cons_append, lookup_symbol_loop, hs, if_false]
    exact ih more (fun t ht => h t (by simp [ht]))

theorem lookup_symbol_loop_append (x : List Char) (sym : Symbol) :
    ∀ (l more : List Symbol), lookup_symbol_loop l (some x) = some (some sym) →
      lookup_symbol_loop (l ++ more) (some x) = some (some sym) := by
  intro l
  induction l with
  | nil => intro more h; simp [lookup_symbol_loop] at h
  | cons s rest ih =>
    intro more h
    simp only [List.cons_append, lookup_symbol_loop] at h ⊢
    split_ifs at h ⊢ with hs
    · exact h
    · exact ih more h

theorem SymGrow.sym_of_eq (cg cg1 : Codegen) (h : cg1.symtab = cg.symtab) : SymGrow cg cg1 := by
  intro st hst
  exact ⟨st, [], by rw [h, hst], by simp⟩

theorem SymGrow.sym_trans (a b c : Codegen) (h1 : SymGrow a b) (h2 : SymGrow b c) :
    SymGrow a c := by
  intro st hst
  obtain ⟨st1, m1, e1, s1⟩ := h1 st hst
  obtain ⟨st2, m2, e2, s2⟩ := h2 st1 e1
  exact ⟨st2, m1 ++ m2, e2, by rw [s2, s1, List.append_assoc]⟩

theorem SymGrow.sym_of_expr (cg cg1 : Codegen) (h : ExprExt cg cg1) : SymGrow cg cg1 :=
  SymGrow.sym_of_eq cg cg1 h.2.1

theorem gen_let_scalar_grow (cg cg1 : Codegen) (name : Option (List Char)) (c0 : AstNode)
    (size : Int) (h : gen_let_scalar cg name c0 size = some cg1) : SymGrow cg cg1 := by
  simp only [gen_let_scalar, Option.bind_eq_bind, Option.bind_eq_some] at h
  obtain ⟨st, hst, r, hr, cga, h1, hs⟩ := h
  have e1 := (gen_expr_ext _ _ _ h1).2.1
  have hsym : cg1.symtab = some r.1 := by
    split_ifs at hs <;> (simp only [Option.some.injEq] at hs; subst hs; simpa [emit] using e1)
  intro st0 hst0
  rw [hst] at hst0
  simp only [Option.some.injEq] at hst0
  subst hst0
  cases name with
  | none => simp [symtab_add] at hr
  | some nm =>
    simp only [symtab_add, Option.some.injEq] at hr
    subst hr
    exact ⟨_, _, hsym, rfl⟩

theorem gen_let_grow (cg cg1 : Codegen) (name : Option (List Char)) (children : List AstNode)
    (h : gen_let cg name children = some cg1) : SymGrow cg cg1 := by
  cases children with
  | nil =>
    simp only [gen_let, Option.bind_eq_bind, Option.bind_eq_some, Option.some.injEq] at h
    obtain ⟨st, hst, r, hr, h⟩ := h
    subst h
    intro st0 hst0
    rw [hst] at hst0
    simp only [Option.some.injEq] at hst0
    subst hst0
    cases name with
    | none => simp [symtab_add] at hr
    | some nm =>
      simp only [symtab_add, Option.some.injEq] at hr
      subst hr
      exact ⟨_, _, rfl, rfl⟩
  | cons c0 rest =>
    simp only [gen_let] at h
    split_ifs at h with h1 h2
    · exact gen_let_scalar_grow _ _ _ _ _ h
    · simp only [Option.bind_eq_bind, Option.bind_eq_some] at h
      obtain ⟨found, -, h⟩ := h
      cases found with
      | none => exact gen_let_scalar_grow _ _ _ _ _ h
      | some i =>
        simp only [Option.bind_eq_bind, Option.bind_eq_some] at h
        obtain ⟨sty, -, tab, htab, r, hr, h⟩ := h
        have e1 := (gen_expr_ext _ _ _ h).2.1
        intro st0 hst0
        rw [htab] at hst0
        simp only [Option.some.injEq] at hst0
        subst hst0
        cases name with
        | none => simp [symtab_add_struct] at hr
        | some nm =>
          cases hty : c0.struct_type with
          | none => simp [symtab_add_struct, hty] at hr
          | some tn =>
            simp only [symtab_add_struct, hty, Option.some.injEq] at hr
            subst hr
            exact ⟨_, _, e1, rfl⟩
    · exact gen_let_scalar_grow _ _ _ _ _ h

theorem gen_stmts_grow (stmts : List AstNode)
    (h : ∀ s ∈ stmts, ∀ cg cg1, gen_stmt cg s = some cg1 → SymGrow cg cg1) :
    ∀ (cg cg1 : Codegen), gen_stmts cg stmts = some cg1 → SymGrow cg cg1 := by
  induction stmts with
  | nil =>
    intro cg cg1 hg
    simp only [gen_stmts, Option.some.injEq] at hg
    subst hg
    exact SymGrow.sym_of_eq _ _ rfl
  | cons s rest ih =>
    intro cg cg1 hg
    simp only [gen_stmts, Option.bind_eq_bind, Option.bind_eq_some] at hg
    obtain ⟨cga, h1, h2⟩ := hg
    exact (h s (by simp) _ _ h1).sym_trans _ _ _
      (ih (fun t ht => h t (by simp [ht])) _ _ h2)

theorem gen_stmt_grow : ∀ (n : AstNode) (cg cg1 : Codegen),
    gen_stmt cg n = some cg1 → SymGrow cg cg1 := by
  intro n
  induction n using AstNode.induct_children with
  | h n ihc ihg =>
  intro cg cg1 hg
  obtain ⟨type, name, children, value, op, asz, stt⟩ := n
  simp only at ihc ihg
  have blk : ∀ c ∈ children, ∀ (cga cgb : Codegen), gen_block cga c = some cgb →
      SymGrow cga cgb := by
    intro c hc cga cgb hb
    rw [gen_block_eq] at hb
    exact gen_stmts_grow c.children (ihg c hc) _ _ hb
  have em : ∀ (c : Codegen) (ls : List Asm), SymGrow c (emit c ls) :=
    fun c ls => SymGrow.sym_of_eq _ _ rfl
  have nl : SymGrow cg (new_label (new_label cg).2).2 := SymGrow.sym_of_eq _ _ rfl
  cases type
  case AST_RETURN =>
    cases children with
    | nil =>
      simp only [gen_stmt, Option.bind_eq_bind, Option.some_bind, Option.some.injEq] at hg
      subst hg
      exact SymGrow.sym_of_eq _ _ rfl
    | cons c0 rest =>
      simp only [gen_stmt, Option.bind_eq_bind, Option.bind_eq_some, Option.some.injEq] at hg
      obtain ⟨cga, h1, hg⟩ := hg
      subst hg
      exact (SymGrow.sym_of_expr _ _ (gen_expr_ext _ _ _ h1)).sym_trans _ _ _ (em _ _)
  case AST_LET =>
    simp only [gen_stmt] at hg
    exact gen_let_grow _ _ _ _ hg
  case AST_IF =>
    rcases children with _ | ⟨c0, _ | ⟨c1, _ | ⟨c2, rest⟩⟩⟩
    · simp [gen_stmt] at hg
    · simp [gen_stmt] at hg
    · simp only [gen_stmt, Option.bind_eq_bind, Option.bind_eq_some, Option.some.injEq] at hg
      obtain ⟨cga, h1, cgb, h2, cgc, h3, hg⟩ := hg
      subst hg; subst h3
      exact ((((nl.sym_trans _ _ _ (SymGrow.sym_of_expr _ _ (gen_expr_ext _ _ _ h1))).sym_trans _ _ _
        (em _ _)).sym_trans _ _ _ (blk c1 (by simp) _ _ h2)).sym_trans _ _ _ (em _ _)).sym_trans _ _ _
        (em _ _)
    · simp only [gen_stmt, Option.bind_eq_bind, Option.bind_eq_some, Option.some.injEq] at hg
      obtain ⟨cga, h1, cgb, h2, cgc, h3, hg⟩ := hg
      subst hg
      exact (((((nl.sym_trans _ _ _ (SymGrow.sym_of_expr _ _ (gen_expr_ext _ _ _ h1))).sym_trans _ _ _
        (em _ _)).sym_trans _ _ _ (blk c1 (by simp) _ _ h2)).sym_trans _ _ _ (em _ _)).sym_trans _ _ _
        (blk c2 (by simp) _ _ h3)).sym_trans _ _ _ (em _ _)
  case AST_WHILE =>
    rcases children with _ | ⟨c0, _ | ⟨c1, rest⟩⟩
    · simp [gen_stmt] at hg
    · simp [gen_stmt] at hg
    · simp only [gen_stmt, Option.bind_eq_bind, Option.bind_eq_some, Option.some.injEq] at hg
      obtain ⟨cga, h1, cgb, h2, hg⟩ := hg
      subst hg
      exact (((((nl.sym_trans _ _ _ (em _ _)).sym_trans _ _ _
        (SymGrow.sym_of_expr _ _ (gen_expr_ext _ _ _ h1))).sym_trans _ _ _
        (em _ _)).sym_trans _ _ _ (blk c1 (by simp) _ _ h2)).sym_trans _ _ _ (em _ _))
  case AST_CALL =>
    simp only [gen_stmt] at hg
    exact SymGrow.sym_of_expr _ _ (gen_expr_ext _ _ _ hg)
  case AST_ASSIGN =>
    simp only [gen_stmt] at hg
    exact SymGrow.sym_of_expr _ _ (gen_expr_ext _ _ _ hg)
  all_goals
    simp only [gen_stmt, Option.some.injEq] at hg
    subst hg
    exact SymGrow.sym_of_eq _ _ rfl

theorem gen_let_fresh (cg cg1 : Codegen) (st : SymbolTable) (x : List Char) (e : AstNode)
    (hst : cg.symtab = some st) (ha : e.type ≠ .AST_ARRAY_LITERAL)
    (hs : e.type ≠ .AST_STRUCT_LITERAL) (h : gen_stmt cg (let_node x e) = some cg1) :
    ∃ cge, gen_expr { cg with symtab := some (symtab_with st x) } e = some cge
      ∧ cg1 = emit cge [.store_rax (-(st.stack_size + 8))]
      ∧ cg1.symtab = some (symtab_with st x) := by
  simp only [let_node, ast_add, ast_new, List.nil_append, gen_stmt, gen_let, ha, hs, if_false,
    gen_let_scalar, hst, symtab_add, Option.bind_eq_bind, Option.some_bind, one_mul,
    Option.bind_eq_some, ne_eq, not_false_eq_true, if_true, Option.some.injEq] at h
  obtain ⟨cge, h1, h2⟩ := h
  refine ⟨cge, h1, h2.symm, ?_⟩
  rw [← h2]
  exact (gen_expr_ext _ _ _ h1).2.1

theorem gen_expr_ident_slot (cg : Codegen) (st : SymbolTable) (x : List Char) (sym : Symbol)
    (hst : cg.symtab = some st) (hl : lookup_symbol_loop st.symbols (some x) = some (some sym))
    (h0 : sym.offset ≠ 0) :
    gen_expr cg (ident_node x) = some (emit cg [.load_rax sym.offset]) := by
  simp [ident_node, ast_new, gen_expr, symtab_lookup, symtab_lookup_symbol, hst, hl, h0]

theorem gen_expr_assign_slot (cg cg1 : Codegen) (st : SymbolTable) (x : List Char)
    (sym : Symbol) (e : AstNode) (hst : cg.symtab = some st)
    (hl : lookup_symbol_loop st.symbols (some x) = some (some sym)) (h0 : sym.offset ≠ 0)
    (he : gen_expr cg e = some cg1) :
    gen_expr cg (assign_node x e) = some (emit cg1 [.store_rax sym.offset]) := by
  have hs1 : cg1.symtab = some st := by rw [(gen_expr_ext _ _ _ he).2.1, hst]
  simp [assign_node, ast_add, ast_new, gen_expr, he, symtab_lookup, symtab_lookup_symbol, hs1,
    hl, h0]

theorem slot_lookup (cg0 cg : Codegen) (st : SymbolTable) (x : List Char)
    (hf : ∀ s ∈ st.symbols, s.name ≠ x) (h0 : cg0.symtab = some (symtab_with st x))
    (hg : SymGrow cg0 cg) :
    ∃ st1, cg.symtab = some st1 ∧ lookup_symbol_loop st1.symbols (some x) =
      some (some { name := x, offset := -(st.stack_size + 8), size := 1, type_name := none }) := by
  obtain ⟨st1, more, h1, h2⟩ := hg _ h0
  refine ⟨st1, h1, ?_⟩
  rw [h2]
  simp only [symtab_with, List.append_assoc, List.singleton_append]
  exact lookup_symbol_loop_fresh x _ rfl _ _ hf

theorem c5_tail_code (cg : Codegen) (st : SymbolTable) (x b : List Char) (sym : Symbol)
    (hst : cg.symtab = some st)
    (hl : lookup_symbol_loop st.symbols (some x) = some (some sym)) (h0 : sym.offset ≠ 0) :
    gen_stmts cg [assign_node x (mk_binop plus_tok (ident_node x) (num_node b)),
        return_node (ident_node x)] = some
      { cg with code := cg.code ++ [.load_rax sym.offset, .push_rax, .mov_rax_s b, .mov_rbx_rax,
          .pop_rax, .add_rax_rbx, .store_rax sym.offset, .load_rax sym.offset, .leave, .ret] } := by
  simp [gen_stmts, gen_stmt, assign_node, return_node, ident_node, num_node, mk_binop, plus_tok,
    ast_add, ast_new, gen_expr, hst, symtab_lookup, symtab_lookup_symbol, hl, h0, emit,
    binop_lines]

theorem c5_let_code (cg : Codegen) (st : SymbolTable) (x a : List Char)
    (hst : cg.symtab = some st) :
    gen_stmt cg (let_node x (num_node a)) = some
      { cg with symtab := some (symtab_with st x),
                code := cg.code ++ [.mov_rax_s a, .store_rax (-(st.stack_size + 8))] } := by
  simp only [let_node, num_node, ast_add, ast_new, List.nil_append, gen_stmt, gen_let,
    gen_let_scalar, hst, symtab_add, Option.bind_eq_bind, Option.some_bind, one_mul, gen_expr,
    emit, symtab_with, List.append_assoc, List.singleton_append]
  simp

theorem c5_body_code (cg : Codegen) (st : SymbolTable) (x a b : List Char)
    (hst : cg.symtab = some st) (hf : ∀ s ∈ st.symbols, s.name ≠ x)
    (h0 : 0 ≤ st.stack_size) :
    gen_stmts cg (c5_body x a b) = some
      { cg with symtab := some (symtab_with st x),
                code := cg.code ++ c5_lines (-(st.stack_size + 8)) a b } := by
  have hne : -(st.stack_size + 8) ≠ 0 := by omega
  have hl : lookup_symbol_loop (symtab_with st x).symbols (some x)
      = some (some { name := x, offset := -(st.stack_size + 8), size := 1,
                     type_name := none }) :=
    lookup_symbol_loop_fresh x _ rfl _ _ hf
  rw [c5_body, gen_stmts, c5_let_code cg st x a hst]
  simp only [Option.bind_eq_bind, Option.some_bind]
  rw [c5_tail_code _ (symtab_with st x) x b _ rfl hl hne]
  simp [c5_lines]

theorem c5_lines_run (off : Int) (a b : List Char) (va vb : Nat) (m : Machine)
    (ha : dec_value a = some va) (hb : dec_value b = some vb)
    (hva : (va : Int) < W64) (hvb : (vb : Int) < W64)
    (h1 : m.rbp % 8 = 0) (h2 : m.rsp % 8 = 0) (h3 : off % 8 = 0) :
    (run (c5_lines off a b) m).result = some (((va : Int) + vb) % W64) := by
  have e1 : (m.rbp + off) % 8 = 0 := by omega
  have e2 : (m.rsp - 8) % 8 = 0 := by omega
  simp [c5_lines, run, exec, Machine.load, Machine.store, ha, hb, hva, hvb, h1, e1, e2,
    Run.result]

/-- C5 as stated fails when `x` is declared twice: in
`fn main() { let x = 1; let x = 5; x = x + 1; return x; }` the second `let`
stores 5 at offset -16, while `symtab_lookup` finds the first `x`, so the
assignment and the reference address offset -8, and `main` returns 2, not
6. -/
theorem C5_counterexample :
    (compile "fn main() \x7b let x = 1; let x = 5; x = x + 1; return x; \x7d".toList).map
        (fun cg => func_code "main".toList cg.code)
      = some ([.func_label "main".toList, .push_rbp, .mov_rbp_rsp, .sub_rsp_128,
          .mov_rax_s "1".toList, .store_rax (-8)] ++ c5_lines_redeclared)
    ∧ (run_main "fn main() \x7b let x = 1; let x = 5; x = x + 1; return x; \x7d".toList
        (entry_state 0 4096 0)).map Run.result = some (some 2) := by
  decide

/-- C5, amended: one slot per variable that is declared once. A `let x = e;`
(with `e` no array or struct literal) adds `x` to the symbol table at offset
`-(stack_size + 8)` and stores the value of `e` there. The symbol table only
grows while the statements of the function are generated, and when `x` was
not declared before this `let`, every later reference to `x` loads from that
offset and every later assignment to `x` stores to it. So the body
`let x = a; x = x + b; return x;` with decimal literals `a` and `b`,
generated at any place where `x` is not yet declared, emits `c5_lines` and
returns `a + b` (as a 64-bit word). -/
theorem C5_one_slot_per_variable_declared_once :
    (∀ (cg cg1 : Codegen) (st : SymbolTable) (x : List Char) (e : AstNode),
        cg.symtab = some st → e.type ≠ .AST_ARRAY_LITERAL → e.type ≠ .AST_STRUCT_LITERAL →
        gen_stmt cg (let_node x e) = some cg1 →
        ∃ cge, gen_expr { cg with symtab := some (symtab_with st x) } e = some cge
          ∧ cg1 = emit cge [.store_rax (-(st.stack_size + 8))]
          ∧ cg1.symtab = some (symtab_with st x))
    ∧ (∀ (n : AstNode) (cg cg1 : Codegen), gen_stmt cg n = some cg1 → SymGrow cg cg1)
    ∧ (∀ (cg0 cg : Codegen) (st : SymbolTable) (x : List Char),
        (∀ s ∈ st.symbols, s.name ≠ x) → 0 ≤ st.stack_size →
        cg0.symtab = some (symtab_with st x) → SymGrow cg0 cg →
        gen_expr cg (ident_node x) = some (emit cg [.load_rax (-(st.stack_size + 8))])
          ∧ ∀ (e : AstNode) (cge : Codegen), gen_expr cg e = some cge →
              gen_expr cg (assign_node x e)
                = some (emit cge [.store_rax (-(st.stack_size + 8))]))
    ∧ (∀ (cg : Codegen) (st : SymbolTable) (x a b : List Char),
        cg.symtab = some st → (∀ s ∈ st.symbols, s.name ≠ x) → 0 ≤ st.stack_size →
        gen_stmts cg (c5_body x a b) = some
          { cg with symtab := some (symtab_with st x),
                    code := cg.code ++ c5_lines (-(st.stack_size + 8)) a b })
    ∧ (∀ (off : Int) (a b : List Char) (va vb : Nat) (m : Machine),
        dec_value a = some va → dec_value b = some vb → (va : Int) < W64 → (vb : Int) < W64 →
        m.rbp % 8 = 0 → m.rsp % 8 = 0 → off % 8 = 0 →
        (run (c5_lines off a b) m).result = some (((va : Int) + vb) % W64)) := by
  refine ⟨gen_let_fresh, gen_stmt_grow, ?_, c5_body_code, c5_lines_run⟩
  intro cg0 cg st x hf h0 hs hg
  obtain ⟨st1, h1, hl⟩ := slot_lookup cg0 cg st x hf hs hg
  have hne : (Symbol.mk x (-(st.stack_size + 8)) 1 none).offset ≠ 0 := by
    show -(st.stack_size + 8) ≠ 0
    omega
  exact ⟨gen_expr_ident_slot cg st1 x _ h1 hl hne,
    fun e cge he => gen_expr_assign_slot cg cge st1 x _ e h1 hl hne he⟩

/-- C5, at a concrete input: the body `let x = 5; x = x + 1; return x;` at
the start of a function and after an earlier `let y`, and the program
`fn main() { let x = 5; x = x + 1; return x; }`. -/
theorem C5_witness :
    gen_stmts { label_count := 0, symtab := some symtab_new, strtab := [], types := [],
                code := [] } (c5_body "x".toList "5".toList "1".toList)
      = some { label_count := 0, symtab := some (symtab_with symtab_new "x".toList),
               strtab := [], types := [],
               code := [] ++ c5_lines (-(symtab_new.stack_size + 8)) "5".toList "1".toList }
    ∧ (run (c5_lines (-16) "5".toList "1".toList) (entry_state 8 4096 0)).result
        = some (((5 : Nat) + (1 : Nat) : Int) % W64)
    ∧ ((5 : Nat) + (1 : Nat) : Int) % W64 = 6
    ∧ (run_main "fn main() \x7b let x = 5; x = x + 1; return x; \x7d".toList
        (entry_state 8 4096 0)).map Run.result = some (some 6)
    ∧ (run_main "fn main() \x7b let y = 2; let x = 5; x = x + 1; return x; \x7d".toList
        (entry_state 8 4096 0)).map Run.result = some (some 6) :=
  ⟨C5_one_slot_per_variable_declared_once.2.2.2.1
      { label_count := 0, symtab := some symtab_new, strtab := [], types := [], code := [] }
      symtab_new "x".toList "5".toList "1".toList rfl (by simp [symtab_new]) (by decide),
   C5_one_slot_per_variable_declared_once.2.2.2.2 (-16) "5".toList "1".toList 5 1
      (entry_state 8 4096 0) (by decide) (by decide) (by decide) (by decide) (by decide)
      (by decide) (by decide),
   by decide, by decide, by decide⟩

theorem lookup_symbol_loop_mem (x : Option (List Char)) (sym : Symbol) :
    ∀ (l : List Symbol), lookup_symbol_loop l x = some (some sym) → sym ∈ l := by
  intro l
  induction l with
  | nil => intro h; simp [lookup_symbol_loop] at h
  | cons s rest ih =>
    intro h
    cases x with
    | none => simp [lookup_symbol_loop] at h
    | some nm =>
      simp only [lookup_symbol_loop] at h
      split_ifs at h with hs
      · simp only [Option.some.injEq] at h
        subst h
        exact List.mem_cons_self _ _
      · exact List.mem_cons_of_mem _ (ih h)

theorem symtab_lookup_grow (st st2 : SymbolTable) (more : List Symbol)
    (name : Option (List Char)) (off : Int) (h2 : st2.symbols = st.symbols ++ more)
    (h : symtab_lookup (some st) name = some off) (h0 : off ≠ 0) :
    symtab_lookup (some st2) name = some off ∧ ∃ s ∈ st.symbols, s.offset = off := by
  simp only [symtab_lookup, symtab_lookup_symbol, Option.map_eq_some'] at h ⊢
  obtain ⟨r, hr, hoff⟩ := h
  cases r with
  | none => exact absurd hoff.symm h0
  | some sym =>
    simp only at hoff
    have hmem := lookup_symbol_loop_mem name sym _ hr
    cases name with
    | none =>
      cases hsy : st.symbols with
      | nil => rw [hsy] at hmem; simp at hmem
      | cons a l => rw [hsy] at hr; simp [lookup_symbol_loop] at hr
    | some x =>
      refine ⟨⟨some sym, ?_, hoff⟩, sym, hmem, hoff⟩
      rw [h2]
      exact lookup_symbol_loop_append x sym _ _ hr

theorem computes_pair (st : SymbolTable) (env : Int → Int) (l0 l1 tail : List Asm)
    (m : Machine) (a b v : Int) (hs : SlotsOk st env m) (h0 : Computes l0 m a)
    (h1 : ∀ m1, SlotsOk st env m1 → Computes l1 m1 b)
    (ht : ∀ m2 : Machine, m2.rax = a → m2.rbx = b →
      ∃ m3, run tail m2 = .fell_through m3 ∧ m3.rax = v ∧ m3.rsp = m2.rsp ∧ m3.rbp = m2.rbp
        ∧ m3.mem = m2.mem) :
    Computes (l0 ++ [.push_rax] ++ l1 ++ [.mov_rbx_rax, .pop_rax] ++ tail) m v := by
  obtain ⟨hbp, hsp, hslots⟩ := hs
  obtain ⟨m0, r0, ha, sp0, bp0, mem0⟩ := h0
  have e8 : (m0.rsp - 8) % 8 = 0 := by rw [sp0]; omega
  have hpush : exec .push_rax m0 = .ok
      { m0 with rsp := m0.rsp - 8,
                mem := fun x => if x = m0.rsp - 8 then m0.rax else m0.mem x } := by
    simp [exec, Machine.store, e8]
  have hs1 : SlotsOk st env
      { m0 with rsp := m0.rsp - 8,
                mem := fun x => if x = m0.rsp - 8 then m0.rax else m0.mem x } := by
    refine ⟨by simpa [bp0] using hbp, e8, ?_⟩
    intro s hmem
    obtain ⟨h8, hle, hval⟩ := hslots s hmem
    refine ⟨h8, ?_, ?_⟩
    · simp only [bp0, sp0]; omega
    · have hne : m0.rbp + s.offset ≠ m0.rsp - 8 := by rw [bp0, sp0]; omega
      simp only [hne, if_false]
      rw [bp0, mem0 _ hle, hval]
  obtain ⟨m1, r1, hb, sp1, bp1, mem1⟩ := h1 _ hs1
  simp only at sp1 bp1 mem1
  have e1 : m1.rsp % 8 = 0 := by rw [sp1]; exact e8
  have htop : m1.mem m1.rsp = a := by
    rw [sp1, mem1 _ (le_refl _)]
    simp [ha]
  obtain ⟨m3, r3, hv, sp3, bp3, mem3⟩ := ht
    { m1 with rbx := m1.rax, rax := m1.mem m1.rsp, rsp := m1.rsp + 8 } htop hb
  refine ⟨m3, ?_, hv, ?_, ?_, ?_⟩
  · simp only [List.append_assoc, run_append, r0, List.singleton_append,
      run_cons _ _ _ (by decide : Asm.push_rax ≠ .ret), hpush, r1, List.cons_append,
      run_cons _ _ _ (by decide : Asm.mov_rbx_rax ≠ .ret),
      run_cons _ _ _ (by decide : Asm.pop_rax ≠ .ret), List.nil_append]
    simp only [exec, Machine.load, e1, if_true]
    exact r3
  · rw [sp3]; simp only; rw [sp1, sp0]; omega
  · rw [bp3]; simp only; rw [bp1, bp0]
  · intro x hx
    rw [mem3]
    simp only
    rw [mem1 x (by rw [sp0]; omega)]
    have hne : x ≠ m0.rsp - 8 := by rw [sp0]; omega
    simp only [hne, if_false]
    exact mem0 x hx

theorem binop_tail (o : List Char) (a b v : Int) (h : binop_value o a b = some v)
    (m2 : Machine) (ha : m2.rax = a) (hb : m2.rbx = b) :
    ∃ m3, run (binop_lines o) m2 = .fell_through m3 ∧ m3.rax = v ∧ m3.rsp = m2.rsp
      ∧ m3.rbp = m2.rbp ∧ m3.mem = m2.mem := by
  simp only [binop_value] at h
  simp only [binop_lines]
  split_ifs at h ⊢ <;> simp only [Option.some.injEq] at h <;> subst h <;>
    simp [run, exec, ha, hb]

theorem compare_lines_cond (o : List Char) (cc : Cond) (h : compare_cond o = some cc) :
    compare_lines o = [.set_al cc] := by
  simp only [compare_cond] at h
  simp only [compare_lines]
  split_ifs at h ⊢ <;> simp only [Option.some.injEq] at h <;> subst h <;> rfl

theorem compare_tail (o : List Char) (cc : Cond) (a b : Int) (h : compare_cond o = some cc)
    (m2 : Machine) (ha : m2.rax = a) (hb : m2.rbx = b) :
    ∃ m3, run ([.cmp_rax_rbx] ++ compare_lines o ++ [.movzx_rax_al]) m2 = .fell_through m3
      ∧ m3.rax = (if cc.holds (to_signed a) (to_signed b) then 1 else 0) ∧ m3.rsp = m2.rsp
      ∧ m3.rbp = m2.rbp ∧ m3.mem = m2.mem := by
  rw [compare_lines_cond o cc h]
  have hrun : run [.cmp_rax_rbx, .set_al cc, .movzx_rax_al] m2 = .fell_through
      { m2 with
        rax := (m2.rax - m2.rax % 256
          + if cc.holds (to_signed m2.rax) (to_signed m2.rbx) then 1 else 0) % 256,
        flags := some (to_signed m2.rax, to_signed m2.rbx) } := by
    simp [run, exec]
  refine ⟨_, hrun, ?_, rfl, rfl, rfl⟩
  simp only [ha, hb]
  split_ifs <;> omega

theorem gen_expr_computes (st : SymbolTable) (env : Int → Int) :
    ∀ (e : AstNode) (cg cg1 : Codegen) (v : Int) (st2 : SymbolTable) (more : List Symbol),
      cg.symtab = some st2 → st2.symbols = st.symbols ++ more →
      gen_expr cg e = some cg1 → expr_value (some st) env e = some v →
      ∃ lines, cg1.code = cg.code ++ lines ∧ ∀ m, SlotsOk st env m → Computes lines m v := by
  intro e
  induction e using AstNode.induct_children with
  | h n ihc ihg =>
  intro cg cg1 v st2 more hst h2 hg hv
  obtain ⟨type, name, children, value, op, asz, stt⟩ := n
  simp only at ihc
  cases type
  case AST_NUMBER =>
    simp only [expr_value, Option.bind_eq_bind, Option.bind_eq_some] at hv
    obtain ⟨d, hd, k, hk, hv⟩ := hv
    split_ifs at hv with hlt
    simp only [Option.some.injEq] at hv
    subst hd
    simp only [gen_expr, Option.bind_eq_bind, Option.some_bind, Option.some.injEq] at hg
    subst hg
    refine ⟨[.mov_rax_s d], rfl, ?_⟩
    intro m hm
    exact ⟨{ m with rax := k }, by simp [run, exec, hk, hlt], hv, rfl, rfl, fun _ _ => rfl⟩
  case AST_IDENT =>
    simp only [expr_value, Option.bind_eq_bind, Option.bind_eq_some] at hv
    obtain ⟨off, hoff, hv⟩ := hv
    split_ifs at hv with h0
    simp only [Option.some.injEq] at hv
    obtain ⟨hl2, s, hs, hso⟩ := symtab_lookup_grow st st2 more name off h2 hoff h0
    simp only [gen_expr, hst, hl2, Option.bind_eq_bind, Option.some_bind, h0, ne_eq,
      not_false_eq_true, if_true, Option.some.injEq] at hg
    subst hg
    refine ⟨[.load_rax off], rfl, ?_⟩
    intro m hm
    obtain ⟨h8, hle, hval⟩ := hm.2.2 s hs
    rw [hso] at h8 hle hval
    have e8 : (m.rbp + off) % 8 = 0 := by have := hm.1; omega
    exact ⟨{ m with rax := m.mem (m.rbp + off) }, by simp [run, exec, Machine.load, e8],
      by rw [← hv, ← hval], rfl, rfl, fun _ _ => rfl⟩
  case AST_BINOP =>
    rcases children with _ | ⟨c0, _ | ⟨c1, rest⟩⟩
    · simp [expr_value] at hv
    · simp [expr_value] at hv
    · simp only [expr_value, Option.bind_eq_bind, Option.bind_eq_some] at hv
      obtain ⟨a, hva, b, hvb, o, ho, hv⟩ := hv
      subst ho
      simp only [gen_expr, Option.bind_eq_bind, Option.bind_eq_some, Option.some_bind,
        Option.some.injEq] at hg
      obtain ⟨cga, h0, cgb, h1, hg⟩ := hg
      subst hg
      have hsa : (emit cga [.push_rax]).symtab = some st2 := by
        show cga.symtab = some st2
        rw [(gen_expr_ext _ _ _ h0).2.1, hst]
      obtain ⟨l0, hc0, r0⟩ := ihc c0 (by simp) cg cga a st2 more hst h2 h0 hva
      obtain ⟨l1, hc1, r1⟩ := ihc c1 (by simp) _ cgb b st2 more hsa h2 h1 hvb
      refine ⟨l0 ++ [.push_rax] ++ l1 ++ [.mov_rbx_rax, .pop_rax] ++ binop_lines o, ?_, ?_⟩
      · simp only [emit] at hc1 ⊢
        rw [hc1, hc0]
        simp
      · intro m hm
        exact computes_pair st env l0 l1 _ m a b v hm (r0 m hm) r1
          (fun m2 ha hb => binop_tail o a b v hv m2 ha hb)
  case AST_COMPARE =>
    rcases children with _ | ⟨c0, _ | ⟨c1, rest⟩⟩
    · simp [expr_value] at hv
    · simp [expr_value] at hv
    · simp only [expr_value, Option.bind_eq_bind, Option.bind_eq_some, Option.some.injEq] at hv
      obtain ⟨a, hva, b, hvb, o, ho, cc, hcc, hv⟩ := hv
      subst ho
      simp only [gen_expr, Option.bind_eq_bind, Option.bind_eq_some, Option.some_bind,
        Option.some.injEq] at hg
      obtain ⟨cga, h0, cgb, h1, hg⟩ := hg
      subst hg
      have hsa : (emit cga [.push_rax]).symtab = some st2 := by
        show cga.symtab = some st2
        rw [(gen_expr_ext _ _ _ h0).2.1, hst]
      obtain ⟨l0, hc0, r0⟩ := ihc c0 (by simp) cg cga a st2 more hst h2 h0 hva
      obtain ⟨l1, hc1, r1⟩ := ihc c1 (by simp) _ cgb b st2 more hsa h2 h1 hvb
      refine ⟨l0 ++ [.push_rax] ++ l1 ++ [.mov_rbx_rax, .pop_rax]
        ++ ([.cmp_rax_rbx] ++ compare_lines o ++ [.movzx_rax_al]), ?_, ?_⟩
      · simp only [emit] at hc1 ⊢
        rw [hc1, hc0]
        simp
      · intro m hm
        subst hv
        exact computes_pair st env l0 l1 _ m a b _ hm (r0 m hm) r1
          (fun m2 ha hb => compare_tail o cc a b hcc m2 ha hb)
  all_goals simp [expr_value] at hv

theorem kw_eq_iff (s : List Char) (t : TokType) (ht : t ≠ .T_IDENT) :
    kw s = t ↔ (s, t) ∈ keywords := by
  simp only [kw, keywords, List.mem_cons, Prod.mk.injEq, List.mem_singleton, List.not_mem_nil,
    or_false]
  constructor
  · intro h
    split_ifs at h with h1 h2 h3 h4 h5 h6 h7
    · exact Or.inl ⟨h1, h.symm⟩
    · exact Or.inr (Or.inl ⟨h2, h.symm⟩)
    · exact Or.inr (Or.inr (Or.inl ⟨h3, h.symm⟩))
    · exact Or.inr (Or.inr (Or.inr (Or.inl ⟨h4, h.symm⟩)))
    · exact Or.inr (Or.inr (Or.inr (Or.inr (Or.inl ⟨h5, h.symm⟩))))
    · exact Or.inr (Or.inr (Or.inr (Or.inr (Or.inr (Or.inl ⟨h6, h.symm⟩)))))
    · exact Or.inr (Or.inr (Or.inr (Or.inr (Or.inr (Or.inr ⟨h7, h.symm⟩)))))
    · exact absurd h.symm ht
  · rintro (⟨rfl, rfl⟩ | ⟨rfl, rfl⟩ | ⟨rfl, rfl⟩ | ⟨rfl, rfl⟩ | ⟨rfl, rfl⟩ | ⟨rfl, rfl⟩
      | ⟨rfl, rfl⟩) <;> decide

theorem kw_ident_iff (s : List Char) :
    kw s = .T_IDENT ↔ ∀ p ∈ keywords, s ≠ p.1 := by
  simp only [kw, keywords, List.mem_cons, List.mem_singleton, List.not_mem_nil, or_false,
    forall_eq_or_imp, forall_eq]
  constructor
  · intro h
    split_ifs at h with h1 h2 h3 h4 h5 h6 h7
    exact ⟨h1, h2, h3, h4, h5, h6, h7⟩
  · rintro ⟨h1, h2, h3, h4, h5, h6, h7⟩
    rw [if_neg h1, if_neg h2, if_neg h3, if_neg h4, if_neg h5, if_neg h6, if_neg h7]

theorem skip_of_ident_start (c : Char) (cs : List Char) (hc : isalpha c = true ∨ c = '_') :
    skip (c :: cs) = c :: cs := by
  have h1 : is_space c = false := by
    rcases hc with h | h
    · simp only [isalpha, Bool.or_eq_true, Bool.and_eq_true, decide_eq_true_eq] at h
      simp only [is_space, c_tab, c_cr, c_lf, Bool.or_eq_false_iff, decide_eq_false_iff_not]
      refine ⟨⟨⟨?_, ?_⟩, ?_⟩, ?_⟩ <;> (intro he; subst he; revert h; decide)
    · subst h; decide
  have h2 : c ≠ '/' := by
    rcases hc with h | h
    · intro he; subst he; revert h; decide
    · subst h; decide
  simp [skip, skip_loop, peek, h1, h2]

theorem lex_tok_ident (c : Char) (body rest : List Char)
    (hc : isalpha c = true ∨ c = '_') (hbody : ∀ d ∈ body, ident_char d = true)
    (hrest : ∀ d, rest.head? = some d → ident_char d = false) :
    lex_tok (c :: (body ++ rest)) = some (⟨kw (c :: body), c :: body⟩, rest) := by
  have hnul : c ≠ c_nul := by
    rcases hc with h | h
    · intro he; subst he; revert h; decide
    · subst h; decide
  have hc2 : isalpha c = true ∨ c = '_' := hc
  have htake : (body ++ rest).takeWhile (fun d => isalnum d || d = '_') = body := by
    rw [List.takeWhile_append_of_pos (fun d hd => by simpa [ident_char] using hbody d hd)]
    cases rest with
    | nil => simp
    | cons d ds =>
      have := hrest d rfl
      simp only [ident_char] at this
      simp [List.takeWhile, this]
  have hdrop : (body ++ rest).dropWhile (fun d => isalnum d || d = '_') = rest := by
    rw [List.dropWhile_append_of_pos (fun d hd => by simpa [ident_char] using hbody d hd)]
    cases rest with
    | nil => simp
    | cons d ds =>
      have := hrest d rfl
      simp only [ident_char] at this
      simp [List.dropWhile, this]
  simp only [lex_tok, skip_of_ident_start c _ hc, hnul, if_false, hc2, if_true, htake, hdrop]

/-- C20: keywords are matched on the whole lexeme, byte for byte. `kw`
gives `T_FN`, `T_LET`, `T_IF`, `T_ELSE`, `T_WHILE`, `T_RET`, `T_STRUCT`
exactly for the lexemes `fn`, `let`, `if`, `else`, `while`, `return`,
`struct`, and `T_IDENT` exactly for every other lexeme, so for a keyword in
another letter case or with extra characters. `lex_tok`, at a letter or
underscore followed by a maximal run of letters, digits and underscores,
returns that run as the lexeme, classified by `kw`, and stops behind it. -/
theorem C20_keywords_match_whole_lexeme :
    (∀ s : List Char,
        (kw s = .T_FN ↔ s = "fn".toList) ∧ (kw s = .T_LET ↔ s = "let".toList)
        ∧ (kw s = .T_IF ↔ s = "if".toList) ∧ (kw s = .T_ELSE ↔ s = "else".toList)
        ∧ (kw s = .T_WHILE ↔ s = "while".toList) ∧ (kw s = .T_RET ↔ s = "return".toList)
        ∧ (kw s = .T_STRUCT ↔ s = "struct".toList)
        ∧ (kw s = .T_IDENT ↔ ∀ p ∈ keywords, s ≠ p.1))
    ∧ (∀ (c : Char) (body rest : List Char),
        (isalpha c = true ∨ c = '_') → (∀ d ∈ body, ident_char d = true) →
        (∀ d, rest.head? = some d → ident_char d = false) →
        lex_tok (c :: (body ++ rest)) = some (⟨kw (c :: body), c :: body⟩, rest))
    ∧ kw "Fn".toList = .T_IDENT ∧ kw "IF".toList = .T_IDENT ∧ kw "fnx".toList = .T_IDENT
    ∧ kw "returns".toList = .T_IDENT ∧ kw "_let".toList = .T_IDENT
    ∧ kw "for".toList = .T_IDENT := by
  refine ⟨fun s => ⟨?_, ?_, ?_, ?_, ?_, ?_, ?_, kw_ident_iff s⟩, lex_tok_ident,
    by decide, by decide, by decide, by decide, by decide, by decide⟩
  all_goals
    rw [kw_eq_iff s _ (by decide)]
    simp [keywords]

/-- C20, at concrete inputs: `while1 (` is one identifier, `while (` starts
with the keyword. -/
theorem C20_witness :
    lex_tok ('w' :: ("hile1".toList ++ " (".toList))
        = some (⟨kw ('w' :: "hile1".toList), 'w' :: "hile1".toList⟩, " (".toList)
    ∧ kw "while1".toList = .T_IDENT
    ∧ lex_tok ('w' :: ("hile".toList ++ " (".toList))
        = some (⟨kw ('w' :: "hile".toList), 'w' :: "hile".toList⟩, " (".toList)
    ∧ kw "while".toList = .T_WHILE :=
  ⟨C20_keywords_match_whole_lexeme.2.1 'w' "hile1".toList " (".toList (by decide) (by decide)
      (by decide),
   by decide,
   C20_keywords_match_whole_lexeme.2.1 'w' "hile".toList " (".toList (by decide) (by decide)
      (by decide),
   by decide⟩

theorem data_rows_length (strtab : StringTable) : (data_rows strtab).length = strtab.length := by
  simp [data_rows]

theorem data_rows_labels (strtab : StringTable) :
    (data_rows strtab).map Prod.fst = strtab.map (fun e => e.label) := by
  simp [data_rows]

/-- C11 as stated fails: `c11_source` holds one distinct string text, and
`codegen` writes two rows for it, `str_0` and `str_1`, with the same
bytes. -/
theorem C11_counterexample :
    (compile c11_source).map (fun cg => data_rows cg.strtab)
        = some [("str_0".toList, [104, 105]), ("str_1".toList, [104, 105])]
    ∧ ([[104, 105], [104, 105]] : List (List Nat)).dedup.length = 1 := by
  decide

/-- C11, amended: the data section holds one row per evaluation of a string
literal, not per distinct text. `gen_expr` on a String node makes the table,
and so the data section, one row longer whatever the table already holds.
For the table `codegen` ends with, started from an empty one, the rows
written are as many as the string loads in the code, their labels are the
labels loaded, in the same order, and row `k` is labelled `str_k`. -/
theorem C11_one_data_row_per_occurrence :
    (∀ (cg cg1 : Codegen) (name op stt : Option (List Char)) (children : List AstNode)
        (v : List Char) (asz : Int),
        gen_expr cg ⟨.AST_STRING, name, children, some v, op, asz, stt⟩ = some cg1 →
        (data_rows cg1.strtab).length = (data_rows cg.strtab).length + 1)
    ∧ (∀ (ast : AstNode) (types : TypeTable) (cg : Codegen),
        codegen ast strtab_new types = some cg →
        (data_rows cg.strtab).length = (str_loads cg.code).length
          ∧ (data_rows cg.strtab).map Prod.fst = (str_loads cg.code).map Prod.fst
          ∧ ∀ k row, (data_rows cg.strtab)[k]? = some row →
              row.1 = "str_".toList ++ fmt_d ((k : Nat) : Int)) := by
  constructor
  · intro cg cg1 name op stt children v asz h
    rw [gen_expr_string, Option.some.injEq] at h
    subst h
    simp [data_rows]
  · intro ast types cg h
    obtain ⟨rows, hs, hl, hk⟩ := codegen_strings ast strtab_new types cg h
    simp only [strtab_new, List.nil_append] at hs
    refine ⟨?_, ?_, ?_⟩
    · rw [data_rows_length, hl, hs, List.length_map]
    · rw [data_rows_labels, hl, hs, List.map_map]
      rfl
    · intro k row hrow
      simp only [data_rows, List.getElem?_map, Option.map_eq_some'] at hrow
      obtain ⟨e, he, hrow⟩ := hrow
      rw [hs] at he
      have := (hk k e he).1
      simp only [strtab_new, List.length_nil, Nat.zero_add] at this
      rw [← hrow]
      exact this

/-- C11, at a concrete input: the two rows of `c11_source`. -/
theorem C11_witness :
    ∃ cg, compile c11_source = some cg ∧ (data_rows cg.strtab).length = 2
      ∧ (data_rows cg.strtab).length = (str_loads cg.code).length := by
  refine ⟨(compile c11_source).getD (codegen_init [] []), by decide, by decide, ?_⟩
  exact (C11_one_data_row_per_occurrence.2 _ _ _ (by decide : codegen
    (match tokenize c11_source with
      | none => ast_new .AST_PROGRAM
      | some toks =>
        match parse toks with
        | .error _ => ast_new .AST_PROGRAM
        | .ok (ast, _) => ast) strtab_new typetab_new
    = some ((compile c11_source).getD (codegen_init [] [])))).1

theorem apply_op_eq (st : SymbolTable) (op : SymOp) :
    ∃ s : Symbol, apply_op st op = some
        { symbols := st.symbols ++ [s], stack_size := st.stack_size + op.bytes }
      ∧ s.offset = -(st.stack_size + op.bytes) ∧ s.bytes = op.bytes := by
  cases op with
  | add name size =>
    exact ⟨{ name := name, offset := -(st.stack_size + size * 8), size := size,
             type_name := none },
      by simp [apply_op, symtab_add, SymOp.bytes], rfl, by simp [Symbol.bytes, SymOp.bytes]⟩
  | add_struct name tn size_bytes =>
    exact ⟨{ name := name, offset := -(st.stack_size + size_bytes), size := size_bytes,
             type_name := some tn },
      by simp [apply_op, symtab_add_struct, SymOp.bytes], rfl,
      by simp [Symbol.bytes, SymOp.bytes]⟩

theorem bytes_before_succ (op : SymOp) (rest : List SymOp) (k : Nat) :
    bytes_before (op :: rest) (k + 1) = op.bytes + bytes_before rest k := by
  simp [bytes_before]

theorem bytes_before_mono (ops : List SymOp) (h : ∀ op ∈ ops, 0 ≤ op.bytes) :
    ∀ j k, j ≤ k → bytes_before ops j ≤ bytes_before ops k := by
  induction ops with
  | nil => intro j k _; simp [bytes_before]
  | cons op rest ih =>
    intro j k hjk
    cases j with
    | zero =>
      have h0 : bytes_before (op :: rest) 0 = 0 := by simp [bytes_before]
      rw [h0]
      cases k with
      | zero => simp [bytes_before]
      | succ k =>
        rw [bytes_before_succ]
        have h1 := h op (by simp)
        have h2 := ih (fun o ho => h o (by simp [ho])) 0 k (Nat.zero_le _)
        have h3 : bytes_before rest 0 = 0 := by simp [bytes_before]
        omega
    | succ j =>
      cases k with
      | zero => omega
      | succ k =>
        rw [bytes_before_succ, bytes_before_succ]
        have := ih (fun o ho => h o (by simp [ho])) j k (by omega)
        omega

theorem apply_ops_spec (ops : List SymOp) :
    ∀ st0 : SymbolTable, ∃ new : List Symbol,
      apply_ops st0 ops = some
          { symbols := st0.symbols ++ new,
            stack_size := st0.stack_size + bytes_before ops ops.length }
        ∧ new.length = ops.length
        ∧ ∀ (i : Nat) (s : Symbol), new[i]? = some s →
            s.offset = -(st0.stack_size + bytes_before ops (i + 1))
              ∧ ∃ op, ops[i]? = some op ∧ s.bytes = op.bytes := by
  induction ops with
  | nil =>
    intro st0
    exact ⟨[], by simp [apply_ops, bytes_before], rfl, fun i s h => by simp at h⟩
  | cons op rest ih =>
    intro st0
    obtain ⟨s0, h0, hoff, hb⟩ := apply_op_eq st0 op
    obtain ⟨new, h1, hlen, hnew⟩ := ih
      { symbols := st0.symbols ++ [s0], stack_size := st0.stack_size + op.bytes }
    refine ⟨s0 :: new, ?_, by simp [hlen], ?_⟩
    · simp only [apply_ops, h0, Option.some_bind, h1, List.length_cons, bytes_before_succ]
      simp [add_assoc]
    · intro i s hs
      cases i with
      | zero =>
        simp only [List.getElem?_cons_zero, Option.some.injEq] at hs
        subst hs
        refine ⟨?_, op, by simp, hb⟩
        rw [hoff, bytes_before_succ]
        simp [bytes_before]
      | succ i =>
        simp only [List.getElem?_cons_succ] at hs
        obtain ⟨h2, op2, h3, h4⟩ := hnew i s hs
        refine ⟨?_, op2, by simpa using h3, h4⟩
        rw [h2, bytes_before_succ]
        simp only
        ring

theorem bytes_before_step (ops : List SymOp) (j : Nat) (op : SymOp) (h : ops[j]? = some op) :
    bytes_before ops (j + 1) = bytes_before ops j + op.bytes := by
  simp [bytes_before, List.take_succ, h]

theorem bytes_before_take (ops : List SymOp) (j : Nat) :
    bytes_before (ops.take j) (ops.take j).length = bytes_before ops j := by
  simp only [bytes_before]
  rw [List.take_of_length_le (le_refl _)]

theorem int32_eq (x : Int) (h1 : -2147483648 ≤ x) (h2 : x < 2147483648) : int32 x = x := by
  simp only [int32]
  omega

theorem apply_op_i32_eq (st : SymbolTable) (op : SymOp)
    (h1 : -2147483648 ≤ op.bytes ∧ op.bytes < 2147483648)
    (h2 : -2147483648 < st.stack_size + op.bytes ∧ st.stack_size + op.bytes < 2147483648) :
    apply_op_i32 st op = apply_op st op := by
  cases op with
  | add name size =>
    simp only [SymOp.bytes] at h1 h2
    simp only [apply_op_i32, apply_op, symtab_add_i32, symtab_add]
    rw [int32_eq (size * 8) (by omega) (by omega),
      int32_eq (st.stack_size + size * 8) (by omega) (by omega),
      int32_eq (-(st.stack_size + size * 8)) (by omega) (by omega)]
  | add_struct name tn size_bytes =>
    simp only [SymOp.bytes] at h1 h2
    simp only [apply_op_i32, apply_op, symtab_add_struct_i32, symtab_add_struct]
    rw [int32_eq (st.stack_size + size_bytes) (by omega) (by omega),
      int32_eq (-(st.stack_size + size_bytes)) (by omega) (by omega)]

theorem apply_ops_i32_eq (ops : List SymOp) :
    ∀ st0 : SymbolTable,
      (∀ op ∈ ops, -2147483648 ≤ op.bytes ∧ op.bytes < 2147483648) →
      (∀ j, j ≤ ops.length →
        -2147483648 < st0.stack_size + bytes_before ops j
          ∧ st0.stack_size + bytes_before ops j < 2147483648) →
      apply_ops_i32 st0 ops = apply_ops st0 ops := by
  induction ops with
  | nil => intro st0 _ _; rfl
  | cons op rest ih =>
    intro st0 hb hs
    have h1 := hb op (by simp)
    have h2 := hs 1 (by simp)
    have e1 : bytes_before (op :: rest) 1 = op.bytes := by simp [bytes_before]
    rw [e1] at h2
    obtain ⟨s0, h0, -, -⟩ := apply_op_eq st0 op
    simp only [apply_ops_i32, apply_ops, apply_op_i32_eq st0 op h1 h2, h0, Option.some_bind]
    apply ih _ (fun o ho => hb o (by simp [ho]))
    intro j hj
    have := hs (j + 1) (by simp; omega)
    rw [bytes_before_succ] at this
    simp only
    omega

theorem no_wrap_spec (ops : List SymOp) (h : no_wrap ops = true) :
    (∀ op ∈ ops, -2147483648 ≤ op.bytes ∧ op.bytes < 2147483648)
    ∧ (∀ j, j ≤ ops.length →
        -2147483648 < bytes_before ops j ∧ bytes_before ops j < 2147483648) := by
  simp only [no_wrap, Bool.and_eq_true, List.all_eq_true, List.mem_range,
    decide_eq_true_eq] at h
  exact ⟨h.1, fun j hj => h.2 j (by omega)⟩

theorem no_wrap_take (ops : List SymOp) (h : no_wrap ops = true) (k : Nat) :
    apply_ops_i32 symtab_new (ops.take k) = apply_ops symtab_new (ops.take k) := by
  obtain ⟨h1, h2⟩ := no_wrap_spec ops h
  apply apply_ops_i32_eq _ _ (fun o ho => h1 o (List.mem_of_mem_take ho))
  intro j hj
  have e : bytes_before (ops.take k) j = bytes_before ops (min j k) := by
    simp [bytes_before, List.take_take]
  have hm : min j k ≤ ops.length := by
    simp only [List.length_take] at hj
    omega
  have := h2 (min j k) hm
  simp only [symtab_new, zero_add, e]
  exact this

theorem no_wrap_of_nonneg (ops : List SymOp) (hpos : ∀ op ∈ ops, 0 ≤ op.bytes)
    (htot : bytes_before ops ops.length < 2147483648) : no_wrap ops = true := by
  have hmono := bytes_before_mono ops hpos
  have h0 : bytes_before ops 0 = 0 := by simp [bytes_before]
  simp only [no_wrap, Bool.and_eq_true, List.all_eq_true, List.mem_range, decide_eq_true_eq]
  constructor
  · intro op hop
    obtain ⟨i, hi, rfl⟩ := List.getElem_of_mem hop
    have e := bytes_before_step ops i ops[i] (by simp [hi])
    have m1 := hmono 0 i (Nat.zero_le _)
    have m2 := hmono (i + 1) ops.length (by omega)
    have := hpos ops[i] hop
    omega
  · intro j hj
    have m1 := hmono 0 j (Nat.zero_le _)
    have m2 := hmono j ops.length (by omega)
    omega

/-- C12 as stated fails in two ways. A negative size makes `stack_size`
decrease: after `symtab_add(st, x, 1)` it is 8, after
`symtab_add(st, y, -1)` it is 0; and it makes ranges overlap: after the
sizes 2, -1, 1 the offsets are -16, -8, -16, so the first and the third
symbol, of 16 and 8 bytes, share the offset -16. And the arithmetic is that
of `int`: after
`symtab_add(st, x, 268435456)` and `symtab_add(st, y, 1)` the cumulative byte
size is `2^31 + 8`, `stack_size` has wrapped to -2147483640 and the offsets
are -2147483648 and +2147483640, where the claim gives -2147483656 for the
second. -/
theorem C12_counterexample :
    (apply_ops_i32 symtab_new [.add "x".toList 1]).map (fun st => st.stack_size) = some 8
    ∧ (apply_ops_i32 symtab_new [.add "x".toList 1, .add "y".toList (-1)]).map
        (fun st => st.stack_size) = some 0
    ∧ (apply_ops_i32 symtab_new [.add "x".toList 268435456, .add "y".toList 1]).map
        (fun st => (st.stack_size, st.symbols.map (fun s => s.offset)))
        = some (-2147483640, [-2147483648, 2147483640])
    ∧ -bytes_before [.add "x".toList 268435456, .add "y".toList 1] 2 = -2147483656
    ∧ (apply_ops_i32 symtab_new
          [.add "x".toList 2, .add "y".toList (-1), .add "z".toList 1]).map
        (fun st => st.symbols.map (fun s => (s.offset, s.bytes)))
        = some [(-16, 16), (-8, -8), (-16, 8)] := by
  decide

/-- C12 (amended): offsets are minus the running total of the bytes as long
as no step leaves the range of `int`. For a sequence of `symtab_add` and
`symtab_add_struct` calls on a fresh table in which the bytes of every call
lie in the range of `int` and every running total lies strictly between
`-2^31` and `2^31`, the calls give a table, the same one in the arithmetic of `int` and in the unbounded
integers; it has one symbol per call, `stack_size` is the sum of the bytes of
the calls, and the `i`-th symbol has the bytes of the `i`-th call and the
offset minus the sum of the bytes of the calls `0..i`. When in addition no
call has a negative size, `stack_size` never decreases from one prefix of the
sequence to a longer one, and for `i < j` the range of symbol `j` ends at or
below the start of the range of symbol `i`, so the ranges are pairwise
disjoint. With sizes that are not negative, no step leaves the range of
`int` as soon as the total of the bytes is below `2^31`. -/
theorem C12_symbol_offsets_are_cumulative (ops : List SymOp) (hr : no_wrap ops = true) :
    ∃ st, apply_ops_i32 symtab_new ops = some st
      ∧ apply_ops symtab_new ops = some st
      ∧ st.symbols.length = ops.length
      ∧ st.stack_size = bytes_before ops ops.length
      ∧ (∀ (i : Nat) (s : Symbol), st.symbols[i]? = some s →
          s.offset = -bytes_before ops (i + 1)
            ∧ ∃ op, ops[i]? = some op ∧ s.bytes = op.bytes)
      ∧ ((∀ op ∈ ops, 0 ≤ op.bytes) →
          (∀ (j k : Nat) (sj sk : SymbolTable), j ≤ k →
              apply_ops_i32 symtab_new (ops.take j) = some sj →
              apply_ops_i32 symtab_new (ops.take k) = some sk →
              0 ≤ sj.stack_size ∧ sj.stack_size ≤ sk.stack_size)
          ∧ (∀ (i j : Nat) (si sj : Symbol), i < j →
              st.symbols[i]? = some si → st.symbols[j]? = some sj →
              sj.offset + sj.bytes ≤ si.offset ∧ si.offset + si.bytes ≤ 0))
      ∧ (∀ ops2 : List SymOp, (∀ op ∈ ops2, 0 ≤ op.bytes) →
          bytes_before ops2 ops2.length < 2147483648 → no_wrap ops2 = true) := by
  obtain ⟨new, h1, hlen, hnew⟩ := apply_ops_spec ops symtab_new
  simp only [symtab_new, List.nil_append, zero_add] at h1 hnew
  have h32 : apply_ops_i32 symtab_new ops = apply_ops symtab_new ops := by
    have := no_wrap_take ops hr ops.length
    simpa using this
  refine ⟨_, h32.trans h1, h1, hlen, rfl, hnew, ?_, no_wrap_of_nonneg⟩
  intro hpos
  have hmono := bytes_before_mono ops hpos
  have h0 : bytes_before ops 0 = 0 := by simp [bytes_before]
  constructor
  · intro j k sj sk hjk hj hk
    rw [no_wrap_take ops hr j] at hj
    rw [no_wrap_take ops hr k] at hk
    obtain ⟨nj, ej, -, -⟩ := apply_ops_spec (ops.take j) symtab_new
    obtain ⟨nk, ek, -, -⟩ := apply_ops_spec (ops.take k) symtab_new
    rw [hj, Option.some.injEq] at ej
    rw [hk, Option.some.injEq] at ek
    subst ej
    subst ek
    simp only [symtab_new, zero_add, bytes_before_take]
    have := hmono 0 j (Nat.zero_le _)
    exact ⟨by omega, hmono j k hjk⟩
  · intro i j si sj hij hi hj
    obtain ⟨oi, opi, hopi, hbi⟩ := hnew i si hi
    obtain ⟨oj, opj, hopj, hbj⟩ := hnew j sj hj
    have e1 := bytes_before_step ops j opj hopj
    have e2 := bytes_before_step ops i opi hopi
    have m1 := hmono (i + 1) j (by omega)
    have m2 := hmono 0 i (Nat.zero_le _)
    constructor <;> omega

/-- C12 (amended), at a concrete input: a scalar, an array of three slots
and a struct of 16 bytes get the offsets -8, -32 and -48. -/
theorem C12_witness :
    no_wrap [.add "x".toList 1, .add "a".toList 3, .add_struct "p".toList "P".toList 16] = true
    ∧ ∃ st, apply_ops_i32 symtab_new
        [.add "x".toList 1, .add "a".toList 3, .add_struct "p".toList "P".toList 16] = some st
      ∧ st.symbols.map (fun s => s.offset) = [-8, -32, -48]
      ∧ st.stack_size = 48
      ∧ ∀ (i j : Nat) (si sj : Symbol), i < j →
          st.symbols[i]? = some si → st.symbols[j]? = some sj →
          sj.offset + sj.bytes ≤ si.offset ∧ si.offset + si.bytes ≤ 0 := by
  refine ⟨by decide, ?_⟩
  obtain ⟨st, h0, h1, -, -, -, h5, -⟩ := C12_symbol_offsets_are_cumulative
    [.add "x".toList 1, .add "a".toList 3, .add_struct "p".toList "P".toList 16] (by decide)
  have h6 := (h5 (by decide)).2
  refine ⟨st, h0, ?_, ?_, h6⟩
  · simp only [apply_ops, apply_op, symtab_add, symtab_add_struct, symtab_new, Option.map_some',
      Option.some_bind, Option.some.injEq] at h1
    subst h1
    decide
  · simp only [apply_ops, apply_op, symtab_add, symtab_add_struct, symtab_new, Option.map_some',
      Option.some_bind, Option.some.injEq] at h1
    subst h1
    decide

theorem lookup_symbol_loop_none (x : List Char) :
    ∀ (l : List Symbol), (∀ s ∈ l, s.name ≠ x) → lookup_symbol_loop l (some x) = some none := by
  intro l
  induction l with
  | nil => intro _; rfl
  | cons s rest ih =>
    intro h
    have hs : s.name ≠ x := h s (by simp)
    simp only [lookup_symbol_loop, hs, if_false]
    exact ih (fun t ht => h t (by simp [ht]))

theorem gen_expr_ident_unknown (cg : Codegen) (st : SymbolTable) (x : List Char)
    (children : List AstNode) (value op stt : Option (List Char)) (asz : Int)
    (hst : cg.symtab = some st) (hx : ∀ s ∈ st.symbols, s.name ≠ x) :
    gen_expr cg ⟨.AST_IDENT, some x, children, value, op, asz, stt⟩
      = some (emit cg [.mov_rax_0_unknown x]) := by
  simp [gen_expr, symtab_lookup, symtab_lookup_symbol, hst, lookup_symbol_loop_none x _ hx]

theorem gen_expr_ident_found (cg : Codegen) (st : SymbolTable) (x : List Char) (sym : Symbol)
    (children : List AstNode) (value op stt : Option (List Char)) (asz : Int)
    (hst : cg.symtab = some st)
    (hl : lookup_symbol_loop st.symbols (some x) = some (some sym)) :
    gen_expr cg ⟨.AST_IDENT, some x, children, value, op, asz, stt⟩
      = some (emit cg [if sym.offset ≠ 0 then .load_rax sym.offset
                       else .mov_rax_0_unknown x]) := by
  by_cases h0 : sym.offset = 0 <;>
    simp [gen_expr, symtab_lookup, symtab_lookup_symbol, hst, hl, h0]

/-- C15 as stated fails for a name recorded with offset 0: in
`fn main() { let a = []; return a; }` the table holds `a` at offset 0, and
the reference to `a` emits `mov rax, 0  ; unknown var a` instead of a load
from `[rbp+0]`. -/
theorem C15_counterexample :
    (gen_stmts body_start c15_stmts).map (fun cg => (cg.symtab, cg.code))
      = some (some { symbols := [{ name := "a".toList, offset := 0, size := 0,
                                   type_name := none }],
                     stack_size := 0 },
              [.comment_array_literal, .lea_rax 0, .mov_rax_0_unknown "a".toList, .leave, .ret])
    ∧ (compile c15_source).map (fun cg => func_code "main".toList cg.code)
      = some [.func_label "main".toList, .push_rbp, .mov_rbp_rsp, .sub_rsp_128,
          .comment_array_literal, .lea_rax 0, .mov_rax_0_unknown "a".toList, .leave, .ret,
          .xor_rax_rax, .leave, .ret] := by
  decide

/-- C15, amended: an unknown name loads zero, a known one loads its slot
unless its offset is 0. For an Identifier node whose name is not in the
current symbol table, `gen_expr` emits the one line
`mov rax, 0  ; unknown var <name>`. For a name in the table, with `sym` the
first symbol of that name, it emits the one line `mov rax, [rbp<o>]` with
`o` the offset of `sym` when `o` is not 0, and the line of an unknown name
when `o` is 0. Nothing else changes in the state of the code generator. -/
theorem C15_identifier_load :
    (∀ (cg : Codegen) (st : SymbolTable) (x : List Char) (children : List AstNode)
        (value op stt : Option (List Char)) (asz : Int),
        cg.symtab = some st → (∀ s ∈ st.symbols, s.name ≠ x) →
        gen_expr cg ⟨.AST_IDENT, some x, children, value, op, asz, stt⟩
          = some { cg with code := cg.code ++ [.mov_rax_0_unknown x] })
    ∧ (∀ (cg : Codegen) (st : SymbolTable) (x : List Char) (sym : Symbol)
        (children : List AstNode) (value op stt : Option (List Char)) (asz : Int),
        cg.symtab = some st →
        lookup_symbol_loop st.symbols (some x) = some (some sym) →
        gen_expr cg ⟨.AST_IDENT, some x, children, value, op, asz, stt⟩
          = some { cg with code := cg.code ++
              [if sym.offset ≠ 0 then .load_rax sym.offset else .mov_rax_0_unknown x] })
    ∧ (∀ (l more : List Symbol) (sym : Symbol),
        (∀ s ∈ l, s.name ≠ sym.name) →
        lookup_symbol_loop (l ++ sym :: more) (some sym.name) = some (some sym))
    ∧ (∀ x : List Char, (Asm.mov_rax_0_unknown x).render
        = "    mov rax, 0  ; unknown var " ++ String.mk x ++ "\n")
    ∧ (∀ o : Int, (Asm.load_rax o).render = "    mov rax, [rbp" ++ toString o ++ "]\n") :=
  ⟨gen_expr_ident_unknown, gen_expr_ident_found,
    fun l more sym h => lookup_symbol_loop_fresh sym.name sym rfl l more h,
    fun _ => rfl, fun _ => rfl⟩

/-- C15, at concrete inputs: in a table that holds `x` at offset -8, the
name `y` loads zero and the name `x` loads `[rbp-8]`. -/
theorem C15_witness :
    gen_expr { body_start with symtab := some (symtab_with symtab_new "x".toList) }
        (ident_node "y".toList)
      = some { ({ body_start with symtab := some (symtab_with symtab_new "x".toList) } : Codegen)
               with code := [] ++ [.mov_rax_0_unknown "y".toList] }
    ∧ gen_expr { body_start with symtab := some (symtab_with symtab_new "x".toList) }
        (ident_node "x".toList)
      = some { ({ body_start with symtab := some (symtab_with symtab_new "x".toList) } : Codegen)
               with code := [] ++ [.load_rax (-8)] } :=
  ⟨C15_identifier_load.1 _ (symtab_with symtab_new "x".toList) "y".toList [] none none none 0
      rfl (by decide),
   C15_identifier_load.2.1 _ (symtab_with symtab_new "x".toList) "x".toList
      { name := "x".toList, offset := -8, size := 1, type_name := none } [] none none none 0
      rfl (by decide)⟩

theorem gen_expr_field_unknown_symbol (cg : Codegen) (st : SymbolTable) (f : Option (List Char))
    (obj : AstNode) (x : List Char) (rest : List AstNode) (value op stt : Option (List Char))
    (asz : Int) (hst : cg.symtab = some st) (hobj : obj.name = some x)
    (hx : ∀ s ∈ st.symbols, s.name ≠ x) :
    gen_expr cg ⟨.AST_FIELD_ACCESS, f, obj :: rest, value, op, asz, stt⟩ = some cg := by
  simp [gen_expr, symtab_lookup_symbol, hst, hobj, lookup_symbol_loop_none x _ hx]

theorem gen_expr_field_not_struct (cg : Codegen) (st : SymbolTable) (f : Option (List Char))
    (obj : AstNode) (x : List Char) (sym : Symbol) (rest : List AstNode)
    (value op stt : Option (List Char)) (asz : Int) (hst : cg.symtab = some st)
    (hobj : obj.name = some x)
    (hl : lookup_symbol_loop st.symbols (some x) = some (some sym))
    (hty : sym.type_name = none) :
    gen_expr cg ⟨.AST_FIELD_ACCESS, f, obj :: rest, value, op, asz, stt⟩ = some cg := by
  simp [gen_expr, symtab_lookup_symbol, hst, hobj, hl, hty]

theorem gen_expr_field_struct (cg : Codegen) (st : SymbolTable) (f : List Char)
    (obj : AstNode) (x tn : List Char) (sym : Symbol) (rest : List AstNode)
    (value op stt : Option (List Char)) (asz off : Int) (hst : cg.symtab = some st)
    (hobj : obj.name = some x)
    (hl : lookup_symbol_loop st.symbols (some x) = some (some sym))
    (hty : sym.type_name = some tn)
    (ho : typetab_field_offset cg.types (some tn) (some f) = some off) :
    gen_expr cg ⟨.AST_FIELD_ACCESS, some f, obj :: rest, value, op, asz, stt⟩
      = some (emit cg [if 0 ≤ off then .load_rax (sym.offset + off)
                       else .comment_unknown_field f]) := by
  by_cases h0 : 0 ≤ off <;>
    simp [gen_expr, symtab_lookup_symbol, hst, hobj, hl, hty, ho, h0]

/-- C19 as stated fails: for a field access on an unknown or scalar symbol
`gen_expr` emits nothing at all, no comment either. The code of `main` in
`fn main() { return q.x; }` is the prologue followed directly by
`leave; ret`, and after `let x = 1;` the access `x.f` adds no line. -/
theorem C19_counterexample :
    gen_expr body_start (field_node "q".toList "x".toList) = some body_start
    ∧ (compile c19_source).map (fun cg => func_code "main".toList cg.code)
      = some [.func_label "main".toList, .push_rbp, .mov_rbp_rsp, .sub_rsp_128, .leave, .ret,
          .xor_rax_rax, .leave, .ret]
    ∧ (compile c19_scalar_source).map (fun cg => func_code "main".toList cg.code)
      = some [.func_label "main".toList, .push_rbp, .mov_rbp_rsp, .sub_rsp_128,
          .mov_rax_s "1".toList, .store_rax (-8), .leave, .ret, .xor_rax_rax, .leave, .ret] := by
  decide

/-- C19, amended: a field access on an unknown or scalar symbol emits
nothing. For a FieldAccess node whose object names a symbol that is not in
the table, or whose first symbol of that name has no struct type, `gen_expr`
returns the state unchanged: no instruction and no comment. The comment
`; unknown field <f>` is what `gen_expr` emits, alone, when the symbol is
struct-typed and `typetab_field_offset` gives a negative offset; for an
offset that is not negative it emits the load. -/
theorem C19_field_access_on_non_struct :
    (∀ (cg : Codegen) (st : SymbolTable) (f : Option (List Char)) (obj : AstNode)
        (x : List Char) (rest : List AstNode) (value op stt : Option (List Char)) (asz : Int),
        cg.symtab = some st → obj.name = some x → (∀ s ∈ st.symbols, s.name ≠ x) →
        gen_expr cg ⟨.AST_FIELD_ACCESS, f, obj :: rest, value, op, asz, stt⟩ = some cg)
    ∧ (∀ (cg : Codegen) (st : SymbolTable) (f : Option (List Char)) (obj : AstNode)
        (x : List Char) (sym : Symbol) (rest : List AstNode)
        (value op stt : Option (List Char)) (asz : Int),
        cg.symtab = some st → obj.name = some x →
        lookup_symbol_loop st.symbols (some x) = some (some sym) → sym.type_name = none →
        gen_expr cg ⟨.AST_FIELD_ACCESS, f, obj :: rest, value, op, asz, stt⟩ = some cg)
    ∧ (∀ (cg : Codegen) (st : SymbolTable) (f : List Char) (obj : AstNode) (x tn : List Char)
        (sym : Symbol) (rest : List AstNode) (value op stt : Option (List Char))
        (asz off : Int),
        cg.symtab = some st → obj.name = some x →
        lookup_symbol_loop st.symbols (some x) = some (some sym) →
        sym.type_name = some tn →
        typetab_field_offset cg.types (some tn) (some f) = some off →
        gen_expr cg ⟨.AST_FIELD_ACCESS, some f, obj :: rest, value, op, asz, stt⟩
          = some { cg with code := cg.code ++
              [if 0 ≤ off then .load_rax (sym.offset + off) else .comment_unknown_field f] })
    ∧ (∀ f : List Char, (Asm.comment_unknown_field f).render
        = "    ; unknown field " ++ String.mk f ++ "\n") :=
  ⟨gen_expr_field_unknown_symbol, gen_expr_field_not_struct, gen_expr_field_struct,
    fun _ => rfl⟩

/-- C19, at concrete inputs: with `x` a scalar at offset -8, neither `q.f`
nor `x.f` emits a line. -/
theorem C19_witness :
    gen_expr { body_start with symtab := some (symtab_with symtab_new "x".toList) }
        (field_node "q".toList "f".toList)
      = some { body_start with symtab := some (symtab_with symtab_new "x".toList) }
    ∧ gen_expr { body_start with symtab := some (symtab_with symtab_new "x".toList) }
        (field_node "x".toList "f".toList)
      = some { body_start with symtab := some (symtab_with symtab_new "x".toList) } :=
  ⟨C19_field_access_on_non_struct.1 _ (symtab_with symtab_new "x".toList) (some "f".toList)
      (ident_node "q".toList) "q".toList [] none none none 0 rfl rfl (by decide),
   C19_field_access_on_non_struct.2.1 _ (symtab_with symtab_new "x".toList) (some "f".toList)
      (ident_node "x".toList) "x".toList
      { name := "x".toList, offset := -8, size := 1, type_name := none } [] none none none 0
      rfl rfl (by decide) rfl⟩

theorem typetab_field_offset_unregistered (types : TypeTable) (tn : List Char)
    (f : Option (List Char)) (h : typetab_lookup types (some tn) = some none) :
    typetab_field_offset types (some tn) f = some (-1) := by
  simp [typetab_field_offset, h]

theorem gen_struct_fields_unknown (cg cge : Codegen) (base : Int) (tn f : List Char)
    (e : AstNode) (rest : List AstNode)
    (ho : typetab_field_offset cg.types (some tn) (some f) = some (-1))
    (he : gen_expr cg e = some cge) :
    gen_struct_fields cg base tn (init_node f e :: rest)
      = gen_struct_fields (emit cge [.store_rax (base + -1)]) base tn rest := by
  simp [init_node, ast_add, ast_new, gen_struct_fields, ho, he]

/-- C18 (the code departs from the claim): an initializer for an unknown
field is not skipped. `typetab_field_offset` gives -1 for a field that the
struct does not have and for a struct that is not registered, and the
initializer loop of the struct literal uses that -1 as an offset without a
test: after the code of the value it emits a store to `base - 1`. For
`let p = P { z: 7 };` with `p` at offset -8 the code of `main` holds
`mov [rbp-9], rax`. -/
theorem C18_unknown_field_is_stored :
    (∀ (types : TypeTable) (tn : List Char) (f : Option (List Char)),
        typetab_lookup types (some tn) = some none →
        typetab_field_offset types (some tn) f = some (-1))
    ∧ (∀ (cg cge : Codegen) (base : Int) (tn f : List Char) (e : AstNode)
        (rest : List AstNode),
        typetab_field_offset cg.types (some tn) (some f) = some (-1) →
        gen_expr cg e = some cge →
        gen_struct_fields cg base tn (init_node f e :: rest)
          = gen_struct_fields (emit cge [.store_rax (base + -1)]) base tn rest)
    ∧ (compile c18_source).map (fun cg => func_code "main".toList cg.code)
      = some [.func_label "main".toList, .push_rbp, .mov_rbp_rsp, .sub_rsp_128,
          .comment_struct_literal "P".toList, .mov_rax_s "7".toList, .store_rax (-9),
          .lea_rax (-8), .mov_rax_s "0".toList, .leave, .ret, .xor_rax_rax, .leave, .ret]
    ∧ (compile c18_unregistered_source).map (fun cg => func_code "main".toList cg.code)
      = some [.func_label "main".toList, .push_rbp, .mov_rbp_rsp, .sub_rsp_128,
          .comment_struct_literal "Q".toList, .mov_rax_s "7".toList, .store_rax (-9),
          .lea_rax (-8), .store_rax (-8), .mov_rax_s "0".toList, .leave, .ret, .xor_rax_rax,
          .leave, .ret]
    ∧ (Asm.store_rax (-9)).render = "    mov [rbp-9], rax\n" :=
  ⟨typetab_field_offset_unregistered, gen_struct_fields_unknown, by decide!, by decide!,
    by decide⟩

/-- C18, at a concrete input: the initializer `z: 7` in a state without
types, with the last symbol at offset -8. -/
theorem C18_witness :
    gen_struct_fields body_start (-8) "Q".toList [init_node "z".toList (num_node "7".toList)]
      = gen_struct_fields (emit (emit body_start [.mov_rax_s "7".toList])
          [.store_rax (-8 + -1)]) (-8) "Q".toList [] :=
  C18_unknown_field_is_stored.2.1 body_start (emit body_start [.mov_rax_s "7".toList]) (-8)
    "Q".toList "z".toList (num_node "7".toList) [] (by decide) (by decide)

theorem gen_call_args_eq_fold (cs : List AstNode) :
    ∀ (rs : List String) (cg : Codegen),
      gen_call_args cg cs rs = (cs.zip rs).foldlM
        (fun st cr => (gen_expr st cr.1).map (fun c => emit c [.mov_reg_rax cr.2])) cg := by
  induction cs with
  | nil => intro rs cg; simp [gen_call_args]
  | cons c rest ih =>
    intro rs cg
    cases rs with
    | nil => simp [gen_call_args]
    | cons r rs =>
      simp only [gen_call_args, List.zip_cons_cons, List.foldlM_cons, Option.bind_eq_bind]
      cases h : gen_expr cg c with
      | none => simp
      | some cg1 => simp [ih]

theorem zip_take_length (cs : List AstNode) :
    ∀ (rs : List String), cs.zip rs = (cs.take rs.length).zip rs := by
  induction cs with
  | nil => intro rs; simp
  | cons c rest ih =>
    intro rs
    cases rs with
    | nil => simp
    | cons r rs => simp [List.zip_cons_cons, ← ih rs]

theorem gen_expr_call (cg : Codegen) (nm : List Char) (children : List AstNode)
    (value op stt : Option (List Char)) (asz : Int) (hb : is_builtin nm = false) :
    gen_expr cg ⟨.AST_CALL, some nm, children, value, op, asz, stt⟩
      = (call_args_by_spec cg children).bind (fun c => some (emit c [.call_s nm])) := by
  simp only [is_builtin, Bool.or_eq_false_iff, decide_eq_false_iff_not] at hb
  obtain ⟨⟨⟨h1, h2⟩, h3⟩, h4⟩ := hb
  cases children with
  | nil =>
    simp only [gen_expr, Option.bind_eq_bind, Option.some_bind, h1, h2, h3, h4, if_false,
      call_args_by_spec, gen_call_args_eq_fold]
  | cons c rest =>
    simp only [gen_expr, Option.bind_eq_bind, Option.some_bind, h1, h2, h3, h4, if_false,
      call_args_by_spec, gen_call_args_eq_fold]

theorem call_args_defined (pairs : List (AstNode × String))
    (h : ∀ p ∈ pairs, ∀ cg : Codegen, (gen_expr cg p.1).isSome) :
    ∀ cg : Codegen, (pairs.foldlM
      (fun st cr => (gen_expr st cr.1).map (fun c => emit c [.mov_reg_rax cr.2])) cg).isSome := by
  induction pairs with
  | nil => intro cg; simp
  | cons p rest ih =>
    intro cg
    obtain ⟨c1, h1⟩ := Option.isSome_iff_exists.mp (h p (by simp) cg)
    simp only [List.foldlM_cons, h1, Option.map_some', Option.bind_eq_bind, Option.some_bind]
    exact ih (fun q hq => h q (by simp [hq])) _

theorem call_args_take (cg : Codegen) (children : List AstNode) :
    call_args_by_spec cg children = call_args_by_spec cg (children.take 6) := by
  simp only [call_args_by_spec]
  rw [zip_take_length children regs]
  rfl

/-- C16: a regular call passes at most six arguments and ignores the rest.
For a call of a name that is no builtin, `gen_expr` emits, for the arguments
paired in order with `rdi, rsi, rdx, rcx, r8, r9`, the code of the argument
followed by `mov <reg>, rax`, and then `call <name>`. Only the first six
arguments are looked at: the result is the same whatever arguments follow
them, so these emit no code and add no row to the string table. The call is
generated whenever the first six arguments are. -/
theorem C16_call_passes_six_arguments :
    (∀ (cg : Codegen) (nm : List Char) (children : List AstNode)
        (value op stt : Option (List Char)) (asz : Int), is_builtin nm = false →
        gen_expr cg ⟨.AST_CALL, some nm, children, value, op, asz, stt⟩
          = (call_args_by_spec cg children).bind (fun c => some (emit c [.call_s nm])))
    ∧ (∀ (cg : Codegen) (children : List AstNode),
        call_args_by_spec cg children = call_args_by_spec cg (children.take 6))
    ∧ (∀ (cg : Codegen) (nm : List Char) (six extra : List AstNode)
        (value op stt : Option (List Char)) (asz : Int), is_builtin nm = false →
        six.length = 6 →
        gen_expr cg ⟨.AST_CALL, some nm, six ++ extra, value, op, asz, stt⟩
          = gen_expr cg ⟨.AST_CALL, some nm, six, value, op, asz, stt⟩)
    ∧ (∀ (cg : Codegen) (nm : List Char) (children : List AstNode)
        (value op stt : Option (List Char)) (asz : Int), is_builtin nm = false →
        (∀ c ∈ children.take 6, ∀ st : Codegen, (gen_expr st c).isSome) →
        (gen_expr cg ⟨.AST_CALL, some nm, children, value, op, asz, stt⟩).isSome)
    ∧ (∀ (cg : Codegen) (nm : List Char) (a b : AstNode) (value op stt : Option (List Char))
        (asz : Int), is_builtin nm = false →
        gen_expr cg ⟨.AST_CALL, some nm, [a, b], value, op, asz, stt⟩
          = (gen_expr cg a).bind (fun c1 =>
              (gen_expr (emit c1 [.mov_reg_rax "rdi"]) b).bind (fun c2 =>
                some (emit (emit c2 [.mov_reg_rax "rsi"]) [.call_s nm]))))
    ∧ regs = ["rdi", "rsi", "rdx", "rcx", "r8", "r9"]
    ∧ (compile c16_source).map (fun cg => (func_code "main".toList cg.code, cg.strtab))
      = some ([.func_label "main".toList, .push_rbp, .mov_rbp_rsp, .sub_rsp_128,
          .mov_rax_s "1".toList, .mov_reg_rax "rdi", .mov_rax_s "2".toList, .mov_reg_rax "rsi",
          .mov_rax_s "3".toList, .mov_reg_rax "rdx", .mov_rax_s "4".toList, .mov_reg_rax "rcx",
          .mov_rax_s "5".toList, .mov_reg_rax "r8", .mov_rax_s "6".toList, .mov_reg_rax "r9",
          .call_s "f".toList, .leave, .ret, .xor_rax_rax, .leave, .ret], []) := by
  refine ⟨gen_expr_call, call_args_take, ?_, ?_, ?_, rfl, by decide!⟩
  · intro cg nm six extra value op stt asz hb h6
    rw [gen_expr_call _ _ _ _ _ _ _ hb, gen_expr_call _ _ _ _ _ _ _ hb,
      call_args_take cg (six ++ extra), call_args_take cg six]
    simp [List.take_append_of_le_length (le_of_eq h6.symm), h6]
  · intro cg nm children value op stt asz hb hdef
    rw [gen_expr_call _ _ _ _ _ _ _ hb, call_args_take]
    have := call_args_defined ((children.take 6).zip regs)
      (fun p hp st => hdef p.1 (List.of_mem_zip hp).1 st) cg
    obtain ⟨c, hc⟩ := Option.isSome_iff_exists.mp this
    simp only [call_args_by_spec, hc, Option.bind_eq_bind, Option.some_bind, Option.isSome_some]
  · intro cg nm a b value op stt asz hb
    rw [gen_expr_call _ _ _ _ _ _ _ hb]
    simp only [call_args_by_spec, regs, List.zip_cons_cons, List.zip_nil_left,
      List.foldlM_cons, List.foldlM_nil, Option.bind_eq_bind]
    cases h1 : gen_expr cg a with
    | none => simp
    | some c1 =>
      simp only [Option.map_some', Option.some_bind]
      cases h2 : gen_expr (emit c1 [.mov_reg_rax "rdi"]) b with
      | none => simp
      | some c2 => simp

/-- C16, at a concrete input: a call of `f` with seven number arguments in
an empty state is generated, and equals the call with the first six. -/
theorem C16_witness :
    (gen_expr body_start ⟨.AST_CALL, some "f".toList,
        [num_node "1".toList, num_node "2".toList, num_node "3".toList, num_node "4".toList,
         num_node "5".toList, num_node "6".toList] ++ [num_node "7".toList],
        none, none, 0, none⟩
      = gen_expr body_start ⟨.AST_CALL, some "f".toList,
        [num_node "1".toList, num_node "2".toList, num_node "3".toList, num_node "4".toList,
         num_node "5".toList, num_node "6".toList], none, none, 0, none⟩) :=
  C16_call_passes_six_arguments.2.2.1 body_start "f".toList _ _ none none none 0 (by decide) rfl

theorem apply_ops_append (a b : List SymOp) :
    ∀ st : SymbolTable,
      apply_ops st (a ++ b) = (apply_ops st a).bind (fun s => apply_ops s b) := by
  induction a with
  | nil => intro st; simp [apply_ops]
  | cons op rest ih =>
    intro st
    simp only [List.cons_append, apply_ops]
    cases apply_op st op with
    | none => simp
    | some s1 => simp [ih]

theorem Declares.decl_nil (types : TypeTable) (cg cg1 : Codegen) (h : cg1.symtab = cg.symtab) :
    Declares types [] cg cg1 := by
  intro st hst
  exact ⟨[], st, List.Forall₂.nil, rfl, by rw [h, hst]⟩

theorem Declares.decl_append (types : TypeTable) (d1 d2 : List AstNode) (a b c : Codegen)
    (h1 : Declares types d1 a b) (h2 : Declares types d2 b c) :
    Declares types (d1 ++ d2) a c := by
  intro st hst
  obtain ⟨o1, s1, f1, a1, e1⟩ := h1 st hst
  obtain ⟨o2, s2, f2, a2, e2⟩ := h2 s1 e1
  exact ⟨o1 ++ o2, s2, List.rel_append f1 f2, by rw [apply_ops_append, a1]; exact a2, e2⟩

theorem Declares.decl_of_expr (types : TypeTable) (cg cg1 : Codegen) (h : ExprExt cg cg1) :
    Declares types [] cg cg1 :=
  Declares.decl_nil types cg cg1 h.2.1

theorem gen_let_scalar_declares (cg cg1 : Codegen) (x : List Char) (c0 : AstNode) (size : Int)
    (h : gen_let_scalar cg (some x) c0 size = some cg1) :
    ∀ st, cg.symtab = some st →
      ∃ st1, apply_ops st [.add x size] = some st1 ∧ cg1.symtab = some st1 := by
  intro st0 hst0
  simp only [gen_let_scalar, Option.bind_eq_bind, Option.bind_eq_some] at h
  obtain ⟨st, hst, r, hr, cga, h1, hs⟩ := h
  rw [hst0, Option.some.injEq] at hst
  subst hst
  have e1 := (gen_expr_ext _ _ _ h1).2.1
  have hsym : cg1.symtab = some r.1 := by
    split_ifs at hs <;> (simp only [Option.some.injEq] at hs; subst hs; simpa [emit] using e1)
  exact ⟨r.1, by simp [apply_ops, apply_op, hr], hsym⟩

theorem gen_let_declares (cg cg1 : Codegen) (name value op stt : Option (List Char))
    (children : List AstNode) (asz : Int) (h : gen_let cg name children = some cg1) :
    Declares cg.types [⟨.AST_LET, name, children, value, op, asz, stt⟩] cg cg1 := by
  intro st0 hst0
  have one : ∀ (o : SymOp) (st1 : SymbolTable),
      decl_op cg.types ⟨.AST_LET, name, children, value, op, asz, stt⟩ = some o →
      apply_ops st0 [o] = some st1 → cg1.symtab = some st1 →
      ∃ ops st1, List.Forall₂ (fun l op => decl_op cg.types l = some op)
          [⟨.AST_LET, name, children, value, op, asz, stt⟩] ops
        ∧ apply_ops st0 ops = some st1 ∧ cg1.symtab = some st1 :=
    fun o st1 h1 h2 h3 => ⟨[o], st1, List.Forall₂.cons h1 List.Forall₂.nil, h2, h3⟩
  cases name with
  | none =>
    exfalso
    cases children with
    | nil =>
      simp only [gen_let, Option.bind_eq_bind, Option.bind_eq_some] at h
      obtain ⟨st, -, r, hr, -⟩ := h
      simp [symtab_add] at hr
    | cons c0 rest =>
      have hs : ∀ size, gen_let_scalar cg none c0 size = none := by
        intro size
        simp only [gen_let_scalar, Option.bind_eq_bind, Option.bind_eq_none]
        intro st _ r hr
        simp [symtab_add] at hr
      simp only [gen_let] at h
      split_ifs at h with h1 h2
      · rw [hs] at h; exact absurd h (by simp)
      · simp only [Option.bind_eq_bind, Option.bind_eq_some] at h
        obtain ⟨found, -, h⟩ := h
        cases found with
        | none => rw [hs] at h; exact absurd h (by simp)
        | some i =>
          simp only [Option.bind_eq_bind, Option.bind_eq_some] at h
          obtain ⟨sty, -, tab, -, r, hr, -⟩ := h
          simp [symtab_add_struct] at hr
      · rw [hs] at h; exact absurd h (by simp)
  | some x =>
    cases children with
    | nil =>
      simp only [gen_let, Option.bind_eq_bind, Option.bind_eq_some, Option.some.injEq] at h
      obtain ⟨st, hst, r, hr, h⟩ := h
      subst h
      rw [hst0, Option.some.injEq] at hst
      subst hst
      exact one (.add x 1) r.1 (by simp [decl_op]) (by simp [apply_ops, apply_op, hr]) rfl
    | cons c0 rest =>
      simp only [gen_let] at h
      split_ifs at h with h1 h2
      · obtain ⟨st1, a1, e1⟩ := gen_let_scalar_declares _ _ _ _ _ h st0 hst0
        exact one _ st1 (by simp [decl_op, h1]) a1 e1
      · simp only [Option.bind_eq_bind, Option.bind_eq_some] at h
        obtain ⟨found, hf, h⟩ := h
        cases found with
        | none =>
          obtain ⟨st1, a1, e1⟩ := gen_let_scalar_declares _ _ _ _ _ h st0 hst0
          exact one _ st1 (by simp [decl_op, h1, h2, hf]) a1 e1
        | some i =>
          simp only [Option.bind_eq_bind, Option.bind_eq_some] at h
          obtain ⟨sty, hsty, tab, htab, r, hr, h⟩ := h
          have e1 := (gen_expr_ext _ _ _ h).2.1
          rw [hst0, Option.some.injEq] at htab
          subst htab
          cases hty : c0.struct_type with
          | none => simp [symtab_add_struct, hty] at hr
          | some tn =>
            refine one (.add_struct x tn sty.size) r.1 ?_ ?_ e1
            · rw [hty] at hf
              rw [List.get?_eq_getElem?] at hsty
              simp [decl_op, h1, h2, hf, hsty, hty]
            · rw [hty] at hr
              simp [apply_ops, apply_op, hr]
      · obtain ⟨st1, a1, e1⟩ := gen_let_scalar_declares _ _ _ _ _ h st0 hst0
        exact one _ st1 (by simp [decl_op, h1, h2]) a1 e1

theorem Declares.decl_wrap (types : TypeTable) (d : List AstNode) (a0 a b c : Codegen)
    (h : Declares types d a b) (h0 : a0.symtab = a.symtab) (h1 : c.symtab = b.symtab) :
    Declares types d a0 c := by
  intro st hst
  obtain ⟨ops, st1, f, ha, e⟩ := h st (by rw [← h0, hst])
  exact ⟨ops, st1, f, ha, by rw [h1, e]⟩

theorem block_decls_eq (b : AstNode) : block_decls b = stmts_decls b.children := by
  cases b; simp [block_decls]

theorem gen_stmts_declares (stmts : List AstNode)
    (h : ∀ s ∈ stmts, ∀ cg cg1, gen_stmt cg s = some cg1 →
      Declares cg.types (let_decls s) cg cg1) :
    ∀ (cg cg1 : Codegen), gen_stmts cg stmts = some cg1 →
      Declares cg.types (stmts_decls stmts) cg cg1 := by
  induction stmts with
  | nil =>
    intro cg cg1 hg
    simp only [gen_stmts, Option.some.injEq] at hg
    subst hg
    exact Declares.decl_nil _ _ _ rfl
  | cons s rest ih =>
    intro cg cg1 hg
    simp only [gen_stmts, Option.bind_eq_bind, Option.bind_eq_some] at hg
    obtain ⟨cga, h1, h2⟩ := hg
    have hty : cga.types = cg.types := (gen_stmt_ext s cg cga h1).1.1
    have d2 := ih (fun t ht => h t (by simp [ht])) cga cg1 h2
    rw [hty] at d2
    simp only [stmts_decls]
    exact Declares.decl_append _ _ _ _ _ _ (h s (by simp) _ _ h1) d2

theorem gen_stmt_declares : ∀ (n : AstNode) (cg cg1 : Codegen),
    gen_stmt cg n = some cg1 → Declares cg.types (let_decls n) cg cg1 := by
  intro n
  induction n using AstNode.induct_children with
  | h n ihc ihg =>
  intro cg cg1 hg
  obtain ⟨type, name, children, value, op, asz, stt⟩ := n
  simp only at ihc ihg
  have blk : ∀ c ∈ children, ∀ (cga cgb : Codegen), cga.types = cg.types →
      gen_block cga c = some cgb → Declares cg.types (block_decls c) cga cgb := by
    intro c hc cga cgb hty hb
    rw [gen_block_eq] at hb
    rw [block_decls_eq, ← hty]
    exact gen_stmts_declares c.children (ihg c hc) _ _ hb
  have em : ∀ (c : Codegen) (ls : List Asm), Declares cg.types [] c (emit c ls) :=
    fun c ls => Declares.decl_nil _ _ _ rfl
  have ex : ∀ (a b : Codegen), ExprExt a b → Declares cg.types [] a b :=
    fun a b h => Declares.decl_of_expr _ _ _ h
  have nl : Declares cg.types [] cg (new_label (new_label cg).2).2 :=
    Declares.decl_nil _ _ _ rfl
  cases type
  case AST_RETURN =>
    cases children with
    | nil =>
      simp only [gen_stmt, Option.bind_eq_bind, Option.some_bind, Option.some.injEq] at hg
      subst hg
      exact Declares.decl_nil _ _ _ rfl
    | cons c0 rest =>
      simp only [gen_stmt, Option.bind_eq_bind, Option.bind_eq_some, Option.some.injEq] at hg
      obtain ⟨cga, h1, hg⟩ := hg
      subst hg
      exact Declares.decl_wrap _ _ _ _ _ _ (ex _ _ (gen_expr_ext _ _ _ h1)) rfl rfl
  case AST_LET =>
    simp only [gen_stmt] at hg
    exact gen_let_declares _ _ _ _ _ _ _ _ hg
  case AST_IF =>
    rcases children with _ | ⟨c0, _ | ⟨c1, _ | ⟨c2, rest⟩⟩⟩
    · simp [gen_stmt] at hg
    · simp [gen_stmt] at hg
    · simp only [gen_stmt, Option.bind_eq_bind, Option.bind_eq_some, Option.some.injEq] at hg
      obtain ⟨cga, h1, cgb, h2, cgc, h3, hg⟩ := hg
      subst hg; subst h3
      have x1 := gen_expr_ext _ _ _ h1
      have d := blk c1 (by simp) (emit cga [.test_rax_rax, .jz_L (new_label cg).1]) _
        x1.2.2.1 h2
      simp only [let_decls]
      exact Declares.decl_wrap _ _ _ _ _ _ d x1.2.1.symm rfl
    · simp only [gen_stmt, Option.bind_eq_bind, Option.bind_eq_some, Option.some.injEq] at hg
      obtain ⟨cga, h1, cgb, h2, cgc, h3, hg⟩ := hg
      subst hg
      have x1 := gen_expr_ext _ _ _ h1
      have t1 : (emit cga [.test_rax_rax, .jz_L (new_label cg).1]).types = cg.types :=
        x1.2.2.1
      have t2 : (emit cgb [.jmp_L (new_label (new_label cg).2).1,
          .label_L (new_label cg).1]).types = cg.types := by
        show cgb.types = cg.types
        rw [(gen_block_ext _ _ _ h2).1.1]
        exact t1
      have d1 := Declares.decl_wrap _ _ cg _ _ cgb (blk c1 (by simp) _ _ t1 h2) x1.2.1.symm rfl
      have d2 := Declares.decl_wrap _ _ cgb _ _
        (emit cgc [.label_L (new_label (new_label cg).2).1]) (blk c2 (by simp) _ _ t2 h3) rfl rfl
      simp only [let_decls]
      exact Declares.decl_append _ _ _ _ _ _ d1 d2
  case AST_WHILE =>
    rcases children with _ | ⟨c0, _ | ⟨c1, rest⟩⟩
    · simp [gen_stmt] at hg
    · simp [gen_stmt] at hg
    · simp only [gen_stmt, Option.bind_eq_bind, Option.bind_eq_some, Option.some.injEq] at hg
      obtain ⟨cga, h1, cgb, h2, hg⟩ := hg
      subst hg
      have x1 := gen_expr_ext _ _ _ h1
      have d := blk c1 (by simp)
        (emit cga [.test_rax_rax, .jz_L (new_label (new_label cg).2).1]) _ x1.2.2.1 h2
      simp only [let_decls]
      exact Declares.decl_wrap _ _ _ _ _ _ d x1.2.1.symm rfl
  case AST_CALL =>
    simp only [gen_stmt] at hg
    exact ex _ _ (gen_expr_ext _ _ _ hg)
  case AST_ASSIGN =>
    simp only [gen_stmt] at hg
    exact ex _ _ (gen_expr_ext _ _ _ hg)
  all_goals
    simp only [gen_stmt, Option.some.injEq] at hg
    subst hg
    exact Declares.decl_nil _ _ _ rfl

theorem gen_params_ops (cs : List AstNode) :
    ∀ (rs : List String) (cg : Codegen) (st : SymbolTable) (r : Codegen × SymbolTable),
      gen_params cg st cs rs = some r →
      ∃ ops, List.Forall₂ (fun c op => ∃ x, c.name = some x ∧ op = SymOp.add x 1)
          (cs.take rs.length) ops
        ∧ apply_ops st ops = some r.2 := by
  induction cs with
  | nil =>
    intro rs cg st r h
    simp only [gen_params, Option.some.injEq] at h
    subst h
    exact ⟨[], by simp, rfl⟩
  | cons c rest ih =>
    intro rs cg st r h
    cases rs with
    | nil =>
      simp only [gen_params, Option.some.injEq] at h
      subst h
      exact ⟨[], by simp, rfl⟩
    | cons x xs =>
      simp only [gen_params, Option.bind_eq_bind, Option.bind_eq_some] at h
      obtain ⟨a, ha, h⟩ := h
      obtain ⟨ops, f, hops⟩ := ih _ _ _ _ h
      cases hn : c.name with
      | none => simp [hn, symtab_add] at ha
      | some nm =>
        refine ⟨.add nm 1 :: ops, ?_, ?_⟩
        · simp only [List.length_cons, List.take_succ_cons]
          exact List.Forall₂.cons ⟨nm, hn, rfl⟩ f
        · simp only [apply_ops, apply_op]
          rw [hn] at ha
          simp [ha, hops]

theorem decl_op_bytes (types : TypeTable) (l : AstNode) (o : SymOp)
    (h : decl_op types l = some o) (hty : ∀ t ∈ types, 0 ≤ t.size)
    (ha : ∀ c0 rest, l.children = c0 :: rest → c0.type = .AST_ARRAY_LITERAL →
      0 ≤ c0.array_size) :
    0 ≤ o.bytes := by
  simp only [decl_op, Option.bind_eq_bind, Option.bind_eq_some] at h
  obtain ⟨x, -, h⟩ := h
  cases hc : l.children with
  | nil =>
    rw [hc] at h
    simp only [Option.some.injEq] at h
    subst h
    simp [SymOp.bytes]
  | cons c0 rest =>
    rw [hc] at h
    simp only at h
    split_ifs at h with h1 h2
    · simp only [Option.some.injEq] at h
      subst h
      have := ha c0 rest hc h1
      simp only [SymOp.bytes]
      omega
    · simp only [Option.bind_eq_bind, Option.bind_eq_some] at h
      obtain ⟨found, -, h⟩ := h
      cases found with
      | none =>
        simp only [Option.some.injEq] at h
        subst h
        simp [SymOp.bytes]
      | some i =>
        simp only [Option.bind_eq_bind, Option.bind_eq_some, Option.some.injEq] at h
        obtain ⟨sT, hsT, tn, -, h⟩ := h
        subst h
        simp only [SymOp.bytes]
        exact hty sT (List.get?_mem hsT)
    · simp only [Option.some.injEq] at h
      subst h
      simp [SymOp.bytes]

theorem forall2_bytes (types : TypeTable) (decls : List AstNode) (ops : List SymOp)
    (f : List.Forall₂ (fun l op => decl_op types l = some op) decls ops)
    (hty : ∀ t ∈ types, 0 ≤ t.size) (ha : ArraySizesOk decls) :
    ∀ op ∈ ops, 0 ≤ op.bytes := by
  induction f with
  | nil => intro op h; simp at h
  | @cons l o ls os h1 _ ih =>
    intro op hop
    rcases List.mem_cons.mp hop with h | h
    · subst h
      exact decl_op_bytes types l _ h1 hty
        (fun c0 rest hc => ha l (by simp) c0 (by simp [hc]))
    · exact ih (fun l hl => ha l (by simp [hl])) op h

theorem forall2_param_bytes (cs : List AstNode) (ops : List SymOp)
    (f : List.Forall₂ (fun c op => ∃ x, c.name = some x ∧ op = SymOp.add x 1) cs ops) :
    ∀ op ∈ ops, 0 ≤ op.bytes := by
  induction f with
  | nil => intro op h; simp at h
  | cons h1 _ ih =>
    intro op hop
    rcases List.mem_cons.mp hop with h | h
    · subst h
      obtain ⟨x, -, rfl⟩ := h1
      simp [SymOp.bytes]
    · exact ih op h

theorem apply_ops_offsets (ops : List SymOp) (st : SymbolTable)
    (h : apply_ops symtab_new ops = some st) (hpos : ∀ op ∈ ops, 0 ≤ op.bytes) :
    0 ≤ st.stack_size ∧
    ∀ s ∈ st.symbols, s.offset ≤ 0 ∧ -st.stack_size ≤ s.offset ∧ 0 ≤ s.bytes
      ∧ (0 < s.bytes → s.offset < 0) := by
  obtain ⟨new, h1, hlen, hnew⟩ := apply_ops_spec ops symtab_new
  rw [h, Option.some.injEq] at h1
  subst h1
  simp only [symtab_new, List.nil_append, zero_add] at hnew ⊢
  have hmono := bytes_before_mono ops hpos
  have h0 : bytes_before ops 0 = 0 := by simp [bytes_before]
  refine ⟨by have := hmono 0 ops.length (Nat.zero_le _); omega, ?_⟩
  intro s hs
  obtain ⟨i, hi, hget⟩ := List.getElem_of_mem hs
  have hi2 : new[i]? = some s := by rw [List.getElem?_eq_getElem hi, hget]
  obtain ⟨hoff, op, hop, hb⟩ := hnew i s hi2
  have e1 := bytes_before_step ops i op hop
  have m1 := hmono 0 i (Nat.zero_le _)
  have m2 := hmono (i + 1) ops.length (by rw [← hlen]; omega)
  have hb0 : 0 ≤ op.bytes := hpos op (List.getElem?_mem hop)
  refine ⟨by omega, by omega, by omega, fun _ => by omega⟩

theorem func_table_ops (cg : Codegen) (n : AstNode) (st5 : SymbolTable)
    (h : func_table cg n = some st5) :
    ∃ body pops bops, n.children.getLast? = some body
      ∧ List.Forall₂ (fun c op => ∃ x, c.name = some x ∧ op = SymOp.add x 1)
          (n.children.dropLast.take 6) pops
      ∧ List.Forall₂ (fun l op => decl_op cg.types l = some op) (block_decls body) bops
      ∧ apply_ops symtab_new (pops ++ bops) = some st5 := by
  simp only [func_table, Option.bind_eq_bind, Option.bind_eq_some] at h
  obtain ⟨nm, -, body, hb, r, hp, cg5, h5, hs⟩ := h
  obtain ⟨pops, fp, hpo⟩ := gen_params_ops _ _ _ _ _ hp
  have hty : r.1.types = cg.types := (gen_params_ext _ _ _ _ _ hp).2.2.1
  rw [gen_block_eq] at h5
  have d := gen_stmts_declares body.children (fun s _ => gen_stmt_declares s) _ _ h5
  obtain ⟨bops, st1, fb, hbo, e1⟩ := d r.2 rfl
  rw [hs, Option.some.injEq] at e1
  subst e1
  refine ⟨body, pops, bops, hb, fp, ?_, ?_⟩
  · rw [block_decls_eq]
    have : (emit { r.1 with symtab := some r.2 } [.sub_rsp_128]).types = cg.types := hty
    rw [this] at fb
    exact fb
  · rw [apply_ops_append, hpo]
    exact hbo

theorem func_table_defined (cg cg1 : Codegen) (n : AstNode) (h : gen_func cg n = some cg1) :
    ∃ (body : AstNode) (r : Codegen × SymbolTable) (cg5 : Codegen),
      n.children.getLast? = some body
      ∧ gen_block (emit { r.1 with symtab := some r.2 } [.sub_rsp_128]) body = some cg5
      ∧ func_table cg n = cg5.symtab := by
  simp only [gen_func, Option.bind_eq_bind, Option.bind_eq_some] at h
  obtain ⟨nm, hn, body, hb, r, hp, cg5, h5, -⟩ := h
  refine ⟨body, r, cg5, hb, h5, ?_⟩
  simp [func_table, hn, hb, hp, h5]

theorem symtab_lookup_zero_iff (st : SymbolTable) (x : List Char)
    (h : ∀ s ∈ st.symbols, s.offset ≠ 0) :
    symtab_lookup (some st) (some x) = some 0 ↔ ∀ s ∈ st.symbols, s.name ≠ x := by
  constructor
  · intro hl s hs hname
    have key : ∀ (l : List Symbol), (∃ t ∈ l, t.name = x) →
        ∃ t ∈ l, lookup_symbol_loop l (some x) = some (some t) := by
      intro l
      induction l with
      | nil => rintro ⟨t, ht, -⟩; simp at ht
      | cons a rest ih =>
        rintro ⟨t, ht, hx⟩
        by_cases ha : a.name = x
        · exact ⟨a, by simp, by simp [lookup_symbol_loop, ha]⟩
        · rcases List.mem_cons.mp ht with h1 | h1
          · subst h1; exact absurd hx ha
          · obtain ⟨u, hu, hlu⟩ := ih ⟨t, h1, hx⟩
            exact ⟨u, by simp [hu], by simp [lookup_symbol_loop, ha, hlu]⟩
    obtain ⟨t, ht, hlt⟩ := key st.symbols ⟨s, hs, hname⟩
    simp only [symtab_lookup, symtab_lookup_symbol, hlt, Option.map_some',
      Option.some.injEq] at hl
    exact h t ht hl
  · intro hx
    simp [symtab_lookup, symtab_lookup_symbol, lookup_symbol_loop_none x _ hx]

/-- C13 as stated fails for a symbol of zero bytes declared first: after
`let a = [];` at the start of a function the table holds `a` at offset 0,
`symtab_lookup` returns 0 for the declared name `a`, and `return a` is
compiled as a reference to an unknown name. -/
theorem C13_counterexample :
    (gen_stmts body_start c15_stmts).map (fun cg =>
        (cg.symtab.map (fun st => st.symbols.map (fun s => (s.name, s.offset))),
         symtab_lookup cg.symtab (some "a".toList)))
      = some (some [("a".toList, 0)], some 0)
    ∧ (compile c15_source).map (fun cg =>
        (func_code "main".toList cg.code).contains (.mov_rax_0_unknown "a".toList))
      = some true := by
  decide

/-- C13, amended: offsets are never positive, and negative for every symbol
that takes bytes. In a table built from a fresh one by calls with sizes
that are not negative, every symbol has an offset of at most 0, and a
negative one when the symbol has at least one byte. The table `gen_func`
builds for a function is such a table when the sizes in the type table and
the slot counts of the array literals are not negative. In a table without
a symbol at offset 0, `symtab_lookup` returns 0 exactly for the names that
are not in the table, and a reference to a name whose first symbol has a
negative offset is compiled as a load from that offset. -/
theorem C13_offsets_negative_for_symbols_with_bytes :
    (∀ (ops : List SymOp) (st : SymbolTable), apply_ops symtab_new ops = some st →
        (∀ op ∈ ops, 0 ≤ op.bytes) →
        ∀ s ∈ st.symbols, s.offset ≤ 0 ∧ (0 < s.bytes → s.offset < 0))
    ∧ (∀ (cg cg1 : Codegen) (n : AstNode), gen_func cg n = some cg1 →
        (∀ t ∈ cg.types, 0 ≤ t.size) →
        (∀ body ∈ n.children.getLast?, ArraySizesOk (block_decls body)) →
        ∃ st5, func_table cg n = some st5
          ∧ ∀ s ∈ st5.symbols, s.offset ≤ 0 ∧ (0 < s.bytes → s.offset < 0))
    ∧ (∀ (st : SymbolTable) (x : List Char), (∀ s ∈ st.symbols, s.offset ≠ 0) →
        (symtab_lookup (some st) (some x) = some 0 ↔ ∀ s ∈ st.symbols, s.name ≠ x))
    ∧ (∀ (cg : Codegen) (st : SymbolTable) (x : List Char) (sym : Symbol),
        cg.symtab = some st →
        lookup_symbol_loop st.symbols (some x) = some (some sym) → sym.offset < 0 →
        gen_expr cg (ident_node x) = some (emit cg [.load_rax sym.offset])) := by
  refine ⟨fun ops st h hpos s hs => ?_, ?_, symtab_lookup_zero_iff, ?_⟩
  · obtain ⟨-, h2⟩ := apply_ops_offsets ops st h hpos
    exact ⟨(h2 s hs).1, (h2 s hs).2.2.2⟩
  · intro cg cg1 n h hty harr
    obtain ⟨body, r, cg5, hb, h5, hft⟩ := func_table_defined cg cg1 n h
    obtain ⟨st1, more, e1, -⟩ := gen_stmts_grow body.children (fun s _ => gen_stmt_grow s) _ _
      (by rw [← gen_block_eq]; exact h5) r.2 rfl
    rw [e1] at hft
    obtain ⟨body2, pops, bops, hb2, fp, fb, ha⟩ := func_table_ops cg n st1 hft
    rw [hb, Option.some.injEq] at hb2
    subst hb2
    have hpos : ∀ op ∈ pops ++ bops, 0 ≤ op.bytes := by
      intro op hop
      rcases List.mem_append.mp hop with h1 | h1
      · exact forall2_param_bytes _ _ fp op h1
      · exact forall2_bytes cg.types _ _ fb hty (harr body hb) op h1
    obtain ⟨-, h2⟩ := apply_ops_offsets _ st1 ha hpos
    exact ⟨st1, hft, fun s hs => ⟨(h2 s hs).1, (h2 s hs).2.2.2⟩⟩
  · intro cg st x sym hst hl hneg
    have := gen_expr_ident_found cg st x sym [] none none none 0 hst hl
    rw [if_pos (by omega)] at this
    exact this

/-- C13, at a concrete input: the table of `fn f(a, b) { let x = 1;
let v = [1, 2]; return x; }` holds the offsets -8, -16, -24 and -40. -/
theorem C13_witness :
    (func_table body_start c13_func).map (fun st => st.symbols.map (fun s => s.offset))
      = some [-8, -16, -24, -40]
    ∧ ∃ st5, func_table body_start c13_func = some st5
        ∧ ∀ s ∈ st5.symbols, s.offset ≤ 0 ∧ (0 < s.bytes → s.offset < 0) :=
  ⟨by decide,
   C13_offsets_negative_for_symbols_with_bytes.2.1 body_start
     ((gen_func body_start c13_func).getD body_start) c13_func (by decide) (by decide)
     (by decide)⟩

theorem gen_params_symtab (cs : List AstNode) :
    ∀ (rs : List String) (cg : Codegen) (s : Option SymbolTable) (st : SymbolTable),
      gen_params { cg with symtab := s } st cs rs
        = (gen_params cg st cs rs).map (fun r => ({ r.1 with symtab := s }, r.2)) := by
  induction cs with
  | nil => intro rs cg s st; simp [gen_params]
  | cons c rest ih =>
    intro rs cg s st
    cases rs with
    | nil => simp [gen_params]
    | cons x xs =>
      simp only [gen_params, Option.bind_eq_bind]
      cases symtab_add st c.name 1 with
      | none => simp
      | some a =>
        simp only [Option.some_bind]
        exact ih xs (emit cg [.store_reg a.2 x]) s a.1

theorem gen_func_symtab (cg : Codegen) (s : Option SymbolTable) (n : AstNode) :
    gen_func { cg with symtab := s } n
      = (gen_func cg n).map (fun c => { c with symtab := s }) := by
  simp only [gen_func, Option.bind_eq_bind]
  cases n.name with
  | none => simp
  | some nm =>
    cases n.children.getLast? with
    | none => simp
    | some body =>
      simp only [Option.some_bind]
      have := gen_params_symtab n.children.dropLast regs
        (emit (emit cg [.func_label nm]) [.push_rbp, .mov_rbp_rsp]) s symtab_new
      simp only [emit] at this ⊢
      rw [this]
      cases gen_params { cg with code := cg.code ++ [.func_label nm]
          ++ [.push_rbp, .mov_rbp_rsp] } symtab_new n.children.dropLast regs with
      | none => simp
      | some r =>
        simp only [Option.map_some', Option.some_bind]
        cases gen_block { r.1 with symtab := some r.2, code := r.1.code ++ [.sub_rsp_128] }
            body with
        | none => simp
        | some cg5 => simp

theorem gen_func_restores (cg cg1 : Codegen) (n : AstNode) (h : gen_func cg n = some cg1) :
    cg1.symtab = cg.symtab := by
  simp only [gen_func, Option.bind_eq_bind, Option.bind_eq_some, Option.some.injEq] at h
  obtain ⟨nm, -, body, -, r, -, cg5, -, h⟩ := h
  subst h
  rfl

theorem apply_ops_names (ops : List SymOp) :
    ∀ (st0 st : SymbolTable), apply_ops st0 ops = some st →
      st.names = st0.names ++ ops.map SymOp.name := by
  induction ops with
  | nil =>
    intro st0 st h
    simp only [apply_ops, Option.some.injEq] at h
    subst h
    simp
  | cons op rest ih =>
    intro st0 st h
    simp only [apply_ops, Option.bind_eq_some] at h
    obtain ⟨s1, h1, h2⟩ := h
    rw [ih s1 st h2]
    cases op with
    | add name size =>
      simp only [apply_op, symtab_add, Option.map_some', Option.some.injEq] at h1
      subst h1
      simp [SymbolTable.names, SymOp.name]
    | add_struct name tn size =>
      simp only [apply_op, symtab_add_struct, Option.map_some', Option.some.injEq] at h1
      subst h1
      simp [SymbolTable.names, SymOp.name]

theorem decl_op_name (types : TypeTable) (l : AstNode) (o : SymOp)
    (h : decl_op types l = some o) : l.name = some o.name := by
  simp only [decl_op, Option.bind_eq_bind, Option.bind_eq_some] at h
  obtain ⟨x, hx, h⟩ := h
  rw [hx]
  congr 1
  cases hc : l.children with
  | nil =>
    rw [hc] at h
    simp only [Option.some.injEq] at h
    subst h
    rfl
  | cons c0 rest =>
    rw [hc] at h
    simp only at h
    split_ifs at h with h1 h2
    · simp only [Option.some.injEq] at h
      subst h
      rfl
    · simp only [Option.bind_eq_bind, Option.bind_eq_some] at h
      obtain ⟨found, -, h⟩ := h
      cases found with
      | none =>
        simp only [Option.some.injEq] at h
        subst h
        rfl
      | some i =>
        simp only [Option.bind_eq_bind, Option.bind_eq_some, Option.some.injEq] at h
        obtain ⟨sT, -, tn, -, h⟩ := h
        subst h
        rfl
    · simp only [Option.some.injEq] at h
      subst h
      rfl

theorem forall2_names (types : TypeTable) (decls : List AstNode) (ops : List SymOp)
    (f : List.Forall₂ (fun l op => decl_op types l = some op) decls ops) :
    decls.map (fun l => l.name) = (ops.map SymOp.name).map some := by
  induction f with
  | nil => rfl
  | @cons l o ls os h1 _ ih =>
    simp only [List.map_cons, ih, decl_op_name types l o h1]

theorem forall2_param_names (cs : List AstNode) (ops : List SymOp)
    (f : List.Forall₂ (fun c op => ∃ x, c.name = some x ∧ op = SymOp.add x 1) cs ops) :
    cs.map (fun c => c.name) = (ops.map SymOp.name).map some := by
  induction f with
  | nil => rfl
  | @cons c o cs os h1 _ ih =>
    obtain ⟨x, hx, rfl⟩ := h1
    simp only [List.map_cons, ih, hx, SymOp.name]

theorem gen_stmts_names (stmts : List AstNode) (cg cg1 : Codegen) (st : SymbolTable)
    (h : gen_stmts cg stmts = some cg1) (hst : cg.symtab = some st) :
    ∃ st1, cg1.symtab = some st1
      ∧ st1.names.map some = st.names.map some ++ (stmts_decls stmts).map (fun l => l.name) := by
  obtain ⟨ops, st1, f, ha, e⟩ :=
    gen_stmts_declares stmts (fun s _ => gen_stmt_declares s) cg cg1 h st hst
  refine ⟨st1, e, ?_⟩
  rw [apply_ops_names ops st st1 ha, forall2_names _ _ _ f, List.map_append]

theorem gen_params_names (cs : List AstNode) (cg : Codegen) (r : Codegen × SymbolTable)
    (h : gen_params cg symtab_new cs regs = some r) :
    r.2.names.map some = (cs.take 6).map (fun c => c.name) := by
  obtain ⟨ops, f, ha⟩ := gen_params_ops cs regs cg symtab_new r h
  rw [apply_ops_names ops symtab_new r.2 ha]
  have : regs.length = 6 := rfl
  rw [this] at f
  rw [forall2_param_names _ _ f]
  simp [SymbolTable.names, symtab_new]

theorem unknown_in_function (cg cgs : Codegen) (nm x : List Char) (params pre : List AstNode)
    (r : Codegen × SymbolTable)
    (hp : gen_params (emit (emit cg [.func_label nm]) [.push_rbp, .mov_rbp_rsp]) symtab_new
      params regs = some r)
    (hs : gen_stmts (emit { r.1 with symtab := some r.2 } [.sub_rsp_128]) pre = some cgs)
    (h1 : some x ∉ (params.take 6).map (fun c => c.name))
    (h2 : some x ∉ (stmts_decls pre).map (fun l => l.name)) :
    gen_expr cgs (ident_node x) = some (emit cgs [.mov_rax_0_unknown x]) := by
  obtain ⟨st1, e1, hn⟩ := gen_stmts_names pre _ cgs r.2 hs rfl
  rw [gen_params_names params _ r hp] at hn
  have hx : ∀ s ∈ st1.symbols, s.name ≠ x := by
    intro s hs hname
    have : some x ∈ st1.names.map some := by
      simp only [SymbolTable.names, List.mem_map]
      exact ⟨x, ⟨s, hs, hname⟩, rfl⟩
    rw [hn, List.mem_append] at this
    rcases this with h | h
    · exact h1 h
    · exact h2 h
  exact gen_expr_ident_unknown cgs st1 x [] none none none 0 e1 hx

/-- C14: every function is generated against its own symbol table.
`gen_func` does not look at the symbol table it is called with: called with
another table it gives the same state but for that table, which it hands
back unchanged. Inside the function the table holds the names of the first
six parameters, followed by the names of the `let` nodes reached so far, and
nothing else; a reference to any other name, reached after the statements
`pre` of the body, is compiled as `mov rax, 0  ; unknown var`. In
`c14_source` the `x` of `f` is unknown in `main`, and in `c14_seven_source`
the seventh parameter is unknown in the body. -/
theorem C14_fresh_symbol_table_per_function :
    (∀ (cg : Codegen) (s : Option SymbolTable) (n : AstNode),
        gen_func { cg with symtab := s } n
          = (gen_func cg n).map (fun c => { c with symtab := s }))
    ∧ (∀ (cg cg1 : Codegen) (n : AstNode), gen_func cg n = some cg1 →
        cg1.symtab = cg.symtab)
    ∧ (∀ (cs : List AstNode) (cg : Codegen) (r : Codegen × SymbolTable),
        gen_params cg symtab_new cs regs = some r →
        r.2.names.map some = (cs.take 6).map (fun c => c.name))
    ∧ (∀ (stmts : List AstNode) (cg cg1 : Codegen) (st : SymbolTable),
        gen_stmts cg stmts = some cg1 → cg.symtab = some st →
        ∃ st1, cg1.symtab = some st1
          ∧ st1.names.map some
              = st.names.map some ++ (stmts_decls stmts).map (fun l => l.name))
    ∧ (∀ (cg cgs : Codegen) (nm x : List Char) (params pre : List AstNode)
        (r : Codegen × SymbolTable),
        gen_params (emit (emit cg [.func_label nm]) [.push_rbp, .mov_rbp_rsp]) symtab_new
          params regs = some r →
        gen_stmts (emit { r.1 with symtab := some r.2 } [.sub_rsp_128]) pre = some cgs →
        some x ∉ (params.take 6).map (fun c => c.name) →
        some x ∉ (stmts_decls pre).map (fun l => l.name) →
        gen_expr cgs (ident_node x) = some (emit cgs [.mov_rax_0_unknown x]))
    ∧ (compile c14_source).map (fun cg => func_code "main".toList cg.code)
      = some [.func_label "main".toList, .push_rbp, .mov_rbp_rsp, .sub_rsp_128,
          .mov_rax_0_unknown "x".toList, .leave, .ret, .xor_rax_rax, .leave, .ret]
    ∧ (compile c14_seven_source).map (fun cg => func_code "h".toList cg.code)
      = some [.func_label "h".toList, .push_rbp, .mov_rbp_rsp,
          .store_reg (-8) "rdi", .store_reg (-16) "rsi", .store_reg (-24) "rdx",
          .store_reg (-32) "rcx", .store_reg (-40) "r8", .store_reg (-48) "r9", .sub_rsp_128,
          .mov_rax_0_unknown "g".toList, .leave, .ret, .xor_rax_rax, .leave, .ret] :=
  ⟨gen_func_symtab, gen_func_restores, gen_params_names, gen_stmts_names, unknown_in_function,
    by decide!, by decide!⟩

/-- C14, at a concrete input: in a function `f(a)` after `let y = 1;` the
name `x` is unknown, although the table that was current before holds it. -/
theorem C14_witness :
    gen_expr c14_inner (ident_node "x".toList)
      = some (emit c14_inner [.mov_rax_0_unknown "x".toList]) :=
  C14_fresh_symbol_table_per_function.2.2.2.2.1 c14_outer c14_inner "f".toList "x".toList
    [ident_node "a".toList] [let_node "y".toList (num_node "1".toList)]
    (emit (emit (emit c14_outer [.func_label "f".toList]) [.push_rbp, .mov_rbp_rsp])
      [.store_reg (-8) "rdi"], symtab_with symtab_new "a".toList)
    (by decide) (by decide) (by decide) (by decide)

theorem gen_array_elems_eq_fold (elems : List AstNode) :
    ∀ (cg : Codegen) (base : Int) (i : Nat),
      gen_array_elems cg base elems (i : Int) = array_elems_by_spec cg base i elems := by
  induction elems with
  | nil => intro cg base i; simp [gen_array_elems, array_elems_by_spec]
  | cons c rest ih =>
    intro cg base i
    simp only [gen_array_elems, array_elems_by_spec, List.enumFrom_cons, List.foldlM_cons,
      Option.bind_eq_bind]
    cases gen_expr cg c with
    | none => simp
    | some cg1 =>
      simp only [Option.some_bind, Option.map_some']
      have := ih (emit cg1 [.store_rax (base + 8 * (i : Int))]) base (i + 1)
      simp only [array_elems_by_spec] at this
      have e1 : base + (i : Int) * 8 = base + 8 * (i : Int) := by ring
      have e2 : (i : Int) + 1 = ((i + 1 : Nat) : Int) := by push_cast; ring
      rw [e1, e2]
      exact this

theorem gen_expr_array (cg : Codegen) (elems : List AstNode) (name value op stt : Option (List Char))
    (asz : Int) (sym : Symbol) (hs : last_symbol cg.symtab = some sym) :
    gen_expr cg ⟨.AST_ARRAY_LITERAL, name, elems, value, op, asz, stt⟩
      = (array_elems_by_spec (emit cg [.comment_array_literal]) sym.offset 0 elems).bind
          (fun c => some (emit c [.lea_rax sym.offset])) := by
  have h1 : last_symbol (emit cg [.comment_array_literal]).symtab = some sym := hs
  have h2 := gen_array_elems_eq_fold elems (emit cg [.comment_array_literal]) sym.offset 0
  simp only [Nat.cast_zero] at h2
  simp only [gen_expr, h1, h2, Option.bind_eq_bind]

theorem gen_expr_array_empty_table (cg : Codegen) (elems : List AstNode)
    (name value op stt : Option (List Char)) (asz : Int)
    (hs : last_symbol cg.symtab = none) :
    gen_expr cg ⟨.AST_ARRAY_LITERAL, name, elems, value, op, asz, stt⟩
      = some (emit cg [.comment_array_literal]) := by
  have h1 : last_symbol (emit cg [.comment_array_literal]).symtab = none := hs
  simp only [gen_expr, h1]

theorem gen_let_array (cg : Codegen) (st : SymbolTable) (a : List Char) (elems : List AstNode)
    (hst : cg.symtab = some st) :
    gen_stmt cg (let_node a (array_lit_node elems))
      = (array_elems_by_spec
          (emit { cg with symtab := some (symtab_with_array st a elems.length) }
            [.comment_array_literal])
          (-(st.stack_size + (elems.length : Int) * 8)) 0 elems).bind
          (fun c => some (emit c [.lea_rax (-(st.stack_size + (elems.length : Int) * 8))])) := by
  have hl : last_symbol (some (symtab_with_array st a elems.length))
      = some { name := a, offset := -(st.stack_size + (elems.length : Int) * 8),
               size := elems.length, type_name := none } := by
    simp [last_symbol, symtab_with_array]
  have hg := gen_expr_array { cg with symtab := some (symtab_with_array st a elems.length) }
    elems none none none none (elems.length : Int) _ hl
  have key : gen_stmt cg (let_node a (array_lit_node elems))
      = (gen_expr { cg with symtab := some (symtab_with_array st a elems.length) }
          ⟨.AST_ARRAY_LITERAL, none, elems, none, none, (elems.length : Int), none⟩).bind
          (fun c => some c) := by
    simp only [let_node, array_lit_node, ast_add, ast_new, List.nil_append, gen_stmt, gen_let,
      if_true, gen_let_scalar, hst, symtab_add, Option.bind_eq_bind, Option.some_bind]
    rfl
  rw [key, hg]
  generalize array_elems_by_spec _ _ 0 elems = X
  cases X <;> rfl

/-- C17 as stated fails for an array literal that is not the initializer of
a `let`: in `fn main() { let x = 5; return [1, 2, 3]; }` the last symbol is
the scalar `x` at offset -8 with the range `[-8, 0)`, and the three elements
are stored at the offsets -8, 0 and 8, the last two at and above the frame
base. -/
theorem C17_counterexample :
    (compile c17_source).map (fun cg => func_code "main".toList cg.code)
      = some [.func_label "main".toList, .push_rbp, .mov_rbp_rsp, .sub_rsp_128,
          .mov_rax_s "5".toList, .store_rax (-8), .comment_array_literal,
          .mov_rax_s "1".toList, .store_rax (-8), .mov_rax_s "2".toList, .store_rax 0,
          .mov_rax_s "3".toList, .store_rax 8, .lea_rax (-8), .leave, .ret,
          .xor_rax_rax, .leave, .ret] := by
  decide!

/-- C17, amended: an array literal stores its elements from the offset of
the last symbol on, which is its own range only in a `let`. For an array
literal evaluated while the table is not empty, `gen_expr` emits the
comment, then for element `i` its code followed by the store to
`base + 8 * i`, with `base` the offset of the last symbol, then
`lea rax, [rbp+base]`; with an empty table it emits the comment only. For
`let a = [e0, ..., e(n-1)];` that last symbol is `a` itself, declared with
`n` slots at `base = -(stack_size + 8n)`, so that the store of element `i`
covers `[base + 8i, base + 8i + 8)`, inside the range `[base, base + 8n)`
of `a`, which ends at `-stack_size`: below the slots of the symbols
declared before and, with `stack_size` not negative, below the frame
base. -/
theorem C17_array_literal_stores :
    (∀ (cg : Codegen) (elems : List AstNode) (name value op stt : Option (List Char))
        (asz : Int) (sym : Symbol), last_symbol cg.symtab = some sym →
        gen_expr cg ⟨.AST_ARRAY_LITERAL, name, elems, value, op, asz, stt⟩
          = (array_elems_by_spec (emit cg [.comment_array_literal]) sym.offset 0 elems).bind
              (fun c => some (emit c [.lea_rax sym.offset])))
    ∧ (∀ (cg : Codegen) (elems : List AstNode) (name value op stt : Option (List Char))
        (asz : Int), last_symbol cg.symtab = none →
        gen_expr cg ⟨.AST_ARRAY_LITERAL, name, elems, value, op, asz, stt⟩
          = some (emit cg [.comment_array_literal]))
    ∧ (∀ (cg : Codegen) (st : SymbolTable) (a : List Char) (elems : List AstNode),
        cg.symtab = some st →
        gen_stmt cg (let_node a (array_lit_node elems))
          = (array_elems_by_spec
              (emit { cg with symtab := some (symtab_with_array st a elems.length) }
                [.comment_array_literal])
              (-(st.stack_size + (elems.length : Int) * 8)) 0 elems).bind
              (fun c => some
                (emit c [.lea_rax (-(st.stack_size + (elems.length : Int) * 8))])))
    ∧ (∀ (st : SymbolTable) (a : List Char) (n : Nat),
        ∃ sym, last_symbol (some (symtab_with_array st a n)) = some sym
          ∧ sym.offset = -(st.stack_size + (n : Int) * 8) ∧ sym.size = n
          ∧ ∀ i : Nat, i < n →
              sym.offset ≤ sym.offset + 8 * (i : Int)
              ∧ sym.offset + 8 * (i : Int) + 8 ≤ sym.offset + 8 * sym.size
              ∧ sym.offset + 8 * sym.size = -st.stack_size
              ∧ (0 ≤ st.stack_size → sym.offset + 8 * (i : Int) + 8 ≤ 0)
              ∧ ∀ s ∈ st.symbols, -st.stack_size ≤ s.offset →
                  sym.offset + 8 * (i : Int) + 8 ≤ s.offset) := by
  refine ⟨gen_expr_array, gen_expr_array_empty_table, gen_let_array, ?_⟩
  intro st a n
  refine ⟨{ name := a, offset := -(st.stack_size + (n : Int) * 8), size := n,
             type_name := none },
    by simp [last_symbol, symtab_with_array], rfl, rfl, ?_⟩
  intro i hi
  simp only
  refine ⟨by omega, by omega, by omega, fun _ => by omega, fun s _ _ => by omega⟩

/-- C17, at a concrete input: `let a = [1, 2];` after a scalar at offset -8
stores the elements at -24 and -16. -/
theorem C17_witness :
    gen_stmt { body_start with symtab := some (symtab_with symtab_new "x".toList) }
        (let_node "a".toList (array_lit_node [num_node "1".toList, num_node "2".toList]))
      = some
        { body_start with
          symtab := some (symtab_with_array (symtab_with symtab_new "x".toList) "a".toList 2),
          code := [.comment_array_literal, .mov_rax_s "1".toList, .store_rax (-24),
            .mov_rax_s "2".toList, .store_rax (-16), .lea_rax (-24)] } :=
  (C17_array_literal_stores.2.2.1 _ (symtab_with symtab_new "x".toList) "a".toList
    [num_node "1".toList, num_node "2".toList] rfl).trans (by decide)

/-! ## Operators of one and two characters -/

theorem kw_not_operator (s : List Char) :
    kw s ≠ .T_EQ ∧ kw s ≠ .T_LT ∧ kw s ≠ .T_GT ∧ kw s ≠ .T_MINUS := by
  unfold kw
  split_ifs <;> simp

theorem lex_tok_two_chars (l rest : Lex) (c d : Char) (hs : skip l = c :: d :: rest) :
    (c = '=' → d = '=' → lex_tok l = some (⟨.T_EQEQ, "==".toList⟩, rest))
    ∧ (c = '!' → d = '=' → lex_tok l = some (⟨.T_NEQ, "!=".toList⟩, rest))
    ∧ (c = '<' → d = '=' → lex_tok l = some (⟨.T_LTE, "<=".toList⟩, rest))
    ∧ (c = '>' → d = '=' → lex_tok l = some (⟨.T_GTE, ">=".toList⟩, rest))
    ∧ (c = '-' → d = '>' → lex_tok l = some (⟨.T_ARROW, "->".toList⟩, rest)) := by
  refine ⟨?_, ?_, ?_, ?_, ?_⟩ <;> intro hc hd <;> subst hc <;> subst hd <;>
    simp only [lex_tok, hs, peek, adv, List.headD, List.tail] <;>
    (repeat (first | rw [if_neg (by decide)] | rw [if_pos (by decide)])) <;> rfl

theorem lex_tok_one_char (l rest : Lex) (c : Char) (hs : skip l = c :: rest) :
    (c = '=' → peek rest ≠ '=' → lex_tok l = some (⟨.T_EQ, "=".toList⟩, rest))
    ∧ (c = '<' → peek rest ≠ '=' → lex_tok l = some (⟨.T_LT, "<".toList⟩, rest))
    ∧ (c = '>' → peek rest ≠ '=' → lex_tok l = some (⟨.T_GT, ">".toList⟩, rest))
    ∧ (c = '-' → peek rest ≠ '>' → lex_tok l = some (⟨.T_MINUS, "-".toList⟩, rest)) := by
  refine ⟨?_, ?_, ?_, ?_⟩ <;> intro hc hd <;> subst hc <;>
    simp only [lex_tok, hs] <;>
    simp [hd, c_nul, c_quote, c_lbrace, c_rbrace, isalpha, isdigit]

theorem lex_tok_one_char_only (l r : Lex) (k : Tok) (h : lex_tok l = some (k, r)) :
    (k.t = .T_EQ → skip l = '=' :: r ∧ peek r ≠ '=' ∧ k.s = "=".toList)
    ∧ (k.t = .T_LT → skip l = '<' :: r ∧ peek r ≠ '=' ∧ k.s = "<".toList)
    ∧ (k.t = .T_GT → skip l = '>' :: r ∧ peek r ≠ '=' ∧ k.s = ">".toList)
    ∧ (k.t = .T_MINUS → skip l = '-' :: r ∧ peek r ≠ '>' ∧ k.s = "-".toList) := by
  cases hs : skip l with
  | nil =>
    simp only [lex_tok, hs, Option.some.injEq, Prod.mk.injEq] at h
    obtain ⟨rfl, rfl⟩ := h
    simp
  | cons c cs =>
    revert h
    simp only [lex_tok, hs]
    intro h
    have hk := kw_not_operator (c :: cs.takeWhile (fun d => isalnum d || d = '_'))
    by_cases g0 : c = c_nul
    · rw [if_pos g0] at h
      simp only [Option.some.injEq, Prod.mk.injEq] at h
      obtain ⟨rfl, rfl⟩ := h
      simp_all [adv]
    rw [if_neg g0] at h
    by_cases g1 : isalpha c = true ∨ c = '_'
    · rw [if_pos g1] at h
      simp only [Option.some.injEq, Prod.mk.injEq] at h
      obtain ⟨rfl, rfl⟩ := h
      simp_all [adv]
    rw [if_neg g1] at h
    by_cases g2 : isdigit c = true
    · rw [if_pos g2] at h
      simp only [Option.some.injEq, Prod.mk.injEq] at h
      obtain ⟨rfl, rfl⟩ := h
      simp_all [adv]
    rw [if_neg g2] at h
    by_cases g3 : c = c_quote
    · rw [if_pos g3] at h
      cases hq : str_loop cs with
      | none => rw [hq] at h; exact absurd h (by simp)
      | some br =>
        rw [hq] at h
        by_cases hp : peek br.2 = c_quote
        · simp only [hp, if_true, Option.some.injEq, Prod.mk.injEq] at h
          obtain ⟨rfl, rfl⟩ := h
          simp
        · simp only [hp, if_false, Option.some.injEq, Prod.mk.injEq] at h
          obtain ⟨rfl, rfl⟩ := h
          simp
    rw [if_neg g3] at h
    by_cases g4 : c = '('
    · rw [if_pos g4] at h
      simp only [Option.some.injEq, Prod.mk.injEq] at h
      obtain ⟨rfl, rfl⟩ := h
      simp_all [adv]
    rw [if_neg g4] at h
    by_cases g5 : c = ')'
    · rw [if_pos g5] at h
      simp only [Option.some.injEq, Prod.mk.injEq] at h
      obtain ⟨rfl, rfl⟩ := h
      simp_all [adv]
    rw [if_neg g5] at h
    by_cases g6 : c = c_lbrace
    · rw [if_pos g6] at h
      simp only [Option.some.injEq, Prod.mk.injEq] at h
      obtain ⟨rfl, rfl⟩ := h
      simp_all [adv]
    rw [if_neg g6] at h
    by_cases g7 : c = c_rbrace
    · rw [if_pos g7] at h
      simp only [Option.some.injEq, Prod.mk.injEq] at h
      obtain ⟨rfl, rfl⟩ := h
      simp_all [adv]
    rw [if_neg g7] at h
    by_cases g8 : c = '['
    · rw [if_pos g8] at h
      simp only [Option.some.injEq, Prod.mk.injEq] at h
      obtain ⟨rfl, rfl⟩ := h
      simp_all [adv]
    rw [if_neg g8] at h
    by_cases g9 : c = ']'
    · rw [if_pos g9] at h
      simp only [Option.some.injEq, Prod.mk.injEq] at h
      obtain ⟨rfl, rfl⟩ := h
      simp_all [adv]
    rw [if_neg g9] at h
    by_cases g10 : c = ';'
    · rw [if_pos g10] at h
      simp only [Option.some.injEq, Prod.mk.injEq] at h
      obtain ⟨rfl, rfl⟩ := h
      simp_all [adv]
    rw [if_neg g10] at h
    by_cases g11 : c = ':'
    · rw [if_pos g11] at h
      simp only [Option.some.injEq, Prod.mk.injEq] at h
      obtain ⟨rfl, rfl⟩ := h
      simp_all [adv]
    rw [if_neg g11] at h
    by_cases g12 : c = ','
    · rw [if_pos g12] at h
      simp only [Option.some.injEq, Prod.mk.injEq] at h
      obtain ⟨rfl, rfl⟩ := h
      simp_all [adv]
    rw [if_neg g12] at h
    by_cases g13 : c = '.'
    · rw [if_pos g13] at h
      simp only [Option.some.injEq, Prod.mk.injEq] at h
      obtain ⟨rfl, rfl⟩ := h
      simp_all [adv]
    rw [if_neg g13] at h
    by_cases g14 : c = '+'
    · rw [if_pos g14] at h
      simp only [Option.some.injEq, Prod.mk.injEq] at h
      obtain ⟨rfl, rfl⟩ := h
      simp_all [adv]
    rw [if_neg g14] at h
    by_cases g15 : c = '*'
    · rw [if_pos g15] at h
      simp only [Option.some.injEq, Prod.mk.injEq] at h
      obtain ⟨rfl, rfl⟩ := h
      simp_all [adv]
    rw [if_neg g15] at h
    by_cases g16 : c = '/'
    · rw [if_pos g16] at h
      simp only [Option.some.injEq, Prod.mk.injEq] at h
      obtain ⟨rfl, rfl⟩ := h
      simp_all [adv]
    rw [if_neg g16] at h
    by_cases g17 : c = '=' ∧ peek cs = '='
    · rw [if_pos g17] at h
      simp only [Option.some.injEq, Prod.mk.injEq] at h
      obtain ⟨rfl, rfl⟩ := h
      simp_all [adv]
    rw [if_neg g17] at h
    by_cases g18 : c = '='
    · rw [if_pos g18] at h
      simp only [Option.some.injEq, Prod.mk.injEq] at h
      obtain ⟨rfl, rfl⟩ := h
      simp_all [adv]
    rw [if_neg g18] at h
    by_cases g19 : c = '!' ∧ peek cs = '='
    · rw [if_pos g19] at h
      simp only [Option.some.injEq, Prod.mk.injEq] at h
      obtain ⟨rfl, rfl⟩ := h
      simp_all [adv]
    rw [if_neg g19] at h
    by_cases g20 : c = '<' ∧ peek cs = '='
    · rw [if_pos g20] at h
      simp only [Option.some.injEq, Prod.mk.injEq] at h
      obtain ⟨rfl, rfl⟩ := h
      simp_all [adv]
    rw [if_neg g20] at h
    by_cases g21 : c = '<'
    · rw [if_pos g21] at h
      simp only [Option.some.injEq, Prod.mk.injEq] at h
      obtain ⟨rfl, rfl⟩ := h
      simp_all [adv]
    rw [if_neg g21] at h
    by_cases g22 : c = '>' ∧ peek cs = '='
    · rw [if_pos g22] at h
      simp only [Option.some.injEq, Prod.mk.injEq] at h
      obtain ⟨rfl, rfl⟩ := h
      simp_all [adv]
    rw [if_neg g22] at h
    by_cases g23 : c = '>'
    · rw [if_pos g23] at h
      simp only [Option.some.injEq, Prod.mk.injEq] at h
      obtain ⟨rfl, rfl⟩ := h
      simp_all [adv]
    rw [if_neg g23] at h
    by_cases g24 : c = '-' ∧ peek cs = '>'
    · rw [if_pos g24] at h
      simp only [Option.some.injEq, Prod.mk.injEq] at h
      obtain ⟨rfl, rfl⟩ := h
      simp_all [adv]
    rw [if_neg g24] at h
    by_cases g25 : c = '-'
    · rw [if_pos g25] at h
      simp only [Option.some.injEq, Prod.mk.injEq] at h
      obtain ⟨rfl, rfl⟩ := h
      simp_all [adv]
    rw [if_neg g25] at h
    simp only [Option.some.injEq, Prod.mk.injEq] at h
    obtain ⟨rfl, rfl⟩ := h
    simp

/-- No token starts with `&` or `|`: every lexeme `lex_tok` returns is empty
or starts with a character another test of `lex_tok` accepts. -/
theorem lex_tok_no_logical (l r : Lex) (k : Tok) (h : lex_tok l = some (k, r)) :
    ∀ x ∈ k.s.head?, x ≠ '&' ∧ x ≠ '|' := by
  cases hs : skip l with
  | nil =>
    simp only [lex_tok, hs, Option.some.injEq, Prod.mk.injEq] at h
    obtain ⟨rfl, rfl⟩ := h
    simp
  | cons c cs =>
    revert h
    simp only [lex_tok, hs]
    intro h
    by_cases g0 : c = c_nul
    · rw [if_pos g0] at h
      simp only [Option.some.injEq, Prod.mk.injEq] at h
      obtain ⟨rfl, rfl⟩ := h
      simp
    rw [if_neg g0] at h
    by_cases g1 : isalpha c = true ∨ c = '_'
    · rw [if_pos g1] at h
      have hc : c ≠ '&' ∧ c ≠ '|' := by
        refine ⟨?_, ?_⟩ <;> (intro e; subst e; revert g1; decide)
      simp only [Option.some.injEq, Prod.mk.injEq] at h
      obtain ⟨rfl, rfl⟩ := h
      simpa using hc
    rw [if_neg g1] at h
    by_cases g2 : isdigit c = true
    · rw [if_pos g2] at h
      have hc : c ≠ '&' ∧ c ≠ '|' := by
        refine ⟨?_, ?_⟩ <;> (intro e; subst e; revert g2; decide)
      simp only [Option.some.injEq, Prod.mk.injEq] at h
      obtain ⟨rfl, rfl⟩ := h
      simpa using hc
    rw [if_neg g2] at h
    by_cases g3 : c = c_quote
    · rw [if_pos g3] at h
      have hc : c ≠ '&' ∧ c ≠ '|' := by
        refine ⟨?_, ?_⟩ <;> (intro e; subst e; revert g3; decide)
      cases hq : str_loop cs with
      | none => rw [hq] at h; exact absurd h (by simp)
      | some br =>
        rw [hq] at h
        by_cases hp : peek br.2 = c_quote
        · simp only [hp, if_true, Option.some.injEq, Prod.mk.injEq] at h
          obtain ⟨rfl, rfl⟩ := h
          simpa using hc
        · simp only [hp, if_false, Option.some.injEq, Prod.mk.injEq] at h
          obtain ⟨rfl, rfl⟩ := h
          simpa using hc
    rw [if_neg g3] at h
    by_cases g4 : c = '('
    · rw [if_pos g4] at h
      have hc : c ≠ '&' ∧ c ≠ '|' := by
        refine ⟨?_, ?_⟩ <;> (intro e; subst e; revert g4; decide)
      simp only [Option.some.injEq, Prod.mk.injEq] at h
      obtain ⟨rfl, rfl⟩ := h
      simpa using hc
    rw [if_neg g4] at h
    by_cases g5 : c = ')'
    · rw [if_pos g5] at h
      have hc : c ≠ '&' ∧ c ≠ '|' := by
        refine ⟨?_, ?_⟩ <;> (intro e; subst e; revert g5; decide)
      simp only [Option.some.injEq, Prod.mk.injEq] at h
      obtain ⟨rfl, rfl⟩ := h
      simpa using hc
    rw [if_neg g5] at h
    by_cases g6 : c = c_lbrace
    · rw [if_pos g6] at h
      have hc : c ≠ '&' ∧ c ≠ '|' := by
        refine ⟨?_, ?_⟩ <;> (intro e; subst e; revert g6; decide)
      simp only [Option.some.injEq, Prod.mk.injEq] at h
      obtain ⟨rfl, rfl⟩ := h
      simpa using hc
    rw [if_neg g6] at h
    by_cases g7 : c = c_rbrace
    · rw [if_pos g7] at h
      have hc : c ≠ '&' ∧ c ≠ '|' := by
        refine ⟨?_, ?_⟩ <;> (intro e; subst e; revert g7; decide)
      simp only [Option.some.injEq, Prod.mk.injEq] at h
      obtain ⟨rfl, rfl⟩ := h
      simpa using hc
    rw [if_neg g7] at h
    by_cases g8 : c = '['
    · rw [if_pos g8] at h
      have hc : c ≠ '&' ∧ c ≠ '|' := by
        refine ⟨?_, ?_⟩ <;> (intro e; subst e; revert g8; decide)
      simp only [Option.some.injEq, Prod.mk.injEq] at h
      obtain ⟨rfl, rfl⟩ := h
      simpa using hc
    rw [if_neg g8] at h
    by_cases g9 : c = ']'
    · rw [if_pos g9] at h
      have hc : c ≠ '&' ∧ c ≠ '|' := by
        refine ⟨?_, ?_⟩ <;> (intro e; subst e; revert g9; decide)
      simp only [Option.some.injEq, Prod.mk.injEq] at h
      obtain ⟨rfl, rfl⟩ := h
      simpa using hc
    rw [if_neg g9] at h
    by_cases g10 : c = ';'
    · rw [if_pos g10] at h
      have hc : c ≠ '&' ∧ c ≠ '|' := by
        refine ⟨?_, ?_⟩ <;> (intro e; subst e; revert g10; decide)
      simp only [Option.some.injEq, Prod.mk.injEq] at h
      obtain ⟨rfl, rfl⟩ := h
      simpa using hc
    rw [if_neg g10] at h
    by_cases g11 : c = ':'
    · rw [if_pos g11] at h
      have hc : c ≠ '&' ∧ c ≠ '|' := by
        refine ⟨?_, ?_⟩ <;> (intro e; subst e; revert g11; decide)
      simp only [Option.some.injEq, Prod.mk.injEq] at h
      obtain ⟨rfl, rfl⟩ := h
      simpa using hc
    rw [if_neg g11] at h
    by_cases g12 : c = ','
    · rw [if_pos g12] at h
      have hc : c ≠ '&' ∧ c ≠ '|' := by
        refine ⟨?_, ?_⟩ <;> (intro e; subst e; revert g12; decide)
      simp only [Option.some.injEq, Prod.mk.injEq] at h
      obtain ⟨rfl, rfl⟩ := h
      simpa using hc
    rw [if_neg g12] at h
    by_cases g13 : c = '.'
    · rw [if_pos g13] at h
      have hc : c ≠ '&' ∧ c ≠ '|' := by
        refine ⟨?_, ?_⟩ <;> (intro e; subst e; revert g13; decide)
      simp only [Option.some.injEq, Prod.mk.injEq] at h
      obtain ⟨rfl, rfl⟩ := h
      simpa using hc
    rw [if_neg g13] at h
    by_cases g14 : c = '+'
    · rw [if_pos g14] at h
      have hc : c ≠ '&' ∧ c ≠ '|' := by
        refine ⟨?_, ?_⟩ <;> (intro e; subst e; revert g14; decide)
      simp only [Option.some.injEq, Prod.mk.injEq] at h
      obtain ⟨rfl, rfl⟩ := h
      simpa using hc
    rw [if_neg g14] at h
    by_cases g15 : c = '*'
    · rw [if_pos g15] at h
      have hc : c ≠ '&' ∧ c ≠ '|' := by
        refine ⟨?_, ?_⟩ <;> (intro e; subst e; revert g15; decide)
      simp only [Option.some.injEq, Prod.mk.injEq] at h
      obtain ⟨rfl, rfl⟩ := h
      simpa using hc
    rw [if_neg g15] at h
    by_cases g16 : c = '/'
    · rw [if_pos g16] at h
      have hc : c ≠ '&' ∧ c ≠ '|' := by
        refine ⟨?_, ?_⟩ <;> (intro e; subst e; revert g16; decide)
      simp only [Option.some.injEq, Prod.mk.injEq] at h
      obtain ⟨rfl, rfl⟩ := h
      simpa using hc
    rw [if_neg g16] at h
    by_cases g17 : c = '=' ∧ peek cs = '='
    · rw [if_pos g17] at h
      have hc : c ≠ '&' ∧ c ≠ '|' := by
        refine ⟨?_, ?_⟩ <;> (intro e; subst e; exact absurd g17.1 (by decide))
      simp only [Option.some.injEq, Prod.mk.injEq] at h
      obtain ⟨rfl, rfl⟩ := h
      simpa using hc
    rw [if_neg g17] at h
    by_cases g18 : c = '='
    · rw [if_pos g18] at h
      have hc : c ≠ '&' ∧ c ≠ '|' := by
        refine ⟨?_, ?_⟩ <;> (intro e; subst e; revert g18; decide)
      simp only [Option.some.injEq, Prod.mk.injEq] at h
      obtain ⟨rfl, rfl⟩ := h
      simpa using hc
    rw [if_neg g18] at h
    by_cases g19 : c = '!' ∧ peek cs = '='
    · rw [if_pos g19] at h
      have hc : c ≠ '&' ∧ c ≠ '|' := by
        refine ⟨?_, ?_⟩ <;> (intro e; subst e; exact absurd g19.1 (by decide))
      simp only [Option.some.injEq, Prod.mk.injEq] at h
      obtain ⟨rfl, rfl⟩ := h
      simpa using hc
    rw [if_neg g19] at h
    by_cases g20 : c = '<' ∧ peek cs = '='
    · rw [if_pos g20] at h
      have hc : c ≠ '&' ∧ c ≠ '|' := by
        refine ⟨?_, ?_⟩ <;> (intro e; subst e; exact absurd g20.1 (by decide))
      simp only [Option.some.injEq, Prod.mk.injEq] at h
      obtain ⟨rfl, rfl⟩ := h
      simpa using hc
    rw [if_neg g20] at h
    by_cases g21 : c = '<'
    · rw [if_pos g21] at h
      have hc : c ≠ '&' ∧ c ≠ '|' := by
        refine ⟨?_, ?_⟩ <;> (intro e; subst e; revert g21; decide)
      simp only [Option.some.injEq, Prod.mk.injEq] at h
      obtain ⟨rfl, rfl⟩ := h
      simpa using hc
    rw [if_neg g21] at h
    by_cases g22 : c = '>' ∧ peek cs = '='
    · rw [if_pos g22] at h
      have hc : c ≠ '&' ∧ c ≠ '|' := by
        refine ⟨?_, ?_⟩ <;> (intro e; subst e; exact absurd g22.1 (by decide))
      simp only [Option.some.injEq, Prod.mk.injEq] at h
      obtain ⟨rfl, rfl⟩ := h
      simpa using hc
    rw [if_neg g22] at h
    by_cases g23 : c = '>'
    · rw [if_pos g23] at h
      have hc : c ≠ '&' ∧ c ≠ '|' := by
        refine ⟨?_, ?_⟩ <;> (intro e; subst e; revert g23; decide)
      simp only [Option.some.injEq, Prod.mk.injEq] at h
      obtain ⟨rfl, rfl⟩ := h
      simpa using hc
    rw [if_neg g23] at h
    by_cases g24 : c = '-' ∧ peek cs = '>'
    · rw [if_pos g24] at h
      have hc : c ≠ '&' ∧ c ≠ '|' := by
        refine ⟨?_, ?_⟩ <;> (intro e; subst e; exact absurd g24.1 (by decide))
      simp only [Option.some.injEq, Prod.mk.injEq] at h
      obtain ⟨rfl, rfl⟩ := h
      simpa using hc
    rw [if_neg g24] at h
    by_cases g25 : c = '-'
    · rw [if_pos g25] at h
      have hc : c ≠ '&' ∧ c ≠ '|' := by
        refine ⟨?_, ?_⟩ <;> (intro e; subst e; revert g25; decide)
      simp only [Option.some.injEq, Prod.mk.injEq] at h
      obtain ⟨rfl, rfl⟩ := h
      simpa using hc
    rw [if_neg g25] at h
    simp only [Option.some.injEq, Prod.mk.injEq] at h
    obtain ⟨rfl, rfl⟩ := h
    simp

/-- C21: operator scanning takes the longest match. When the text left
after blanks and comments starts with `==`, `!=`, `<=`, `>=` or `->`,
`lex_tok` returns one token of two characters of kind `T_EQEQ`, `T_NEQ`,
`T_LTE`, `T_GTE`, `T_ARROW` and stops behind both characters. A token of
kind `T_EQ`, `T_LT`, `T_GT` or `T_MINUS` is returned only at `=`, `<`, `>`,
`-` followed by a character that does not complete a two-character
operator, and in that case it is returned. -/
theorem C21_operators_longest_match :
    (∀ (l rest : Lex),
        (skip l = '=' :: '=' :: rest → lex_tok l = some (⟨.T_EQEQ, "==".toList⟩, rest))
        ∧ (skip l = '!' :: '=' :: rest → lex_tok l = some (⟨.T_NEQ, "!=".toList⟩, rest))
        ∧ (skip l = '<' :: '=' :: rest → lex_tok l = some (⟨.T_LTE, "<=".toList⟩, rest))
        ∧ (skip l = '>' :: '=' :: rest → lex_tok l = some (⟨.T_GTE, ">=".toList⟩, rest))
        ∧ (skip l = '-' :: '>' :: rest → lex_tok l = some (⟨.T_ARROW, "->".toList⟩, rest)))
    ∧ (∀ (l r : Lex) (k : Tok), lex_tok l = some (k, r) →
        (k.t = .T_EQ → skip l = '=' :: r ∧ peek r ≠ '=' ∧ k.s = "=".toList)
        ∧ (k.t = .T_LT → skip l = '<' :: r ∧ peek r ≠ '=' ∧ k.s = "<".toList)
        ∧ (k.t = .T_GT → skip l = '>' :: r ∧ peek r ≠ '=' ∧ k.s = ">".toList)
        ∧ (k.t = .T_MINUS → skip l = '-' :: r ∧ peek r ≠ '>' ∧ k.s = "-".toList))
    ∧ (∀ (l rest : Lex),
        (skip l = '=' :: rest → peek rest ≠ '=' → lex_tok l = some (⟨.T_EQ, "=".toList⟩, rest))
        ∧ (skip l = '<' :: rest → peek rest ≠ '=' → lex_tok l = some (⟨.T_LT, "<".toList⟩, rest))
        ∧ (skip l = '>' :: rest → peek rest ≠ '=' → lex_tok l = some (⟨.T_GT, ">".toList⟩, rest))
        ∧ (skip l = '-' :: rest → peek rest ≠ '>'
            → lex_tok l = some (⟨.T_MINUS, "-".toList⟩, rest))) := by
  refine ⟨fun l rest => ⟨?_, ?_, ?_, ?_, ?_⟩, lex_tok_one_char_only,
    fun l rest => ⟨?_, ?_, ?_, ?_⟩⟩
  · exact fun h => (lex_tok_two_chars l rest _ _ h).1 rfl rfl
  · exact fun h => (lex_tok_two_chars l rest _ _ h).2.1 rfl rfl
  · exact fun h => (lex_tok_two_chars l rest _ _ h).2.2.1 rfl rfl
  · exact fun h => (lex_tok_two_chars l rest _ _ h).2.2.2.1 rfl rfl
  · exact fun h => (lex_tok_two_chars l rest _ _ h).2.2.2.2 rfl rfl
  · exact fun h => (lex_tok_one_char l rest _ h).1 rfl
  · exact fun h => (lex_tok_one_char l rest _ h).2.1 rfl
  · exact fun h => (lex_tok_one_char l rest _ h).2.2.1 rfl
  · exact fun h => (lex_tok_one_char l rest _ h).2.2.2 rfl

/-- C21 at the texts ` <= 1` and ` < 1`: the first gives the one token `<=`,
the second the token `<`, which in turn is only returned because a blank
follows. -/
theorem C21_witness :
    lex_tok " <= 1".toList = some (⟨.T_LTE, "<=".toList⟩, " 1".toList)
      ∧ lex_tok " < 1".toList = some (⟨.T_LT, "<".toList⟩, " 1".toList)
      ∧ (skip " < 1".toList = '<' :: " 1".toList ∧ peek " 1".toList ≠ '='
          ∧ "<".toList = "<".toList) :=
  ⟨(C21_operators_longest_match.1 " <= 1".toList " 1".toList).2.2.1 (by decide),
   (C21_operators_longest_match.2.2 " < 1".toList " 1".toList).2.1 (by decide) (by decide),
   (C21_operators_longest_match.2.1 " < 1".toList " 1".toList ⟨.T_LT, "<".toList⟩
      (by decide)).2.1 rfl⟩

/-- C22 fails: at `&& b` and at `|| b` the function `lex_tok` returns the
end-of-input token, of length 0, having consumed one character, and
`tokenize` ends the tokens of `a && b` and of `a || b` right after `a`. -/
theorem C22_counterexample :
    lex_tok "&& b".toList = some (⟨.T_EOF, []⟩, "& b".toList)
      ∧ lex_tok "|| b".toList = some (⟨.T_EOF, []⟩, "| b".toList)
      ∧ tokenize "a && b".toList = some [⟨.T_IDENT, "a".toList⟩, ⟨.T_EOF, []⟩]
      ∧ tokenize "a || b".toList = some [⟨.T_IDENT, "a".toList⟩, ⟨.T_EOF, []⟩] := by
  decide

/-- C22 (amended): `lex_tok` has no token for `&&` or `||`. No lexeme it
returns starts with `&` or `|`; when the text left after blanks and comments
starts with `&` or `|` it returns the end-of-input token `T_EOF` of length 0,
and `tokenize` ends the token sequence there: what follows in the text is
never tokenized. -/
theorem C22_logical_operators_end_the_tokens :
    (∀ (l r : Lex) (k : Tok), lex_tok l = some (k, r) → ∀ x ∈ k.s.head?, x ≠ '&' ∧ x ≠ '|')
    ∧ (∀ (l cs : Lex) (c : Char), c = '&' ∨ c = '|' → skip l = c :: cs →
        lex_tok l = some (⟨.T_EOF, []⟩, cs))
    ∧ (∀ (n : Nat) (src l cs : Lex) (c : Char) (toks : List Tok), c = '&' ∨ c = '|' →
        lex_n n src = some (toks, l) → skip l = c :: cs → n < 2000 →
        tokenize src = some (toks ++ [⟨.T_EOF, []⟩])) := by
  have key : ∀ (l cs : Lex) (c : Char), c = '&' ∨ c = '|' → skip l = c :: cs →
      lex_tok l = some (⟨.T_EOF, []⟩, cs) := by
    intro l cs c hc hs
    apply lex_tok_dead_end l c cs hs
    rcases hc with rfl | rfl <;> simp [starts_token, isalpha, isdigit, c_quote, c_lbrace,
      c_rbrace]
  refine ⟨lex_tok_no_logical, key, ?_⟩
  intro n src l cs c toks hc h1 h2 hn
  exact tokenize_loop_dead_end n src l cs toks 2000 h1 (key l cs c hc h2) hn

/-- C22 (amended) at the text `a && b`: after the identifier `a` the lexer is
at ` && b`, returns `T_EOF` there, and the tokens are `a` and end of input. -/
theorem C22_witness :
    lex_tok " && b".toList = some (⟨.T_EOF, []⟩, "& b".toList)
      ∧ tokenize "a && b".toList = some ([⟨.T_IDENT, "a".toList⟩] ++ [⟨.T_EOF, []⟩]) :=
  ⟨C22_logical_operators_end_the_tokens.2.1 " && b".toList "& b".toList '&' (Or.inl rfl)
      (by decide),
   C22_logical_operators_end_the_tokens.2.2 1 "a && b".toList " && b".toList "& b".toList '&'
      [⟨.T_IDENT, "a".toList⟩] (Or.inl rfl) (by decide) (by decide) (by decide)⟩

/-! ## Blanks and comments -/

theorem skip_line_length (l : Lex) : (skip_line l).length ≤ l.length := by
  induction l with
  | nil => simp [skip_line]
  | cons c cs ih =>
    simp only [skip_line]
    split_ifs
    · simp only [List.length_cons]; omega
    · simp

theorem skip_loop_fuel (f : Nat) : ∀ (g : Nat) (l : Lex), l.length < f → l.length < g →
    skip_loop f l = skip_loop g l := by
  induction f with
  | zero => intro g l h; omega
  | succ f ih =>
    intro g l hf hg
    obtain ⟨g, rfl⟩ := Nat.exists_eq_succ_of_ne_zero (by omega : g ≠ 0)
    cases l with
    | nil => simp [skip_loop, peek, is_space, c_nul, c_tab, c_cr, c_lf]
    | cons c cs =>
      simp only [skip_loop, peek, adv, List.headD, List.tail]
      simp only [List.length_cons] at hf hg
      by_cases h1 : is_space c = true
      · simp only [h1, if_true]
        exact ih g cs (by omega) (by omega)
      · rw [if_neg h1, if_neg h1]
        by_cases h2 : c = '/' ∧ peek_next (c :: cs) = '/'
        · rw [if_pos h2, if_pos h2]
          have hl : (skip_line (c :: cs)).length ≤ cs.length := by
            obtain ⟨rfl, _⟩ := h2
            simp only [skip_line]
            rw [if_pos (by decide)]
            exact skip_line_length cs
          exact ih g (skip_line (c :: cs)) (by omega) (by omega)
        · rw [if_neg h2, if_neg h2]

theorem skip_space (c : Char) (l : Lex) (h : is_space c = true) : skip (c :: l) = skip l := by
  simp only [skip, skip_loop, peek, adv, List.headD, List.tail, h, if_true, List.length_cons]

theorem skip_line_body (body rest : List Char) (h : ∀ c ∈ body, c ≠ c_lf ∧ c ≠ c_nul) :
    skip_line (body ++ c_lf :: rest) = c_lf :: rest := by
  induction body with
  | nil => simp [skip_line]
  | cons c cs ih =>
    have hc := h c (List.mem_cons_self _ _)
    simp only [List.cons_append, skip_line, hc.1, hc.2, ne_eq, not_false_eq_true, and_self,
      if_true]
    exact ih (fun d hd => h d (List.mem_cons_of_mem _ hd))

theorem skip_comment (body l : List Char) (h : ∀ c ∈ body, c ≠ c_lf ∧ c ≠ c_nul) :
    skip ('/' :: '/' :: (body ++ c_lf :: l)) = skip l := by
  have e1 : skip_line ('/' :: '/' :: (body ++ c_lf :: l)) = c_lf :: l := by
    simp only [skip_line]
    rw [if_pos (by decide), if_pos (by decide)]
    exact skip_line_body body l h
  have e2 : skip ('/' :: '/' :: (body ++ c_lf :: l))
      = skip_loop (body.length + l.length + 3) (c_lf :: l) := by
    have e3 : ('/' :: '/' :: (body ++ c_lf :: l)).length + 1
        = (body.length + l.length + 3) + 1 := by
      simp only [List.length_cons, List.length_append]; omega
    rw [skip, e3, skip_loop,
      if_neg (by simp [peek, is_space, c_tab, c_cr, c_lf]),
      if_pos (by simp [peek, peek_next]), e1]
  rw [e2, skip_loop_fuel _ (l.length + 2) (c_lf :: l) (by simp only [List.length_cons]; omega)
    (by simp)]
  exact skip_space c_lf l (by decide)

theorem skip_blank (w : List Char) (hw : Blank w) (s : List Char) : skip (w ++ s) = skip s := by
  induction hw with
  | done => rfl
  | space c w hc _ ih => rw [List.cons_append, skip_space c _ hc, ih]
  | comment body w hb _ ih =>
    have e : '/' :: '/' :: (body ++ c_lf :: w) ++ s = '/' :: '/' :: (body ++ c_lf :: (w ++ s)) := by
      simp
    rw [e, skip_comment body _ hb, ih]

theorem lex_tok_blank (w : List Char) (hw : Blank w) (s : List Char) :
    lex_tok (w ++ s) = lex_tok s := by
  simp only [lex_tok, skip_blank w hw s]

/-- C23: blanks and comments before a text are invisible. For every text
`s` and every prefix `w` made of spaces, tabs, carriage returns, newlines
and `//` comments each ended by a newline, `skip` stops at the same place,
`lex_tok` returns the same token and cursor, and `tokenize` returns the same
sequence of tokens (kinds and lexemes) for `w ++ s` as for `s`. -/
theorem C23_leading_blanks_are_invisible (w : List Char) (hw : Blank w) (s : List Char) :
    skip (w ++ s) = skip s ∧ lex_tok (w ++ s) = lex_tok s
      ∧ tokenize (w ++ s) = tokenize s := by
  refine ⟨skip_blank w hw s, lex_tok_blank w hw s, ?_⟩
  show tokenize_loop (1999 + 1) (w ++ s) = tokenize_loop (1999 + 1) s
  rw [tokenize_loop, tokenize_loop, lex_tok_blank w hw s]

/-- C23 at the prefix of a blank, a comment, a newline and a tab, before
`x = 1;`. -/
theorem C23_witness :
    Blank (' ' :: '/' :: '/' :: (" a b".toList ++ c_lf :: [c_tab]))
      ∧ tokenize ((' ' :: '/' :: '/' :: (" a b".toList ++ c_lf :: [c_tab])) ++ "x = 1;".toList)
          = tokenize "x = 1;".toList :=
  have hw : Blank (' ' :: '/' :: '/' :: (" a b".toList ++ c_lf :: [c_tab])) :=
    .space ' ' _ (by decide)
      (.comment " a b".toList [c_tab] (by decide) (.space c_tab [] (by decide) .done))
  ⟨hw, (C23_leading_blanks_are_invisible _ hw "x = 1;".toList).2.2⟩

/-! ## String literals -/

theorem str_loop_body (body : List Char) (hb : StrBody body) (rest : List Char) :
    str_loop (body ++ c_quote :: rest) = some (body, c_quote :: rest) := by
  induction hb with
  | done => unfold str_loop; simp
  | plain c body h1 h2 h3 _ ih =>
    rw [List.cons_append]
    unfold str_loop
    simp only [h1, h2, h3, or_self, if_false, ih, Option.map_some']
  | escaped d body h1 _ ih =>
    rw [List.cons_append, List.cons_append]
    unfold str_loop
    rw [if_neg (by decide), if_pos rfl]
    simp only [h1, if_false, ih, Option.map_some']

/-- C24: a terminated string literal is one token, and its text is kept
as written. For every body made of units (a character other than the quote
and the backslash, or a backslash and the character after it), `lex_tok` at
the literal returns one `T_STR` token whose lexeme is the whole literal with
both quotes, of length `|body| + 2`, and stops behind the closing quote: a
quote after a backslash does not end the token. `parse_primary` turns the
token into a string node whose value is the body, escapes left as written. -/
theorem C24_string_literal_is_one_token (body : List Char) (hb : StrBody body)
    (rest : List Char) :
    lex_tok (c_quote :: (body ++ c_quote :: rest))
        = some (⟨.T_STR, c_quote :: (body ++ [c_quote])⟩, rest)
      ∧ Tok.len ⟨.T_STR, c_quote :: (body ++ [c_quote])⟩ = body.length + 2
      ∧ ∀ (pe : Parser → Except Fail (AstNode × Parser)) (fuel : Nat) (p : Parser),
          parse_primary pe fuel (⟨.T_STR, c_quote :: (body ++ [c_quote])⟩ :: p)
            = .ok ({ ast_new .AST_STRING with value := some body }, p) := by
  refine ⟨?_, by simp [Tok.len], ?_⟩
  · have hs : skip (c_quote :: (body ++ c_quote :: rest)) = c_quote :: (body ++ c_quote :: rest) := by
      simp only [skip, skip_loop, peek, List.headD]
      rw [if_neg (by decide), if_neg (fun h => absurd h.1 (by decide))]
    simp only [lex_tok, hs]
    simp only [str_loop_body body hb rest, peek, adv, List.headD, List.tail, if_true]
    rw [if_neg (by decide), if_neg (by decide), if_neg (by decide)]
  · intro pe fuel p
    have hv : str_value ⟨.T_STR, c_quote :: (body ++ [c_quote])⟩ = body := by
      simp [str_value, Tok.len]
    simp [parse_primary, check_tok, peek_tok, advance_tok, hv, bind, Except.bind, pure,
      Except.pure]

/-- C24 at the literal `"a\"b"` followed by `;`: one token of length 6, value
`a\"b`. -/
theorem C24_witness :
    StrBody ['a', c_backslash, c_quote, 'b']
      ∧ lex_tok (c_quote :: (['a', c_backslash, c_quote, 'b'] ++ c_quote :: [';']))
          = some (⟨.T_STR, c_quote :: (['a', c_backslash, c_quote, 'b'] ++ [c_quote])⟩, [';'])
      ∧ Tok.len ⟨.T_STR, c_quote :: (['a', c_backslash, c_quote, 'b'] ++ [c_quote])⟩ = 4 + 2 :=
  have hb : StrBody ['a', c_backslash, c_quote, 'b'] :=
    .plain 'a' _ (by decide) (by decide) (by decide)
      (.escaped c_quote _ (by decide) (.plain 'b' _ (by decide) (by decide) (by decide) .done))
  ⟨hb, (C24_string_literal_is_one_token _ hb [';']).1,
    (C24_string_literal_is_one_token _ hb [';']).2.1⟩

/-! ## Binary operators -/

theorem gen_expr_binop_eq (cg : Codegen) (l r : AstNode) (rest : List AstNode)
    (name value stt : Option (List Char)) (asz : Int) (o : List Char) :
    gen_expr cg ⟨.AST_BINOP, name, l :: r :: rest, value, some o, asz, stt⟩
      = (gen_expr cg l).bind (fun cg1 => (gen_expr (emit cg1 [.push_rax]) r).bind
          (fun cg2 => some (emit cg2 ([.mov_rbx_rax, .pop_rax] ++ binop_lines o)))) := by
  simp only [gen_expr, Option.bind_eq_bind, Option.some_bind, emit, List.append_assoc]

theorem gen_expr_compare_eq (cg : Codegen) (l r : AstNode) (rest : List AstNode)
    (name value stt : Option (List Char)) (asz : Int) (o : List Char) :
    gen_expr cg ⟨.AST_COMPARE, name, l :: r :: rest, value, some o, asz, stt⟩
      = (gen_expr cg l).bind (fun cg1 => (gen_expr (emit cg1 [.push_rax]) r).bind
          (fun cg2 => some (emit cg2 (compare_tail_lines o)))) := by
  simp only [gen_expr, Option.bind_eq_bind, Option.some_bind, emit, List.append_assoc,
    compare_tail_lines]

theorem operand_lines (cg cg' : Codegen) (l r : AstNode) (tail : List Asm)
    (h : (gen_expr cg l).bind (fun cg1 => (gen_expr (emit cg1 [.push_rax]) r).bind
          (fun cg2 => some (emit cg2 tail))) = some cg') :
    ∃ cg1 cg2 l1 l2, gen_expr cg l = some cg1 ∧ gen_expr (emit cg1 [.push_rax]) r = some cg2
      ∧ cg1.code = cg.code ++ l1 ∧ cg2.code = cg.code ++ l1 ++ [.push_rax] ++ l2
      ∧ cg'.code = cg.code ++ (l1 ++ [.push_rax] ++ l2 ++ tail)
      ∧ jump_targets (l1 ++ [.push_rax] ++ l2) = []
      ∧ label_defs (l1 ++ [.push_rax] ++ l2) = [] := by
  simp only [Option.bind_eq_some, Option.some.injEq] at h
  obtain ⟨cg1, h1, cg2, h2, rfl⟩ := h
  obtain ⟨_, _, _, l1, _, e1, _, d1, j1, _⟩ := gen_expr_ext _ _ _ h1
  obtain ⟨_, _, _, l2, _, e2, _, d2, j2, _⟩ := gen_expr_ext _ _ _ h2
  simp only [emit] at e2
  refine ⟨cg1, cg2, l1, l2, h1, h2, e1, by rw [e2, e1], ?_, ?_, ?_⟩
  · simp only [emit, e2, e1, List.append_assoc]
  · simp only [jump_targets, List.filterMap_append] at j1 j2 ⊢
    rw [j1, j2]; rfl
  · simp only [label_defs, List.filterMap_append] at d1 d2 ⊢
    rw [d1, d2]; rfl

theorem binop_lines_no_jump (o : List Char) :
    jump_targets (binop_lines o) = [] ∧ label_defs (binop_lines o) = [] := by
  simp only [binop_lines]
  split_ifs <;> exact ⟨rfl, rfl⟩

theorem compare_tail_no_jump (o : List Char) :
    jump_targets (compare_tail_lines o) = [] ∧ label_defs (compare_tail_lines o) = [] := by
  simp only [compare_tail_lines, compare_lines]
  split_ifs <;> exact ⟨rfl, rfl⟩

/-- C26: a binary operator evaluates both operands, the left one first.
For a `BinaryOp` or `Compare` node with the children `l` and `r`, `gen_expr`
emits the code of `l`, then `push rax`, then the code of `r` (generated in
the state the code of `l` left), then `mov rbx, rax` and `pop rax`, then
the combining lines: the line chosen by the operator (`xor rdx, rdx` and
`idiv rbx` for `/`), and for a comparison `cmp rax, rbx`, the `set` line and
`movzx rax, al`. The code of the node is defined exactly when the code of
both operands is, and the lines hold no jump and no label. -/
theorem C26_both_operands_left_first (cg : Codegen) (l r : AstNode) (rest : List AstNode)
    (name value stt : Option (List Char)) (asz : Int) (o : List Char) :
    (gen_expr cg ⟨.AST_BINOP, name, l :: r :: rest, value, some o, asz, stt⟩
      = (gen_expr cg l).bind (fun cg1 => (gen_expr (emit cg1 [.push_rax]) r).bind
          (fun cg2 => some (emit cg2 ([.mov_rbx_rax, .pop_rax] ++ binop_lines o)))))
    ∧ (gen_expr cg ⟨.AST_COMPARE, name, l :: r :: rest, value, some o, asz, stt⟩
      = (gen_expr cg l).bind (fun cg1 => (gen_expr (emit cg1 [.push_rax]) r).bind
          (fun cg2 => some (emit cg2 ([.mov_rbx_rax, .pop_rax]
            ++ ([.cmp_rax_rbx] ++ compare_lines o ++ [.movzx_rax_al]))))))
    ∧ (∀ cg3, gen_expr cg ⟨.AST_BINOP, name, l :: r :: rest, value, some o, asz, stt⟩ = some cg3 →
        ∃ cg1 cg2 l1 l2, gen_expr cg l = some cg1 ∧ cg1.code = cg.code ++ l1
          ∧ gen_expr (emit cg1 [.push_rax]) r = some cg2
          ∧ cg2.code = cg.code ++ l1 ++ [.push_rax] ++ l2
          ∧ cg3.code = cg.code ++ (l1 ++ [.push_rax] ++ l2
              ++ ([.mov_rbx_rax, .pop_rax] ++ binop_lines o))
          ∧ jump_targets (l1 ++ [.push_rax] ++ l2
              ++ ([.mov_rbx_rax, .pop_rax] ++ binop_lines o)) = []
          ∧ label_defs (l1 ++ [.push_rax] ++ l2
              ++ ([.mov_rbx_rax, .pop_rax] ++ binop_lines o)) = [])
    ∧ (∀ cg3, gen_expr cg ⟨.AST_COMPARE, name, l :: r :: rest, value, some o, asz, stt⟩
          = some cg3 →
        ∃ cg1 cg2 l1 l2, gen_expr cg l = some cg1 ∧ cg1.code = cg.code ++ l1
          ∧ gen_expr (emit cg1 [.push_rax]) r = some cg2
          ∧ cg2.code = cg.code ++ l1 ++ [.push_rax] ++ l2
          ∧ cg3.code = cg.code ++ (l1 ++ [.push_rax] ++ l2
              ++ ([.mov_rbx_rax, .pop_rax]
                ++ ([.cmp_rax_rbx] ++ compare_lines o ++ [.movzx_rax_al])))
          ∧ jump_targets (l1 ++ [.push_rax] ++ l2
              ++ ([.mov_rbx_rax, .pop_rax]
                ++ ([.cmp_rax_rbx] ++ compare_lines o ++ [.movzx_rax_al]))) = []
          ∧ label_defs (l1 ++ [.push_rax] ++ l2
              ++ ([.mov_rbx_rax, .pop_rax]
                ++ ([.cmp_rax_rbx] ++ compare_lines o ++ [.movzx_rax_al]))) = [])
    ∧ render_code [.push_rax] = "    push rax\n"
    ∧ render_code [.mov_rbx_rax, .pop_rax] = "    mov rbx, rax\n    pop rax\n" := by
  refine ⟨gen_expr_binop_eq cg l r rest name value stt asz o,
    gen_expr_compare_eq cg l r rest name value stt asz o, ?_, ?_, by decide, by decide⟩
  · intro cg3 h
    rw [gen_expr_binop_eq] at h
    obtain ⟨cg1, cg2, l1, l2, h1, h2, e1, e2, e3, hj, hd⟩ := operand_lines cg cg3 l r _ h
    refine ⟨cg1, cg2, l1, l2, h1, e1, h2, e2, e3, ?_, ?_⟩
    · rw [jump_targets_append, hj]
      exact (binop_lines_no_jump o).1
    · rw [label_defs_append, hd]
      exact (binop_lines_no_jump o).2
  · intro cg3 h
    rw [gen_expr_compare_eq] at h
    obtain ⟨cg1, cg2, l1, l2, h1, h2, e1, e2, e3, hj, hd⟩ := operand_lines cg cg3 l r _ h
    refine ⟨cg1, cg2, l1, l2, h1, e1, h2, e2, e3, ?_, ?_⟩
    · rw [jump_targets_append, hj]
      exact (compare_tail_no_jump o).1
    · rw [label_defs_append, hd]
      exact (compare_tail_no_jump o).2

/-- C26 at `2 + 3` and `2 < 3` at the start of a function body. -/
theorem C26_witness :
    (gen_expr body_start ⟨.AST_BINOP, none, [num_node "2".toList, num_node "3".toList], none,
        some "+".toList, 0, none⟩).map (fun c => c.code)
      = some [.mov_rax_s "2".toList, .push_rax, .mov_rax_s "3".toList, .mov_rbx_rax, .pop_rax,
          .add_rax_rbx]
    ∧ (gen_expr body_start ⟨.AST_COMPARE, none, [num_node "2".toList, num_node "3".toList], none,
        some "<".toList, 0, none⟩).map (fun c => c.code)
      = some [.mov_rax_s "2".toList, .push_rax, .mov_rax_s "3".toList, .mov_rbx_rax, .pop_rax,
          .cmp_rax_rbx, .set_al .l, .movzx_rax_al] :=
  ⟨(congrArg (Option.map (fun c => c.code))
      (C26_both_operands_left_first body_start (num_node "2".toList) (num_node "3".toList) []
        none none none 0 "+".toList).1).trans (by decide),
   (congrArg (Option.map (fun c => c.code))
      (C26_both_operands_left_first body_start (num_node "2".toList) (num_node "3".toList) []
        none none none 0 "<".toList).2.1).trans (by decide)⟩

/-! ## Comparisons -/

theorem cond_holds_spec (a b : Int) :
    (Cond.e.holds a b = true ↔ a = b) ∧ (Cond.ne.holds a b = true ↔ a ≠ b)
    ∧ (Cond.l.holds a b = true ↔ a < b) ∧ (Cond.g.holds a b = true ↔ a > b)
    ∧ (Cond.le.holds a b = true ↔ a ≤ b) ∧ (Cond.ge.holds a b = true ↔ a ≥ b) := by
  simp [Cond.holds]

theorem compare_node_computes (st : SymbolTable) (env : Int → Int) (l r : AstNode)
    (rest : List AstNode) (name value stt : Option (List Char)) (asz : Int) (o : List Char)
    (cc : Cond) (cg cg3 : Codegen) (a b : Int) (st2 : SymbolTable) (more : List Symbol)
    (hst : cg.symtab = some st2) (h2 : st2.symbols = st.symbols ++ more)
    (hcc : compare_cond o = some cc)
    (ha : expr_value (some st) env l = some a) (hb : expr_value (some st) env r = some b)
    (hg : gen_expr cg ⟨.AST_COMPARE, name, l :: r :: rest, value, some o, asz, stt⟩ = some cg3) :
    ∃ l1 l2, cg3.code = cg.code ++ (l1 ++ [.push_rax] ++ l2
          ++ [.mov_rbx_rax, .pop_rax, .cmp_rax_rbx, .set_al cc, .movzx_rax_al])
      ∧ ∀ m, SlotsOk st env m →
          Computes (l1 ++ [.push_rax] ++ l2
              ++ [.mov_rbx_rax, .pop_rax, .cmp_rax_rbx, .set_al cc, .movzx_rax_al]) m
            (if cc.holds (to_signed a) (to_signed b) then 1 else 0) := by
  have hv : expr_value (some st) env
      ⟨.AST_COMPARE, name, l :: r :: rest, value, some o, asz, stt⟩
      = some (if cc.holds (to_signed a) (to_signed b) then 1 else 0) := by
    simp only [expr_value, ha, hb, hcc, Option.bind_eq_bind, Option.some_bind]
  obtain ⟨lines, hc, hr⟩ := gen_expr_computes st env _ cg cg3 _ st2 more hst h2 hg hv
  rw [gen_expr_compare_eq] at hg
  obtain ⟨cg1, cg2, l1, l2, h1, h2, e1, e2, e3, hj, hd⟩ := operand_lines cg cg3 l r _ hg
  have hl : lines = l1 ++ [.push_rax] ++ l2
      ++ [.mov_rbx_rax, .pop_rax, .cmp_rax_rbx, .set_al cc, .movzx_rax_al] := by
    have := hc.symm.trans e3
    rw [compare_tail_lines, compare_lines_cond o cc hcc] at this
    exact List.append_cancel_left this
  subst hl
  exact ⟨l1, l2, hc, hr⟩

/-- C27: a comparison leaves 1 or 0 in `rax`. For each of the operators
`==`, `!=`, `<`, `>`, `<=`, `>=` the lines after the operands are
`cmp rax, rbx`, then `sete`, `setne`, `setl`, `setg`, `setle`, `setge al`,
then `movzx rax, al`. Run from any state they leave 1 in `rax` when the
relation holds between `rax` (the left operand) and `rbx` (the right one)
read as signed 64-bit integers, and 0 otherwise. The code of a whole
`Compare` node whose operands have the values `a` and `b` leaves 1 or 0
accordingly. -/
theorem C27_comparison_leaves_one_or_zero :
    (compare_lines "==".toList = [.set_al .e] ∧ compare_lines "!=".toList = [.set_al .ne]
      ∧ compare_lines "<".toList = [.set_al .l] ∧ compare_lines ">".toList = [.set_al .g]
      ∧ compare_lines "<=".toList = [.set_al .le] ∧ compare_lines ">=".toList = [.set_al .ge])
    ∧ (render_code [.cmp_rax_rbx, .set_al .e, .movzx_rax_al]
          = "    cmp rax, rbx\n    sete al\n    movzx rax, al\n"
      ∧ (Asm.set_al .ne).render = "    setne al\n" ∧ (Asm.set_al .l).render = "    setl al\n"
      ∧ (Asm.set_al .g).render = "    setg al\n" ∧ (Asm.set_al .le).render = "    setle al\n"
      ∧ (Asm.set_al .ge).render = "    setge al\n")
    ∧ (∀ a b : Int,
        (Cond.e.holds a b = true ↔ a = b) ∧ (Cond.ne.holds a b = true ↔ a ≠ b)
        ∧ (Cond.l.holds a b = true ↔ a < b) ∧ (Cond.g.holds a b = true ↔ a > b)
        ∧ (Cond.le.holds a b = true ↔ a ≤ b) ∧ (Cond.ge.holds a b = true ↔ a ≥ b))
    ∧ (∀ (cc : Cond) (m : Machine),
        ∃ m3, run [.cmp_rax_rbx, .set_al cc, .movzx_rax_al] m = .fell_through m3
          ∧ m3.rax = (if cc.holds (to_signed m.rax) (to_signed m.rbx) then 1 else 0)
          ∧ m3.rsp = m.rsp ∧ m3.rbp = m.rbp ∧ m3.mem = m.mem)
    ∧ (∀ (st : SymbolTable) (env : Int → Int) (l r : AstNode) (rest : List AstNode)
        (name value stt : Option (List Char)) (asz : Int) (o : List Char) (cc : Cond)
        (cg cg3 : Codegen) (a b : Int) (st2 : SymbolTable) (more : List Symbol),
        cg.symtab = some st2 → st2.symbols = st.symbols ++ more → compare_cond o = some cc →
        expr_value (some st) env l = some a → expr_value (some st) env r = some b →
        gen_expr cg ⟨.AST_COMPARE, name, l :: r :: rest, value, some o, asz, stt⟩ = some cg3 →
        ∃ l1 l2, cg3.code = cg.code ++ (l1 ++ [.push_rax] ++ l2
              ++ [.mov_rbx_rax, .pop_rax, .cmp_rax_rbx, .set_al cc, .movzx_rax_al])
          ∧ ∀ m, SlotsOk st env m →
              Computes (l1 ++ [.push_rax] ++ l2
                  ++ [.mov_rbx_rax, .pop_rax, .cmp_rax_rbx, .set_al cc, .movzx_rax_al]) m
                (if cc.holds (to_signed a) (to_signed b) then 1 else 0)) := by
  refine ⟨by decide, by decide, cond_holds_spec, ?_, ?_⟩
  · intro cc m
    have h := compare_tail
      (match cc with
        | .e => "==".toList | .ne => "!=".toList | .l => "<".toList | .g => ">".toList
        | .le => "<=".toList | .ge => ">=".toList) cc m.rax m.rbx
      (by cases cc <;> decide) m rfl rfl
    rw [compare_lines_cond _ cc (by cases cc <;> decide)] at h
    exact h
  · intro st env l r rest name value stt asz o cc cg cg3 a b st2 more hst h2 hcc ha hb hg
    exact compare_node_computes st env l r rest name value stt asz o cc cg cg3 a b st2 more
      hst h2 hcc ha hb hg

/-- C27 at `rax = -1`, `rbx = 2` and the condition `l`: the signed relation
`-1 < 2` holds and the lines leave 1; and at the node `3 < 5` compiled at
the start of a function body. -/
theorem C27_witness :
    (∃ m3, run [.cmp_rax_rbx, .set_al .l, .movzx_rax_al] c27_state = .fell_through m3
        ∧ m3.rax = (if Cond.l.holds (to_signed c27_state.rax) (to_signed c27_state.rbx)
            then 1 else 0)
        ∧ m3.rsp = c27_state.rsp ∧ m3.rbp = c27_state.rbp ∧ m3.mem = c27_state.mem)
    ∧ (if Cond.l.holds (to_signed c27_state.rax) (to_signed c27_state.rbx) then 1 else 0)
        = (1 : Int)
    ∧ (∃ l1 l2,
        (emit body_start [.mov_rax_s "3".toList, .push_rax, .mov_rax_s "5".toList, .mov_rbx_rax,
            .pop_rax, .cmp_rax_rbx, .set_al .l, .movzx_rax_al]).code
          = body_start.code ++ (l1 ++ [.push_rax] ++ l2
              ++ [.mov_rbx_rax, .pop_rax, .cmp_rax_rbx, .set_al .l, .movzx_rax_al])
        ∧ ∀ m, SlotsOk symtab_new (fun _ => 0) m →
            Computes (l1 ++ [.push_rax] ++ l2
                ++ [.mov_rbx_rax, .pop_rax, .cmp_rax_rbx, .set_al .l, .movzx_rax_al]) m
              (if Cond.l.holds (to_signed 3) (to_signed 5) then 1 else 0)) :=
  ⟨C27_comparison_leaves_one_or_zero.2.2.2.1 .l c27_state, by decide,
   C27_comparison_leaves_one_or_zero.2.2.2.2 symtab_new (fun _ => 0) (num_node "3".toList)
     (num_node "5".toList) [] none none none 0 "<".toList .l body_start _ 3 5 symtab_new []
     rfl rfl (by decide) (by decide) (by decide) (by decide)⟩

/-! ## Arithmetic on literals -/

theorem to_signed_emod (x : Int) : to_signed x % W64 = x % W64 := by
  simp only [to_signed]
  split_ifs
  · rfl
  · rw [Int.sub_emod, Int.emod_self, sub_zero, Int.emod_emod]

theorem mul_signed_emod (a b : Int) :
    (to_signed (a % W64) * to_signed (b % W64)) % W64 = (a * b) % W64 := by
  rw [Int.mul_emod, to_signed_emod, to_signed_emod, Int.emod_emod, Int.emod_emod,
    ← Int.mul_emod]

theorem computes_pair_closed (l0 l1 tail : List Asm) (m : Machine) (a b v : Int)
    (hsp : m.rsp % 8 = 0) (h0 : Computes l0 m a)
    (h1 : ∀ m1 : Machine, m1.rsp % 8 = 0 → Computes l1 m1 b)
    (ht : ∀ m2 : Machine, m2.rax = a → m2.rbx = b →
      ∃ m3, run tail m2 = .fell_through m3 ∧ m3.rax = v ∧ m3.rsp = m2.rsp ∧ m3.rbp = m2.rbp
        ∧ m3.mem = m2.mem) :
    Computes (l0 ++ [.push_rax] ++ l1 ++ [.mov_rbx_rax, .pop_rax] ++ tail) m v := by
  obtain ⟨m0, r0, ha, sp0, bp0, mem0⟩ := h0
  have e8 : (m0.rsp - 8) % 8 = 0 := by rw [sp0]; omega
  have hpush : exec .push_rax m0 = .ok
      { m0 with rsp := m0.rsp - 8,
                mem := fun x => if x = m0.rsp - 8 then m0.rax else m0.mem x } := by
    simp [exec, Machine.store, e8]
  obtain ⟨m1, r1, hb, sp1, bp1, mem1⟩ := h1
    { m0 with rsp := m0.rsp - 8,
              mem := fun x => if x = m0.rsp - 8 then m0.rax else m0.mem x } e8
  simp only at sp1 bp1 mem1
  have e1 : m1.rsp % 8 = 0 := by rw [sp1]; exact e8
  have htop : m1.mem m1.rsp = a := by
    rw [sp1, mem1 _ (le_refl _)]
    simp [ha]
  obtain ⟨m3, r3, hv, sp3, bp3, mem3⟩ := ht
    { m1 with rbx := m1.rax, rax := m1.mem m1.rsp, rsp := m1.rsp + 8 } htop hb
  refine ⟨m3, ?_, hv, ?_, ?_, ?_⟩
  · simp only [List.append_assoc, run_append, r0, List.singleton_append,
      run_cons _ _ _ (by decide : Asm.push_rax ≠ .ret), hpush, r1, List.cons_append,
      run_cons _ _ _ (by decide : Asm.mov_rbx_rax ≠ .ret),
      run_cons _ _ _ (by decide : Asm.pop_rax ≠ .ret), List.nil_append]
    simp only [exec, Machine.load, e1, if_true]
    exact r3
  · rw [sp3]; simp only; rw [sp1, sp0]; omega
  · rw [bp3]; simp only; rw [bp1, bp0]
  · intro x hx
    rw [mem3]
    simp only
    rw [mem1 x (by rw [sp0]; omega)]
    have hne : x ≠ m0.rsp - 8 := by rw [sp0]; omega
    simp only [hne, if_false]
    exact mem0 x hx

theorem int_value_computes :
    ∀ (e : AstNode) (v : Int), int_value e = some v →
      ∃ lines, (∀ cg, gen_expr cg e = some (emit cg lines))
        ∧ ∀ m : Machine, m.rsp % 8 = 0 → Computes lines m (v % W64) := by
  intro e
  induction e using AstNode.induct_children with
  | h n ihc ihg =>
  intro v hv
  obtain ⟨type, name, children, value, op, asz, stt⟩ := n
  simp only at ihc
  cases type
  case AST_NUMBER =>
    simp only [int_value, Option.bind_eq_bind, Option.bind_eq_some] at hv
    obtain ⟨d, hd, k, hk, hv⟩ := hv
    split_ifs at hv with hlt
    simp only [Option.some.injEq] at hv
    subst hd
    refine ⟨[.mov_rax_s d], fun cg => by simp [gen_expr], ?_⟩
    intro m hm
    have hw : (k : Int) < W64 := by simp only [W64]; omega
    have hk0 : (k : Int) % W64 = k := Int.emod_eq_of_lt (by omega) hw
    exact ⟨{ m with rax := k }, by simp [run, exec, hk, hw], by rw [← hv, hk0], rfl, rfl,
      fun _ _ => rfl⟩
  case AST_BINOP =>
    rcases children with _ | ⟨c0, _ | ⟨c1, rest⟩⟩
    · simp [int_value] at hv
    · simp [int_value] at hv
    · simp only [int_value, Option.bind_eq_bind, Option.bind_eq_some] at hv
      obtain ⟨a, hva, b, hvb, o, ho, hv⟩ := hv
      subst ho
      obtain ⟨l0, hc0, r0⟩ := ihc c0 (by simp) a hva
      obtain ⟨l1, hc1, r1⟩ := ihc c1 (by simp) b hvb
      have hbv : binop_value o (a % W64) (b % W64) = some (v % W64) := by
        simp only [binop_value]
        split_ifs at hv ⊢ with g1 g2 g3 <;> simp only [Option.some.injEq] at hv <;> subst hv
        · exact congrArg some (Int.add_emod a b W64).symm
        · exact congrArg some (Int.sub_emod a b W64).symm
        · rw [mul_signed_emod]
      refine ⟨l0 ++ [.push_rax] ++ l1 ++ [.mov_rbx_rax, .pop_rax] ++ binop_lines o, ?_, ?_⟩
      · intro cg
        rw [gen_expr_binop_eq, hc0, Option.some_bind, hc1, Option.some_bind]
        simp only [emit, List.append_assoc]
      · intro m hm
        exact computes_pair_closed l0 l1 _ m _ _ _ hm (r0 m hm) r1
          (fun m2 ha hb => binop_tail o _ _ _ hbv m2 ha hb)
  all_goals simp [int_value] at hv

/-- C25: arithmetic on literals is computed modulo `2^64`. For every
expression built from decimal literals below `2^63` and the operators
`+ - *`, nested to any depth, `gen_expr` is defined and emits the same lines
in every state of the code generator, and these lines, run from any machine
state with an 8-aligned stack pointer, leave in `rax` the integer the
expression denotes reduced modulo `2^64`, whatever `rax`, `rbx` and the
memory held before; the stack and frame pointers and the memory from the
stack pointer upwards are as before. -/
theorem C25_literal_arithmetic_mod_two_64 (e : AstNode) (v : Int) (hv : int_value e = some v) :
    ∃ lines, (∀ cg, gen_expr cg e = some (emit cg lines))
      ∧ ∀ m : Machine, m.rsp % 8 = 0 → Computes lines m (v % W64) :=
  int_value_computes e v hv

/-- C25 at `(2 - 5) * 3`, which denotes `-9`: the code leaves `2^64 - 9`. -/
theorem C25_witness :
    int_value c25_expr = some (-9) ∧ (-9 : Int) % W64 = 18446744073709551607
      ∧ ∃ lines, (∀ cg, gen_expr cg c25_expr = some (emit cg lines))
          ∧ ∀ m : Machine, m.rsp % 8 = 0 → Computes lines m ((-9) % W64) :=
  ⟨by decide, by decide, C25_literal_arithmetic_mod_two_64 c25_expr (-9) (by decide)⟩

/-! ## Chains of operators of one level -/

theorem chain_fold (loop : Nat → AstNode → Parser → Except Fail (AstNode × Parser))
    (operand : Parser → Except Fail (AstNode × Parser)) (is_op : TokType → Bool)
    (mk : Tok → AstNode → AstNode → AstNode)
    (hstep : ∀ (k : Nat) (left right : AstNode) (t : Tok) (rest p2 : Parser),
      is_op t.t = true → operand rest = .ok (right, p2) →
      loop (k + 1) left (t :: rest) = loop k (mk t left right) p2)
    (r : Parser) (hstop : ∀ (k : Nat) (left : AstNode), loop (k + 1) left r = .ok (left, r))
    (p : Parser) (pairs : List (Tok × AstNode)) (h : OpChain operand is_op p pairs r) :
    ∀ (left : AstNode) (k : Nat), pairs.length ≤ k →
      loop (k + 1) left p = .ok (left_nested mk left pairs, r) := by
  induction h with
  | done p => intro left k _; exact hstop k left
  | step o p p1 q x rest ho hx _ ih =>
    intro left k hk
    simp only [List.length_cons] at hk
    obtain ⟨k, rfl⟩ := Nat.exists_eq_succ_of_ne_zero (by omega : k ≠ 0)
    rw [hstep (k + 1) left x o p p1 ho hx, ih hstop (mk o left x) k (by omega)]
    rfl

theorem mul_chain (pe : Parser → Except Fail (AstNode × Parser)) (k : Nat) (p p0 q : Parser)
    (x0 : AstNode) (pairs : List (Tok × AstNode)) (e : Tok) (hlen : pairs.length ≤ k)
    (h0 : parse_postfix pe (k + 1) p = .ok (x0, p0))
    (hc : OpChain ( parse_postfix pe (k + 1)) is_mul_op p0 pairs (e :: q))
    (he : is_mul_op e.t = false) :
    parse_multiplicative pe (k + 1) p = .ok (left_nested mk_binop x0 pairs, e :: q) := by
  simp only [parse_multiplicative, h0, bind, Except.bind]
  exact chain_fold (multiplicative_loop pe (k + 1)) _ is_mul_op mk_binop
    (fun k left right t rest p2 ht hr => multiplicative_loop_step pe _ k left right t rest p2 ht hr)
    (e :: q) (fun k left => multiplicative_loop_stop pe _ k left e q he) p0 pairs hc x0 k hlen

theorem add_chain (pe : Parser → Except Fail (AstNode × Parser)) (k : Nat) (p p0 q : Parser)
    (x0 : AstNode) (pairs : List (Tok × AstNode)) (e : Tok) (hlen : pairs.length ≤ k)
    (h0 : parse_multiplicative pe (k + 1) p = .ok (x0, p0))
    (hc : OpChain (parse_multiplicative pe (k + 1)) is_add_op p0 pairs (e :: q))
    (he : is_add_op e.t = false) :
    parse_additive pe (k + 1) p = .ok (left_nested mk_binop x0 pairs, e :: q) := by
  simp only [parse_additive, h0, bind, Except.bind]
  exact chain_fold (additive_loop pe (k + 1)) _ is_add_op mk_binop
    (fun k left right t rest p2 ht hr => additive_loop_step pe _ k left right t rest p2 ht hr)
    (e :: q) (fun k left => additive_loop_stop pe _ k left e q he) p0 pairs hc x0 k hlen

theorem cmp_chain (pe : Parser → Except Fail (AstNode × Parser)) (k : Nat) (p p0 q : Parser)
    (x0 : AstNode) (pairs : List (Tok × AstNode)) (e : Tok) (hlen : pairs.length ≤ k)
    (h0 : parse_additive pe (k + 1) p = .ok (x0, p0))
    (hc : OpChain (parse_additive pe (k + 1)) is_cmp_op p0 pairs (e :: q))
    (he : is_cmp_op e.t = false) :
    parse_comparison pe (k + 1) p = .ok (left_nested mk_compare x0 pairs, e :: q) := by
  simp only [parse_comparison, h0, bind, Except.bind]
  exact chain_fold (comparison_loop pe (k + 1)) _ is_cmp_op mk_compare
    (fun k left right t rest p2 ht hr => comparison_loop_step pe _ k left right t rest p2 ht hr)
    (e :: q) (fun k left => comparison_loop_stop pe _ k left e q he) p0 pairs hc x0 k hlen

/-- C28 fails for an assignment operand. With the primary `x = 1` in the
place of `a`, the tokens of `a - b - c` are `x = 1 - b - c` and parse to
`Assign(x, BinOp(-, BinOp(-, 1, b), c))`, not to
`BinOp(-, BinOp(-, Assign(x, 1), b), c)`; with it in the place of `b`, the
tokens `a - x = 1 - c` parse to `BinOp(-, a, Assign(x, BinOp(-, 1, c)))`, not
to `BinOp(-, BinOp(-, a, Assign(x, 1)), c)`. -/
theorem C28_counterexample :
    parse_expr 6 c28_assign_first
        = .ok (assign_node "x".toList
            (mk_binop ⟨.T_MINUS, "-".toList⟩
              (mk_binop ⟨.T_MINUS, "-".toList⟩ (num_node "1".toList) (ident_node "b".toList))
              (ident_node "c".toList)),
            [⟨.T_SEMI, ";".toList⟩])
    ∧ parse_expr 6 c28_assign_first
        ≠ .ok (mk_binop ⟨.T_MINUS, "-".toList⟩
            (mk_binop ⟨.T_MINUS, "-".toList⟩ (assign_node "x".toList (num_node "1".toList))
              (ident_node "b".toList))
            (ident_node "c".toList),
            [⟨.T_SEMI, ";".toList⟩])
    ∧ parse_expr 6 c28_assign_second
        = .ok (mk_binop ⟨.T_MINUS, "-".toList⟩ (ident_node "a".toList)
            (assign_node "x".toList
              (mk_binop ⟨.T_MINUS, "-".toList⟩ (num_node "1".toList) (ident_node "c".toList))),
            [⟨.T_SEMI, ";".toList⟩])
    ∧ parse_expr 6 c28_assign_second
        ≠ .ok (mk_binop ⟨.T_MINUS, "-".toList⟩
            (mk_binop ⟨.T_MINUS, "-".toList⟩ (ident_node "a".toList)
              (assign_node "x".toList (num_node "1".toList)))
            (ident_node "c".toList),
            [⟨.T_SEMI, ";".toList⟩]) := by
  have h1 : parse_expr 6 c28_assign_first
      = .ok (assign_node "x".toList
          (mk_binop ⟨.T_MINUS, "-".toList⟩
            (mk_binop ⟨.T_MINUS, "-".toList⟩ (num_node "1".toList) (ident_node "b".toList))
            (ident_node "c".toList)),
          [⟨.T_SEMI, ";".toList⟩]) := by rfl
  have h2 : parse_expr 6 c28_assign_second
      = .ok (mk_binop ⟨.T_MINUS, "-".toList⟩ (ident_node "a".toList)
          (assign_node "x".toList
            (mk_binop ⟨.T_MINUS, "-".toList⟩ (num_node "1".toList) (ident_node "c".toList))),
          [⟨.T_SEMI, ";".toList⟩]) := by rfl
  refine ⟨h1, ?_, h2, ?_⟩
  · rw [h1]
    intro h
    simp [assign_node, mk_binop, ast_add, ast_new] at h
  · rw [h2]
    intro h
    simp [assign_node, mk_binop, ast_add, ast_new, ident_node, num_node] at h

/-- C28 (amended): the operators of one precedence level associate to the
left, for operands that end where the operator follows. A chain
`x0 op1 x1 ... opn xn` of operands joined by operators of one level (`*` and
`/`; `+` and `-`; the six comparisons), each operand read by the parser of
the next level up to the operator that follows it, and the last followed by
a token that continues no expression of that level or a looser one, is
parsed by `parse_expr` into the left-nested tree
`op_n(... op_2(op_1(x0, x1), x2) ..., xn)`: so `a - b - c` is
`BinOp(-, BinOp(-, a, b), c)`, `a / b * c` is `BinOp(*, BinOp(/, a, b), c)`
and `a < b == c` is `Compare(==, Compare(<, a, b), c)`. The one operand that
never ends before an operator is the assignment `x = e`: its right side is
read by `parse_expr` and takes the rest of the chain, so the tokens `x = `
followed by a chain parse to the assignment of the tree of that chain. Every
other primary ends with its last token, whatever follows: a number, a
string, an identifier that is followed by none of `{`, `(` and `=`, a
parenthesised expression at its `)`, a call at its `)`, an array literal at
its `]` and a struct literal at its closing brace. -/
theorem C28_one_level_associates_left (k : Nat) (p p0 q : Parser) (x0 : AstNode)
    (pairs : List (Tok × AstNode)) (e : Tok) (hlen : pairs.length ≤ k) :
    ( parse_postfix (parse_expr (k + 1)) (k + 1) p = .ok (x0, p0) →
      OpChain ( parse_postfix (parse_expr (k + 1)) (k + 1)) is_mul_op p0 pairs (e :: q) →
      is_mul_op e.t = false → is_add_op e.t = false → is_cmp_op e.t = false →
      parse_expr (k + 2) p = .ok (left_nested mk_binop x0 pairs, e :: q))
    ∧ (parse_multiplicative (parse_expr (k + 1)) (k + 1) p = .ok (x0, p0) →
      OpChain (parse_multiplicative (parse_expr (k + 1)) (k + 1)) is_add_op p0 pairs (e :: q) →
      is_add_op e.t = false → is_cmp_op e.t = false →
      parse_expr (k + 2) p = .ok (left_nested mk_binop x0 pairs, e :: q))
    ∧ (parse_additive (parse_expr (k + 1)) (k + 1) p = .ok (x0, p0) →
      OpChain (parse_additive (parse_expr (k + 1)) (k + 1)) is_cmp_op p0 pairs (e :: q) →
      is_cmp_op e.t = false →
      parse_expr (k + 2) p = .ok (left_nested mk_compare x0 pairs, e :: q))
    ∧ (∀ (mk : Tok → AstNode → AstNode → AstNode) (a b c : AstNode) (o1 o2 : Tok),
        left_nested mk a [(o1, b), (o2, c)] = mk o2 (mk o1 a b) c)
    ∧ (∀ (f fuel : Nat) (x eq o : Tok) (s r : Parser) (n : AstNode),
        x.t = .T_IDENT → eq.t = .T_EQ →
        parse_primary (parse_expr f) fuel (x :: eq :: s) = .ok (n, o :: r) →
        continues_expr o.t = false)
    ∧ (∀ (f : Nat) (x eq t : Tok) (s r : Parser) (rhs : AstNode),
        x.t = .T_IDENT → eq.t = .T_EQ →
        parse_expr (f + 1) s = .ok (rhs, t :: r) →
        parse_expr (f + 2) (x :: eq :: s) = .ok (assign_node x.s rhs, t :: r))
    ∧ (∀ (pe : Parser → Except Fail (AstNode × Parser)) (fuel : Nat),
        (∀ (k : Tok) (s : Parser), k.t = .T_NUM →
          parse_primary pe fuel (k :: s)
            = .ok ({ ast_new .AST_NUMBER with value := some k.s }, s))
        ∧ (∀ (k : Tok) (s : Parser), k.t = .T_STR →
          parse_primary pe fuel (k :: s)
            = .ok ({ ast_new .AST_STRING with value := some (str_value k) }, s))
        ∧ (∀ (x t : Tok) (s : Parser), x.t = .T_IDENT →
          t.t ≠ .T_LBRACE → t.t ≠ .T_LPAREN → t.t ≠ .T_EQ →
          parse_primary pe fuel (x :: t :: s)
            = .ok ({ ast_new .AST_IDENT with name := some x.s }, t :: s))
        ∧ (∀ (l r : Tok) (s s2 : Parser) (n : AstNode), l.t = .T_LPAREN →
          pe s = .ok (n, r :: s2) → r.t = .T_RPAREN →
          parse_primary pe fuel (l :: s) = .ok (n, s2))
        ∧ (∀ (x l r : Tok) (s s2 : Parser) (call : AstNode), x.t = .T_IDENT → l.t = .T_LPAREN →
          expr_list_loop pe .T_RPAREN fuel { ast_new .AST_CALL with name := some x.s } s
            = .ok (call, r :: s2) → r.t = .T_RPAREN →
          parse_primary pe fuel (x :: l :: s) = .ok (call, s2))
        ∧ (∀ (l r : Tok) (s s2 : Parser) (arr : AstNode), l.t = .T_LBRACKET →
          expr_list_loop pe .T_RBRACKET fuel (ast_new .AST_ARRAY_LITERAL) s
            = .ok (arr, r :: s2) → r.t = .T_RBRACKET →
          parse_primary pe fuel (l :: s)
            = .ok ({ arr with array_size := arr.child_count }, s2))
        ∧ (∀ (x l r : Tok) (s s2 : Parser) (lit : AstNode), x.t = .T_IDENT → l.t = .T_LBRACE →
          struct_lit_loop pe fuel { ast_new .AST_STRUCT_LITERAL with struct_type := some x.s } s
            = .ok (lit, r :: s2) → r.t = .T_RBRACE →
          parse_primary pe fuel (x :: l :: s) = .ok (lit, s2))) := by
  refine ⟨?_, ?_, ?_, fun _ _ _ _ _ _ => rfl,
    fun f fuel x eq o s r n hx heq hp => assign_primary_takes_the_rest f fuel x eq o s r n hx heq hp,
    fun f x eq t s r rhs hx heq hr => parse_expr_assign f x eq t s r rhs hx heq hr,
    fun pe fuel => primary_ends_at_its_last_token pe fuel⟩
  · intro h0 hc h1 h2 h3
    have hm := mul_chain (parse_expr (k + 1)) k p p0 q x0 pairs e hlen h0 hc h1
    show parse_comparison (parse_expr (k + 1)) (k + 1) p = _
    simp only [parse_comparison, parse_additive, hm, bind, Except.bind]
    rw [additive_loop_stop _ _ k _ e q h2]
    exact comparison_loop_stop _ _ k _ e q h3
  · intro h0 hc h2 h3
    have hm := add_chain (parse_expr (k + 1)) k p p0 q x0 pairs e hlen h0 hc h2
    show parse_comparison (parse_expr (k + 1)) (k + 1) p = _
    simp only [parse_comparison, hm, bind, Except.bind]
    exact comparison_loop_stop _ _ k _ e q h3
  · intro h0 hc h3
    exact cmp_chain (parse_expr (k + 1)) k p p0 q x0 pairs e hlen h0 hc h3

/-- C28 at the tokens of `a - b - c ;`, `a / b * c ;` and `a < b == c ;`. -/
theorem C28_witness :
    parse_expr 4 c28_sub
        = .ok (mk_binop ⟨.T_MINUS, "-".toList⟩
            (mk_binop ⟨.T_MINUS, "-".toList⟩ (ident_node "a".toList) (ident_node "b".toList))
            (ident_node "c".toList), [⟨.T_SEMI, ";".toList⟩])
    ∧ parse_expr 4 c28_div
        = .ok (mk_binop ⟨.T_STAR, "*".toList⟩
            (mk_binop ⟨.T_SLASH, "/".toList⟩ (ident_node "a".toList) (ident_node "b".toList))
            (ident_node "c".toList), [⟨.T_SEMI, ";".toList⟩])
    ∧ parse_expr 4 c28_cmp
        = .ok (mk_compare ⟨.T_EQEQ, "==".toList⟩
            (mk_compare ⟨.T_LT, "<".toList⟩ (ident_node "a".toList) (ident_node "b".toList))
            (ident_node "c".toList), [⟨.T_SEMI, ";".toList⟩]) :=
  ⟨(C28_one_level_associates_left 2 c28_sub (c28_sub.drop 1) [] (ident_node "a".toList)
      [(⟨.T_MINUS, "-".toList⟩, ident_node "b".toList),
       (⟨.T_MINUS, "-".toList⟩, ident_node "c".toList)] ⟨.T_SEMI, ";".toList⟩ (by decide)).2.1
      rfl (.step _ _ _ _ _ _ rfl rfl (.step _ _ _ _ _ _ rfl rfl (.done _))) rfl rfl,
   (C28_one_level_associates_left 2 c28_div (c28_div.drop 1) [] (ident_node "a".toList)
      [(⟨.T_SLASH, "/".toList⟩, ident_node "b".toList),
       (⟨.T_STAR, "*".toList⟩, ident_node "c".toList)] ⟨.T_SEMI, ";".toList⟩ (by decide)).1
      rfl (.step _ _ _ _ _ _ rfl rfl (.step _ _ _ _ _ _ rfl rfl (.done _))) rfl rfl rfl,
   (C28_one_level_associates_left 2 c28_cmp (c28_cmp.drop 1) [] (ident_node "a".toList)
      [(⟨.T_LT, "<".toList⟩, ident_node "b".toList),
       (⟨.T_EQEQ, "==".toList⟩, ident_node "c".toList)] ⟨.T_SEMI, ";".toList⟩ (by decide)).2.2.1
      rfl (.step _ _ _ _ _ _ rfl rfl (.step _ _ _ _ _ _ rfl rfl (.done _))) rfl⟩

/-! ## Arguments of a call -/

theorem division_overwrites_rdx (m m1 : Machine)
    (h : run (binop_lines "/".toList) m = .fell_through m1) :
    m1.rdx = (Int.tmod m.rax (to_signed m.rbx)) % W64 := by
  have hl : binop_lines "/".toList = [.xor_rdx_rdx, .idiv_rbx] := by decide
  have h0 : to_signed 0 = 0 := by decide
  rw [hl] at h
  simp only [run, exec, h0, zero_mul, zero_add] at h
  split_ifs at h
  · simp only [Run.fell_through.injEq] at h
    subst h
    rfl

/-- C29 (the code departs from the claim): a division in a later argument
destroys the third argument. The lines of `/` are `xor rdx, rdx` and
`idiv rbx`, which leave the remainder in `rdx`, the register of the third
argument. For `f(1, 2, 3, 8 / 2)` the code of `main` moves 3 into `rdx` and
then evaluates `8 / 2`: when the `call` is reached the argument registers
hold 1, 2, 0, 4 in place of 1, 2, 3, 4. With the quotient written out,
`f(1, 2, 3, 4)`, they hold 1, 2, 3, 4. -/
theorem C29_division_destroys_third_argument :
    (∀ m m1 : Machine, run (binop_lines "/".toList) m = .fell_through m1 →
        m1.rdx = (Int.tmod m.rax (to_signed m.rbx)) % W64)
    ∧ (compile c29_source).map (fun cg => before_call (func_code "main".toList cg.code))
        = some [.func_label "main".toList, .push_rbp, .mov_rbp_rsp, .sub_rsp_128,
            .mov_rax_s "1".toList, .mov_reg_rax "rdi", .mov_rax_s "2".toList,
            .mov_reg_rax "rsi", .mov_rax_s "3".toList, .mov_reg_rax "rdx",
            .mov_rax_s "8".toList, .push_rax, .mov_rax_s "2".toList, .mov_rbx_rax, .pop_rax,
            .xor_rdx_rdx, .idiv_rbx, .mov_reg_rax "rcx"]
    ∧ args_at_call c29_source (entry_state 0 4096 0) = some (some [1, 2, 0, 4, 0, 0])
    ∧ args_at_call c29_plain_source (entry_state 0 4096 0) = some (some [1, 2, 3, 4, 0, 0]) :=
  ⟨division_overwrites_rdx, by decide!, by decide!, by decide!⟩

/-- C29, at a concrete state: with 3 in `rdx`, the lines of `8 / 2` leave
the remainder 0 there. -/
theorem C29_witness :
    ∃ m1, run (binop_lines "/".toList) c29_state = .fell_through m1
      ∧ m1.rdx = (Int.tmod c29_state.rax (to_signed c29_state.rbx)) % W64
      ∧ (Int.tmod c29_state.rax (to_signed c29_state.rbx)) % W64 = 0 ∧ c29_state.rdx = 3 :=
  ⟨_, rfl, C29_division_destroys_third_argument.1 c29_state _ rfl, by decide, rfl⟩

/-! ## Array elements -/

theorem gen_expr_index (cg : Codegen) (arr k : AstNode) (rest : List AstNode)
    (name value op stt : Option (List Char)) (asz : Int) (sym : Symbol)
    (hl : symtab_lookup_symbol cg.symtab arr.name = some (some sym)) :
    gen_expr cg ⟨.AST_INDEX, name, arr :: k :: rest, value, op, asz, stt⟩
      = (gen_expr cg k).bind
          (fun c => some (emit c [.imul_rax_8, .mov_rbx_rax, .load_rax_rbx sym.offset])) := by
  simp only [gen_expr, hl, Option.bind_eq_bind, Option.some_bind, emit, List.append_assoc]
  rfl

theorem array_symbol_found (st : SymbolTable) (a : List Char) (n : Nat) (more : List Symbol)
    (ss : Int) (h : ∀ s ∈ st.symbols, s.name ≠ a) :
    symtab_lookup_symbol
        (some { symbols := (symtab_with_array st a n).symbols ++ more, stack_size := ss })
        (some a)
      = some (some (array_symbol st a n)) := by
  simp only [symtab_lookup_symbol, symtab_with_array, List.append_assoc, List.singleton_append]
  exact lookup_symbol_loop_fresh a (array_symbol st a n) rfl st.symbols more h

theorem index_load_address (m : Machine) (base i : Int) (h0 : 0 ≤ i)
    (h1 : i < 1152921504606846976) (ha : (m.rbp + base) % 8 = 0) (hr : m.rax = i) :
    run [.imul_rax_8, .mov_rbx_rax, .load_rax_rbx base] m
      = .fell_through { m with rax := m.mem (m.rbp + (base + 8 * i)), rbx := 8 * i,
                               flags := none } := by
  have hs : to_signed i = i := by
    simp only [to_signed]; rw [if_pos (by omega)]
  have hm : (i * 8) % W64 = 8 * i := by
    rw [Int.emod_eq_of_lt (by omega) (by simp only [W64]; omega)]; ring
  have hs2 : to_signed (8 * i) = 8 * i := by
    simp only [to_signed]; rw [if_pos (by omega)]
  have e8 : (m.rbp + base + 8 * i) % 8 = 0 := by omega
  have e9 : m.rbp + base + 8 * i = m.rbp + (base + 8 * i) := by ring
  have e10 : (8 : Int) ∣ m.rbp + (base + 8 * i) := by omega
  simp [run, exec, Machine.load, hr, hs, hm, hs2, e8, e9, e10]

theorem store_address (m : Machine) (base i : Int) (ha : (m.rbp + base) % 8 = 0) :
    exec (.store_rax (base + 8 * i)) m
      = .ok { m with mem := fun x => if x = m.rbp + (base + 8 * i) then m.rax else m.mem x } := by
  have e8 : (m.rbp + (base + 8 * i)) % 8 = 0 := by omega
  simp [exec, Machine.store, e8]

theorem gen_expr_index_declared (cg : Codegen) (st : SymbolTable) (a : List Char) (n : Nat)
    (more : List Symbol) (ss : Int) (k : AstNode)
    (hst : cg.symtab
      = some { symbols := (symtab_with_array st a n).symbols ++ more, stack_size := ss })
    (h : ∀ s ∈ st.symbols, s.name ≠ a) :
    gen_expr cg (index_node (ident_node a) k)
      = (gen_expr cg k).bind (fun c => some (emit c
          [.imul_rax_8, .mov_rbx_rax, .load_rax_rbx (-(st.stack_size + (n : Int) * 8))])) := by
  have hl : symtab_lookup_symbol cg.symtab (ident_node a).name
      = some (some (array_symbol st a n)) := by
    rw [hst]
    exact array_symbol_found st a n more ss h
  exact gen_expr_index cg (ident_node a) k [] none none none none 0 _ hl

/-- C30: an index expression reads the slot its element was written to.
`let a = [e0, ..., e(n-1)];` declares `a` with `n` slots at
`base = -(stack_size + 8n)` and stores element `i` at `base + 8 * i`. Where
`a` was not declared before, a later `a[k]` finds that symbol (whatever was
declared after it) and emits the code of `k`, then `imul rax, 8`,
`mov rbx, rax` and `mov rax, [rbp+base+rbx]`, with no test of `k` against
`n` and no jump. Run with the index `i` in `rax`, `0 <= i`, these lines load
the word at `rbp + base + 8 * i`, the address the store of element `i`
writes. -/
theorem C30_index_reads_the_element_slot :
    (∀ (cg : Codegen) (st : SymbolTable) (a : List Char) (elems : List AstNode),
        cg.symtab = some st →
        gen_stmt cg (let_node a (array_lit_node elems))
          = (array_elems_by_spec
              (emit { cg with symtab := some (symtab_with_array st a elems.length) }
                [.comment_array_literal])
              (-(st.stack_size + (elems.length : Int) * 8)) 0 elems).bind
              (fun c => some (emit c [.lea_rax (-(st.stack_size + (elems.length : Int) * 8))])))
    ∧ (∀ (cg : Codegen) (st : SymbolTable) (a : List Char) (n : Nat) (more : List Symbol)
        (ss : Int) (k : AstNode),
        cg.symtab
          = some { symbols := (symtab_with_array st a n).symbols ++ more, stack_size := ss } →
        (∀ s ∈ st.symbols, s.name ≠ a) →
        gen_expr cg (index_node (ident_node a) k)
          = (gen_expr cg k).bind (fun c => some (emit c
              [.imul_rax_8, .mov_rbx_rax,
               .load_rax_rbx (-(st.stack_size + (n : Int) * 8))])))
    ∧ (∀ (m : Machine) (base i : Int), 0 ≤ i → i < 1152921504606846976 →
        (m.rbp + base) % 8 = 0 → m.rax = i →
        run [.imul_rax_8, .mov_rbx_rax, .load_rax_rbx base] m
          = .fell_through { m with rax := m.mem (m.rbp + (base + 8 * i)), rbx := 8 * i,
                                   flags := none })
    ∧ (∀ (m : Machine) (base i : Int), (m.rbp + base) % 8 = 0 →
        exec (.store_rax (base + 8 * i)) m
          = .ok { m with
              mem := fun x => if x = m.rbp + (base + 8 * i) then m.rax else m.mem x })
    ∧ render_code [.imul_rax_8, .mov_rbx_rax, .load_rax_rbx (-24)]
        = "    imul rax, 8\n    mov rbx, rax\n    mov rax, [rbp-24+rbx]\n"
    ∧ (compile c30_source).map (fun cg => func_code "main".toList cg.code)
        = some [.func_label "main".toList, .push_rbp, .mov_rbp_rsp, .sub_rsp_128,
            .comment_array_literal, .mov_rax_s "10".toList, .store_rax (-24),
            .mov_rax_s "20".toList, .store_rax (-16), .mov_rax_s "30".toList, .store_rax (-8),
            .lea_rax (-24), .mov_rax_s "1".toList, .imul_rax_8, .mov_rbx_rax,
            .load_rax_rbx (-24), .leave, .ret, .xor_rax_rax, .leave, .ret]
    ∧ (run_main c30_source (entry_state 0 4096 0)).map Run.result = some (some 20) :=
  ⟨gen_let_array, gen_expr_index_declared, index_load_address, store_address, by decide,
    by decide!, by decide!⟩

/-- C30 at the array `a` of three elements at `base = -24` and the index 1:
the lines load the word at `rbp - 16`, where element 1 is stored; and
`a[1]` compiled after `let a = [10, 20, 30];` is the code of `1` followed by
the three lines. -/
theorem C30_witness :
    run [.imul_rax_8, .mov_rbx_rax, .load_rax_rbx (-24)] c30_state
        = .fell_through { c30_state with
            rax := c30_state.mem (c30_state.rbp + (-24 + 8 * 1)), rbx := 8 * 1, flags := none }
    ∧ gen_expr
        { body_start with symtab := some (symtab_with_array symtab_new "a".toList 3) }
        (index_node (ident_node "a".toList) (num_node "1".toList))
      = some (emit
          { body_start with symtab := some (symtab_with_array symtab_new "a".toList 3) }
          [.mov_rax_s "1".toList, .imul_rax_8, .mov_rbx_rax, .load_rax_rbx (-24)]) :=
  ⟨C30_index_reads_the_element_slot.2.2.1 c30_state (-24) 1 (by decide) (by decide)
      (by decide) rfl,
   (C30_index_reads_the_element_slot.2.1
      { body_start with symtab := some (symtab_with_array symtab_new "a".toList 3) }
      symtab_new "a".toList 3 [] 24 (num_node "1".toList) (by decide)
      (by simp [symtab_new])).trans (by decide)⟩

/-! ## Parameters -/

theorem gen_params_by_spec (names : List (List Char)) :
    ∀ (cs : List AstNode) (rs : List String) (cg : Codegen) (st : SymbolTable) (k : Nat),
      cs.map (fun c => c.name) = names.map some → st.stack_size = 8 * (k : Int) →
      gen_params cg st cs rs
        = some (emit cg ((param_slots_by_spec k names rs).map Prod.snd),
            { symbols := st.symbols ++ (param_slots_by_spec k names rs).map Prod.fst,
              stack_size := 8 * ((k + (names.zip rs).length : Nat) : Int) }) := by
  induction names with
  | nil =>
    intro cs rs cg st k hc hk
    have : cs = [] := by simpa using hc
    subst this
    obtain ⟨sy, ss⟩ := st
    simp only at hk
    subst hk
    simp [gen_params, param_slots_by_spec, emit]
  | cons x xs ih =>
    intro cs rs cg st k hc hk
    cases cs with
    | nil => simp at hc
    | cons c cs =>
      simp only [List.map_cons, List.cons.injEq] at hc
      obtain ⟨hx, hc⟩ := hc
      cases rs with
      | nil =>
        obtain ⟨sy, ss⟩ := st
        simp only at hk
        subst hk
        simp [gen_params, param_slots_by_spec, emit]
      | cons r rs =>
        have e8 : st.stack_size + 1 * 8 = 8 * ((k : Int) + 1) := by rw [hk]; ring
        simp only [gen_params, hx, symtab_add, Option.bind_eq_bind, Option.some_bind, e8]
        rw [ih cs rs _ _ (k + 1) hc (by simp)]
        simp only [param_slots_by_spec, List.zip_cons_cons, List.enumFrom_cons, List.map_cons,
          emit, List.append_assoc, List.singleton_append, List.length_cons, Option.some.injEq,
          Prod.mk.injEq]
        refine ⟨rfl, ?_⟩
        congr 2
        push_cast
        ring

theorem param_slots_length (k : Nat) (names : List (List Char)) :
    (param_slots_by_spec k names regs).length = min names.length 6 := by
  simp [param_slots_by_spec, regs]

theorem param_slots_get (names : List (List Char)) (i : Nat) (x : List Char) (r : String)
    (hx : names[i]? = some x) (hr : regs[i]? = some r) :
    (param_slots_by_spec 0 names regs)[i]?
      = some ({ name := x, offset := -8 * ((i : Int) + 1), size := 1, type_name := none },
              .store_reg (-8 * ((i : Int) + 1)) r) := by
  have hz : (names.zip regs)[i]? = some (x, r) := List.getElem?_zip_eq_some.mpr ⟨hx, hr⟩
  simp [param_slots_by_spec, List.getElem?_enumFrom, hz]

theorem gen_func_by_spec (cg : Codegen) (nm : List Char) (names : List (List Char))
    (cs : List AstNode) (body : AstNode) (value op stt : Option (List Char)) (asz : Int)
    (hc : cs.map (fun c => c.name) = names.map some) :
    gen_func cg ⟨.AST_FUNCTION, some nm, cs ++ [body], value, op, asz, stt⟩
      = (gen_stmts
          { cg with
            symtab := some
              { symbols := (param_slots_by_spec 0 names regs).map Prod.fst,
                stack_size := 8 * ((min names.length 6 : Nat) : Int) },
            code := cg.code ++ ([.func_label nm, .push_rbp, .mov_rbp_rsp]
              ++ (param_slots_by_spec 0 names regs).map Prod.snd ++ [.sub_rsp_128]) }
          body.children).map
          (fun c => { emit c [.xor_rax_rax, .leave, .ret] with symtab := cg.symtab }) := by
  have hp := gen_params_by_spec names cs regs
    (emit (emit cg [.func_label nm]) [.push_rbp, .mov_rbp_rsp]) symtab_new 0 hc
    (by simp [symtab_new])
  have hl : (names.zip regs).length = min names.length 6 := by simp [regs]
  have hlast : (cs ++ [body]).getLast? = some body := by simp
  have hdl : (cs ++ [body]).dropLast = cs := by simp
  simp only [gen_func, hlast, hdl, Option.bind_eq_bind, Option.some_bind, hp, gen_block_eq]
  simp only [emit, symtab_new, List.nil_append, Nat.zero_add, hl, List.append_assoc,
    List.singleton_append, List.cons_append]
  cases gen_stmts _ body.children <;> rfl

theorem param_slots_names (k : Nat) (names : List (List Char)) (rs : List String) :
    ∀ s ∈ (param_slots_by_spec k names rs).map Prod.fst, s.name ∈ names.take rs.length := by
  induction names generalizing k rs with
  | nil => intro s hs; simp [param_slots_by_spec] at hs
  | cons x xs ih =>
    intro s hs
    cases rs with
    | nil => simp [param_slots_by_spec] at hs
    | cons r rs =>
      simp only [param_slots_by_spec, List.zip_cons_cons, List.enumFrom_cons, List.map_cons,
        List.mem_cons] at hs
      rcases hs with rfl | hs
      · simp
      · have := ih (k + 1) rs s (by simpa [param_slots_by_spec] using hs)
        simp only [List.length_cons, List.take_succ_cons, List.mem_cons]
        exact Or.inr this

/-- C31: `gen_func` binds the first six parameters. For a function node
with the parameters `names` and the body `body` as last child, `gen_func`
emits the label, `push rbp`, `mov rbp, rsp`, then for each of the first
`min(p, 6)` parameters one copy `mov [rbp-8*(i+1)], reg_i` from the `i`-th
of `rdi, rsi, rdx, rcx, r8, r9`, then `sub rsp, 128`; it generates the
statements of the body in a fresh table that holds exactly those
parameters, parameter `i` at offset `-8 * (i + 1)`, and ends with
`xor rax, rax`, `leave`, `ret`. A parameter at index 6 or more has no symbol:
a name that is not among the first six is compiled as an unknown name at the
start of the body. -/
theorem C31_first_six_parameters_are_bound :
    (∀ (cg : Codegen) (nm : List Char) (names : List (List Char)) (cs : List AstNode)
        (body : AstNode) (value op stt : Option (List Char)) (asz : Int),
        cs.map (fun c => c.name) = names.map some →
        gen_func cg ⟨.AST_FUNCTION, some nm, cs ++ [body], value, op, asz, stt⟩
          = (gen_stmts
              { cg with
                symtab := some
                  { symbols := (param_slots_by_spec 0 names regs).map Prod.fst,
                    stack_size := 8 * ((min names.length 6 : Nat) : Int) },
                code := cg.code ++ ([.func_label nm, .push_rbp, .mov_rbp_rsp]
                  ++ (param_slots_by_spec 0 names regs).map Prod.snd ++ [.sub_rsp_128]) }
              body.children).map
              (fun c => { emit c [.xor_rax_rax, .leave, .ret] with symtab := cg.symtab }))
    ∧ (∀ names : List (List Char),
        (param_slots_by_spec 0 names regs).length = min names.length 6)
    ∧ (∀ (names : List (List Char)) (i : Nat) (x : List Char) (r : String),
        names[i]? = some x → regs[i]? = some r →
        (param_slots_by_spec 0 names regs)[i]?
          = some ({ name := x, offset := -8 * ((i : Int) + 1), size := 1, type_name := none },
                  .store_reg (-8 * ((i : Int) + 1)) r))
    ∧ regs = ["rdi", "rsi", "rdx", "rcx", "r8", "r9"]
    ∧ (∀ (cg : Codegen) (names : List (List Char)) (ss : Int) (x : List Char),
        cg.symtab = some { symbols := (param_slots_by_spec 0 names regs).map Prod.fst,
                           stack_size := ss } →
        x ∉ names.take 6 →
        gen_expr cg (ident_node x) = some (emit cg [.mov_rax_0_unknown x]))
    ∧ (Asm.store_reg (-8) "rdi").render = "    mov [rbp-8], rdi\n"
    ∧ (compile c31_source).map (fun cg => func_code "h".toList cg.code)
      = some [.func_label "h".toList, .push_rbp, .mov_rbp_rsp,
          .store_reg (-8) "rdi", .store_reg (-16) "rsi", .store_reg (-24) "rdx",
          .store_reg (-32) "rcx", .store_reg (-40) "r8", .store_reg (-48) "r9", .sub_rsp_128,
          .load_rax (-8), .store_rax (-56), .mov_rax_0_unknown "g".toList, .leave, .ret,
          .xor_rax_rax, .leave, .ret] := by
  refine ⟨gen_func_by_spec, param_slots_length 0, param_slots_get, rfl, ?_, by decide,
    by decide!⟩
  intro cg names ss x hst hx
  exact gen_expr_ident_unknown cg _ x [] none none none 0 hst
    (fun s hs hname => hx (hname ▸ param_slots_names 0 names regs s hs))

/-- C31 at a function with the seven parameters `a` to `g`: the slots of
`a` and of `f`, the count of six, and the seventh name unknown in the
body. -/
theorem C31_witness :
    (param_slots_by_spec 0
        ["a".toList, "b".toList, "c".toList, "d".toList, "e".toList, "f".toList, "g".toList]
        regs).length = min 7 6
    ∧ (param_slots_by_spec 0
        ["a".toList, "b".toList, "c".toList, "d".toList, "e".toList, "f".toList, "g".toList]
        regs)[5]?
      = some ({ name := "f".toList, offset := -8 * (((5 : Nat) : Int) + 1), size := 1,
                type_name := none },
              .store_reg (-8 * (((5 : Nat) : Int) + 1)) "r9")
    ∧ gen_expr
        { body_start with
          symtab := some
            { symbols := (param_slots_by_spec 0
                ["a".toList, "b".toList, "c".toList, "d".toList, "e".toList, "f".toList,
                 "g".toList] regs).map Prod.fst,
              stack_size := 48 } }
        (ident_node "g".toList)
      = some (emit
        { body_start with
          symtab := some
            { symbols := (param_slots_by_spec 0
                ["a".toList, "b".toList, "c".toList, "d".toList, "e".toList, "f".toList,
                 "g".toList] regs).map Prod.fst,
              stack_size := 48 } }
        [.mov_rax_0_unknown "g".toList]) :=
  ⟨C31_first_six_parameters_are_bound.2.1 _,
   C31_first_six_parameters_are_bound.2.2.1 _ 5 "f".toList "r9" rfl rfl,
   C31_first_six_parameters_are_bound.2.2.2.2.1 _
     ["a".toList, "b".toList, "c".toList, "d".toList, "e".toList, "f".toList, "g".toList]
     48 "g".toList rfl (by decide)⟩

/-! ## Commas in lists -/

theorem expr_list_item (pe : Parser → Except Fail (AstNode × Parser)) (close : TokType)
    (f : Nat) (n e : AstNode) (k t : Tok) (ps rest : Parser)
    (hk : k.t ≠ close) (he : pe (k :: ps) = .ok (e, t :: rest)) :
    (t.t = close →
      expr_list_loop pe close (f + 2) n (k :: ps) = .ok (ast_add n e, t :: rest))
    ∧ (t.t ≠ close → t.t = .T_COMMA →
      expr_list_loop pe close (f + 1) n (k :: ps) = expr_list_loop pe close f (ast_add n e) rest)
    ∧ (t.t ≠ close → t.t ≠ .T_COMMA →
      expr_list_loop pe close (f + 1) n (k :: ps) = .error .parse_error) := by
  refine ⟨?_, ?_, ?_⟩
  · intro h1
    simp [expr_list_loop, check_tok, peek_tok, hk, he, h1, bind, Except.bind, pure,
      Except.pure]
  · intro h1 h2
    have h3 : TokType.T_COMMA ≠ close := by rw [← h2]; exact h1
    simp [expr_list_loop, check_tok, peek_tok, expect, match_tok, advance_tok, hk, he, h1, h2,
      h3, bind, Except.bind, pure, Except.pure]
  · intro h1 h2
    simp [expr_list_loop, check_tok, peek_tok, expect, match_tok, advance_tok, hk, he, h1, h2,
      bind, Except.bind, pure, Except.pure]

theorem struct_lit_item (pe : Parser → Except Fail (AstNode × Parser))
    (f : Nat) (n e : AstNode) (k c t : Tok) (ps rest : Parser)
    (hk : k.t ≠ .T_RBRACE) (hc : c.t = .T_COLON) (he : pe ps = .ok (e, t :: rest)) :
    (t.t = .T_RBRACE →
      struct_lit_loop pe (f + 2) n (k :: c :: ps)
        = .ok (ast_add n (ast_add { ast_new .AST_IDENT with name := some k.s } e), t :: rest))
    ∧ (t.t = .T_COMMA →
      struct_lit_loop pe (f + 1) n (k :: c :: ps)
        = struct_lit_loop pe f
            (ast_add n (ast_add { ast_new .AST_IDENT with name := some k.s } e)) rest)
    ∧ (t.t ≠ .T_RBRACE → t.t ≠ .T_COMMA →
      struct_lit_loop pe (f + 1) n (k :: c :: ps) = .error .parse_error) := by
  refine ⟨?_, ?_, ?_⟩
  · intro h1
    simp [struct_lit_loop, check_tok, peek_tok, expect, match_tok, advance_tok, hk, hc, he, h1,
      bind, Except.bind, pure, Except.pure]
  · intro h2
    have h1 : t.t ≠ .T_RBRACE := by rw [h2]; decide
    simp [struct_lit_loop, check_tok, peek_tok, expect, match_tok, advance_tok, hk, hc, he, h1,
      h2, bind, Except.bind, pure, Except.pure]
  · intro h1 h2
    simp [struct_lit_loop, check_tok, peek_tok, expect, match_tok, advance_tok, hk, hc, he, h1,
      h2, bind, Except.bind, pure, Except.pure]

theorem struct_def_item (f : Nat) (n : AstNode) (k c ty t : Tok) (rest : Parser)
    (hk : k.t ≠ .T_RBRACE) (hc : c.t = .T_COLON) :
    (t.t = .T_RBRACE →
      struct_def_loop (f + 2) n (k :: c :: ty :: t :: rest)
        = .ok (ast_add n { ast_new .AST_IDENT with name := some k.s }, t :: rest))
    ∧ (t.t = .T_COMMA →
      struct_def_loop (f + 1) n (k :: c :: ty :: t :: rest)
        = struct_def_loop f (ast_add n { ast_new .AST_IDENT with name := some k.s }) rest)
    ∧ (t.t ≠ .T_RBRACE → t.t ≠ .T_COMMA →
      struct_def_loop (f + 1) n (k :: c :: ty :: t :: rest) = .error .parse_error) := by
  refine ⟨?_, ?_, ?_⟩
  · intro h1
    simp [struct_def_loop, check_tok, peek_tok, expect, match_tok, advance_tok, hk, hc, h1,
      bind, Except.bind, pure, Except.pure]
  · intro h2
    have h1 : t.t ≠ .T_RBRACE := by rw [h2]; decide
    simp [struct_def_loop, check_tok, peek_tok, expect, match_tok, advance_tok, hk, hc, h1,
      h2, bind, Except.bind, pure, Except.pure]
  · intro h1 h2
    simp [struct_def_loop, check_tok, peek_tok, expect, match_tok, advance_tok, hk, hc, h1,
      h2, bind, Except.bind, pure, Except.pure]

theorem param_item (f : Nat) (n : AstNode) (k t : Tok) (rest : Parser)
    (hk : k.t ≠ .T_RPAREN) (ht : t.t ≠ .T_COLON) :
    (t.t = .T_RPAREN →
      param_loop (f + 2) n (k :: t :: rest)
        = .ok (ast_add n { ast_new .AST_IDENT with name := some k.s }, t :: rest))
    ∧ (t.t = .T_COMMA →
      param_loop (f + 1) n (k :: t :: rest)
        = param_loop f (ast_add n { ast_new .AST_IDENT with name := some k.s }) rest)
    ∧ (t.t ≠ .T_RPAREN → t.t ≠ .T_COMMA →
      param_loop (f + 1) n (k :: t :: rest) = .error .parse_error) := by
  refine ⟨?_, ?_, ?_⟩
  · intro h1
    simp [param_loop, check_tok, peek_tok, expect, match_tok, advance_tok, hk, ht, h1,
      bind, Except.bind, pure, Except.pure]
  · intro h2
    have h1 : t.t ≠ .T_RPAREN := by rw [h2]; decide
    simp [param_loop, check_tok, peek_tok, expect, match_tok, advance_tok, hk, ht, h1,
      h2, bind, Except.bind, pure, Except.pure]
  · intro h1 h2
    simp [param_loop, check_tok, peek_tok, expect, match_tok, advance_tok, hk, ht, h1,
      h2, bind, Except.bind, pure, Except.pure]

theorem param_item_typed (f : Nat) (n : AstNode) (k c ty t : Tok) (rest : Parser)
    (hk : k.t ≠ .T_RPAREN) (hc : c.t = .T_COLON) :
    (t.t = .T_RPAREN →
      param_loop (f + 2) n (k :: c :: ty :: t :: rest)
        = .ok (ast_add n { ast_new .AST_IDENT with name := some k.s }, t :: rest))
    ∧ (t.t = .T_COMMA →
      param_loop (f + 1) n (k :: c :: ty :: t :: rest)
        = param_loop f (ast_add n { ast_new .AST_IDENT with name := some k.s }) rest)
    ∧ (t.t ≠ .T_RPAREN → t.t ≠ .T_COMMA →
      param_loop (f + 1) n (k :: c :: ty :: t :: rest) = .error .parse_error) := by
  refine ⟨?_, ?_, ?_⟩
  · intro h1
    simp [param_loop, check_tok, peek_tok, expect, match_tok, advance_tok, hk, hc, h1,
      bind, Except.bind, pure, Except.pure]
  · intro h2
    have h1 : t.t ≠ .T_RPAREN := by rw [h2]; decide
    simp [param_loop, check_tok, peek_tok, expect, match_tok, advance_tok, hk, hc, h1,
      h2, bind, Except.bind, pure, Except.pure]
  · intro h1 h2
    simp [param_loop, check_tok, peek_tok, expect, match_tok, advance_tok, hk, hc, h1,
      h2, bind, Except.bind, pure, Except.pure]

/-- C32 fails: two consecutive items with no comma between them are a parse
error in each of the five lists: the call `f(1 2)`, the array literal
`[1 2]`, the struct literal `P { x: 1 y: 2 }`, the struct definition
`struct P { x: i32 y: i32 }` and the parameter list `fn f(a b)`. -/
theorem C32_counterexample :
    parse_outcome "fn main() \x7b f(1 2); \x7d".toList = some (some .parse_error)
      ∧ parse_outcome "fn main() \x7b let a = [1 2]; \x7d".toList = some (some .parse_error)
      ∧ parse_outcome "fn main() \x7b let p = P \x7b x: 1 y: 2 \x7d; \x7d".toList
          = some (some .parse_error)
      ∧ parse_outcome "struct P \x7b x: i32 y: i32 \x7d".toList = some (some .parse_error)
      ∧ parse_outcome "fn f(a b) \x7b \x7d".toList = some (some .parse_error) := by
  decide

/-- C32 (amended): in call argument lists, array literals, struct-literal
initializer lists, struct field lists and parameter lists the comma between
two items is required and the comma after the last item is optional. After
an item the parser looks at the next token `t`: when `t` closes the list the
loop ends; when `t` is a comma it is consumed and the loop goes on, ending
at once if the closing token follows; when `t` is neither, `expect` of the
comma aborts with a parse error. So `f(1, 2)` and `f(1, 2,)` parse, and
`f(1 2)` does not. -/
theorem C32_comma_required_between_items :
    (∀ (pe : Parser → Except Fail (AstNode × Parser)) (close : TokType) (f : Nat)
        (n e : AstNode) (k t : Tok) (ps rest : Parser),
        k.t ≠ close → pe (k :: ps) = .ok (e, t :: rest) →
        (t.t = close →
          expr_list_loop pe close (f + 2) n (k :: ps) = .ok (ast_add n e, t :: rest))
        ∧ (t.t ≠ close → t.t = .T_COMMA →
          expr_list_loop pe close (f + 1) n (k :: ps)
            = expr_list_loop pe close f (ast_add n e) rest)
        ∧ (t.t ≠ close → t.t ≠ .T_COMMA →
          expr_list_loop pe close (f + 1) n (k :: ps) = .error .parse_error))
    ∧ (∀ (pe : Parser → Except Fail (AstNode × Parser)) (f : Nat) (n e : AstNode)
        (k c t : Tok) (ps rest : Parser),
        k.t ≠ .T_RBRACE → c.t = .T_COLON → pe ps = .ok (e, t :: rest) →
        (t.t = .T_RBRACE →
          struct_lit_loop pe (f + 2) n (k :: c :: ps)
            = .ok (ast_add n (ast_add { ast_new .AST_IDENT with name := some k.s } e),
                t :: rest))
        ∧ (t.t = .T_COMMA →
          struct_lit_loop pe (f + 1) n (k :: c :: ps)
            = struct_lit_loop pe f
                (ast_add n (ast_add { ast_new .AST_IDENT with name := some k.s } e)) rest)
        ∧ (t.t ≠ .T_RBRACE → t.t ≠ .T_COMMA →
          struct_lit_loop pe (f + 1) n (k :: c :: ps) = .error .parse_error))
    ∧ (∀ (f : Nat) (n : AstNode) (k c ty t : Tok) (rest : Parser),
        k.t ≠ .T_RBRACE → c.t = .T_COLON →
        (t.t = .T_RBRACE →
          struct_def_loop (f + 2) n (k :: c :: ty :: t :: rest)
            = .ok (ast_add n { ast_new .AST_IDENT with name := some k.s }, t :: rest))
        ∧ (t.t = .T_COMMA →
          struct_def_loop (f + 1) n (k :: c :: ty :: t :: rest)
            = struct_def_loop f (ast_add n { ast_new .AST_IDENT with name := some k.s }) rest)
        ∧ (t.t ≠ .T_RBRACE → t.t ≠ .T_COMMA →
          struct_def_loop (f + 1) n (k :: c :: ty :: t :: rest) = .error .parse_error))
    ∧ (∀ (f : Nat) (n : AstNode) (k t : Tok) (rest : Parser),
        k.t ≠ .T_RPAREN → t.t ≠ .T_COLON →
        (t.t = .T_RPAREN →
          param_loop (f + 2) n (k :: t :: rest)
            = .ok (ast_add n { ast_new .AST_IDENT with name := some k.s }, t :: rest))
        ∧ (t.t = .T_COMMA →
          param_loop (f + 1) n (k :: t :: rest)
            = param_loop f (ast_add n { ast_new .AST_IDENT with name := some k.s }) rest)
        ∧ (t.t ≠ .T_RPAREN → t.t ≠ .T_COMMA →
          param_loop (f + 1) n (k :: t :: rest) = .error .parse_error))
    ∧ (∀ (f : Nat) (n : AstNode) (k c ty t : Tok) (rest : Parser),
        k.t ≠ .T_RPAREN → c.t = .T_COLON →
        (t.t = .T_RPAREN →
          param_loop (f + 2) n (k :: c :: ty :: t :: rest)
            = .ok (ast_add n { ast_new .AST_IDENT with name := some k.s }, t :: rest))
        ∧ (t.t = .T_COMMA →
          param_loop (f + 1) n (k :: c :: ty :: t :: rest)
            = param_loop f (ast_add n { ast_new .AST_IDENT with name := some k.s }) rest)
        ∧ (t.t ≠ .T_RPAREN → t.t ≠ .T_COMMA →
          param_loop (f + 1) n (k :: c :: ty :: t :: rest) = .error .parse_error))
    ∧ parse_outcome "fn main() \x7b f(1, 2); \x7d".toList = some none
    ∧ parse_outcome "fn main() \x7b f(1, 2,); \x7d".toList = some none
    ∧ parse_outcome "fn main() \x7b let a = [1, 2,]; \x7d".toList = some none
    ∧ parse_outcome "fn main() \x7b let p = P \x7b x: 1, y: 2, \x7d; \x7d".toList = some none
    ∧ parse_outcome "struct P \x7b x: i32, y: i32, \x7d".toList = some none
    ∧ parse_outcome "fn f(a, b,) \x7b \x7d".toList = some none :=
  ⟨expr_list_item, struct_lit_item, struct_def_item, param_item, param_item_typed,
    by decide, by decide, by decide, by decide, by decide, by decide⟩

/-- C32 (amended) at the tokens `1 2 )` of a call: after the argument `1`
the token `2` is neither `)` nor a comma, and the loop aborts. -/
theorem C32_witness :
    expr_list_loop (parse_expr 2) .T_RPAREN (0 + 1) { ast_new .AST_CALL with name := some "f".toList }
        (⟨.T_NUM, "1".toList⟩ :: [⟨.T_NUM, "2".toList⟩, ⟨.T_RPAREN, ")".toList⟩])
      = .error .parse_error :=
  (C32_comma_required_between_items.1 (parse_expr 2) .T_RPAREN 0
    { ast_new .AST_CALL with name := some "f".toList } (num_node "1".toList)
    ⟨.T_NUM, "1".toList⟩ ⟨.T_NUM, "2".toList⟩ [⟨.T_NUM, "2".toList⟩, ⟨.T_RPAREN, ")".toList⟩]
    [⟨.T_RPAREN, ")".toList⟩] (by decide) rfl).2.2 (by decide) (by decide)

/-! ## Strings that are not closed -/

theorem str_loop_open (body : List Char) (hb : StrBody body) :
    str_loop body = some (body, []) := by
  induction hb with
  | done => rfl
  | plain c body h1 h2 h3 _ ih =>
    unfold str_loop
    simp only [h1, h2, h3, or_self, if_false, ih, Option.map_some']
  | escaped d body h1 _ ih =>
    unfold str_loop
    rw [if_neg (by decide), if_pos rfl]
    simp only [h1, if_false, ih, Option.map_some']

theorem str_loop_backslash_end (body : List Char) (hb : StrBody body) :
    str_loop (body ++ [c_backslash]) = none := by
  induction hb with
  | done => rfl
  | plain c body h1 h2 h3 _ ih =>
    rw [List.cons_append]
    unfold str_loop
    simp only [h1, h2, h3, or_self, if_false, ih, Option.map_none']
  | escaped d body h1 _ ih =>
    rw [List.cons_append, List.cons_append]
    unfold str_loop
    rw [if_neg (by decide), if_pos rfl]
    simp only [h1, if_false, ih, Option.map_none']

theorem skip_quote (cs : List Char) : skip (c_quote :: cs) = c_quote :: cs := by
  simp only [skip, skip_loop, peek, List.headD]
  rw [if_neg (by decide), if_neg (fun h => absurd h.1 (by decide))]

theorem lex_tok_quote (cs : List Char) :
    lex_tok (c_quote :: cs)
      = match str_loop cs with
        | none => none
        | some (body, rest) =>
          if peek rest = c_quote then some (⟨.T_STR, c_quote :: (body ++ [c_quote])⟩, adv rest)
          else some (⟨.T_STR, c_quote :: body⟩, rest) := by
  simp only [lex_tok, skip_quote]
  rw [if_neg (by decide), if_neg (by decide), if_neg (by decide), if_pos trivial]
  all_goals (cases str_loop cs <;> rfl)

/-- C33 (the code departs from the claim): a string literal that is not
closed and whose last character is a backslash makes the lexer step over
the end of the text. The loop `if (peek(l) == '\\') adv(l); adv(l);` skips
the character after a backslash without a test, so at a backslash that is
the last character of the input the second `adv` steps over the terminating
NUL and the scan goes on outside the text: `lex_tok` has no defined result.
For every other unclosed literal (a body of units without a quote that is
not escaped) the token is the rest of the input from the opening quote to
its last character, and the next token is the end of input. -/
theorem C33_backslash_at_end_leaves_the_text :
    (∀ body : List Char, StrBody body →
        lex_tok (c_quote :: (body ++ [c_backslash])) = none)
    ∧ (∀ body : List Char, StrBody body →
        lex_tok (c_quote :: body) = some (⟨.T_STR, c_quote :: body⟩, [])
          ∧ lex_tok [] = some (⟨.T_EOF, []⟩, []))
    ∧ tokenize c33_source = none
    ∧ compile c33_source = none := by
  refine ⟨?_, ?_, by decide, by decide⟩
  · intro body hb
    rw [lex_tok_quote, str_loop_backslash_end body hb]
  · intro body hb
    refine ⟨?_, rfl⟩
    rw [lex_tok_quote, str_loop_open body hb]
    rfl

/-- C33, at the unclosed literal `"ab\`: the body `ab` is followed by a
backslash that ends the input. -/
theorem C33_witness :
    lex_tok (c_quote :: (['a', 'b'] ++ [c_backslash])) = none
      ∧ lex_tok (c_quote :: ['a', 'b']) = some (⟨.T_STR, c_quote :: ['a', 'b']⟩, []) :=
  have hb : StrBody ['a', 'b'] :=
    .plain 'a' _ (by decide) (by decide) (by decide)
      (.plain 'b' _ (by decide) (by decide) (by decide) .done)
  ⟨C33_backslash_at_end_leaves_the_text.1 _ hb, (C33_backslash_at_end_leaves_the_text.2.1 _ hb).1⟩

theorem postfix_loop_index (pe : Parser → Except Fail (AstNode × Parser)) (f : Nat)
    (left : AstNode) (k : Tok) (rest : Parser) (hk : k.t = .T_LBRACKET) :
    postfix_loop pe (f + 1) left (k :: rest)
      = (pe rest >>= fun r => expect r.2 .T_RBRACKET >>= fun p3 =>
          postfix_loop pe f (index_node left r.1) p3) := by
  simp only [postfix_loop, check_tok, peek_tok, advance_tok, hk, index_node]
  rfl

theorem postfix_loop_field (pe : Parser → Except Fail (AstNode × Parser)) (f : Nat)
    (left : AstNode) (k fld : Tok) (rest : Parser) (hk : k.t = .T_DOT) :
    postfix_loop pe (f + 1) left (k :: fld :: rest)
      = postfix_loop pe f (field_access_node left fld.s) rest := by
  simp only [postfix_loop, check_tok, peek_tok, advance_tok, hk, field_access_node]
  rfl

theorem lookup_unnamed (st : SymbolTable) (hs : st.symbols ≠ []) :
    symtab_lookup_symbol (some st) none = none := by
  cases hsy : st.symbols with
  | nil => exact absurd hsy hs
  | cons s ss => simp [symtab_lookup_symbol, hsy, lookup_symbol_loop]

theorem lookup_named_defined (ss : List Symbol) (a : List Char) :
    (lookup_symbol_loop ss (some a)).isSome = true := by
  induction ss with
  | nil => rfl
  | cons s ss ih =>
    simp only [lookup_symbol_loop]
    split
    · rfl
    · exact ih

theorem gen_expr_index_unnamed (cg : Codegen) (st : SymbolTable) (arr idx : AstNode)
    (hst : cg.symtab = some st) (hs : st.symbols ≠ []) (hn : arr.name = none) :
    gen_expr cg (index_node arr idx) = none := by
  simp [index_node, ast_add, ast_new, gen_expr, hst, hn, lookup_unnamed st hs]

theorem gen_expr_field_unnamed (cg : Codegen) (st : SymbolTable) (obj : AstNode)
    (f : List Char) (hst : cg.symtab = some st) (hs : st.symbols ≠ []) (hn : obj.name = none) :
    gen_expr cg (field_access_node obj f) = none := by
  simp [field_access_node, ast_add, ast_new, gen_expr, hst, hn, lookup_unnamed st hs]

/-- C34: the base of an Index node and the object of a FieldAccess node need
not carry a name. `postfix_loop` wraps whatever operand `left` it holds, with
no test of its kind: after `[` it builds the Index node of `left` and the
parsed index, after `.` the FieldAccess node of `left`. So `5[0]` and `5 .y`
parse to nodes whose first child is a Number node with no name. For such a
node `gen_expr` passes the missing name to `symtab_lookup_symbol`, whose
`strcmp` is undefined on it as soon as the table holds one symbol: the
compilation of `fn main() { let x = 1; return 5[0]; }` is undefined. A
lookup with a name is defined on every table. -/
theorem C34_postfix_base_may_lack_a_name :
    (∀ (pe : Parser → Except Fail (AstNode × Parser)) (f : Nat) (left : AstNode) (k : Tok)
        (rest : Parser), k.t = .T_LBRACKET →
        postfix_loop pe (f + 1) left (k :: rest)
          = (pe rest >>= fun r => expect r.2 .T_RBRACKET >>= fun p3 =>
              postfix_loop pe f (index_node left r.1) p3))
    ∧ (∀ (pe : Parser → Except Fail (AstNode × Parser)) (f : Nat) (left : AstNode)
        (k fld : Tok) (rest : Parser), k.t = .T_DOT →
        postfix_loop pe (f + 1) left (k :: fld :: rest)
          = postfix_loop pe f (field_access_node left fld.s) rest)
    ∧ (tokenize c34_source).map parse = some (.ok (c34_ast, [⟨.T_EOF, []⟩]))
    ∧ (tokenize c34_field_source).map parse = some (.ok (c34_field_ast, [⟨.T_EOF, []⟩]))
    ∧ (num_node "5".toList).name = none
    ∧ (∀ (cg : Codegen) (st : SymbolTable) (arr idx : AstNode),
        cg.symtab = some st → st.symbols ≠ [] → arr.name = none →
        gen_expr cg (index_node arr idx) = none)
    ∧ (∀ (cg : Codegen) (st : SymbolTable) (obj : AstNode) (f : List Char),
        cg.symtab = some st → st.symbols ≠ [] → obj.name = none →
        gen_expr cg (field_access_node obj f) = none)
    ∧ (∀ (st : SymbolTable) (a : List Char),
        (symtab_lookup_symbol (some st) (some a)).isSome = true)
    ∧ compile c34_source = none
    ∧ compile c34_field_source = none :=
  ⟨postfix_loop_index, postfix_loop_field, by rfl, by rfl, rfl, gen_expr_index_unnamed,
    gen_expr_field_unnamed, fun st a => lookup_named_defined st.symbols a, by decide!,
    by decide!⟩

/-- C34 at the operand `5`: after `[` the loop wraps the Number node in an
Index node, and once `x` is declared the code of `5[0]` and of `5 .y` is
undefined. -/
theorem C34_witness :
    postfix_loop (parse_expr 3) (1 + 1) (num_node "5".toList)
        [⟨.T_LBRACKET, "[".toList⟩, ⟨.T_NUM, "0".toList⟩, ⟨.T_RBRACKET, "]".toList⟩,
          ⟨.T_SEMI, ";".toList⟩]
      = (parse_expr 3 [⟨.T_NUM, "0".toList⟩, ⟨.T_RBRACKET, "]".toList⟩, ⟨.T_SEMI, ";".toList⟩]
          >>= fun r => expect r.2 .T_RBRACKET >>= fun p3 =>
            postfix_loop (parse_expr 3) 1 (index_node (num_node "5".toList) r.1) p3)
    ∧ gen_expr { body_start with symtab := some (symtab_with_array symtab_new "x".toList 1) }
        (index_node (num_node "5".toList) (num_node "0".toList)) = none
    ∧ gen_expr { body_start with symtab := some (symtab_with_array symtab_new "x".toList 1) }
        (field_access_node (num_node "5".toList) "y".toList) = none :=
  ⟨C34_postfix_base_may_lack_a_name.1 (parse_expr 3) 1 (num_node "5".toList)
      ⟨.T_LBRACKET, "[".toList⟩ _ rfl,
   C34_postfix_base_may_lack_a_name.2.2.2.2.2.1 _ (symtab_with_array symtab_new "x".toList 1)
      _ _ rfl (by decide) rfl,
   C34_postfix_base_may_lack_a_name.2.2.2.2.2.2.1 _
      (symtab_with_array symtab_new "x".toList 1) _ _ rfl (by decide) rfl⟩

/-! ## Progress of the lexer -/

theorem skip_line_suffix (l : Lex) : skip_line l <:+ l := by
  induction l with
  | nil => exact List.suffix_refl _
  | cons c cs ih =>
    simp only [skip_line]
    split_ifs
    · exact ih.trans (List.suffix_cons c cs)
    · exact List.suffix_refl _

theorem skip_loop_suffix (f : Nat) : ∀ l : Lex, skip_loop f l <:+ l := by
  induction f with
  | zero => intro l; exact List.suffix_refl _
  | succ f ih =>
    intro l
    simp only [skip_loop]
    split_ifs
    · exact (ih _).trans (List.tail_suffix l)
    · exact (ih _).trans (skip_line_suffix l)
    · exact List.suffix_refl _

theorem skip_suffix (l : Lex) : skip l <:+ l := skip_loop_suffix _ l

theorem str_loop_split_aux (n : Nat) : ∀ (cs body rest : List Char), cs.length ≤ n →
    str_loop cs = some (body, rest) → cs = body ++ rest := by
  induction n with
  | zero =>
    intro cs body rest hl h
    have : cs = [] := List.eq_nil_of_length_eq_zero (by omega)
    subst this
    simp only [str_loop, Option.some.injEq, Prod.mk.injEq] at h
    obtain ⟨rfl, rfl⟩ := h
    rfl
  | succ n ih =>
    intro cs body rest hl h
    cases cs with
    | nil =>
      simp only [str_loop, Option.some.injEq, Prod.mk.injEq] at h
      obtain ⟨rfl, rfl⟩ := h
      rfl
    | cons c cs =>
      unfold str_loop at h
      simp only [List.length_cons] at hl
      by_cases h1 : c = c_quote ∨ c = c_nul
      · rw [if_pos h1] at h
        simp only [Option.some.injEq, Prod.mk.injEq] at h
        obtain ⟨rfl, rfl⟩ := h
        rfl
      · rw [if_neg h1] at h
        by_cases h2 : c = c_backslash
        · rw [if_pos h2] at h
          cases cs with
          | nil => simp at h
          | cons d ds =>
            simp only at h
            by_cases h3 : d = c_nul
            · rw [if_pos h3] at h; simp at h
            · rw [if_neg h3] at h
              simp only [Option.map_eq_some', Prod.mk.injEq] at h
              obtain ⟨⟨b, r⟩, hr, rfl, rfl⟩ := h
              simp only [List.length_cons] at hl
              have := ih ds b r (by omega) hr
              simp [this]
        · rw [if_neg h2] at h
          simp only [Option.map_eq_some', Prod.mk.injEq] at h
          obtain ⟨⟨b, r⟩, hr, rfl, rfl⟩ := h
          have := ih cs b r (by omega) hr
          simp [this]

theorem str_loop_split (cs body rest : List Char) (h : str_loop cs = some (body, rest)) :
    cs = body ++ rest :=
  str_loop_split_aux cs.length cs body rest (le_refl _) h

theorem peek_eq_cons (l : Lex) (c : Char) (h : peek l = c) (hc : c ≠ c_nul) :
    l = c :: adv l := by
  cases l with
  | nil => exact absurd h.symm hc
  | cons d ds =>
    simp only [peek, List.headD] at h
    subst h
    rfl

theorem kw_not_eof (s : List Char) : kw s ≠ .T_EOF := by
  unfold kw
  split_ifs <;> simp

theorem lex_tok_lexeme (l r : Lex) (k : Tok) (h : lex_tok l = some (k, r))
    (hk : k.t ≠ .T_EOF) : skip l = k.s ++ r ∧ k.s ≠ [] := by
  cases hs : skip l with
  | nil =>
    simp only [lex_tok, hs, Option.some.injEq, Prod.mk.injEq] at h
    obtain ⟨rfl, rfl⟩ := h
    exact absurd rfl hk
  | cons c cs =>
    revert h
    simp only [lex_tok, hs]
    intro h
    by_cases g0 : c = c_nul
    · rw [if_pos g0] at h
      simp only [Option.some.injEq, Prod.mk.injEq] at h
      obtain ⟨rfl, rfl⟩ := h
      exact absurd rfl hk
    rw [if_neg g0] at h
    by_cases g1 : isalpha c = true ∨ c = '_'
    · rw [if_pos g1] at h
      simp only [Option.some.injEq, Prod.mk.injEq] at h
      obtain ⟨rfl, rfl⟩ := h
      exact ⟨by simp [List.takeWhile_append_dropWhile], by simp⟩
    rw [if_neg g1] at h
    by_cases g2 : isdigit c = true
    · rw [if_pos g2] at h
      simp only [Option.some.injEq, Prod.mk.injEq] at h
      obtain ⟨rfl, rfl⟩ := h
      exact ⟨by simp [List.takeWhile_append_dropWhile], by simp⟩
    rw [if_neg g2] at h
    by_cases g3 : c = c_quote
    · rw [if_pos g3] at h
      cases hq : str_loop cs with
      | none => rw [hq] at h; exact absurd h (by simp)
      | some br =>
        obtain ⟨body, rest⟩ := br
        rw [hq] at h
        have hsplit := str_loop_split cs body rest hq
        by_cases hp : peek rest = c_quote
        · simp only [hp, if_true, Option.some.injEq, Prod.mk.injEq] at h
          obtain ⟨rfl, rfl⟩ := h
          have hr := peek_eq_cons rest c_quote hp (by decide)
          refine ⟨?_, by simp⟩
          rw [hsplit]
          nth_rewrite 1 [hr]
          simp
        · simp only [hp, if_false, Option.some.injEq, Prod.mk.injEq] at h
          obtain ⟨rfl, rfl⟩ := h
          exact ⟨by rw [hsplit]; rfl, by simp⟩
    rw [if_neg g3] at h
    by_cases g4 : c = '('
    · rw [if_pos g4] at h
      simp only [Option.some.injEq, Prod.mk.injEq] at h
      obtain ⟨rfl, rfl⟩ := h
      exact ⟨rfl, by simp⟩
    rw [if_neg g4] at h
    by_cases g5 : c = ')'
    · rw [if_pos g5] at h
      simp only [Option.some.injEq, Prod.mk.injEq] at h
      obtain ⟨rfl, rfl⟩ := h
      exact ⟨rfl, by simp⟩
    rw [if_neg g5] at h
    by_cases g6 : c = c_lbrace
    · rw [if_pos g6] at h
      simp only [Option.some.injEq, Prod.mk.injEq] at h
      obtain ⟨rfl, rfl⟩ := h
      exact ⟨rfl, by simp⟩
    rw [if_neg g6] at h
    by_cases g7 : c = c_rbrace
    · rw [if_pos g7] at h
      simp only [Option.some.injEq, Prod.mk.injEq] at h
      obtain ⟨rfl, rfl⟩ := h
      exact ⟨rfl, by simp⟩
    rw [if_neg g7] at h
    by_cases g8 : c = '['
    · rw [if_pos g8] at h
      simp only [Option.some.injEq, Prod.mk.injEq] at h
      obtain ⟨rfl, rfl⟩ := h
      exact ⟨rfl, by simp⟩
    rw [if_neg g8] at h
    by_cases g9 : c = ']'
    · rw [if_pos g9] at h
      simp only [Option.some.injEq, Prod.mk.injEq] at h
      obtain ⟨rfl, rfl⟩ := h
      exact ⟨rfl, by simp⟩
    rw [if_neg g9] at h
    by_cases g10 : c = ';'
    · rw [if_pos g10] at h
      simp only [Option.some.injEq, Prod.mk.injEq] at h
      obtain ⟨rfl, rfl⟩ := h
      exact ⟨rfl, by simp⟩
    rw [if_neg g10] at h
    by_cases g11 : c = ':'
    · rw [if_pos g11] at h
      simp only [Option.some.injEq, Prod.mk.injEq] at h
      obtain ⟨rfl, rfl⟩ := h
      exact ⟨rfl, by simp⟩
    rw [if_neg g11] at h
    by_cases g12 : c = ','
    · rw [if_pos g12] at h
      simp only [Option.some.injEq, Prod.mk.injEq] at h
      obtain ⟨rfl, rfl⟩ := h
      exact ⟨rfl, by simp⟩
    rw [if_neg g12] at h
    by_cases g13 : c = '.'
    · rw [if_pos g13] at h
      simp only [Option.some.injEq, Prod.mk.injEq] at h
      obtain ⟨rfl, rfl⟩ := h
      exact ⟨rfl, by simp⟩
    rw [if_neg g13] at h
    by_cases g14 : c = '+'
    · rw [if_pos g14] at h
      simp only [Option.some.injEq, Prod.mk.injEq] at h
      obtain ⟨rfl, rfl⟩ := h
      exact ⟨rfl, by simp⟩
    rw [if_neg g14] at h
    by_cases g15 : c = '*'
    · rw [if_pos g15] at h
      simp only [Option.some.injEq, Prod.mk.injEq] at h
      obtain ⟨rfl, rfl⟩ := h
      exact ⟨rfl, by simp⟩
    rw [if_neg g15] at h
    by_cases g16 : c = '/'
    · rw [if_pos g16] at h
      simp only [Option.some.injEq, Prod.mk.injEq] at h
      obtain ⟨rfl, rfl⟩ := h
      exact ⟨rfl, by simp⟩
    rw [if_neg g16] at h
    by_cases g17 : c = '=' ∧ peek cs = '='
    · rw [if_pos g17] at h
      simp only [Option.some.injEq, Prod.mk.injEq] at h
      obtain ⟨rfl, rfl⟩ := h
      have hr := peek_eq_cons cs '=' g17.2 (by decide)
      refine ⟨?_, by simp⟩
      nth_rewrite 1 [hr]
      rfl
    rw [if_neg g17] at h
    by_cases g18 : c = '='
    · rw [if_pos g18] at h
      simp only [Option.some.injEq, Prod.mk.injEq] at h
      obtain ⟨rfl, rfl⟩ := h
      exact ⟨rfl, by simp⟩
    rw [if_neg g18] at h
    by_cases g19 : c = '!' ∧ peek cs = '='
    · rw [if_pos g19] at h
      simp only [Option.some.injEq, Prod.mk.injEq] at h
      obtain ⟨rfl, rfl⟩ := h
      have hr := peek_eq_cons cs '=' g19.2 (by decide)
      refine ⟨?_, by simp⟩
      nth_rewrite 1 [hr]
      rfl
    rw [if_neg g19] at h
    by_cases g20 : c = '<' ∧ peek cs = '='
    · rw [if_pos g20] at h
      simp only [Option.some.injEq, Prod.mk.injEq] at h
      obtain ⟨rfl, rfl⟩ := h
      have hr := peek_eq_cons cs '=' g20.2 (by decide)
      refine ⟨?_, by simp⟩
      nth_rewrite 1 [hr]
      rfl
    rw [if_neg g20] at h
    by_cases g21 : c = '<'
    · rw [if_pos g21] at h
      simp only [Option.some.injEq, Prod.mk.injEq] at h
      obtain ⟨rfl, rfl⟩ := h
      exact ⟨rfl, by simp⟩
    rw [if_neg g21] at h
    by_cases g22 : c = '>' ∧ peek cs = '='
    · rw [if_pos g22] at h
      simp only [Option.some.injEq, Prod.mk.injEq] at h
      obtain ⟨rfl, rfl⟩ := h
      have hr := peek_eq_cons cs '=' g22.2 (by decide)
      refine ⟨?_, by simp⟩
      nth_rewrite 1 [hr]
      rfl
    rw [if_neg g22] at h
    by_cases g23 : c = '>'
    · rw [if_pos g23] at h
      simp only [Option.some.injEq, Prod.mk.injEq] at h
      obtain ⟨rfl, rfl⟩ := h
      exact ⟨rfl, by simp⟩
    rw [if_neg g23] at h
    by_cases g24 : c = '-' ∧ peek cs = '>'
    · rw [if_pos g24] at h
      simp only [Option.some.injEq, Prod.mk.injEq] at h
      obtain ⟨rfl, rfl⟩ := h
      have hr := peek_eq_cons cs '>' g24.2 (by decide)
      refine ⟨?_, by simp⟩
      nth_rewrite 1 [hr]
      rfl
    rw [if_neg g24] at h
    by_cases g25 : c = '-'
    · rw [if_pos g25] at h
      simp only [Option.some.injEq, Prod.mk.injEq] at h
      obtain ⟨rfl, rfl⟩ := h
      exact ⟨rfl, by simp⟩
    rw [if_neg g25] at h
    simp only [Option.some.injEq, Prod.mk.injEq] at h
    obtain ⟨rfl, rfl⟩ := h
    exact absurd rfl hk

theorem lex_tok_progress (l r : Lex) (k : Tok) (h : lex_tok l = some (k, r))
    (hk : k.t ≠ .T_EOF) :
    r.length < l.length ∧ 1 ≤ k.len ∧ skip l = k.s ++ r ∧ r <:+ l := by
  obtain ⟨h1, h2⟩ := lex_tok_lexeme l r k h hk
  have h3 : 1 ≤ k.s.length := by
    cases hs : k.s with
    | nil => exact absurd hs h2
    | cons a b => simp
  have h4 := skip_suffix l
  have h5 : r <:+ skip l := by rw [h1]; exact List.suffix_append _ _
  have h6 := h4.length_le
  rw [h1, List.length_append] at h6
  exact ⟨by omega, h3, h1, h5.trans h4⟩

theorem tokens_end_with_eof (cap : Nat) : ∀ (l : Lex) (toks : List Tok),
    tokenize_loop cap l = some toks →
    ∃ init last, toks = init ++ [last] ∧ last.t = .T_EOF ∧ ∀ k ∈ init, k.t ≠ .T_EOF := by
  induction cap with
  | zero => intro l toks h; simp [tokenize_loop] at h
  | succ cap ih =>
    intro l toks h
    simp only [tokenize_loop] at h
    cases hl : lex_tok l with
    | none => rw [hl] at h; simp at h
    | some kr =>
      obtain ⟨k, l1⟩ := kr
      rw [hl] at h
      simp only at h
      by_cases hk : k.t = .T_EOF
      · rw [if_pos hk, Option.some.injEq] at h
        subst h
        exact ⟨[], k, rfl, hk, fun _ hm => absurd hm (List.not_mem_nil _)⟩
      · rw [if_neg hk] at h
        simp only [Option.map_eq_some'] at h
        obtain ⟨ks, hks, rfl⟩ := h
        obtain ⟨init, last, rfl, h1, h2⟩ := ih l1 ks hks
        refine ⟨k :: init, last, rfl, h1, ?_⟩
        intro x hx
        rcases List.mem_cons.mp hx with rfl | hx
        · exact hk
        · exact h2 x hx

theorem str_loop_defined : ∀ cs : List Char, c_backslash ∉ cs → ∃ br, str_loop cs = some br := by
  intro cs
  induction cs with
  | nil => intro _; exact ⟨_, rfl⟩
  | cons c cs ih =>
    intro h
    have hc : c ≠ c_backslash := fun e => h (by simp [e])
    have hcs : c_backslash ∉ cs := fun e => h (List.mem_cons_of_mem _ e)
    obtain ⟨br, hbr⟩ := ih hcs
    unfold str_loop
    by_cases h1 : c = c_quote ∨ c = c_nul
    · rw [if_pos h1]; exact ⟨_, rfl⟩
    · rw [if_neg h1, if_neg hc, hbr]; exact ⟨_, rfl⟩

theorem lex_tok_defined (l : Lex) (hl : c_backslash ∉ l) : ∃ kr, lex_tok l = some kr := by
  cases hs : skip l with
  | nil => simp only [lex_tok, hs]; exact ⟨_, rfl⟩
  | cons c cs =>
    have hcs : c_backslash ∉ cs := by
      intro e
      have h1 : c_backslash ∈ skip l := by rw [hs]; exact List.mem_cons_of_mem _ e
      exact hl ((skip_suffix l).subset h1)
    simp only [lex_tok, hs]
    by_cases g0 : c = c_nul
    · rw [if_pos g0]; exact ⟨_, rfl⟩
    rw [if_neg g0]
    by_cases g1 : isalpha c = true ∨ c = '_'
    · rw [if_pos g1]; exact ⟨_, rfl⟩
    rw [if_neg g1]
    by_cases g2 : isdigit c = true
    · rw [if_pos g2]; exact ⟨_, rfl⟩
    rw [if_neg g2]
    by_cases g3 : c = c_quote
    · rw [if_pos g3]
      obtain ⟨⟨body, rest⟩, hbr⟩ := str_loop_defined cs hcs
      rw [hbr]
      simp only
      split_ifs <;> exact ⟨_, rfl⟩
    rw [if_neg g3]
    by_cases g4 : c = '('
    · rw [if_pos g4]; exact ⟨_, rfl⟩
    rw [if_neg g4]
    by_cases g5 : c = ')'
    · rw [if_pos g5]; exact ⟨_, rfl⟩
    rw [if_neg g5]
    by_cases g6 : c = c_lbrace
    · rw [if_pos g6]; exact ⟨_, rfl⟩
    rw [if_neg g6]
    by_cases g7 : c = c_rbrace
    · rw [if_pos g7]; exact ⟨_, rfl⟩
    rw [if_neg g7]
    by_cases g8 : c = '['
    · rw [if_pos g8]; exact ⟨_, rfl⟩
    rw [if_neg g8]
    by_cases g9 : c = ']'
    · rw [if_pos g9]; exact ⟨_, rfl⟩
    rw [if_neg g9]
    by_cases g10 : c = ';'
    · rw [if_pos g10]; exact ⟨_, rfl⟩
    rw [if_neg g10]
    by_cases g11 : c = ':'
    · rw [if_pos g11]; exact ⟨_, rfl⟩
    rw [if_neg g11]
    by_cases g12 : c = ','
    · rw [if_pos g12]; exact ⟨_, rfl⟩
    rw [if_neg g12]
    by_cases g13 : c = '.'
    · rw [if_pos g13]; exact ⟨_, rfl⟩
    rw [if_neg g13]
    by_cases g14 : c = '+'
    · rw [if_pos g14]; exact ⟨_, rfl⟩
    rw [if_neg g14]
    by_cases g15 : c = '*'
    · rw [if_pos g15]; exact ⟨_, rfl⟩
    rw [if_neg g15]
    by_cases g16 : c = '/'
    · rw [if_pos g16]; exact ⟨_, rfl⟩
    rw [if_neg g16]
    by_cases g17 : c = '=' ∧ peek cs = '='
    · rw [if_pos g17]; exact ⟨_, rfl⟩
    rw [if_neg g17]
    by_cases g18 : c = '='
    · rw [if_pos g18]; exact ⟨_, rfl⟩
    rw [if_neg g18]
    by_cases g19 : c = '!' ∧ peek cs = '='
    · rw [if_pos g19]; exact ⟨_, rfl⟩
    rw [if_neg g19]
    by_cases g20 : c = '<' ∧ peek cs = '='
    · rw [if_pos g20]; exact ⟨_, rfl⟩
    rw [if_neg g20]
    by_cases g21 : c = '<'
    · rw [if_pos g21]; exact ⟨_, rfl⟩
    rw [if_neg g21]
    by_cases g22 : c = '>' ∧ peek cs = '='
    · rw [if_pos g22]; exact ⟨_, rfl⟩
    rw [if_neg g22]
    by_cases g23 : c = '>'
    · rw [if_pos g23]; exact ⟨_, rfl⟩
    rw [if_neg g23]
    by_cases g24 : c = '-' ∧ peek cs = '>'
    · rw [if_pos g24]; exact ⟨_, rfl⟩
    rw [if_neg g24]
    by_cases g25 : c = '-'
    · rw [if_pos g25]; exact ⟨_, rfl⟩
    rw [if_neg g25]
    exact ⟨_, rfl⟩

theorem tokenize_loop_defined (cap : Nat) : ∀ l : Lex, c_backslash ∉ l → l.length < cap →
    ∃ toks, tokenize_loop cap l = some toks := by
  induction cap with
  | zero => intro l _ h; omega
  | succ cap ih =>
    intro l hl hlen
    obtain ⟨⟨k, l1⟩, hkr⟩ := lex_tok_defined l hl
    simp only [tokenize_loop, hkr]
    by_cases hk : k.t = .T_EOF
    · rw [if_pos hk]; exact ⟨_, rfl⟩
    · rw [if_neg hk]
      obtain ⟨h1, -, -, h4⟩ := lex_tok_progress l l1 k hkr hk
      obtain ⟨toks, ht⟩ := ih l1 (fun e => hl (h4.subset e)) (by omega)
      rw [ht]
      exact ⟨_, rfl⟩

theorem lex_tok_semi (rest : Lex) : lex_tok (';' :: rest) = some (semi_tok, rest) := by
  have hs : skip (';' :: rest) = ';' :: rest := by
    simp only [skip, skip_loop, peek, List.headD]
    rw [if_neg (by decide), if_neg (fun h => absurd h.1 (by decide))]
  simp only [lex_tok, hs]
  repeat (first | rw [if_neg (by decide)] | rw [if_pos (by decide)])
  rfl

theorem tokenize_loop_semis_overrun (cap : Nat) : ∀ n : Nat, cap ≤ n →
    tokenize_loop cap (List.replicate n ';') = none := by
  induction cap with
  | zero => intro n _; rfl
  | succ cap ih =>
    intro n hn
    obtain ⟨m, rfl⟩ := Nat.exists_eq_succ_of_ne_zero (by omega : n ≠ 0)
    simp only [List.replicate_succ, tokenize_loop, lex_tok_semi]
    rw [if_neg (by decide), ih m (by omega)]
    rfl

theorem tokenize_loop_semis (cap : Nat) : ∀ n : Nat, n < cap →
    tokenize_loop cap (List.replicate n ';')
      = some (List.replicate n semi_tok ++ [eof_tok]) := by
  induction cap with
  | zero => intro n h; omega
  | succ cap ih =>
    intro n hn
    cases n with
    | zero => rfl
    | succ m =>
      simp only [List.replicate_succ, tokenize_loop, lex_tok_semi]
      rw [if_neg (by decide), ih m (by omega)]
      rfl

/-- C38 (the code departs from the claim): `tokenize` writes the tokens
into a buffer of 2000 entries without a test, so a source with 2000 or more
tokens before its end makes it write outside the buffer: for 2000 or more
semicolons `tokenize` has no defined result, for fewer it returns the
semicolons followed by the one end-of-input token. What the claim says of
the loop itself holds: a token of a kind other than end of input has a
lexeme of at least one character, which is the text consumed, and leaves a
shorter text; a token sequence that is returned ends with its only
end-of-input token; and a source of fewer than 2000 characters without a
backslash gets a token sequence. -/
theorem C38_token_buffer_overrun :
    (∀ (l r : Lex) (k : Tok), lex_tok l = some (k, r) → k.t ≠ .T_EOF →
        r.length < l.length ∧ 1 ≤ k.len ∧ skip l = k.s ++ r ∧ r <:+ l)
    ∧ (∀ (cap : Nat) (l : Lex) (toks : List Tok), tokenize_loop cap l = some toks →
        ∃ init last, toks = init ++ [last] ∧ last.t = .T_EOF ∧ ∀ k ∈ init, k.t ≠ .T_EOF)
    ∧ (∀ l : Lex, c_backslash ∉ l → l.length < 2000 → ∃ toks, tokenize l = some toks)
    ∧ (∀ n : Nat, n < 2000 →
        tokenize (List.replicate n ';') = some (List.replicate n semi_tok ++ [eof_tok]))
    ∧ (∀ n : Nat, 2000 ≤ n → tokenize (List.replicate n ';') = none) :=
  ⟨lex_tok_progress, tokens_end_with_eof, fun l h1 h2 => tokenize_loop_defined 2000 l h1 h2,
    fun n h => tokenize_loop_semis 2000 n h, fun n h => tokenize_loop_semis_overrun 2000 n h⟩

/-- C38, at 2000 semicolons: the end-of-input token would be the 2001st
entry of the buffer; at 1999 semicolons it is the 2000th. -/
theorem C38_witness :
    tokenize (List.replicate 2000 ';') = none
      ∧ tokenize (List.replicate 1999 ';') = some (List.replicate 1999 semi_tok ++ [eof_tok]) :=
  ⟨C38_token_buffer_overrun.2.2.2.2 2000 (le_refl _),
   C38_token_buffer_overrun.2.2.2.1 1999 (by decide)⟩

theorem expect_at_eof (s : List Char) (rest : Parser) (t : TokType) (ht : t ≠ .T_EOF) :
    expect (⟨.T_EOF, s⟩ :: rest) t = .error .parse_error := by
  have h : ¬ (TokType.T_EOF = t) := fun h => ht h.symm
  simp [expect, match_tok, check_tok, peek_tok, h]

theorem match_at_eof (s : List Char) (rest : Parser) (t : TokType) (ht : t ≠ .T_EOF) :
    match_tok (⟨.T_EOF, s⟩ :: rest) t = .ok (false, ⟨.T_EOF, s⟩ :: rest) := by
  have h : ¬ (TokType.T_EOF = t) := fun h => ht h.symm
  simp [match_tok, check_tok, peek_tok, h]

theorem struct_name_overrun (fuel : Nat) (s k : Tok) (hs : s.t = .T_STRUCT) :
    parse_struct_def fuel [s, k] = .error .oob := by
  simp only [parse_struct_def, expect, match_tok, check_tok, peek_tok, advance_tok, hs]
  rfl

theorem func_name_overrun (fuel : Nat) (s k : Tok) (hs : s.t = .T_FN) :
    parse_func fuel [s, k] = .error .oob := by
  simp only [parse_func, expect, match_tok, check_tok, peek_tok, advance_tok, hs]
  rfl

theorem let_name_overrun (pe pb : Parser → Except Fail (AstNode × Parser)) (s k : Tok)
    (hs : s.t = .T_LET) : parse_stmt pe pb [s, k] = .error .oob := by
  simp only [parse_stmt, expect, match_tok, check_tok, peek_tok, advance_tok, hs]
  rfl

theorem field_name_overrun (pe : Parser → Except Fail (AstNode × Parser)) (f : Nat)
    (left : AstNode) (s k : Tok) (hs : s.t = .T_DOT) :
    postfix_loop pe (f + 2) left [s, k] = .error .oob := by
  simp only [postfix_loop, expect, match_tok, check_tok, peek_tok, advance_tok, hs]
  rfl

/-- C35: the parser reads past the final end-of-input token. `peek_tok`
and `advance_tok` have no test of the position, and where a name is due
(after `struct`, `fn`, `let` and `.`, and for a field or a parameter)
`advance_tok` is called with no check of the kind, so it steps over the
end-of-input token and the next read is beyond the token array. The
sources `struct`, `fn`, `fn main() { let`, `fn main() { return a.`,
`struct P {` and `fn f(` all end in such a read. Where `expect` or
`match_tok` meets the end-of-input token it does not step over it. -/
theorem C35_name_positions_step_over_the_end :
    (∀ (k : Tok) (rest : Parser), advance_tok (k :: rest) = .ok (k, rest))
    ∧ peek_tok [] = .error .oob
    ∧ advance_tok [] = .error .oob
    ∧ (∀ (fuel : Nat) (s k : Tok), s.t = .T_STRUCT →
        parse_struct_def fuel [s, k] = .error .oob)
    ∧ (∀ (fuel : Nat) (s k : Tok), s.t = .T_FN → parse_func fuel [s, k] = .error .oob)
    ∧ (∀ (pe pb : Parser → Except Fail (AstNode × Parser)) (s k : Tok), s.t = .T_LET →
        parse_stmt pe pb [s, k] = .error .oob)
    ∧ (∀ (pe : Parser → Except Fail (AstNode × Parser)) (f : Nat) (left : AstNode) (s k : Tok),
        s.t = .T_DOT → postfix_loop pe (f + 2) left [s, k] = .error .oob)
    ∧ tokenize "struct".toList = some [⟨.T_STRUCT, "struct".toList⟩, eof_tok]
    ∧ parse [⟨.T_STRUCT, "struct".toList⟩, eof_tok] = .error .oob
    ∧ parse_outcome "struct".toList = some (some .oob)
    ∧ parse_outcome "fn".toList = some (some .oob)
    ∧ parse_outcome "fn main() \x7b let".toList = some (some .oob)
    ∧ parse_outcome "fn main() \x7b return a.".toList = some (some .oob)
    ∧ parse_outcome "struct P \x7b".toList = some (some .oob)
    ∧ parse_outcome "fn f(".toList = some (some .oob)
    ∧ (∀ (s : List Char) (rest : Parser) (t : TokType), t ≠ .T_EOF →
        expect (⟨.T_EOF, s⟩ :: rest) t = .error .parse_error)
    ∧ (∀ (s : List Char) (rest : Parser) (t : TokType), t ≠ .T_EOF →
        match_tok (⟨.T_EOF, s⟩ :: rest) t = .ok (false, ⟨.T_EOF, s⟩ :: rest)) :=
  ⟨fun _ _ => rfl, rfl, rfl, struct_name_overrun, func_name_overrun, let_name_overrun,
    field_name_overrun, by decide, by rfl, by decide, by decide, by decide, by decide,
    by decide, by decide, expect_at_eof, match_at_eof⟩

/-- C35 at the tokens of `struct` and of `fn`: the name read takes the
end-of-input token and the following read is out of range. -/
theorem C35_witness :
    parse_struct_def 3 [⟨.T_STRUCT, "struct".toList⟩, eof_tok] = .error .oob
    ∧ parse_func 3 [⟨.T_FN, "fn".toList⟩, eof_tok] = .error .oob
    ∧ expect (⟨.T_EOF, []⟩ :: []) .T_SEMI = .error .parse_error :=
  ⟨C35_name_positions_step_over_the_end.2.2.2.1 3 _ _ rfl,
   C35_name_positions_step_over_the_end.2.2.2.2.1 3 _ _ rfl,
   C35_name_positions_step_over_the_end.2.2.2.2.2.2.2.2.2.2.2.2.2.2.2.1 [] [] .T_SEMI
     (by decide)⟩

/-! ## Pushes and pops of expression code -/

theorem gen_stmt_bare (cg : Codegen) (n : AstNode)
    (h1 : n.type ≠ .AST_RETURN) (h2 : n.type ≠ .AST_LET) (h3 : n.type ≠ .AST_IF)
    (h4 : n.type ≠ .AST_WHILE) (h5 : n.type ≠ .AST_CALL) (h6 : n.type ≠ .AST_ASSIGN) :
    gen_stmt cg n = some cg := by
  obtain ⟨type, name, children, value, op, asz, stt⟩ := n
  cases type <;> first | rfl | simp_all

/-- C37: an expression statement that is neither a call nor an assignment
compiles to nothing. For every node whose type is none of `Return`, `Let`,
`If`, `While`, `Call`, `Assign`, `gen_stmt` returns the state it was given:
label counter, symbol table, string table and code are unchanged. In
`fn main() { 1 + f(); a[0]; p.x; "s"; return 0; }` the code of `main` is the
prologue and the `return 0`, the call of `f` is not compiled, and the string
table stays empty. -/
theorem C37_bare_expression_statement_is_dropped :
    (∀ (cg : Codegen) (n : AstNode),
        n.type ≠ .AST_RETURN → n.type ≠ .AST_LET → n.type ≠ .AST_IF → n.type ≠ .AST_WHILE →
        n.type ≠ .AST_CALL → n.type ≠ .AST_ASSIGN → gen_stmt cg n = some cg)
    ∧ (compile c37_source).map (fun cg => (func_code "main".toList cg.code, cg.strtab))
      = some ([.func_label "main".toList, .push_rbp, .mov_rbp_rsp, .sub_rsp_128,
          .mov_rax_s "0".toList, .leave, .ret, .xor_rax_rax, .leave, .ret], []) :=
  ⟨gen_stmt_bare, by decide!⟩

/-- C37 at the statement `1 + f();`: the sum node, with the call as its
right operand, leaves the state as it was. -/
theorem C37_witness :
    gen_stmt body_start
        (mk_binop ⟨.T_PLUS, "+".toList⟩ (num_node "1".toList)
          { ast_new .AST_CALL with name := some "f".toList })
      = some body_start :=
  C37_bare_expression_statement_is_dropped.1 body_start _ (by decide) (by decide) (by decide)
    (by decide) (by decide) (by decide)

/-! ## Results of the parser -/

theorem good_bind {α β : Type} (R : α → Prop) (Q : β → Prop) (x : Except Fail α)
    (g : α → Except Fail β) (hx : Good R x) (hg : ∀ a, R a → Good Q (g a)) :
    Good Q (x >>= g) := by
  cases x with
  | error e =>
    refine ⟨?_, ?_⟩
    · intro h; exact hx.1 (by simpa [bind, Except.bind] using h)
    · intro b h; simp [bind, Except.bind] at h
  | ok a => exact hg a (hx.2 a rfl)

theorem good_pure {α : Type} (Q : α → Prop) (a : α) (h : Q a) :
    Good Q (pure a : Except Fail α) :=
  ⟨by simp [pure, Except.pure], fun b hb => by
    simp only [pure, Except.pure, Except.ok.injEq] at hb; exact hb ▸ h⟩

theorem good_ok {α : Type} (Q : α → Prop) (a : α) (h : Q a) :
    Good Q (.ok a : Except Fail α) :=
  ⟨by simp, fun b hb => by simp only [Except.ok.injEq] at hb; exact hb ▸ h⟩

theorem good_error {α : Type} (Q : α → Prop) (e : Fail) (h : e ≠ .no_fuel) :
    Good Q (.error e : Except Fail α) :=
  ⟨by simpa using h, fun b hb => by simp at hb⟩

theorem good_mono {α : Type} (R Q : α → Prop) (x : Except Fail α) (hx : Good R x)
    (h : ∀ a, R a → Q a) : Good Q x :=
  ⟨hx.1, fun a ha => h a (hx.2 a ha)⟩

theorem good_ite {α : Type} (Q : α → Prop) (c : Prop) [Decidable c] (x y : Except Fail α)
    (hx : c → Good Q x) (hy : ¬c → Good Q y) : Good Q (if c then x else y) := by
  split_ifs with h
  · exact hx h
  · exact hy h

theorem good_peek (p : Parser) : Good (fun _ => p ≠ []) (peek_tok p) := by
  cases p with
  | nil => exact good_error _ _ (by decide)
  | cons k ks => exact good_ok _ _ (by simp)

theorem good_check (p : Parser) (t : TokType) : Good (fun _ => p ≠ []) (check_tok p t) := by
  cases p with
  | nil => exact good_error _ _ (by decide)
  | cons k ks => exact good_ok _ _ (by simp)

theorem good_advance (p : Parser) :
    Good (fun r => r.2.length + 1 = p.length) (advance_tok p) := by
  cases p with
  | nil => exact good_error _ _ (by decide)
  | cons k ks => exact good_ok _ _ (by simp)

theorem good_match (p : Parser) (t : TokType) :
    Good (fun r => (r.1 = true → r.2.length + 1 = p.length) ∧ (r.1 = false → r.2 = p))
      (match_tok p t) := by
  cases p with
  | nil => exact good_error _ _ (by decide)
  | cons k ks =>
    by_cases h : k.t = t
    · simp only [match_tok, check_tok, peek_tok, h, decide_True, advance_tok]
      exact good_ok _ _ (by simp)
    · simp only [match_tok, check_tok, peek_tok, h, decide_False]
      exact good_ok _ _ (by simp)

theorem good_expect (p : Parser) (t : TokType) :
    Good (fun p1 => p1.length + 1 = p.length) (expect p t) := by
  cases p with
  | nil => exact good_error _ _ (by decide)
  | cons k ks =>
    by_cases h : k.t = t
    · simp only [expect, match_tok, check_tok, peek_tok, h, decide_True, advance_tok]
      exact good_ok _ _ (by simp)
    · simp only [expect, match_tok, check_tok, peek_tok, h, decide_False]
      exact good_error _ _ (by decide)

theorem wf_list_append (a b : List AstNode) : wf_list (a ++ b) = (wf_list a && wf_list b) := by
  induction a with
  | nil => simp [wf_list]
  | cons x xs ih => simp [wf_list, ih, Bool.and_assoc]

theorem wf_node_eq (n : AstNode) : wf_node n = (shape_ok n.type n.children && wf_list n.children) := by
  cases n; simp [wf_node]

theorem wf_add (n c : AstNode) (hs : shape_ok n.type (n.children ++ [c]) = true)
    (hn : wf_list n.children = true) (hc : wf_node c = true) : wf_node (ast_add n c) = true := by
  rw [wf_node_eq]
  simp only [ast_add, wf_list_append, wf_list, hn, hc, hs, Bool.and_self]

theorem wf_list_add (n c : AstNode) (hn : wf_list n.children = true) (hc : wf_node c = true) :
    wf_list (ast_add n c).children = true := by
  simp only [ast_add, wf_list_append, wf_list, hn, hc, Bool.and_self]

theorem wf_free (n : AstNode) (hs : ∀ cs, shape_ok n.type cs = true)
    (hw : wf_list n.children = true) : wf_node n = true := by
  rw [wf_node_eq, hs, hw]; rfl

theorem expr_list_loop_good (pe : Parser → Except Fail (AstNode × Parser)) (close : TokType)
    (L : Nat) (hpe : ParsesWell pe L) :
    ∀ (f : Nat) (n : AstNode) (p : Parser), p.length < f → p.length < L →
      (∀ cs, shape_ok n.type cs = true) → wf_list n.children = true →
      Good (fun r => r.2.length ≤ p.length ∧ wf_node r.1 = true ∧ r.1.type = n.type)
        (expr_list_loop pe close f n p) := by
  intro f
  induction f with
  | zero => intro n p h; omega
  | succ f ih =>
    intro n p hf hL hs hw
    simp only [expr_list_loop]
    refine good_bind _ _ _ _ (good_check p close) (fun b _ => ?_)
    refine good_ite _ _ _ _ (fun _ => good_pure _ _ ⟨le_refl _, wf_free n hs hw, rfl⟩)
      (fun _ => ?_)
    refine good_bind (fun _ => True) _ _ _ (good_pure _ _ trivial) (fun _ _ => ?_)
    refine good_bind _ _ _ _ (hpe p hL) (fun r hr => ?_)
    refine good_bind (fun p2 => p2.length ≤ r.2.length) _ _ _ ?_ (fun p2 h2 => ?_)
    · refine good_bind _ _ _ _ (good_check r.2 close) (fun b2 _ => ?_)
      exact good_ite _ _ _ _
        (fun _ => good_mono _ _ _ (good_expect _ _) (fun a h => by omega))
        (fun _ => good_pure _ _ (le_refl _))
    · refine good_mono _ _ _
        (ih (ast_add n r.1) p2 (by omega) (by omega) hs (wf_list_add n r.1 hw hr.2)) ?_
      intro a ha
      exact ⟨by omega, ha.2.1, ha.2.2⟩

theorem struct_lit_loop_good (pe : Parser → Except Fail (AstNode × Parser))
    (L : Nat) (hpe : ParsesWell pe L) :
    ∀ (f : Nat) (n : AstNode) (p : Parser), p.length < f → p.length ≤ L →
      n.type = .AST_STRUCT_LITERAL → wf_node n = true →
      Good (fun r => r.2.length ≤ p.length ∧ wf_node r.1 = true)
        (struct_lit_loop pe f n p) := by
  intro f
  induction f with
  | zero => intro n p h; omega
  | succ f ih =>
    intro n p hf hL ht hw
    simp only [struct_lit_loop]
    refine good_bind _ _ _ _ (good_check p .T_RBRACE) (fun b _ => ?_)
    refine good_ite _ _ _ _ (fun _ => good_pure _ _ ⟨le_refl _, hw⟩) (fun _ => ?_)
    refine good_bind (fun _ => True) _ _ _ (good_pure _ _ trivial) (fun _ _ => ?_)
    refine good_bind _ _ _ _ (good_advance p) (fun r1 h1 => ?_)
    refine good_bind _ _ _ _ (good_expect r1.2 .T_COLON) (fun p2 h2 => ?_)
    refine good_bind _ _ _ _ (hpe p2 (by omega)) (fun r3 h3 => ?_)
    refine good_bind (fun p4 => p4.length ≤ r3.2.length) _ _ _ ?_ (fun p4 h4 => ?_)
    · refine good_bind _ _ _ _ (good_check r3.2 .T_RBRACE) (fun b2 _ => ?_)
      exact good_ite _ _ _ _
        (fun _ => good_mono _ _ _ (good_expect _ _) (fun a h => by omega))
        (fun _ => good_pure _ _ (le_refl _))
    · refine good_mono _ _ _ (ih _ p4 (by omega) (by omega) (by simp [ast_add, ht]) ?_) ?_
      · rw [wf_node_eq, ht] at hw
        simp only [Bool.and_eq_true] at hw
        have hsh : n.children.all (fun c => c.type = .AST_IDENT && c.children.length = 1)
            = true := hw.1
        apply wf_add
        · simp only [ht, shape_ok, List.all_append, hsh, Bool.true_and]
          simp [ast_add, ast_new]
        · exact hw.2
        · rw [wf_node_eq]
          simp [ast_add, ast_new, shape_ok, wf_list, h3.2]
      · intro a ha
        exact ⟨by omega, ha.2⟩

theorem parse_primary_good (pe : Parser → Except Fail (AstNode × Parser)) (L fuel : Nat)
    (hpe : ParsesWell pe L) (hLf : L ≤ fuel) (p : Parser) (hp : p.length ≤ L) :
    Good (fun r => r.2.length < p.length ∧ wf_node r.1 = true) (parse_primary pe fuel p) := by
  simp only [parse_primary]
  refine good_bind _ _ _ _ (good_check p .T_NUM) (fun b1 _ => ?_)
  refine good_ite _ _ _ _ (fun _ => ?_) (fun _ => ?_)
  · refine good_bind _ _ _ _ (good_advance p) (fun r h => ?_)
    exact good_pure _ _ ⟨by simp only; omega, rfl⟩
  refine good_bind (fun _ => True) _ _ _ (good_pure _ _ trivial) (fun _ _ => ?_)
  refine good_bind _ _ _ _ (good_check p .T_STR) (fun b2 _ => ?_)
  refine good_ite _ _ _ _ (fun _ => ?_) (fun _ => ?_)
  · refine good_bind _ _ _ _ (good_advance p) (fun r h => ?_)
    exact good_pure _ _ ⟨by simp only; omega, rfl⟩
  refine good_bind (fun _ => True) _ _ _ (good_pure _ _ trivial) (fun _ _ => ?_)
  refine good_bind _ _ _ _ (good_check p .T_LBRACKET) (fun b3 _ => ?_)
  refine good_ite _ _ _ _ (fun _ => ?_) (fun _ => ?_)
  · refine good_bind _ _ _ _ (good_advance p) (fun r h => ?_)
    refine good_bind _ _ _ _
      (expr_list_loop_good pe .T_RBRACKET L hpe fuel (ast_new .AST_ARRAY_LITERAL) r.2
        (by omega) (by omega) (fun cs => rfl) rfl) (fun r2 h2 => ?_)
    refine good_bind _ _ _ _ (good_expect r2.2 .T_RBRACKET) (fun p3 h3 => ?_)
    refine good_pure _ _ ⟨by simp only; omega, ?_⟩
    have := h2.2.1
    rw [wf_node_eq] at this ⊢
    exact this
  refine good_bind (fun _ => True) _ _ _ (good_pure _ _ trivial) (fun _ _ => ?_)
  refine good_bind _ _ _ _ (good_check p .T_IDENT) (fun b4 _ => ?_)
  refine good_ite _ _ _ _ (fun _ => ?_) (fun _ => ?_)
  · refine good_bind _ _ _ _ (good_advance p) (fun r h => ?_)
    refine good_bind _ _ _ _ (good_check r.2 .T_LBRACE) (fun b5 _ => ?_)
    refine good_ite _ _ _ _ (fun _ => ?_) (fun _ => ?_)
    · refine good_bind _ _ _ _ (good_advance r.2) (fun r1 h1 => ?_)
      refine good_bind _ _ _ _
        (struct_lit_loop_good pe L hpe fuel _ r1.2 (by omega) (by omega) rfl rfl)
        (fun r2 h2 => ?_)
      refine good_bind _ _ _ _ (good_expect r2.2 .T_RBRACE) (fun p4 h4 => ?_)
      exact good_pure _ _ ⟨by simp only; omega, h2.2⟩
    refine good_bind (fun _ => True) _ _ _ (good_pure _ _ trivial) (fun _ _ => ?_)
    refine good_bind _ _ _ _ (good_check r.2 .T_LPAREN) (fun b6 _ => ?_)
    refine good_ite _ _ _ _ (fun _ => ?_) (fun _ => ?_)
    · refine good_bind _ _ _ _ (good_advance r.2) (fun r1 h1 => ?_)
      refine good_bind _ _ _ _
        (expr_list_loop_good pe .T_RPAREN L hpe fuel _ r1.2
          (by omega) (by omega) (fun cs => rfl) rfl) (fun r2 h2 => ?_)
      refine good_bind _ _ _ _ (good_expect r2.2 .T_RPAREN) (fun p4 h4 => ?_)
      exact good_pure _ _ ⟨by simp only; omega, h2.2.1⟩
    refine good_bind (fun _ => True) _ _ _ (good_pure _ _ trivial) (fun _ _ => ?_)
    refine good_bind _ _ _ _ (good_check r.2 .T_EQ) (fun b7 _ => ?_)
    refine good_ite _ _ _ _ (fun _ => ?_) (fun _ => ?_)
    · refine good_bind _ _ _ _ (good_advance r.2) (fun r1 h1 => ?_)
      refine good_bind _ _ _ _ (hpe r1.2 (by omega)) (fun r2 h2 => ?_)
      refine good_pure _ _ ⟨by simp only; omega, ?_⟩
      exact wf_add _ _ rfl rfl h2.2
    refine good_bind (fun _ => True) _ _ _ (good_pure _ _ trivial) (fun _ _ => ?_)
    exact good_pure _ _ ⟨by simp only; omega, rfl⟩
  refine good_bind (fun _ => True) _ _ _ (good_pure _ _ trivial) (fun _ _ => ?_)
  refine good_bind _ _ _ _ (good_match p .T_LPAREN) (fun r h => ?_)
  refine good_ite _ _ _ _ (fun hm => ?_) (fun _ => ?_)
  · have hl := h.1 hm
    refine good_bind _ _ _ _ (hpe r.2 (by omega)) (fun r2 h2 => ?_)
    refine good_bind _ _ _ _ (good_expect r2.2 .T_RPAREN) (fun p3 h3 => ?_)
    exact good_pure _ _ ⟨by simp only; omega, h2.2⟩
  · refine good_bind (fun _ => True) _ _ _ (good_pure _ _ trivial) (fun _ _ => ?_)
    exact good_error _ _ (by decide)

theorem postfix_loop_good (pe : Parser → Except Fail (AstNode × Parser))
    (L : Nat) (hpe : ParsesWell pe L) :
    ∀ (f : Nat) (n : AstNode) (p : Parser), p.length < f → p.length ≤ L →
      wf_node n = true →
      Good (fun r => r.2.length ≤ p.length ∧ wf_node r.1 = true) (postfix_loop pe f n p) := by
  intro f
  induction f with
  | zero => intro n p h; omega
  | succ f ih =>
    intro n p hf hL hw
    simp only [postfix_loop]
    refine good_bind _ _ _ _ (good_check p .T_LBRACKET) (fun b _ => ?_)
    refine good_ite _ _ _ _ (fun _ => ?_) (fun _ => ?_)
    · refine good_bind _ _ _ _ (good_advance p) (fun r1 h1 => ?_)
      refine good_bind _ _ _ _ (hpe r1.2 (by omega)) (fun r2 h2 => ?_)
      refine good_bind _ _ _ _ (good_expect r2.2 .T_RBRACKET) (fun p3 h3 => ?_)
      refine good_mono _ _ _ (ih _ p3 (by omega) (by omega) ?_) (fun a ha => ⟨by omega, ha.2⟩)
      exact wf_add _ _ rfl (by simp [ast_add, ast_new, wf_list, hw]) h2.2
    · refine good_bind _ _ _ _ (good_check p .T_DOT) (fun b2 _ => ?_)
      refine good_ite _ _ _ _ (fun _ => ?_) (fun _ => good_pure _ _ ⟨le_refl _, hw⟩)
      refine good_bind _ _ _ _ (good_advance p) (fun r1 h1 => ?_)
      refine good_bind _ _ _ _ (good_advance r1.2) (fun r2 h2 => ?_)
      refine good_mono _ _ _ (ih _ r2.2 (by omega) (by omega) ?_) (fun a ha => ⟨by omega, ha.2⟩)
      exact wf_add _ _ rfl rfl hw

theorem parse_postfix_good (pe : Parser → Except Fail (AstNode × Parser)) (L fuel : Nat)
    (hpe : ParsesWell pe L) (hLf : L ≤ fuel) (p : Parser) (hp : p.length ≤ L) :
    Good (fun r => r.2.length < p.length ∧ wf_node r.1 = true) ( parse_postfix pe fuel p) := by
  simp only [ parse_postfix]
  refine good_bind _ _ _ _ (parse_primary_good pe L fuel hpe hLf p hp) (fun r h => ?_)
  exact good_mono _ _ _ (postfix_loop_good pe L hpe fuel r.1 r.2 (by omega) (by omega) h.2)
    (fun a ha => ⟨by omega, ha.2⟩)

theorem multiplicative_loop_good (pe : Parser → Except Fail (AstNode × Parser)) (L fuel : Nat)
    (hpe : ParsesWell pe L) (hLf : L ≤ fuel) :
    ∀ (f : Nat) (n : AstNode) (p : Parser), p.length < f → p.length ≤ L →
      wf_node n = true →
      Good (fun r => r.2.length ≤ p.length ∧ wf_node r.1 = true) (multiplicative_loop pe fuel f n p) := by
  intro f
  induction f with
  | zero => intro n p h; omega
  | succ f ih =>
    intro n p hf hL hw
    simp only [multiplicative_loop]
    refine good_bind _ _ _ _ (good_check p .T_STAR) (fun b0 _ => ?_)
    refine good_bind _ _ _ _ (good_check p .T_SLASH) (fun b1 _ => ?_)
    refine good_ite _ _ _ _ (fun _ => ?_) (fun _ => good_pure _ _ ⟨le_refl _, hw⟩)
    refine good_bind _ _ _ _ (good_advance p) (fun r1 h1 => ?_)
    refine good_bind _ _ _ _ (parse_postfix_good pe L fuel hpe hLf r1.2 (by omega)) (fun r2 h2 => ?_)
    refine good_mono _ _ _ (ih _ r2.2 (by omega) (by omega) ?_) (fun a ha => ⟨by omega, ha.2⟩)
    exact wf_add _ _ rfl (by simp [ast_add, ast_new, wf_list, hw]) h2.2

theorem parse_multiplicative_good (pe : Parser → Except Fail (AstNode × Parser)) (L fuel : Nat)
    (hpe : ParsesWell pe L) (hLf : L ≤ fuel) (p : Parser) (hp : p.length ≤ L) :
    Good (fun r => r.2.length < p.length ∧ wf_node r.1 = true) (parse_multiplicative pe fuel p) := by
  simp only [parse_multiplicative]
  refine good_bind _ _ _ _ (parse_postfix_good pe L fuel hpe hLf p hp) (fun r h => ?_)
  exact good_mono _ _ _ (multiplicative_loop_good pe L fuel hpe hLf fuel r.1 r.2 (by omega) (by omega) h.2)
    (fun a ha => ⟨by omega, ha.2⟩)

theorem additive_loop_good (pe : Parser → Except Fail (AstNode × Parser)) (L fuel : Nat)
    (hpe : ParsesWell pe L) (hLf : L ≤ fuel) :
    ∀ (f : Nat) (n : AstNode) (p : Parser), p.length < f → p.length ≤ L →
      wf_node n = true →
      Good (fun r => r.2.length ≤ p.length ∧ wf_node r.1 = true) (additive_loop pe fuel f n p) := by
  intro f
  induction f with
  | zero => intro n p h; omega
  | succ f ih =>
    intro n p hf hL hw
    simp only [additive_loop]
    refine good_bind _ _ _ _ (good_check p .T_PLUS) (fun b0 _ => ?_)
    refine good_bind _ _ _ _ (good_check p .T_MINUS) (fun b1 _ => ?_)
    refine good_ite _ _ _ _ (fun _ => ?_) (fun _ => good_pure _ _ ⟨le_refl _, hw⟩)
    refine good_bind _ _ _ _ (good_advance p) (fun r1 h1 => ?_)
    refine good_bind _ _ _ _ (parse_multiplicative_good pe L fuel hpe hLf r1.2 (by omega)) (fun r2 h2 => ?_)
    refine good_mono _ _ _ (ih _ r2.2 (by omega) (by omega) ?_) (fun a ha => ⟨by omega, ha.2⟩)
    exact wf_add _ _ rfl (by simp [ast_add, ast_new, wf_list, hw]) h2.2

theorem parse_additive_good (pe : Parser → Except Fail (AstNode × Parser)) (L fuel : Nat)
    (hpe : ParsesWell pe L) (hLf : L ≤ fuel) (p : Parser) (hp : p.length ≤ L) :
    Good (fun r => r.2.length < p.length ∧ wf_node r.1 = true) (parse_additive pe fuel p) := by
  simp only [parse_additive]
  refine good_bind _ _ _ _ (parse_multiplicative_good pe L fuel hpe hLf p hp) (fun r h => ?_)
  exact good_mono _ _ _ (additive_loop_good pe L fuel hpe hLf fuel r.1 r.2 (by omega) (by omega) h.2)
    (fun a ha => ⟨by omega, ha.2⟩)

theorem comparison_loop_good (pe : Parser → Except Fail (AstNode × Parser)) (L fuel : Nat)
    (hpe : ParsesWell pe L) (hLf : L ≤ fuel) :
    ∀ (f : Nat) (n : AstNode) (p : Parser), p.length < f → p.length ≤ L →
      wf_node n = true →
      Good (fun r => r.2.length ≤ p.length ∧ wf_node r.1 = true) (comparison_loop pe fuel f n p) := by
  intro f
  induction f with
  | zero => intro n p h; omega
  | succ f ih =>
    intro n p hf hL hw
    simp only [comparison_loop]
    refine good_bind _ _ _ _ (good_check p .T_EQEQ) (fun b0 _ => ?_)
    refine good_bind _ _ _ _ (good_check p .T_NEQ) (fun b1 _ => ?_)
    refine good_bind _ _ _ _ (good_check p .T_LT) (fun b2 _ => ?_)
    refine good_bind _ _ _ _ (good_check p .T_GT) (fun b3 _ => ?_)
    refine good_bind _ _ _ _ (good_check p .T_LTE) (fun b4 _ => ?_)
    refine good_bind _ _ _ _ (good_check p .T_GTE) (fun b5 _ => ?_)
    refine good_ite _ _ _ _ (fun _ => ?_) (fun _ => good_pure _ _ ⟨le_refl _, hw⟩)
    refine good_bind _ _ _ _ (good_advance p) (fun r1 h1 => ?_)
    refine good_bind _ _ _ _ (parse_additive_good pe L fuel hpe hLf r1.2 (by omega)) (fun r2 h2 => ?_)
    refine good_mono _ _ _ (ih _ r2.2 (by omega) (by omega) ?_) (fun a ha => ⟨by omega, ha.2⟩)
    exact wf_add _ _ rfl (by simp [ast_add, ast_new, wf_list, hw]) h2.2

theorem parse_comparison_good (pe : Parser → Except Fail (AstNode × Parser)) (L fuel : Nat)
    (hpe : ParsesWell pe L) (hLf : L ≤ fuel) (p : Parser) (hp : p.length ≤ L) :
    Good (fun r => r.2.length < p.length ∧ wf_node r.1 = true) (parse_comparison pe fuel p) := by
  simp only [parse_comparison]
  refine good_bind _ _ _ _ (parse_additive_good pe L fuel hpe hLf p hp) (fun r h => ?_)
  exact good_mono _ _ _ (comparison_loop_good pe L fuel hpe hLf fuel r.1 r.2 (by omega) (by omega) h.2)
    (fun a ha => ⟨by omega, ha.2⟩)

theorem parse_expr_good : ∀ f : Nat, ParsesWell (parse_expr f) f := by
  intro f
  induction f with
  | zero => intro q h; omega
  | succ f ih =>
    intro q hq
    simp only [parse_expr]
    exact parse_comparison_good (parse_expr f) f f ih (le_refl _) q (by omega)

theorem bool_not_true (b : Bool) (h : ¬b = true) : b = false := by
  cases b <;> simp_all

theorem parse_stmt_good (pe pb : Parser → Except Fail (AstNode × Parser)) (L : Nat)
    (hpe : ParsesWell pe (L + 1)) (hpb : BlockWell pb L) (p : Parser) (hp : p.length ≤ L) :
    Good (fun r => r.2.length < p.length ∧ wf_node r.1 = true) (parse_stmt pe pb p) := by
  simp only [parse_stmt]
  refine good_bind _ _ _ _ (good_match p .T_RET) (fun r0 h0 => ?_)
  refine good_ite _ _ _ _ (fun hm => ?_) (fun _ => ?_)
  · have hl := h0.1 hm
    refine good_bind (fun r => r.2.length ≤ r0.2.length ∧ wf_node r.1 = true) _ _ _ ?_
      (fun r1 h1 => ?_)
    · refine good_bind _ _ _ _ (good_check r0.2 .T_SEMI) (fun b _ => ?_)
      refine good_ite _ _ _ _ (fun _ => ?_) (fun _ => good_pure _ _ ⟨le_refl _, rfl⟩)
      refine good_bind _ _ _ _ (hpe r0.2 (by omega)) (fun r2 h2 => ?_)
      exact good_pure _ _ ⟨by simp only; omega, wf_add _ _ rfl rfl h2.2⟩
    · refine good_bind _ _ _ _ (good_expect r1.2 .T_SEMI) (fun p3 h3 => ?_)
      exact good_pure _ _ ⟨by simp only; omega, h1.2⟩
  refine good_bind (fun _ => True) _ _ _ (good_pure _ _ trivial) (fun _ _ => ?_)
  refine good_bind _ _ _ _ (good_match p .T_LET) (fun r1 h1 => ?_)
  refine good_ite _ _ _ _ (fun hm => ?_) (fun _ => ?_)
  · have hl := h1.1 hm
    refine good_bind _ _ _ _ (good_advance r1.2) (fun r2 h2 => ?_)
    refine good_bind _ _ _ _ (good_match r2.2 .T_COLON) (fun r3 h3 => ?_)
    refine good_bind (fun p4 => p4.length ≤ r3.2.length) _ _ _ ?_ (fun p4 h4 => ?_)
    · refine good_ite _ _ _ _ (fun _ => ?_) (fun _ => good_pure _ _ (le_refl _))
      refine good_bind _ _ _ _ (good_advance r3.2) (fun r h => ?_)
      exact good_pure _ _ (by omega)
    have h3l : r3.2.length ≤ r2.2.length := by
      cases hb : r3.1 with
      | true => have := h3.1 hb; omega
      | false => rw [h3.2 hb]
    refine good_bind _ _ _ _ (good_match p4 .T_EQ) (fun r5 h5 => ?_)
    have h5l : r5.2.length ≤ p4.length := by
      cases hb : r5.1 with
      | true => have := h5.1 hb; omega
      | false => rw [h5.2 hb]
    refine good_bind (fun r => r.2.length ≤ r5.2.length ∧ wf_node r.1 = true) _ _ _ ?_
      (fun r6 h6 => ?_)
    · refine good_ite _ _ _ _ (fun _ => ?_) (fun _ => good_pure _ _ ⟨le_refl _, rfl⟩)
      refine good_bind _ _ _ _ (hpe r5.2 (by omega)) (fun r h => ?_)
      exact good_pure _ _ ⟨by simp only; omega, wf_add _ _ rfl rfl h.2⟩
    · refine good_bind _ _ _ _ (good_expect r6.2 .T_SEMI) (fun p7 h7 => ?_)
      exact good_pure _ _ ⟨by simp only; omega, h6.2⟩
  refine good_bind (fun _ => True) _ _ _ (good_pure _ _ trivial) (fun _ _ => ?_)
  refine good_bind _ _ _ _ (good_match p .T_IF) (fun r2 h2 => ?_)
  refine good_ite _ _ _ _ (fun hm => ?_) (fun _ => ?_)
  · have hl := h2.1 hm
    refine good_bind _ _ _ _ (good_expect r2.2 .T_LPAREN) (fun p2 hp2 => ?_)
    refine good_bind _ _ _ _ (hpe p2 (by omega)) (fun r3 h3 => ?_)
    refine good_bind _ _ _ _ (good_expect r3.2 .T_RPAREN) (fun p4 hp4 => ?_)
    refine good_bind _ _ _ _ (hpb p4 (by omega)) (fun r5 h5 => ?_)
    have hw2 : wf_node (ast_add (ast_add (ast_new .AST_IF) r3.1) r5.1) = true := by
      apply wf_add
      · simp [ast_add, ast_new, shape_ok, h5.2.2]
      · simp [ast_add, ast_new, wf_list, h3.2]
      · exact h5.2.1
    refine good_bind _ _ _ _ (good_match r5.2 .T_ELSE) (fun r6 h6 => ?_)
    have h6l : r6.2.length ≤ r5.2.length := by
      cases hb : r6.1 with
      | true => have := h6.1 hb; omega
      | false => rw [h6.2 hb]
    refine good_ite _ _ _ _ (fun hm1 => ?_) (fun _ => ?_)
    · have := h6.1 hm1
      refine good_bind _ _ _ _ (hpb r6.2 (by omega)) (fun r7 h7 => ?_)
      refine good_pure _ _ ⟨by simp only; omega, ?_⟩
      apply wf_add
      · simp [ast_add, ast_new, shape_ok, h5.2.2, h7.2.2]
      · simp [ast_add, ast_new, wf_list, h3.2, h5.2.1]
      · exact h7.2.1
    · refine good_bind (fun _ => True) _ _ _ (good_pure _ _ trivial) (fun _ _ => ?_)
      exact good_pure _ _ ⟨by simp only; omega, hw2⟩
  refine good_bind (fun _ => True) _ _ _ (good_pure _ _ trivial) (fun _ _ => ?_)
  refine good_bind _ _ _ _ (good_match p .T_WHILE) (fun r3 h3 => ?_)
  refine good_ite _ _ _ _ (fun hm => ?_) (fun hm => ?_)
  · have hl := h3.1 hm
    refine good_bind _ _ _ _ (good_expect r3.2 .T_LPAREN) (fun p2 hp2 => ?_)
    refine good_bind _ _ _ _ (hpe p2 (by omega)) (fun r4 h4 => ?_)
    refine good_bind _ _ _ _ (good_expect r4.2 .T_RPAREN) (fun p4 hp4 => ?_)
    refine good_bind _ _ _ _ (hpb p4 (by omega)) (fun r5 h5 => ?_)
    refine good_pure _ _ ⟨by simp only; omega, ?_⟩
    apply wf_add
    · simp [ast_add, ast_new, shape_ok, h5.2.2]
    · simp [ast_add, ast_new, wf_list, h4.2]
    · exact h5.2.1
  · have hp1 : r3.2 = p := h3.2 (bool_not_true _ hm)
    refine good_bind (fun _ => True) _ _ _ (good_pure _ _ trivial) (fun _ _ => ?_)
    refine good_bind _ _ _ _ (hpe r3.2 (by rw [hp1]; omega)) (fun r4 h4 => ?_)
    refine good_bind _ _ _ _ (good_expect r4.2 .T_SEMI) (fun p3 hp3 => ?_)
    exact good_pure _ _ ⟨by rw [hp1] at h4; simp only; omega, h4.2⟩

theorem block_loop_good (ps : Parser → Except Fail (AstNode × Parser)) (L : Nat)
    (hps : ∀ q : Parser, q.length ≤ L →
      Good (fun r => r.2.length < q.length ∧ wf_node r.1 = true) (ps q)) :
    ∀ (f : Nat) (n : AstNode) (p : Parser), p.length < f → p.length ≤ L →
      (∀ cs, shape_ok n.type cs = true) → wf_list n.children = true →
      Good (fun r => r.2.length ≤ p.length ∧ wf_node r.1 = true ∧ r.1.type = n.type)
        (block_loop ps f n p) := by
  intro f
  induction f with
  | zero => intro n p h; omega
  | succ f ih =>
    intro n p hf hL hs hw
    simp only [block_loop]
    refine good_bind _ _ _ _ (good_check p .T_RBRACE) (fun b1 _ => ?_)
    refine good_bind _ _ _ _ (good_check p .T_EOF) (fun b2 _ => ?_)
    refine good_ite _ _ _ _ (fun _ => ?_)
      (fun _ => good_pure _ _ ⟨le_refl _, wf_free n hs hw, rfl⟩)
    refine good_bind _ _ _ _ (hps p hL) (fun r hr => ?_)
    refine good_mono _ _ _
      (ih (ast_add n r.1) r.2 (by omega) (by omega) hs (wf_list_add n r.1 hw hr.2)) ?_
    intro a ha
    exact ⟨by omega, ha.2.1, ha.2.2⟩

theorem parses_well_mono (pe : Parser → Except Fail (AstNode × Parser)) (L K : Nat)
    (h : ParsesWell pe L) (hk : K ≤ L) : ParsesWell pe K :=
  fun q hq => h q (by omega)

theorem parse_block_good (fuel_e : Nat) :
    ∀ f : Nat, f ≤ fuel_e → BlockWell (parse_block fuel_e f) f := by
  intro f
  induction f with
  | zero => intro _ q h; omega
  | succ f ih =>
    intro hf q hq
    simp only [parse_block]
    refine good_bind _ _ _ _ (good_expect q .T_LBRACE) (fun p1 h1 => ?_)
    refine good_bind _ _ _ _
      (block_loop_good _ p1.length
        (fun s hs => parse_stmt_good (parse_expr fuel_e) (parse_block fuel_e f) p1.length
          (parses_well_mono _ _ _ (parse_expr_good fuel_e) (by omega))
          (fun t ht => ih (by omega) t (by omega)) s hs)
        f (ast_new .AST_BLOCK) p1 (by omega) (le_refl _) (fun cs => rfl) rfl)
      (fun r2 h2 => ?_)
    refine good_bind _ _ _ _ (good_expect r2.2 .T_RBRACE) (fun p3 h3 => ?_)
    exact good_pure _ _ ⟨by simp only; omega, h2.2.1, h2.2.2⟩

theorem struct_def_loop_good :
    ∀ (f : Nat) (n : AstNode) (p : Parser), p.length < f →
      (∀ cs, shape_ok n.type cs = true) → wf_list n.children = true →
      Good (fun r => r.2.length ≤ p.length ∧ wf_node r.1 = true ∧ r.1.type = n.type)
        (struct_def_loop f n p) := by
  intro f
  induction f with
  | zero => intro n p h; omega
  | succ f ih =>
    intro n p hf hs hw
    simp only [struct_def_loop]
    refine good_bind _ _ _ _ (good_check p .T_RBRACE) (fun b _ => ?_)
    refine good_ite _ _ _ _ (fun _ => good_pure _ _ ⟨le_refl _, wf_free n hs hw, rfl⟩)
      (fun _ => ?_)
    refine good_bind (fun _ => True) _ _ _ (good_pure _ _ trivial) (fun _ _ => ?_)
    refine good_bind _ _ _ _ (good_advance p) (fun r1 h1 => ?_)
    refine good_bind _ _ _ _ (good_expect r1.2 .T_COLON) (fun p2 h2 => ?_)
    refine good_bind _ _ _ _ (good_advance p2) (fun r3 h3 => ?_)
    refine good_bind (fun p4 => p4.length ≤ r3.2.length) _ _ _ ?_ (fun p4 h4 => ?_)
    · refine good_bind _ _ _ _ (good_check r3.2 .T_RBRACE) (fun b2 _ => ?_)
      exact good_ite _ _ _ _
        (fun _ => good_mono _ _ _ (good_expect _ _) (fun a h => by omega))
        (fun _ => good_pure _ _ (le_refl _))
    · refine good_mono _ _ _
        (ih (ast_add n _) p4 (by omega) hs (wf_list_add n _ hw rfl)) ?_
      intro a ha
      exact ⟨by omega, ha.2.1, ha.2.2⟩

theorem parse_struct_def_good (fuel : Nat) (p : Parser) (hp : p.length < fuel) :
    Good (fun r => r.2.length < p.length ∧ wf_node r.1 = true ∧ r.1.type = .AST_STRUCT_DEF)
      (parse_struct_def fuel p) := by
  simp only [parse_struct_def]
  refine good_bind _ _ _ _ (good_expect p .T_STRUCT) (fun p1 h1 => ?_)
  refine good_bind _ _ _ _ (good_advance p1) (fun r2 h2 => ?_)
  refine good_bind _ _ _ _ (good_expect r2.2 .T_LBRACE) (fun p3 h3 => ?_)
  refine good_bind _ _ _ _
    (struct_def_loop_good fuel _ p3 (by omega) (fun cs => rfl) rfl) (fun r4 h4 => ?_)
  refine good_bind _ _ _ _ (good_expect r4.2 .T_RBRACE) (fun p5 h5 => ?_)
  exact good_pure _ _ ⟨by simp only; omega, h4.2.1, h4.2.2⟩

theorem param_loop_good :
    ∀ (f : Nat) (n : AstNode) (p : Parser), p.length < f →
      n.children.all (fun c => c.type = .AST_IDENT) = true → wf_list n.children = true →
      Good (fun r => r.2.length ≤ p.length ∧ r.1.type = n.type
          ∧ r.1.children.all (fun c => c.type = .AST_IDENT) = true
          ∧ wf_list r.1.children = true)
        (param_loop f n p) := by
  intro f
  induction f with
  | zero => intro n p h; omega
  | succ f ih =>
    intro n p hf hs hw
    simp only [param_loop]
    refine good_bind _ _ _ _ (good_check p .T_RPAREN) (fun b _ => ?_)
    refine good_ite _ _ _ _ (fun _ => good_pure _ _ ⟨le_refl _, rfl, hs, hw⟩) (fun _ => ?_)
    refine good_bind (fun _ => True) _ _ _ (good_pure _ _ trivial) (fun _ _ => ?_)
    refine good_bind _ _ _ _ (good_advance p) (fun r1 h1 => ?_)
    refine good_bind _ _ _ _ (good_match r1.2 .T_COLON) (fun r2 h2 => ?_)
    have h2l : r2.2.length ≤ r1.2.length := by
      cases hb : r2.1 with
      | true => have := h2.1 hb; omega
      | false => rw [h2.2 hb]
    refine good_bind (fun p3 => p3.length ≤ r2.2.length) _ _ _ ?_ (fun p3 h3 => ?_)
    · refine good_ite _ _ _ _ (fun _ => ?_) (fun _ => good_pure _ _ (le_refl _))
      refine good_bind _ _ _ _ (good_advance r2.2) (fun r h => ?_)
      exact good_pure _ _ (by omega)
    refine good_bind (fun p4 => p4.length ≤ p3.length) _ _ _ ?_ (fun p4 h4 => ?_)
    · refine good_bind _ _ _ _ (good_check p3 .T_RPAREN) (fun b2 _ => ?_)
      exact good_ite _ _ _ _
        (fun _ => good_mono _ _ _ (good_expect _ _) (fun a h => by omega))
        (fun _ => good_pure _ _ (le_refl _))
    · refine good_mono _ _ _
        (ih (ast_add n _) p4 (by omega) ?_ (wf_list_add n _ hw rfl)) ?_
      · simp only [ast_add, List.all_append, hs, Bool.true_and]
        simp [ast_new]
      · intro a ha
        exact ⟨by omega, ha.2.1, ha.2.2.1, ha.2.2.2⟩

theorem parse_func_good (fuel : Nat) (p : Parser) (hp : p.length < fuel) :
    Good (fun r => r.2.length < p.length ∧ wf_node r.1 = true ∧ r.1.type = .AST_FUNCTION)
      (parse_func fuel p) := by
  simp only [parse_func]
  refine good_bind _ _ _ _ (good_expect p .T_FN) (fun p1 h1 => ?_)
  refine good_bind _ _ _ _ (good_advance p1) (fun r2 h2 => ?_)
  refine good_bind _ _ _ _ (good_expect r2.2 .T_LPAREN) (fun p3 h3 => ?_)
  refine good_bind _ _ _ _ (param_loop_good fuel _ p3 (by omega) rfl rfl) (fun r4 h4 => ?_)
  refine good_bind _ _ _ _ (good_expect r4.2 .T_RPAREN) (fun p5 h5 => ?_)
  refine good_bind _ _ _ _ (good_match p5 .T_ARROW) (fun r6 h6 => ?_)
  have h6l : r6.2.length ≤ p5.length := by
    cases hb : r6.1 with
    | true => have := h6.1 hb; omega
    | false => rw [h6.2 hb]
  refine good_bind (fun p7 => p7.length ≤ r6.2.length) _ _ _ ?_ (fun p7 h7 => ?_)
  · refine good_ite _ _ _ _ (fun _ => ?_) (fun _ => good_pure _ _ (le_refl _))
    refine good_bind _ _ _ _ (good_advance r6.2) (fun r h => ?_)
    exact good_pure _ _ (by omega)
  refine good_bind _ _ _ _ (parse_block_good fuel fuel (le_refl _) p7 (by omega))
    (fun r8 h8 => ?_)
  refine good_pure _ _ ⟨by simp only; omega, ?_, ?_⟩
  · have ht : r4.1.type = .AST_FUNCTION := h4.2.1
    apply wf_add
    · simp only [ht, shape_ok, List.getLast?_append, List.getLast?_singleton,
        List.dropLast_concat, h4.2.2.1, Bool.and_true]
      simp [h8.2.2]
    · exact h4.2.2.2
    · exact h8.2.1
  · exact h4.2.1

theorem parse_loop_good (fuel : Nat) :
    ∀ (f : Nat) (n : AstNode) (p : Parser), p.length < f → p.length < fuel →
      n.type = .AST_PROGRAM → wf_node n = true →
      Good (fun r => r.2.length ≤ p.length ∧ wf_node r.1 = true ∧ r.1.type = .AST_PROGRAM)
        (parse_loop fuel f n p) := by
  intro f
  induction f with
  | zero => intro n p h; omega
  | succ f ih =>
    intro n p hf hL ht hw
    have hadd : ∀ c : AstNode, wf_node c = true →
        (c.type = .AST_STRUCT_DEF ∨ c.type = .AST_FUNCTION) → wf_node (ast_add n c) = true := by
      intro c hc hty
      rw [wf_node_eq, ht] at hw
      simp only [Bool.and_eq_true] at hw
      have hsh : n.children.all (fun c => c.type = .AST_STRUCT_DEF || c.type = .AST_FUNCTION)
          = true := hw.1
      apply wf_add
      · simp only [ht, shape_ok, List.all_append, hsh, Bool.true_and]
        rcases hty with h | h <;> simp [h]
      · exact hw.2
      · exact hc
    simp only [parse_loop]
    refine good_bind _ _ _ _ (good_check p .T_EOF) (fun b _ => ?_)
    refine good_ite _ _ _ _ (fun _ => good_pure _ _ ⟨le_refl _, hw, ht⟩) (fun _ => ?_)
    refine good_bind (fun _ => True) _ _ _ (good_pure _ _ trivial) (fun _ _ => ?_)
    refine good_bind _ _ _ _ (good_check p .T_STRUCT) (fun b2 _ => ?_)
    refine good_ite _ _ _ _ (fun _ => ?_) (fun _ => ?_)
    · refine good_bind _ _ _ _ (parse_struct_def_good fuel p hL) (fun r hr => ?_)
      exact good_mono _ _ _
        (ih (ast_add n r.1) r.2 (by omega) (by omega) (by simp [ast_add, ht])
          (hadd r.1 hr.2.1 (Or.inl hr.2.2)))
        (fun a ha => ⟨by omega, ha.2.1, ha.2.2⟩)
    · refine good_bind _ _ _ _ (parse_func_good fuel p hL) (fun r hr => ?_)
      exact good_mono _ _ _
        (ih (ast_add n r.1) r.2 (by omega) (by omega) (by simp [ast_add, ht])
          (hadd r.1 hr.2.1 (Or.inr hr.2.2)))
        (fun a ha => ⟨by omega, ha.2.1, ha.2.2⟩)

theorem parse_good (p : Parser) :
    Good (fun r => r.2.length ≤ p.length ∧ wf_node r.1 = true ∧ r.1.type = .AST_PROGRAM)
      (parse p) :=
  parse_loop_good (p.length + 1) (p.length + 1) (ast_new .AST_PROGRAM) p (by omega) (by omega)
    rfl rfl

theorem wf_list_iff (cs : List AstNode) :
    wf_list cs = true ↔ ∀ c ∈ cs, wf_node c = true := by
  induction cs with
  | nil => simp [wf_list]
  | cons x xs ih => simp [wf_list, ih]

theorem list_reads_ok_iff (cs : List AstNode) :
    list_reads_ok cs = true ↔ ∀ c ∈ cs, tree_reads_ok c = true := by
  induction cs with
  | nil => simp [list_reads_ok]
  | cons x xs ih => simp [list_reads_ok, ih]

theorem tree_reads_ok_eq (n : AstNode) :
    tree_reads_ok n = (reads_ok n.type n.children && list_reads_ok n.children) := by
  cases n; simp [tree_reads_ok]

theorem shape_reads (t : AstType) (cs : List AstNode) (h : shape_ok t cs = true) :
    reads_ok t cs = true := by
  cases t <;> simp only [shape_ok, reads_ok] at h ⊢
  · cases cs with
    | nil => simp at h
    | cons c cs => simp
  · simp only [Bool.and_eq_true, Bool.or_eq_true, decide_eq_true_eq] at h
    simp only [decide_eq_true_eq]
    omega
  · simp only [Bool.and_eq_true, decide_eq_true_eq] at h
    simp only [decide_eq_true_eq]
    omega
  · simp only [decide_eq_true_eq] at h ⊢
    omega
  · simp only [decide_eq_true_eq] at h ⊢
    omega
  · simp only [decide_eq_true_eq] at h ⊢
    omega
  · simp only [decide_eq_true_eq] at h ⊢
    omega
  · simp only [List.all_eq_true, Bool.and_eq_true, decide_eq_true_eq] at h ⊢
    intro c hc
    rw [(h c hc).2]
  · simp only [decide_eq_true_eq] at h ⊢
    omega

theorem wf_reads : ∀ n : AstNode, wf_node n = true → tree_reads_ok n = true := by
  refine AstNode.induct_children _ ?_
  intro n ih _ h
  rw [wf_node_eq, Bool.and_eq_true] at h
  rw [tree_reads_ok_eq, Bool.and_eq_true]
  refine ⟨shape_reads _ _ h.1, ?_⟩
  rw [list_reads_ok_iff]
  intro c hc
  exact ih c hc ((wf_list_iff _).mp h.2 c hc)

theorem c39_parse_func_unit (fuel : Nat) (rest : Parser) :
    parse_func (fuel + 2) (c39_unit_tokens ++ rest) = .ok (c39_func, rest) := by
  simp [c39_unit_tokens, parse_func, expect, match_tok, check_tok, peek_tok, advance_tok,
    param_loop, parse_block, block_loop, bind, Except.bind, pure, Except.pure, c39_func]

theorem c39_parse_loop_overrun (fuel : Nat) :
    ∀ (n f : Nat) (prog : AstNode), n < f →
      parse_loop (fuel + 2) f prog (c39_tokens_n n) = .error .oob := by
  intro n
  induction n with
  | zero =>
    intro f prog hf
    obtain ⟨g, rfl⟩ : ∃ g, f = g + 1 := ⟨f - 1, by omega⟩
    simp [c39_tokens_n, parse_loop, check_tok, peek_tok, bind, Except.bind, pure, Except.pure,
      func_name_overrun]
  | succ n ih =>
    intro f prog hf
    obtain ⟨g, rfl⟩ : ∃ g, f = g + 1 := ⟨f - 1, by omega⟩
    have h := ih g (ast_add prog c39_func) (by omega)
    simp only [c39_tokens_n, parse_loop]
    rw [c39_parse_func_unit]
    simp [c39_unit_tokens, check_tok, peek_tok, bind, Except.bind, pure, Except.pure, h]

theorem c39_tokens_length (n : Nat) : (c39_tokens_n n).length = 6 * n + 2 := by
  induction n with
  | zero => rfl
  | succ n ih => simp [c39_tokens_n, c39_unit_tokens, ih]; omega

theorem c39_parse_overrun (n : Nat) : parse (c39_tokens_n n) = .error .oob := by
  have h := c39_parse_loop_overrun (6 * n + 1) n (6 * n + 3) (ast_new .AST_PROGRAM) (by omega)
  simpa [parse, parse_fuel, c39_tokens_length] using h

theorem parse_fn_unwritten (k : Tok) (junk : Parser) (hk : k.t ≠ .T_LPAREN) :
    parse ([⟨.T_FN, "fn".toList⟩, ⟨.T_EOF, []⟩] ++ k :: junk) = .error .parse_error := by
  simp [parse, parse_fuel, parse_loop, parse_func, expect, match_tok, check_tok, peek_tok,
    advance_tok, bind, Except.bind, pure, Except.pure, hk]

theorem parse_fn_unwritten_function (junk : Parser) :
    parse ([⟨.T_FN, "fn".toList⟩, ⟨.T_EOF, []⟩] ++ (c39_unit_tokens.drop 2 ++ ⟨.T_EOF, []⟩ :: junk))
      = .ok (ast_add (ast_new .AST_PROGRAM)
          (ast_add { ast_new .AST_FUNCTION with name := some [] } (ast_new .AST_BLOCK)),
          ⟨.T_EOF, []⟩ :: junk) := by
  simp [c39_unit_tokens, parse, parse_fuel, parse_loop, parse_func, expect, match_tok, check_tok,
    peek_tok, advance_tok, param_loop, parse_block, block_loop, bind, Except.bind, pure,
    Except.pure]

/-- C39 (the code departs from the claim): `parse` always comes to an end,
but on some token sequences that end with the end-of-input token it ends
by reading outside the token array. With a fuel of one more than the number
of tokens, or any larger one, no loop and no nesting of the parser uses the
fuel up: every statement, struct definition, function and expression that
is parsed leaves strictly fewer tokens than it was given, so every loop
iteration consumes a token or aborts. The parser never looks at `count`:
it runs on the slots of the array as they lie in memory, and `.error .oob`
is the read after the last slot of the sequence it is given. The source of
333 functions `fn f()\x7b\x7d` followed by `fn` has 2000 tokens, which fill the
array of 2000 slots; the name read after the last `fn` takes the
end-of-input token in slot 1999 and `expect` then reads slot 2000, outside
the array. For the two tokens of `fn` alone the same read lands in a slot
that `tokenize` never wrote, and the outcome depends on what that slot
holds: a parse error when its kind is not `(`, an AST when the unwritten
slots hold `( ) \x7b \x7d` and an end-of-input token. -/
theorem C39_parse_reads_outside_the_token_array :
    (∀ p : Parser, parse p ≠ .error .no_fuel)
    ∧ (∀ (p : Parser) (fuel : Nat), p.length < fuel → parse_fuel fuel p ≠ .error .no_fuel)
    ∧ (∀ p : Parser, (∃ a, parse p = .ok a) ∨ parse p = .error .parse_error
        ∨ parse p = .error .oob)
    ∧ (∀ (p : Parser) (a : AstNode × Parser), parse p = .ok a → a.2.length ≤ p.length)
    ∧ (∀ (fuel : Nat) (p : Parser) (a : AstNode × Parser), p.length < fuel →
        parse_expr fuel p = .ok a → a.2.length < p.length)
    ∧ (∀ (fuel : Nat) (p : Parser) (a : AstNode × Parser), p.length < fuel →
        parse_stmt (parse_expr fuel) (parse_block fuel fuel) p = .ok a →
        a.2.length < p.length)
    ∧ (∀ (fuel : Nat) (p : Parser) (a : AstNode × Parser), p.length < fuel →
        parse_block fuel fuel p = .ok a → a.2.length < p.length)
    ∧ (∀ (fuel : Nat) (p : Parser) (a : AstNode × Parser), p.length < fuel →
        parse_struct_def fuel p = .ok a → a.2.length < p.length)
    ∧ (∀ (fuel : Nat) (p : Parser) (a : AstNode × Parser), p.length < fuel →
        parse_func fuel p = .ok a → a.2.length < p.length)
    ∧ tokenize c39_source = some (c39_tokens_n 333)
    ∧ (c39_tokens_n 333).length = 2000
    ∧ (c39_tokens_n 333).getLast? = some ⟨.T_EOF, []⟩
    ∧ parse (c39_tokens_n 333) = .error .oob
    ∧ (∀ (k : Tok) (junk : Parser), k.t ≠ .T_LPAREN →
        parse ([⟨.T_FN, "fn".toList⟩, ⟨.T_EOF, []⟩] ++ k :: junk) = .error .parse_error)
    ∧ (∀ junk : Parser,
        parse ([⟨.T_FN, "fn".toList⟩, ⟨.T_EOF, []⟩]
            ++ (c39_unit_tokens.drop 2 ++ ⟨.T_EOF, []⟩ :: junk))
          = .ok (ast_add (ast_new .AST_PROGRAM)
              (ast_add { ast_new .AST_FUNCTION with name := some [] } (ast_new .AST_BLOCK)),
              ⟨.T_EOF, []⟩ :: junk))
    ∧ parse_outcome "fn main() \x7b let x = ; \x7d".toList = some (some .parse_error)
    ∧ parse_outcome "fn main() \x7b let x = 1; \x7d".toList = some none := by
  refine ⟨fun p => (parse_good p).1, ?_, ?_, fun p a h => ((parse_good p).2 a h).1, ?_, ?_,
    ?_, ?_, ?_, by decide!, by rw [c39_tokens_length], by decide!, c39_parse_overrun 333,
    parse_fn_unwritten, parse_fn_unwritten_function, by decide, by decide⟩
  · intro p fuel h
    exact (parse_loop_good fuel fuel (ast_new .AST_PROGRAM) p h h rfl rfl).1
  · intro p
    have h := (parse_good p).1
    cases hp : parse p with
    | ok a => exact Or.inl ⟨a, rfl⟩
    | error e =>
      cases e with
      | parse_error => exact Or.inr (Or.inl rfl)
      | oob => exact Or.inr (Or.inr rfl)
      | no_fuel => exact absurd hp h
  · intro fuel p a hp h
    exact ((parse_expr_good fuel p hp).2 a h).1
  · intro fuel p a hp h
    exact ((parse_stmt_good (parse_expr fuel) (parse_block fuel fuel) p.length
      (parses_well_mono _ _ _ (parse_expr_good fuel) (by omega))
      (fun q hq => parse_block_good fuel fuel (le_refl _) q (by omega)) p (le_refl _)).2 a h).1
  · intro fuel p a hp h
    exact ((parse_block_good fuel fuel (le_refl _) p hp).2 a h).1
  · intro fuel p a hp h
    exact ((parse_struct_def_good fuel p hp).2 a h).1
  · intro fuel p a hp h
    exact ((parse_func_good fuel p hp).2 a h).1

/-- C39 at the tokens of `fn main() { return 0; }`: a fuel of eleven for the
ten tokens is not used up, and the function is parsed leaving fewer
tokens; and at the tokens of `fn` followed by a slot that holds an
end-of-input token: a parse error. -/
theorem C39_witness :
    parse_fuel 11 c39_main_tokens ≠ .error .no_fuel
    ∧ (parse_func 11 c39_main_tokens).toOption.map (fun a => a.2) = some [⟨.T_EOF, []⟩]
    ∧ [(⟨.T_EOF, []⟩ : Tok)].length < c39_main_tokens.length
    ∧ parse ([⟨.T_FN, "fn".toList⟩, ⟨.T_EOF, []⟩] ++ ⟨.T_EOF, []⟩ :: [])
        = .error .parse_error :=
  ⟨C39_parse_reads_outside_the_token_array.2.1 c39_main_tokens 11 (by decide),
   by rfl,
   C39_parse_reads_outside_the_token_array.2.2.2.2.2.2.2.2.1 11 c39_main_tokens
     ((parse_func 11 c39_main_tokens).toOption.getD (ast_new .AST_PROGRAM, [])) (by decide)
     (by rfl),
   C39_parse_reads_outside_the_token_array.2.2.2.2.2.2.2.2.2.2.2.2.2.1 ⟨.T_EOF, []⟩ []
     (by decide)⟩

/-- C40: every AST returned by `parse` has the child structure code
generation indexes into. The root is the Program node, and every node of
the tree has the shape `shape_ok` of its kind: BinaryOp, Compare and Index
have exactly 2 children, Assign and FieldAccess exactly 1, Return and Let 0
or 1, While exactly 2 with a Block second, If 2 or 3 with Blocks from the
second on, every child of a StructLiteral is an Identifier node with 1
child, the last child of a Function is a Block preceded only by Identifier
nodes, and the Program holds only StructDef and Function nodes. So every
child index that `gen_expr`, `gen_stmt` and `gen_func` read without a test
of `child_count` is in range at every node. -/
theorem C40_parsed_tree_has_the_child_structure (p : Parser) (prog : AstNode) (rest : Parser)
    (h : parse p = .ok (prog, rest)) :
    prog.type = .AST_PROGRAM
    ∧ wf_node prog = true
    ∧ tree_reads_ok prog = true
    ∧ (∀ n : AstNode, wf_node n = true →
        shape_ok n.type n.children = true ∧ ∀ c ∈ n.children, wf_node c = true)
    ∧ (∀ n : AstNode, tree_reads_ok n = true →
        reads_ok n.type n.children = true ∧ ∀ c ∈ n.children, tree_reads_ok c = true) := by
  have hg := (parse_good p).2 _ h
  refine ⟨hg.2.2, hg.2.1, wf_reads _ hg.2.1, ?_, ?_⟩
  · intro n hn
    rw [wf_node_eq, Bool.and_eq_true] at hn
    exact ⟨hn.1, (wf_list_iff _).mp hn.2⟩
  · intro n hn
    rw [tree_reads_ok_eq, Bool.and_eq_true] at hn
    exact ⟨hn.1, (list_reads_ok_iff _).mp hn.2⟩

/-- C40 at the tokens of a function with a Let, an If, a Compare, two Index
nodes, a BinaryOp and two Returns. -/
theorem C40_witness :
    parse c40_tokens = .ok (c40_ast, [⟨.T_EOF, []⟩])
    ∧ c40_ast.type = .AST_PROGRAM
    ∧ wf_node c40_ast = true
    ∧ tree_reads_ok c40_ast = true :=
  ⟨by rfl,
   (C40_parsed_tree_has_the_child_structure c40_tokens c40_ast [⟨.T_EOF, []⟩] (by rfl)).1,
   (C40_parsed_tree_has_the_child_structure c40_tokens c40_ast [⟨.T_EOF, []⟩] (by rfl)).2.1,
   (C40_parsed_tree_has_the_child_structure c40_tokens c40_ast [⟨.T_EOF, []⟩] (by rfl)).2.2.1⟩

end Chronos
